import Mathlib

/-!
# Border matching and terrain classification of the mesh builder (`XESCore/MeshAlgs.cpp`)

A shallow embedding of the border file reader and writer, of the border matcher and
of the terrain and border passes of the mesh builder, with the properties proved of them.
Numbers that the source holds in `double` and `float` are exact rationals here.
The last sections of the definitions embed the integer attributes of the XML writer
(`WEDCore/WED_XMLWriter.cpp`) and the path test and the record of exported files of the
orthophoto export (`WEDImportExport/WED_OrthoExport.cpp`).
-/

set_option autoImplicit false

namespace MeshAlgs

/-! ## Border match records and the border file reader (`load_match_file`) -/

/-- One vertex of a master border (`mesh_match_vertex_t`).  Coordinates, heights and
blend levels are the decimal values of the text, held exactly; `buddy` is the index
of the matched mesh vertex, `none` for `NULL`. -/
structure mesh_match_vertex_t where
  loc : ℚ × ℚ
  height : ℚ
  blending : List (Int × ℚ)
  buddy : Option Nat
  deriving DecidableEq

/-- One edge of a master border (`mesh_match_edge_t`); `borders` is the `set<int>`,
kept as a strictly increasing list. -/
structure mesh_match_edge_t where
  base : Int
  borders : List Int
  buddy : Option Nat
  deriving DecidableEq

/-- One side of a tile as read from a border file (`mesh_match_t`). -/
structure mesh_match_t where
  vertices : List mesh_match_vertex_t
  edges : List mesh_match_edge_t
  deriving DecidableEq

/-- Assignment `m[k] = v` on a `hash_map<int, float>` held as an association list. -/
def hash_map_set : List (Int × ℚ) → Int → ℚ → List (Int × ℚ)
  | [], k, v => [(k, v)]
  | (k', v') :: m, k, v => if k' = k then (k, v) :: m else (k', v') :: hash_map_set m k v

/-- Insertion `s.insert(k)` on a `set<int>` held as a strictly increasing list. -/
def set_insert : List Int → Int → List Int
  | [], k => [k]
  | a :: s, k => if k < a then k :: a :: s else if k = a then a :: s else a :: set_insert s k

/-- The test `MATCH(big, msmall)`: `strncmp(big, msmall, strlen(msmall)) == 0`. -/
def MATCH : List Char → List Char → Bool
  | _, [] => true
  | [], _ :: _ => false
  | b :: bs, s :: ss => b = s && MATCH bs ss

/-- C `isspace` in the "C" locale. -/
def isspace (c : Char) : Bool :=
  c = ' ' || c = '\t' || c = '\n' || c = '\r' || c.toNat = 11 || c.toNat = 12

/-- Value of a run of decimal digits. -/
def digits_value (ds : List Char) : Nat :=
  ds.foldl (fun a c => 10 * a + (c.toNat - 48)) 0

/-- Conversion of a C `long` to `int` by truncation to 32 bits. -/
def wrap32 (n : Int) : Int := (n + 2147483648) % 4294967296 - 2147483648

/-- Optional sign in front of a number: (negative?, rest). -/
def scan_sign : List Char → Bool × List Char
  | '-' :: t => (true, t)
  | '+' :: t => (false, t)
  | s => (false, s)

/-- The `%d` conversion: skip white space, optional sign, at least one digit. -/
def scan_int (inp : List Char) : Option (Int × List Char) :=
  let s := scan_sign (inp.dropWhile isspace)
  let ds := s.2.takeWhile Char.isDigit
  if ds.isEmpty then none
  else
    let n : Int := digits_value ds
    some (wrap32 (if s.1 then -n else n), s.2.dropWhile Char.isDigit)

/-- The `%lf` and `%f` conversions on plain decimal numerals (the only ones the
writer emits): skip white space, optional sign, digits with an optional fraction,
at least one digit in all.  The value is the exact decimal. -/
def scan_float (inp : List Char) : Option (ℚ × List Char) :=
  let s := scan_sign (inp.dropWhile isspace)
  let ip := s.2.takeWhile Char.isDigit
  let r1 := s.2.dropWhile Char.isDigit
  let fr := match r1 with
    | '.' :: t => (t.takeWhile Char.isDigit, t.dropWhile Char.isDigit)
    | _ => ([], r1)
  if ip.isEmpty && fr.1.isEmpty then none
  else
    let m : ℚ := ((digits_value (ip ++ fr.1) : Nat) : ℚ) / ((10 ^ fr.1.length : Nat) : ℚ)
    some (if s.1 then -m else m, fr.2)

/-- The `%s` conversion: skip white space, then a non-empty run of non-space characters. -/
def scan_str (inp : List Char) : Option (List Char × List Char) :=
  let s := inp.dropWhile isspace
  let w := s.takeWhile (fun c => !isspace c)
  if w.isEmpty then none else some (w, s.dropWhile (fun c => !isspace c))

/-- A value converted by `sscanf`. -/
inductive ScanVal where
  | num (q : ℚ)
  | int (n : Int)
  | str (s : List Char)
  deriving DecidableEq

/-- Model of `sscanf(inp, fmt, ...)` for the conversions `%lf`, `%f`, `%d`, `%s`: the
list of values converted, in order, up to the first directive that fails.  The
caller stores the i-th value in the i-th argument and leaves the other arguments
as they were. -/
def sscanf : List Char → List Char → List ScanVal
  | _, [] => []
  | inp, '%' :: 'l' :: 'f' :: fmt =>
      match scan_float inp with
      | none => []
      | some (q, rest) => ScanVal.num q :: sscanf rest fmt
  | inp, '%' :: 'f' :: fmt =>
      match scan_float inp with
      | none => []
      | some (q, rest) => ScanVal.num q :: sscanf rest fmt
  | inp, '%' :: 'd' :: fmt =>
      match scan_int inp with
      | none => []
      | some (n, rest) => ScanVal.int n :: sscanf rest fmt
  | inp, '%' :: 's' :: fmt =>
      match scan_str inp with
      | none => []
      | some (s, rest) => ScanVal.str s :: sscanf rest fmt
  | inp, c :: fmt =>
      if isspace c then sscanf (inp.dropWhile isspace) fmt
      else
        match inp with
        | [] => []
        | i :: rest => if i = c then sscanf rest fmt else []


/-- The locals of `load_match_file` that outlive one line (`count`, `mix`, `ter`, `x`,
`y`).  The source does not initialise them, so their first values are an input. -/
structure Scratch where
  count : Int
  mix : ℚ
  ter : List Char
  x : ℚ
  y : ℚ
  deriving DecidableEq

/-- How a reading loop ends: with a state and the unread chunks, at the end of the
file (`fgets` returned `NULL`, the source jumps to `bail`), in undefined behaviour (a
store through `back()` of an empty vector), or with the fuel of the embedding used up. -/
inductive Outcome (α : Type) where
  | ok (a : α) (rest : List (List Char))
  | eof
  | undefined
  | fuel
  deriving DecidableEq

/-- The successive results of `fgets(buf, n, fi)` over the text of a file: a chunk
ends after a newline or after `n - 1` characters.  `cur` is the chunk being filled,
last character first. -/
def fgets_chunks (n : Nat) : List Char → List Char → List (List Char)
  | [], cur => if cur.isEmpty then [] else [cur.reverse]
  | c :: cs, cur =>
      if c = '\n' ∨ n ≤ cur.length + 2 then (c :: cur).reverse :: fgets_chunks n cs []
      else fgets_chunks n cs (c :: cur)

/-- The i-th converted value when it is a number, else the argument's old value. -/
def scanned_num (vals : List ScanVal) (i : Nat) (old : ℚ) : ℚ :=
  match vals.get? i with
  | some (ScanVal.num q) => q
  | _ => old

/-- The i-th converted value when it is an integer, else the argument's old value. -/
def scanned_int (vals : List ScanVal) (i : Nat) (old : Int) : Int :=
  match vals.get? i with
  | some (ScanVal.int n) => n
  | _ => old

/-- The i-th converted value when it is a string, else the argument's old value. -/
def scanned_str (vals : List ScanVal) (i : Nat) (old : List Char) : List Char :=
  match vals.get? i with
  | some (ScanVal.str s) => s
  | _ => old

/-- Update through `v.back()`.  On an empty vector `back()` has no element to refer to
and the behaviour of the program is undefined: the result is `none`. -/
def modify_back {α : Type} (f : α → α) : List α → Option (List α)
  | [] => none
  | [a] => some [f a]
  | a :: b :: l => (modify_back f (b :: l)).map (fun r => a :: r)

/-- The body shared by the `VT` and the `VC` branch: push a value-initialised vertex
(height 0), scan the line with the format `"VT %lf, %lf, %lf"` into `x`, `y` and the
new vertex's height, then store `Point_2(x, y)` and a null buddy. -/
def push_vertex (buf : List Char) (sc : Scratch) (dest : mesh_match_t) : Scratch × mesh_match_t :=
  let vals := sscanf buf "VT %lf, %lf, %lf".toList
  let x := scanned_num vals 0 sc.x
  let y := scanned_num vals 1 sc.y
  let h := scanned_num vals 2 0
  ({ sc with x := x, y := y },
   { dest with vertices := dest.vertices ++ [{ loc := (x, y), height := h, blending := [], buddy := none }] })

/-- The loop `while (count--)` over the `VB` lines of a vertex.  A `VB` line that is
read while the side has no vertex stores through `dest->vertices.back()` of an empty
vector: `Outcome.undefined`. -/
def read_blends (LookupToken : List Char → Int) :
    List (List Char) → Scratch → mesh_match_t → Outcome (Scratch × mesh_match_t)
  | [], sc, dest => if sc.count = 0 then Outcome.ok ({ sc with count := -1 }, dest) [] else Outcome.eof
  | buf :: rest, sc, dest =>
      if sc.count = 0 then Outcome.ok ({ sc with count := -1 }, dest) (buf :: rest)
      else
        let vals := sscanf buf "VB %f %s".toList
        let mix := scanned_num vals 0 sc.mix
        let ter := scanned_str vals 1 sc.ter
        match modify_back
            (fun v => { v with blending := hash_map_set v.blending (LookupToken ter) mix })
            dest.vertices with
        | none => Outcome.undefined
        | some vs =>
            read_blends LookupToken rest { sc with count := sc.count - 1, mix := mix, ter := ter }
              { dest with vertices := vs }

/-- The loop `while (count--)` over the `BORDER_T` lines of an edge. -/
def read_borders (LookupToken : List Char → Int) :
    List (List Char) → Scratch → mesh_match_t → Outcome (Scratch × mesh_match_t)
  | [], sc, dest => if sc.count = 0 then Outcome.ok ({ sc with count := -1 }, dest) [] else Outcome.eof
  | buf :: rest, sc, dest =>
      if sc.count = 0 then Outcome.ok ({ sc with count := -1 }, dest) (buf :: rest)
      else
        let ter := scanned_str (sscanf buf "BORDER_T %s".toList) 0 sc.ter
        match modify_back
            (fun e => { e with borders := set_insert e.borders (LookupToken ter) })
            dest.edges with
        | none => Outcome.undefined
        | some es =>
            read_borders LookupToken rest { sc with count := sc.count - 1, ter := ter }
              { dest with edges := es }

/-- The loop `while (go)` that reads one side of the tile into `dest`. -/
def read_side (LookupToken : List Char → Int) :
    Nat → List (List Char) → Scratch → mesh_match_t → Outcome (Scratch × mesh_match_t)
  | 0, _, _, _ => Outcome.fuel
  | fuel + 1, lines, sc, dest =>
    match lines with
    | [] => Outcome.eof
    | buf :: lines1 =>
      let s1 := if MATCH buf "VT".toList then push_vertex buf sc dest else (sc, dest)
      let go := !MATCH buf "VC".toList
      let s2 := if MATCH buf "VC".toList then push_vertex buf s1.1 s1.2 else s1
      match lines1 with
      | [] => Outcome.eof
      | buf2 :: lines2 =>
        let count := scanned_int (sscanf buf2 "VBC %d".toList) 0 s2.1.count
        match read_blends LookupToken lines2 { s2.1 with count := count } s2.2 with
        | Outcome.eof => Outcome.eof
        | Outcome.undefined => Outcome.undefined
        | Outcome.fuel => Outcome.fuel
        | Outcome.ok s3 lines3 =>
          if go then
            match lines3 with
            | [] => Outcome.eof
            | buf3 :: lines4 =>
              let ter := scanned_str (sscanf buf3 "TERRAIN %s".toList) 0 s3.1.ter
              let dest4 : mesh_match_t := { s3.2 with edges := s3.2.edges ++
                [{ base := LookupToken ter, borders := [], buddy := none }] }
              match lines4 with
              | [] => Outcome.eof
              | buf4 :: lines5 =>
                let count4 := scanned_int (sscanf buf4 "BORDER_C %d".toList) 0 s3.1.count
                match read_borders LookupToken lines5 { s3.1 with ter := ter, count := count4 } dest4 with
                | Outcome.eof => Outcome.eof
                | Outcome.undefined => Outcome.undefined
                | Outcome.fuel => Outcome.fuel
                | Outcome.ok s5 lines6 => read_side LookupToken fuel lines6 s5.1 s5.2
          else Outcome.ok s3 lines3

/-- What `load_match_file` leaves behind: its return value and the four records. -/
structure LoadResult where
  ok : Bool
  outLeft : mesh_match_t
  outBottom : mesh_match_t
  outRight : mesh_match_t
  outTop : mesh_match_t
  deriving DecidableEq

/-- The state `bail:` leaves, also the one of a file that does not open: `false`
and four cleared records. -/
def LoadResult.bail : LoadResult :=
  { ok := false, outLeft := ⟨[], []⟩, outBottom := ⟨[], []⟩, outRight := ⟨[], []⟩, outTop := ⟨[], []⟩ }

/-- The loop `for (b = 0; b < 4; ++b)` over the four sides, on the chunks of the file:
left, bottom, right, top, each read into its cleared record. -/
def read_sides (LookupToken : List Char → Int) (fuel : Nat) (lines : List (List Char))
    (sc : Scratch) : Outcome LoadResult :=
  match read_side LookupToken fuel lines sc ⟨[], []⟩ with
  | Outcome.eof => Outcome.eof
  | Outcome.undefined => Outcome.undefined
  | Outcome.fuel => Outcome.fuel
  | Outcome.ok s0 l0 =>
    match read_side LookupToken fuel l0 s0.1 ⟨[], []⟩ with
    | Outcome.eof => Outcome.eof
    | Outcome.undefined => Outcome.undefined
    | Outcome.fuel => Outcome.fuel
    | Outcome.ok s1 l1 =>
      match read_side LookupToken fuel l1 s1.1 ⟨[], []⟩ with
      | Outcome.eof => Outcome.eof
      | Outcome.undefined => Outcome.undefined
      | Outcome.fuel => Outcome.fuel
      | Outcome.ok s2 l2 =>
        match read_side LookupToken fuel l2 s2.1 ⟨[], []⟩ with
        | Outcome.eof => Outcome.eof
        | Outcome.undefined => Outcome.undefined
        | Outcome.fuel => Outcome.fuel
        | Outcome.ok s3 l3 =>
          Outcome.ok { ok := true, outLeft := s0.2, outBottom := s1.2, outRight := s2.2, outTop := s3.2 } l3

/-- Model of `load_match_file`.  `file` is the text of the file at `path`, `none`
when `fopen` fails; `sc` holds the first values of the uninitialised locals.  The
result is `none` when the call runs into undefined behaviour, and then nothing is known
of its return value or of the records.  Every turn of `while (go)` reads at least two
chunks, so one unit of fuel per chunk is enough. -/
def load_match_file (LookupToken : List Char → Int) (sc : Scratch) (file : Option (List Char)) :
    Option LoadResult :=
  match file with
  | none => some LoadResult.bail
  | some text =>
    let lines := fgets_chunks 80 text []
    match read_sides LookupToken (lines.length + 1) lines sc with
    | Outcome.ok r _ => some r
    | Outcome.eof => some LoadResult.bail
    | Outcome.undefined => none
    | Outcome.fuel => some LoadResult.bail


/-! ## The border file writer at the end of `AssignLandusesToMesh` -/

/-- Decimal digits of a natural number, as `%llu` prints it. -/
def fprintf_llu (n : Nat) : List Char := Nat.toDigits 10 n

/-- The digits of `n` padded with zeros on the left to `w` characters. -/
def zero_padded (w n : Nat) : List Char :=
  let ds := Nat.toDigits 10 n
  List.replicate (w - ds.length) '0' ++ ds

/-- Nearest natural number to a non-negative rational, ties to even. -/
def round_half_even (q : ℚ) : Nat :=
  let fl := q.floor.toNat
  let fr := q - (fl : ℚ)
  if fr < 1 / 2 then fl else if 1 / 2 < fr then fl + 1 else if fl % 2 = 0 then fl else fl + 1

/-- The fixed-point output of `%.<prec>lf`; `%lf` and `%f` are `prec = 6`. -/
def fprintf_fixed (prec : Nat) (q : ℚ) : List Char :=
  let n := round_half_even (|q| * (10 : ℚ) ^ prec)
  (if q < 0 then ['-'] else []) ++ Nat.toDigits 10 (n / 10 ^ prec) ++
    (if prec = 0 then [] else '.' :: zero_padded prec (n % 10 ^ prec))

/-- The line `fprintf(border, "<tag> %.12lf, %.12lf, %lf\n", x, y, height)`, `tag` being
`VT` or `VC`. -/
def write_vertex_line (tag : List Char) (v : mesh_match_vertex_t) : List Char :=
  tag ++ " ".toList ++ fprintf_fixed 12 v.loc.1 ++ ", ".toList ++ fprintf_fixed 12 v.loc.2 ++
    ", ".toList ++ fprintf_fixed 6 v.height ++ "\n".toList

/-- The lines `VBC <count>` and `VB <blend> <terrain-name>` of a vertex. -/
def write_blend_lines (FetchTokenString : Int → List Char) (bl : List (Int × ℚ)) : List Char :=
  "VBC ".toList ++ fprintf_llu bl.length ++ "\n".toList ++
    bl.flatMap (fun e => "VB ".toList ++ fprintf_fixed 6 e.2 ++ " ".toList ++ FetchTokenString e.1 ++ "\n".toList)

/-- The lines `TERRAIN`, `BORDER_C` and `BORDER_T` of the face past a vertex. -/
def write_edge_lines (FetchTokenString : Int → List Char) (e : mesh_match_edge_t) : List Char :=
  "TERRAIN ".toList ++ FetchTokenString e.base ++ "\n".toList ++
    "BORDER_C ".toList ++ fprintf_llu e.borders.length ++ "\n".toList ++
    e.borders.flatMap (fun t => "BORDER_T ".toList ++ FetchTokenString t ++ "\n".toList)

/-- The text the writer emits for one side of the tile.  The walk along the side
(`locate`, `FindNextEast`, `FindNextNorth`, the circulation of incident faces) is not
modelled: its result is the input, the vertices met with the blend entries printed
for each and the face past each vertex but the last.  Every vertex but the last is
written as a `VT` block followed by its face, the last one as a `VC` block. -/
def write_side (FetchTokenString : Int → List Char) :
    List mesh_match_vertex_t → List mesh_match_edge_t → List Char
  | [], _ => []
  | [v], _ => write_vertex_line "VC".toList v ++ write_blend_lines FetchTokenString v.blending
  | v :: w :: vs, [] =>
      write_vertex_line "VT".toList v ++ write_blend_lines FetchTokenString v.blending ++
        write_side FetchTokenString (w :: vs) []
  | v :: w :: vs, e :: es =>
      write_vertex_line "VT".toList v ++ write_blend_lines FetchTokenString v.blending ++
        write_edge_lines FetchTokenString e ++ write_side FetchTokenString (w :: vs) es

/-- The whole border file: the four sides in the order left, bottom, right, top, then `END`. -/
def write_border_file (FetchTokenString : Int → List Char) (l b r t : mesh_match_t) : List Char :=
  write_side FetchTokenString l.vertices l.edges ++ write_side FetchTokenString b.vertices b.edges ++
    write_side FetchTokenString r.vertices r.edges ++ write_side FetchTokenString t.vertices t.edges ++
    "END\n".toList


/-! ## A sample token table and sample border files -/

/-- A sample of the string-interning table: `LookupToken` on three terrain names,
`-1` for an unknown name. -/
def sample_LookupToken (s : List Char) : Int :=
  if s = "ter_a".toList then 1 else if s = "ter_b".toList then 2
  else if s = "ter_c".toList then 3 else -1

/-- The sample table read the other way: `FetchTokenString`. -/
def sample_FetchTokenString (i : Int) : List Char :=
  if i = 1 then "ter_a".toList else if i = 2 then "ter_b".toList
  else if i = 3 then "ter_c".toList else "NO_VALUE".toList

/-- First values of the uninitialised locals used with the sample files (none of
the samples reads one before a line has set it). -/
def sample_scratch : Scratch := { count := 0, mix := 0, ter := [], x := 0, y := 0 }

/-- A tile side as the writer walks it: the vertex (0, 0) of height 5 carrying terrain
`ter_a` at full blend, a face of base `ter_a` with the border `ter_b`, and the last
vertex (0, 1) of height 7 with `ter_b` at one half. -/
def sample_side : mesh_match_t :=
  { vertices := [{ loc := (0, 0), height := 5, blending := [(1, 1)], buddy := none },
                 { loc := (0, 1), height := 7, blending := [(2, 1 / 2)], buddy := none }],
    edges := [{ base := 1, borders := [2], buddy := none }] }

/-- A side whose second face has a `TERRAIN` line without a terrain name. -/
def side_bad_terrain : List Char :=
  ("VT 0.000000000000, 0.000000000000, 5.000000\nVBC 0\nTERRAIN ter_a\nBORDER_C 0\n" ++
   "VT 0.000000000000, 1.000000000000, 6.000000\nVBC 0\nTERRAIN\nBORDER_C 0\n" ++
   "VC 0.000000000000, 2.000000000000, 7.000000\nVBC 0\n").toList

/-- A side whose second vertex line starts with neither `VT` nor `VC`. -/
def side_bad_vertex : List Char :=
  ("VT 0.000000000000, 0.000000000000, 5.000000\nVBC 0\nTERRAIN ter_a\nBORDER_C 0\n" ++
   "XX 0.000000000000, 1.000000000000, 6.000000\nVBC 0\nTERRAIN ter_b\nBORDER_C 0\n" ++
   "VC 0.000000000000, 2.000000000000, 7.000000\nVBC 0\n").toList

/-- A file that ends early and whose first vertex line starts with neither `VT` nor
`VC`: the side has no vertex when the `VB` line that `VBC 1` announces is read. -/
def file_blend_without_vertex : List Char :=
  "XX 0.000000000000, 0.000000000000, 5.000000\nVBC 1\nVB 1.000000 ter_a\n".toList

/-! ## The border matcher (`fetch_border`, `match_border`) -/

/-- A finite vertex of the triangulation: its point and `info().height`. -/
structure MeshVertex where
  point : ℚ × ℚ
  height : ℚ
  deriving DecidableEq

/-- The part of the triangulation that `match_border` works on: the finite vertices (a
vertex handle is an index into `vertices`) and the vertices incident to the infinite
vertex in the order of circulation (`hull`).  The faces are not modelled here;
`match_border` reads the hull once, before it inserts any point. -/
structure CDT where
  vertices : List MeshVertex
  hull : List Nat
  deriving DecidableEq

/-- The expression `v->point()`; a handle out of range reads as the origin. -/
def CDT.point (m : CDT) (v : Nat) : ℚ × ℚ :=
  match m.vertices[v]? with
  | some w => w.point
  | none => (0, 0)

/-- Apply `f` to the element at index `n`. -/
def modify_at {α : Type} (f : α → α) : Nat → List α → List α
  | _, [] => []
  | 0, a :: l => f a :: l
  | n + 1, a :: l => a :: modify_at f n l

/-- Modelled from the spec: `CDT::safe_insert` is declared outside the sources at hand.
The spec has "insertion of a duplicate-coordinate point is idempotent (triangulation
library collapses it)": a point that coincides with a vertex yields that vertex, any
other point a new vertex, which takes the next handle.  The face hint only speeds the
location up. -/
def CDT.safe_insert (m : CDT) (p : ℚ × ℚ) : CDT × Nat :=
  if List.findIdx (fun w => decide (w.point = p)) m.vertices < m.vertices.length then
    (m, List.findIdx (fun w => decide (w.point = p)) m.vertices)
  else ({ m with vertices := m.vertices ++ [{ point := p, height := 0 }] }, m.vertices.length)

/-- The assignment `v->info().height = h`. -/
def CDT.set_height (m : CDT) (v : Nat) (h : ℚ) : CDT :=
  { m with vertices := modify_at (fun w => { w with height := h }) v m.vertices }

/-- Assignment `m[k] = v` on a `map<double, Vertex_handle>`, kept increasing in the key. -/
def map_set : List (ℚ × Nat) → ℚ → Nat → List (ℚ × Nat)
  | [], k, v => [(k, v)]
  | (k', v') :: m, k, v =>
      if k < k' then (k, v) :: (k', v') :: m
      else if k = k' then (k, v) :: m
      else (k', v') :: map_set m k v

/-- Lookup `m[k]` on the map; `none` is the null handle a missing key would yield. -/
def map_find : List (ℚ × Nat) → ℚ → Option Nat
  | [], _ => none
  | (k', v') :: m, k => if k = k' then some v' else map_find m k

/-- Removal `m.erase(k)` on the map. -/
def map_erase : List (ℚ × Nat) → ℚ → List (ℚ × Nat)
  | [], _ => []
  | (k', v') :: m, k => if k = k' then m else (k', v') :: map_erase m k

/-- Insertion into a `multimap<double, T>`: the new entry goes after every entry whose
key is not greater (the upper bound of its key), so equal keys keep the order in which
they were inserted. -/
def multimap_insert {β : Type} : List (ℚ × β) → ℚ → β → List (ℚ × β)
  | [], k, v => [(k, v)]
  | (k', v') :: m, k, v =>
      if k < k' then (k, v) :: (k', v') :: m else (k', v') :: multimap_insert m k v

/-- Model of `fetch_border`: every hull vertex on the line of `origin` for the side
(`x` equal for sides 0 and 2, `y` equal for sides 1 and 3), keyed by its signed offset
from `origin` along the side. -/
def fetch_border (ioMesh : CDT) (origin : ℚ × ℚ) (side_num : Nat) : List (ℚ × Nat) :=
  ioMesh.hull.foldl (fun outPts now =>
    let o1 :=
      if (side_num = 0 ∨ side_num = 2) ∧ (ioMesh.point now).1 = origin.1 then
        map_set outPts ((ioMesh.point now).2 - origin.2) now
      else outPts
    if (side_num = 1 ∨ side_num = 3) ∧ (ioMesh.point now).2 = origin.2 then
      map_set o1 ((ioMesh.point now).1 - origin.1) now
    else o1) []

/-- The distance `myDist` of `match_border` between a master location and the point of
a slave: the absolute difference of `y` on sides 0 and 2, of `x` on sides 1 and 3. -/
def my_dist (side_num : Nat) (loc p : ℚ × ℚ) : ℚ :=
  if (if side_num = 0 ∨ side_num = 2 then loc.2 - p.2 else loc.1 - p.1) < 0 then
    -(if side_num = 0 ∨ side_num = 2 then loc.2 - p.2 else loc.1 - p.1)
  else (if side_num = 0 ∨ side_num = 2 then loc.2 - p.2 else loc.1 - p.1)

/-- The entries that one turn of the pairing loop inserts into `nearest`, in the order
of insertion: for every master vertex without a buddy, in the order of the record
(`i` is the index of the first vertex of the list), for every slave in increasing
offset, the distance with the slave's offset and the master's index. -/
def candidate_pairs (ioMesh : CDT) (side_num : Nat) (slaves : List (ℚ × Nat)) :
    Nat → List mesh_match_vertex_t → List (ℚ × (ℚ × Nat))
  | _, [] => []
  | i, pts :: rest =>
      (if pts.buddy = none then
        slaves.map (fun sl => (my_dist side_num pts.loc (ioMesh.point sl.2), (sl.1, i)))
      else []) ++ candidate_pairs ioMesh side_num slaves (i + 1) rest

/-- The multimap `nearest` at the end of the two `for` loops. -/
def nearest_pairs (ioMesh : CDT) (side_num : Nat) (slaves : List (ℚ × Nat))
    (vertices : List mesh_match_vertex_t) : List (ℚ × (ℚ × Nat)) :=
  (candidate_pairs ioMesh side_num slaves 0 vertices).foldl
    (fun nearest c => multimap_insert nearest c.1 c.2) []

/-- The assignment `best_match.second->buddy = b`. -/
def set_buddy (vertices : List mesh_match_vertex_t) (i : Nat) (b : Option Nat) :
    List mesh_match_vertex_t :=
  modify_at (fun v => { v with buddy := b }) i vertices

/-- The loop `while (!slaves.empty())` of `match_border`: bind the first entry of
`nearest` and erase its slave, until no slave or no master without a buddy is left.
Every turn erases one slave, so `fuel` is the number of slaves at the start. -/
def pairing_loop (ioMesh : CDT) (side_num : Nat) :
    Nat → List (ℚ × Nat) → List mesh_match_vertex_t → List (ℚ × Nat) × List mesh_match_vertex_t
  | 0, slaves, vertices => (slaves, vertices)
  | fuel + 1, slaves, vertices =>
      if slaves.isEmpty then (slaves, vertices)
      else
        match nearest_pairs ioMesh side_num slaves vertices with
        | [] => (slaves, vertices)
        | best :: _ =>
            pairing_loop ioMesh side_num fuel (map_erase slaves best.2.1)
              (set_buddy vertices best.2.2 (map_find slaves best.2.1))

/-- Step 3 of `match_border`: every master vertex still without a buddy is inserted
into the mesh at its location and the vertex it yields takes the master's height. -/
def insert_unmatched : CDT → List mesh_match_vertex_t → CDT × List mesh_match_vertex_t
  | ioMesh, [] => (ioMesh, [])
  | ioMesh, pts :: rest =>
      if pts.buddy = none then
        let r := insert_unmatched
          ((ioMesh.safe_insert pts.loc).1.set_height (ioMesh.safe_insert pts.loc).2 pts.height) rest
        (r.1, { pts with buddy := some (ioMesh.safe_insert pts.loc).2 } :: r.2)
      else
        let r := insert_unmatched ioMesh rest
        (r.1, pts :: r.2)

/-- The master vertices as the pairing loop of `match_border` leaves them. -/
def paired_vertices (ioMesh : CDT) (ioBorder : mesh_match_t) (side_num : Nat) :
    List mesh_match_vertex_t :=
  match ioBorder.vertices with
  | [] => []
  | v0 :: _ =>
      (pairing_loop ioMesh side_num (fetch_border ioMesh v0.loc side_num).length
        (fetch_border ioMesh v0.loc side_num) ioBorder.vertices).2

/-- Model of `match_border`: the mesh and the record it leaves.  The origin is the
location of the first master vertex; the caller passes no empty record. -/
def match_border (ioMesh : CDT) (ioBorder : mesh_match_t) (side_num : Nat) : CDT × mesh_match_t :=
  ((insert_unmatched ioMesh (paired_vertices ioMesh ioBorder side_num)).1,
   { ioBorder with vertices := (insert_unmatched ioMesh (paired_vertices ioMesh ioBorder side_num)).2 })

/-- A mesh with two hull vertices on the line x = 0: (0, 0) of height 10 and
(0, 3/2) of height 3. -/
def sample_mesh : CDT :=
  { vertices := [{ point := (0, 0), height := 10 }, { point := (0, 3 / 2), height := 3 }],
    hull := [0, 1] }

/-- A master record of two vertices: (0, 0) of height 10 and (0, 1) of height 20. -/
def sample_master : mesh_match_t :=
  { vertices := [{ loc := (0, 0), height := 10, blending := [], buddy := none },
                 { loc := (0, 1), height := 20, blending := [], buddy := none }],
    edges := [{ base := 1, borders := [], buddy := none }] }

/-- A mesh with no vertex on the line x = 0. -/
def sample_mesh_off_line : CDT :=
  { vertices := [{ point := (1, 0), height := 1 }, { point := (1, 1), height := 2 }],
    hull := [0, 1] }

/-- A master record as `load_match_file` leaves it for a side written from (0, 0) of
height 5 to (0, 1) of height 7: the last vertex repeats the location (0, 0) with
height 0. -/
def sample_master_repeated : mesh_match_t :=
  { vertices := [{ loc := (0, 0), height := 5, blending := [], buddy := none },
                 { loc := (0, 0), height := 0, blending := [], buddy := none }],
    edges := [{ base := 1, borders := [], buddy := none }] }

/-! ## The mesh during classification and border blending -/

/-- The per-face data of the mesh (`f->info()`): base terrain, feature, the set of
border terrains (a `set<int>`, kept increasing), the visitation flag and the map face
the triangle came from (`none` for the null handle). -/
structure FaceInfo where
  terrain : Int
  feature : Int
  terrain_border : List Int
  flag : Int
  orig_face : Option Nat
  deriving DecidableEq

/-- The per-vertex data of the mesh (`v->info()`): height and the blend level of every
border terrain (a `hash_map<int, float>`, held as an association list). -/
structure VertexInfo where
  height : ℚ
  border_blend : List (Int × ℚ)
  deriving DecidableEq

/-- The connectivity of the triangulation, which none of the passes below changes.
Faces and vertices are named by numbers.  `finite_faces` is the run of
`finite_faces_begin()` to `finite_faces_end()`; a face is infinite when it is not in
it.  `vertex f i` and `neighbor f i` are `f->vertex(i)` and `f->neighbor(i)`,
`is_constrained f i` is `is_constrained(Edge(f, i))`, `incident_faces v` is one turn of
the face circulator of `v`, and `hull_edge_face a b` is the finite face across the hull
edge from `a` to `b`: the face `is_face(a, b, infinite_vertex(), f)` finds, stepped to
its neighbour opposite the infinite vertex, `none` when there is no such face.
`normal_z f` is `f->info().normal[2]`. -/
structure Topology where
  finite_faces : List Nat
  vertex : Nat → Nat → Nat
  neighbor : Nat → Nat → Nat
  is_constrained : Nat → Nat → Bool
  incident_faces : Nat → List Nat
  hull_edge_face : Nat → Nat → Option Nat
  normal_z : Nat → ℚ

/-- The test `ioMesh.is_infinite(f)`. -/
def Topology.is_infinite (T : Topology) (f : Nat) : Bool := decide (f ∉ T.finite_faces)

/-- The test `is_border(inMesh, f)`: some neighbour of `f` has the infinite vertex. -/
def Topology.is_border (T : Topology) (f : Nat) : Bool :=
  T.is_infinite (T.neighbor f 0) || T.is_infinite (T.neighbor f 1) || T.is_infinite (T.neighbor f 2)

/-- The mutable data of the mesh: the info of every face and of every vertex. -/
structure Mesh where
  face : Nat → FaceInfo
  vert : Nat → VertexInfo

/-- The rule tables the passes consult, declared outside the sources at hand and taken
as they come: the tokens `terrain_Water` and `terrain_Natural`, the priority test
`LowerPriorityNaturalTerrain` and the transition distance `xon_dist` of a terrain. -/
structure Tables where
  terrain_Water : Int
  terrain_Natural : Int
  LowerPriorityNaturalTerrain : Int → Int → Bool
  xon_dist : Int → ℚ

/-- Lookup `m.find(k)` on a `hash_map<int, float>`. -/
def hash_map_find : List (Int × ℚ) → Int → Option ℚ
  | [], _ => none
  | (k', v') :: m, k => if k' = k then some v' else hash_map_find m k

/-- The value of the expression `m[k]`: the default 0 for a key that is not there. -/
def hash_map_get (m : List (Int × ℚ)) (k : Int) : ℚ :=
  match hash_map_find m k with
  | some v => v
  | none => 0

/-- The map after the expression `m[k]` has been evaluated: a key that was not there
is now there with the value 0. -/
def hash_map_touch (m : List (Int × ℚ)) (k : Int) : List (Int × ℚ) :=
  match hash_map_find m k with
  | some _ => m
  | none => m ++ [(k, 0)]

/-- Insertion into a `set` of vertex or face handles, kept increasing. -/
def handle_set_insert : List Nat → Nat → List Nat
  | [], k => [k]
  | a :: s, k => if k < a then k :: a :: s else if k = a then a :: s else a :: handle_set_insert s k

/-- Replace the info of face `f`. -/
def Mesh.set_face (ms : Mesh) (f : Nat) (i : FaceInfo) : Mesh :=
  { ms with face := Function.update ms.face f i }

/-- Replace the info of vertex `v`. -/
def Mesh.set_vert (ms : Mesh) (v : Nat) (i : VertexInfo) : Mesh :=
  { ms with vert := Function.update ms.vert v i }

/-- The assignment `f->info().terrain = t`. -/
def Mesh.set_terrain (ms : Mesh) (f : Nat) (t : Int) : Mesh :=
  ms.set_face f { ms.face f with terrain := t }

/-- The call `f->info().terrain_border.insert(layer)`. -/
def Mesh.insert_border (ms : Mesh) (f : Nat) (layer : Int) : Mesh :=
  ms.set_face f { ms.face f with terrain_border := set_insert (ms.face f).terrain_border layer }

/-- The assignment `f->info().flag = n`. -/
def Mesh.set_flag (ms : Mesh) (f : Nat) (n : Int) : Mesh :=
  ms.set_face f { ms.face f with flag := n }

/-- The assignment `v->info().border_blend[layer] = x`. -/
def Mesh.set_blend (ms : Mesh) (v : Nat) (layer : Int) (x : ℚ) : Mesh :=
  ms.set_vert v { ms.vert v with border_blend := hash_map_set (ms.vert v).border_blend layer x }

/-- The value of `v->info().border_blend[layer]`. -/
def Mesh.blend (ms : Mesh) (v : Nat) (layer : Int) : ℚ :=
  hash_map_get (ms.vert v).border_blend layer

/-- The mesh after `v->info().border_blend[layer]` has been read. -/
def Mesh.touch_blend (ms : Mesh) (v : Nat) (layer : Int) : Mesh :=
  ms.set_vert v { ms.vert v with border_blend := hash_map_touch (ms.vert v).border_blend layer }

/-- Model of `AddZeroMixIfNeeded`. -/
def AddZeroMixIfNeeded (W : Tables) (T : Topology) (ms : Mesh) (f : Nat) (layer : Int) : Mesh :=
  if (ms.face f).terrain = W.terrain_Water then ms
  else
    [0, 1, 2].foldl
      (fun s i =>
        if hash_map_find (s.vert (T.vertex f i)).border_blend layer = none then
          s.set_blend (T.vertex f i) layer 0
        else s)
      (ms.insert_border f layer)

/-- Model of `has_no_xon`. -/
def has_no_xon (W : Tables) (tex1 tex2 : Int) : Bool :=
  decide (W.xon_dist tex1 = 0) || decide (W.xon_dist tex2 = 0)

/-- Model of `RebaseTriangle`; `v1` and `v2` are vertex handles, `none` for the null
handle, and `ioModVertices` is the `set` of modified vertices. -/
def RebaseTriangle (W : Tables) (T : Topology) (ms : Mesh) (tri : Nat) (new_base : Int)
    (v1 v2 : Option Nat) (ioModVertices : List Nat) : Mesh × List Nat :=
  if (ms.face tri).terrain = W.terrain_Water ∨ new_base = W.terrain_Water then (ms, ioModVertices)
  else if has_no_xon W (ms.face tri).terrain new_base then (ms, ioModVertices)
  else if new_base ≠ W.terrain_Water then
    [0, 1, 2].foldl
      (fun s i =>
        if some (T.vertex tri i) = v1 ∨ some (T.vertex tri i) = v2 then
          (s.1.set_blend (T.vertex tri i) (ms.face tri).terrain
            (max (s.1.blend (T.vertex tri i) (ms.face tri).terrain) 0), s.2)
        else
          (s.1.set_blend (T.vertex tri i) (ms.face tri).terrain 1,
            handle_set_insert s.2 (T.vertex tri i)))
      (((ms.set_terrain tri new_base).insert_border tri (ms.face tri).terrain), ioModVertices)
  else (ms.set_terrain tri new_base, ioModVertices)

/-- Model of `SafeSmearBorder`. -/
def SafeSmearBorder (W : Tables) (T : Topology) (ms : Mesh) (vert : Nat) (layer : Int) : Mesh :=
  if 0 < ms.blend vert layer then
    (T.incident_faces vert).foldl
      (fun s iter =>
        if T.is_infinite iter = false ∧ (s.face iter).terrain ≠ layer ∧
            (s.face iter).terrain ≠ W.terrain_Water then
          [0, 1, 2].foldl
            (fun s2 n => s2.set_blend (T.vertex iter n) layer (max 0 (s2.blend (T.vertex iter n) layer)))
            (s.insert_border iter layer)
        else s)
      (ms.touch_blend vert layer)
  else ms.touch_blend vert layer

/-! ## Terrain classification (`SetTerrainForConstraints`) -/

/-- A recorded constraint as `SetTerrainForConstraints` uses it.  `left_face` is the
face that `PersistentFindEdge` finds for the reversed vertex pair and `right_face` the
one for the pair itself, `none` when the search fails (the source then stops on an
assertion); the terrains and map faces are those of the two half-edges. -/
structure LanduseConstraint where
  left_face : Option Nat
  left_terrain : Int
  left_orig : Nat
  right_face : Option Nat
  right_terrain : Int
  right_orig : Nat
  deriving DecidableEq

/-- The assignments made to the face on one side of a constraint. -/
def seed_face (ms : Mesh) (face_h : Nat) (t : Int) (orig : Nat) : Mesh :=
  ms.set_face face_h
    { ms.face face_h with
      terrain := t
      feature := t
      orig_face := if (ms.face face_h).orig_face = none then some orig else (ms.face face_h).orig_face }

/-- The loop over the constraints: both sides of each are given their terrain and put
into `wet_faces`.  `none` when an edge is not found. -/
def seed_constraints : Mesh → List Nat → List LanduseConstraint → Option (Mesh × List Nat)
  | ms, wet, [] => some (ms, wet)
  | ms, wet, c :: cs =>
      match c.left_face with
      | none => none
      | some fl =>
        match c.right_face with
        | none => none
        | some fr =>
          seed_constraints
            (seed_face (seed_face ms fl c.left_terrain c.left_orig) fr c.right_terrain c.right_orig)
            (handle_set_insert (handle_set_insert wet fl) fr) cs

/-- The body of `for (vi ...)` in the flood: the neighbour across an edge that is not
constrained, when it is finite and not visited, takes the terrain `tg` unless it has
another terrain than natural already, and joins `wet_faces`. -/
def flood_neighbor (W : Tables) (T : Topology) (f : Nat) (tg : Int) (og : Option Nat)
    (visited : List Nat) (s : Mesh × List Nat) (vi : Nat) : Mesh × List Nat :=
  if T.is_constrained f vi = false then
    if T.is_infinite (T.neighbor f vi) = false ∧ T.neighbor f vi ∉ visited then
      let ms1 :=
        if (s.1.face (T.neighbor f vi)).terrain ≠ W.terrain_Natural ∧
            (s.1.face (T.neighbor f vi)).terrain ≠ tg then s.1
        else s.1.set_face (T.neighbor f vi)
          { s.1.face (T.neighbor f vi) with terrain := tg, feature := tg }
      let ms2 :=
        if (ms1.face (T.neighbor f vi)).orig_face = none then
          ms1.set_face (T.neighbor f vi) { ms1.face (T.neighbor f vi) with orig_face := og }
        else ms1
      (ms2, handle_set_insert s.2 (T.neighbor f vi))
    else s
  else s

/-- The loop `while (!wet_faces.empty())`: the state is the mesh, `wet_faces` and
`visited`.  With no fuel left the state is returned as it stands. -/
def flood_loop (W : Tables) (T : Topology) :
    Nat → Mesh → List Nat → List Nat → Mesh × List Nat × List Nat
  | 0, ms, wet, visited => (ms, wet, visited)
  | fuel + 1, ms, wet, visited =>
      match wet with
      | [] => (ms, [], visited)
      | f :: rest =>
          let r := [0, 1, 2].foldl
            (flood_neighbor W T f (ms.face f).terrain (ms.face f).orig_face
              (handle_set_insert visited f))
            (ms.set_flag f 0, rest)
          flood_loop W T fuel r.1 r.2 (handle_set_insert visited f)

/-- The last loop of `SetTerrainForConstraints`: the vertices of water faces take the
elevation of the nearest sample; `xy_nearest v` is that elevation at the point of `v`,
`none` for `DEM_NO_DATA`. -/
def set_water_heights (W : Tables) (T : Topology) (xy_nearest : Nat → Option ℚ) (ms : Mesh) : Mesh :=
  T.finite_faces.foldl
    (fun s ffi =>
      if (s.face ffi).terrain = W.terrain_Water then
        [0, 1, 2].foldl
          (fun s2 vi =>
            match xy_nearest (T.vertex ffi vi) with
            | some e => s2.set_vert (T.vertex ffi vi) { s2.vert (T.vertex ffi vi) with height := e }
            | none => s2)
          s
      else s)
    ms

/-- The first loop of `SetTerrainForConstraints`: every finite face is set to natural. -/
def set_all_natural (W : Tables) (NO_VALUE : Int) (T : Topology) (ms : Mesh) : Mesh :=
  T.finite_faces.foldl
    (fun s ffi => s.set_face ffi { s.face ffi with terrain := W.terrain_Natural, feature := NO_VALUE })
    ms

/-- The fuel that the flood is given: every turn moves a face that was not visited into
`visited`, and only the seeds and the finite faces ever get there. -/
def flood_fuel (T : Topology) (wet : List Nat) : Nat := wet.length + T.finite_faces.length

/-- Model of `SetTerrainForConstraints`; `none` when an assertion stops it. -/
def SetTerrainForConstraints (W : Tables) (NO_VALUE : Int) (T : Topology)
    (xy_nearest : Nat → Option ℚ) (ioMesh : Mesh) (inCoastlines : List LanduseConstraint) :
    Option Mesh :=
  match seed_constraints (set_all_natural W NO_VALUE T ioMesh) [] inCoastlines with
  | none => none
  | some s =>
      some (set_water_heights W T xy_nearest (flood_loop W T (flood_fuel T s.2) s.1 s.2 []).1)

/-! ## The border passes of `AssignLandusesToMesh` -/

/-- The buddy of the first vertex of a list, `none` when there is none. -/
def head_buddy (vs : List mesh_match_vertex_t) : Option Nat :=
  match vs with
  | [] => none
  | v :: _ => v.buddy

/-- Model of `border_find_edge_tris` on the edges from index n on, `vs` being the
vertices from index n on. -/
def find_edge_tris (T : Topology) :
    List mesh_match_vertex_t → List mesh_match_edge_t → List mesh_match_edge_t
  | _, [] => []
  | vs, e :: es =>
      { e with buddy :=
          match head_buddy vs, head_buddy vs.tail with
          | some a, some b => T.hull_edge_face a b
          | _, _ => none } :: find_edge_tris T vs.tail es

/-- Model of `border_find_edge_tris`. -/
def border_find_edge_tris (T : Topology) (ioBorder : mesh_match_t) : mesh_match_t :=
  { ioBorder with edges := find_edge_tris T ioBorder.vertices ioBorder.edges }

/-- The lowest of `start` and the terrains of `cands`, taken in order. -/
def lowest_terrain (W : Tables) (start : Int) (cands : List Int) : Int :=
  cands.foldl (fun lowest bl => if W.LowerPriorityNaturalTerrain bl lowest then bl else lowest) start

/-- The first rebasing loop of a side, over the edges from index n on: a face whose
terrain is not the lowest of its own, the master's base and the master's borders is
rebased to that lowest terrain. -/
def rebase_edges (W : Tables) (T : Topology) :
    List mesh_match_vertex_t → List mesh_match_edge_t → Mesh × List Nat → Mesh × List Nat
  | _, [], s => s
  | vs, e :: es, s =>
      rebase_edges W T vs.tail es
        (match e.buddy with
         | none => s
         | some tri =>
           if lowest_terrain W
                (if W.LowerPriorityNaturalTerrain e.base (s.1.face tri).terrain then e.base
                 else (s.1.face tri).terrain) e.borders ≠ (s.1.face tri).terrain then
             RebaseTriangle W T s.1 tri
               (lowest_terrain W
                 (if W.LowerPriorityNaturalTerrain e.base (s.1.face tri).terrain then e.base
                  else (s.1.face tri).terrain) e.borders)
               (head_buddy vs) (head_buddy vs.tail) s.2
           else s)

/-- The second rebasing loop of a side, for one master vertex: every finite face
around its buddy that does not touch the hull is rebased to the lowest of its terrain
and the master's blends above zero. -/
def rebase_vertex (W : Tables) (T : Topology) (v : mesh_match_vertex_t) (s : Mesh × List Nat) :
    Mesh × List Nat :=
  match v.buddy with
  | none => s
  | some vb =>
    (T.incident_faces vb).foldl
      (fun s circ =>
        if T.is_infinite circ = false ∧ T.is_border circ = false then
          if v.blending.foldl
                (fun lowest bl =>
                  if 0 < bl.2 ∧ W.LowerPriorityNaturalTerrain bl.1 lowest then bl.1 else lowest)
                (s.1.face circ).terrain ≠ (s.1.face circ).terrain then
            RebaseTriangle W T s.1 circ
              (v.blending.foldl
                (fun lowest bl =>
                  if 0 < bl.2 ∧ W.LowerPriorityNaturalTerrain bl.1 lowest then bl.1 else lowest)
                (s.1.face circ).terrain)
              (some vb) none s.2
          else s
        else s)
      s

/-- The rebasing pass over all sides. -/
def rebase_borders (W : Tables) (T : Topology) (gMatchBorders : List mesh_match_t)
    (s : Mesh × List Nat) : Mesh × List Nat :=
  gMatchBorders.foldl
    (fun s b => b.vertices.foldl (fun s v => rebase_vertex W T v s) (rebase_edges W T b.vertices b.edges s))
    s

/-- The loop over the vertices that rebasing modified: every finite face around such a
vertex gets a zero mix of every border the vertex carries above zero. -/
def add_rebased_borders (W : Tables) (T : Topology) (vertices : List Nat) (ms : Mesh) : Mesh :=
  vertices.foldl
    (fun s rebased_vert =>
      (T.incident_faces rebased_vert).foldl
        (fun s circ =>
          if T.is_infinite circ = false then
            (s.vert rebased_vert).border_blend.foldl
              (fun s bl => if 0 < bl.2 then AddZeroMixIfNeeded W T s circ bl.1 else s) s
          else s)
        s)
    ms

/-- Model of `GetXonDist`. -/
def GetXonDist (W : Tables) (layer1 layer2 : Int) (y_normal : ℚ) : ℚ :=
  min (W.xon_dist layer1) (W.xon_dist layer2) * y_normal

/-- The fade of a vertex at distance `dist` for the maximum distance `dist_max`. -/
def fade_level (dist_max dist : ℚ) : ℚ := max 0 (min ((dist_max - dist) / dist_max) 1)

/-- The test on a neighbour in the border propagation: it carries the layer as a
border or as its base. -/
def carries_layer (ms : Mesh) (f : Nat) (layer : Int) : Bool :=
  decide (layer ∈ (ms.face f).terrain_border) || decide ((ms.face f).terrain = layer)

/-- The calculation phase of the fade propagation on a face `border` other than the
seed `tri`: the new mesh and the value of `spread`.  `DistPtToTri v f` is the distance
in metres from vertex `v` to face `f`. -/
def fade_face (W : Tables) (T : Topology) (DistPtToTri : Nat → Nat → ℚ) (tri : Nat) (layer : Int)
    (ms : Mesh) (border : Nat) : Mesh × Bool :=
  if 0 < GetXonDist W layer (ms.face border).terrain (T.normal_z border) then
    let dist_max := GetXonDist W layer (ms.face border).terrain (T.normal_z border)
    let dist1 := fade_level dist_max (DistPtToTri (T.vertex border 0) tri)
    let dist2 := fade_level dist_max (DistPtToTri (T.vertex border 1) tri)
    let dist3 := fade_level dist_max (DistPtToTri (T.vertex border 2) tri)
    if 0 < dist1 ∨ 0 < dist2 ∨ 0 < dist3 then
      let m1 := ((ms.touch_blend (T.vertex border 0) layer).touch_blend (T.vertex border 1) layer).touch_blend
        (T.vertex border 2) layer
      let odist1 := ms.blend (T.vertex border 0) layer
      let odist2 := ms.blend (T.vertex border 1) layer
      let odist3 := ms.blend (T.vertex border 2) layer
      let has_0 := carries_layer ms (T.neighbor border 1) layer || carries_layer ms (T.neighbor border 2) layer
      let has_1 := carries_layer ms (T.neighbor border 0) layer || carries_layer ms (T.neighbor border 2) layer
      let has_2 := carries_layer ms (T.neighbor border 0) layer || carries_layer ms (T.neighbor border 1) layer
      let d1 := if has_0 then dist1 else 0
      let d2 := if has_1 then dist2 else 0
      let d3 := if has_2 then dist3 else 0
      let m2 := if odist1 < d1 then m1.set_blend (T.vertex border 0) layer d1 else m1
      let m3 := if odist2 < d2 then m2.set_blend (T.vertex border 1) layer d2 else m2
      let m4 := if odist3 < d3 then m3.set_blend (T.vertex border 2) layer d3 else m3
      (m4.insert_border border layer, true)
    else (ms, false)
  else (ms, false)

/-- The test that puts a neighbour `b` into `to_visit`. -/
def fade_wants (W : Tables) (T : Topology) (ms : Mesh) (layer visited : Int) (b : Nat) : Bool :=
  decide ((ms.face b).flag ≠ visited) && !T.is_infinite b &&
    decide ((ms.face b).terrain ≠ W.terrain_Water) &&
    W.LowerPriorityNaturalTerrain (ms.face b).terrain layer

/-- The loop `while (!to_visit.empty())` for the seed `tri`.  With no fuel left the mesh
is returned as it stands. -/
def fade_loop (W : Tables) (T : Topology) (DistPtToTri : Nat → Nat → ℚ) (tri : Nat)
    (layer visited : Int) : Nat → Mesh → List Nat → Mesh
  | 0, ms, _ => ms
  | fuel + 1, ms, to_visit =>
      match to_visit with
      | [] => ms
      | border :: rest =>
          let r := if border ≠ tri then fade_face W T DistPtToTri tri layer ms border else (ms, true)
          let ms2 := r.1.set_flag border visited
          fade_loop W T DistPtToTri tri layer visited fuel ms2
            (if r.2 then
              [0, 1, 2].foldl
                (fun tv i =>
                  if fade_wants W T ms2 layer visited (T.neighbor border i) then
                    handle_set_insert tv (T.neighbor border i)
                  else tv)
                rest
             else rest)

/-- The pass "calculate borders": every finite face that is not water seeds one run of
the loop, under a fresh value of `visited`. -/
def calculate_borders (W : Tables) (T : Topology) (DistPtToTri : Nat → Nat → ℚ) (ms : Mesh) : Mesh :=
  (T.finite_faces.foldl
    (fun (s : Mesh × Int) tri =>
      if (s.1.face tri).terrain ≠ W.terrain_Water then
        (fade_loop W T DistPtToTri tri (s.1.face tri).terrain (s.2 + 1) (T.finite_faces.length + 1)
          (s.1.set_flag tri (s.2 + 1)) [tri], s.2 + 1)
      else s)
    (ms, 0)).1

/-- The blend levels of every buddy of a master vertex are forced to zero. -/
def zero_slaved_edges (gMatchBorders : List mesh_match_t) (ms : Mesh) : Mesh :=
  gMatchBorders.foldl
    (fun s b =>
      b.vertices.foldl
        (fun s v =>
          match v.buddy with
          | none => s
          | some vb =>
            s.set_vert vb { s.vert vb with border_blend := (s.vert vb).border_blend.map (fun e => (e.1, 0)) })
        s)
    ms

/-- The pair of statements `v->info().border_blend[layer] = x; SafeSmearBorder(mesh, v, layer)`
on the buddy of a master vertex. -/
def force_blend (W : Tables) (T : Topology) (ms : Mesh) (v : Option Nat) (layer : Int) (x : ℚ) : Mesh :=
  match v with
  | none => ms
  | some vb => SafeSmearBorder W T (ms.set_blend vb layer x) vb layer

/-- The blend a master vertex recorded for a layer, `blending[layer]`; no vertex reads
as no blend. -/
def master_blend (vs : List mesh_match_vertex_t) (layer : Int) : ℚ :=
  match vs with
  | [] => 0
  | v :: _ => hash_map_get v.blending layer

/-- The copy of the master's base and borders onto the faces along a side, over the
edges from index n on. -/
def copy_edges (W : Tables) (T : Topology) :
    List mesh_match_vertex_t → List mesh_match_edge_t → Mesh → Mesh
  | _, [], ms => ms
  | vs, e :: es, ms =>
      copy_edges W T vs.tail es
        (match e.buddy with
         | none => ms
         | some tri =>
           if (ms.face tri).terrain ≠ W.terrain_Water then
             e.borders.foldl
               (fun s bl =>
                 if (s.face tri).terrain ≠ bl then
                   force_blend W T
                     (force_blend W T (AddZeroMixIfNeeded W T s tri bl) (head_buddy vs) bl
                       (master_blend vs bl))
                     (head_buddy vs.tail) bl (master_blend vs.tail bl)
                 else s)
               (if (ms.face tri).terrain ≠ e.base then
                  force_blend W T
                    (force_blend W T (AddZeroMixIfNeeded W T ms tri e.base) (head_buddy vs) e.base 1)
                    (head_buddy vs.tail) e.base 1
                else ms)
           else ms)

/-- The pass that copies the master borders over all sides. -/
def copy_master_borders (W : Tables) (T : Topology) (gMatchBorders : List mesh_match_t)
    (ms : Mesh) : Mesh :=
  gMatchBorders.foldl (fun s b => copy_edges W T b.vertices b.edges s) ms

/-- The first loop of the optimisation of one face, for one border `blayer`: when the
three vertices read 1.0 for it and it is of higher priority than the base, it becomes
the base.  The second component is `need_optimize`. -/
def promote_layer (W : Tables) (T : Topology) (tri : Nat) (s : Mesh × Bool) (blayer : Int) :
    Mesh × Bool :=
  if (s.1.touch_blend (T.vertex tri 0) blayer).blend (T.vertex tri 0) blayer = 1 then
    if ((s.1.touch_blend (T.vertex tri 0) blayer).touch_blend (T.vertex tri 1) blayer).blend
        (T.vertex tri 1) blayer = 1 then
      if (((s.1.touch_blend (T.vertex tri 0) blayer).touch_blend (T.vertex tri 1) blayer).touch_blend
          (T.vertex tri 2) blayer).blend (T.vertex tri 2) blayer = 1 then
        if W.LowerPriorityNaturalTerrain (s.1.face tri).terrain blayer then
          ((((s.1.touch_blend (T.vertex tri 0) blayer).touch_blend (T.vertex tri 1) blayer).touch_blend
            (T.vertex tri 2) blayer).set_terrain tri blayer, true)
        else
          (((s.1.touch_blend (T.vertex tri 0) blayer).touch_blend (T.vertex tri 1) blayer).touch_blend
            (T.vertex tri 2) blayer, s.2)
      else
        (((s.1.touch_blend (T.vertex tri 0) blayer).touch_blend (T.vertex tri 1) blayer).touch_blend
          (T.vertex tri 2) blayer, s.2)
    else ((s.1.touch_blend (T.vertex tri 0) blayer).touch_blend (T.vertex tri 1) blayer, s.2)
  else (s.1.touch_blend (T.vertex tri 0) blayer, s.2)

/-- The call `f->info().terrain_border.erase(layer)`. -/
def Mesh.erase_border (ms : Mesh) (f : Nat) (layer : Int) : Mesh :=
  ms.set_face f { ms.face f with terrain_border := (ms.face f).terrain_border.erase layer }

/-- The optimisation of one finite face: the borders are tried as a new base, and when
one was taken, the set `nuke` of the borders that are not of higher priority than the
base is erased from the face. -/
def optimize_face (W : Tables) (T : Topology) (ms : Mesh) (tri : Nat) : Mesh :=
  if (ms.face tri).terrain ≠ W.terrain_Water then
    let r := (ms.face tri).terrain_border.foldl (promote_layer W T tri) (ms, false)
    if r.2 then
      ((r.1.face tri).terrain_border.filter
          (fun blayer => !W.LowerPriorityNaturalTerrain (r.1.face tri).terrain blayer)).foldl
        (fun s nlayer => s.erase_border tri nlayer) r.1
    else r.1
  else ms

/-- The pass "optimize borders", run when `gMeshPrefs.optimize_borders` is set. -/
def optimize_borders_pass (W : Tables) (T : Topology) (optimize_borders : Bool) (ms : Mesh) : Mesh :=
  if optimize_borders then T.finite_faces.foldl (optimize_face W T) ms else ms

/-- The call of `border_find_edge_tris` on every side that has vertices. -/
def find_all_edge_tris (T : Topology) (gMatchBorders : List mesh_match_t) : List mesh_match_t :=
  gMatchBorders.map (fun b => if b.vertices.isEmpty then b else border_find_edge_tris T b)

/-- The border passes of `AssignLandusesToMesh` in their order: the faces along the
sides are found, the sides are rebased, the rebased vertices hand their borders to
their faces, the local borders are calculated, the slaved edges are zeroed, the
master borders are copied and the borders are optimised. -/
def border_passes (W : Tables) (T : Topology) (DistPtToTri : Nat → Nat → ℚ)
    (optimize_borders : Bool) (gMatchBorders : List mesh_match_t) (ms : Mesh) : Mesh :=
  optimize_borders_pass W T optimize_borders
    (copy_master_borders W T (find_all_edge_tris T gMatchBorders)
      (zero_slaved_edges (find_all_edge_tris T gMatchBorders)
        (calculate_borders W T DistPtToTri
          (add_rebased_borders W T
            (rebase_borders W T (find_all_edge_tris T gMatchBorders) (ms, [])).2
            (rebase_borders W T (find_all_edge_tris T gMatchBorders) (ms, [])).1))))

/-- The check after the passes: no finite water face carries a border (the source
stops with "BORDER ON WATER LAND USE!" otherwise). -/
def water_check (W : Tables) (T : Topology) (ms : Mesh) : Bool :=
  T.finite_faces.all
    (fun tri => decide ((ms.face tri).terrain ≠ W.terrain_Water) || (ms.face tri).terrain_border.isEmpty)

/-- A step from `ms` to `ms2` that leaves the water faces alone: a face that is water
after it was water before it, with the same borders. -/
def WaterKept (W : Tables) (ms ms2 : Mesh) : Prop :=
  ∀ f, (ms2.face f).terrain = W.terrain_Water →
    (ms.face f).terrain = W.terrain_Water ∧ (ms2.face f).terrain_border = (ms.face f).terrain_border

/-- A square tile cut into two triangles.  The vertices are 0 = (0, 0), 1 = (1, 0),
2 = (0, 1) and 3 = (1, 1); face 0 has the vertices 0, 1, 2 and face 1 the vertices
1, 3, 2; the faces 2 (left), 3 (bottom), 4 (top) and 5 (right) are infinite. -/
def sample_topology : Topology :=
  { finite_faces := [0, 1]
    vertex := fun f i =>
      if f = 0 then (if i = 0 then 0 else if i = 1 then 1 else 2)
      else if f = 1 then (if i = 0 then 1 else if i = 1 then 3 else 2) else 4
    neighbor := fun f i =>
      if f = 0 then (if i = 0 then 1 else if i = 1 then 2 else 3)
      else if f = 1 then (if i = 0 then 4 else if i = 1 then 0 else 5) else 0
    is_constrained := fun _ _ => false
    incident_faces := fun v =>
      if v = 0 then [0, 2, 3] else if v = 1 then [0, 1, 3, 5]
      else if v = 2 then [0, 1, 2, 4] else [1, 4, 5]
    hull_edge_face := fun a b => if a = 0 ∧ (b = 2 ∨ b = 1) then some 0 else none
    normal_z := fun _ => 1 }

/-- Sample rule tables: water is the token 2, natural the token 0, a terrain is of lower
priority than another when its token is smaller, every transition distance is 100. -/
def sample_tables : Tables :=
  { terrain_Water := 2
    terrain_Natural := 0
    LowerPriorityNaturalTerrain := fun a b => decide (a < b)
    xon_dist := fun _ => 100 }

/-- A mesh whose faces all have the terrain 1, no border, no blend. -/
def sample_land : Mesh :=
  { face := fun _ => { terrain := 1, feature := 0, terrain_border := [], flag := 0, orig_face := none }
    vert := fun _ => { height := 0, border_blend := [] } }

/-- The master record of the left side of the sample tile: one edge from vertex 0 to
vertex 2, recorded with water as base and the border 3. -/
def sample_left_master : mesh_match_t :=
  { vertices := [{ loc := (0, 0), height := 0, blending := [], buddy := some 0 },
                 { loc := (0, 1), height := 0, blending := [], buddy := some 2 }],
    edges := [{ base := 2, borders := [3], buddy := none }] }

/-- The master record of the bottom side of the sample tile: one edge from vertex 0 to
vertex 1, recorded with water as base and the border 3. -/
def sample_bottom_master : mesh_match_t :=
  { vertices := [{ loc := (0, 0), height := 0, blending := [], buddy := some 0 },
                 { loc := (1, 0), height := 0, blending := [], buddy := some 1 }],
    edges := [{ base := 2, borders := [3], buddy := none }] }

/-- The sample land mesh with the terrain 5 on face 0 and a blend of 7/10 for the
terrain 5 on vertex 0. -/
def sample_blended : Mesh :=
  { face := fun f =>
      { terrain := if f = 0 then 5 else 1, feature := 0, terrain_border := [], flag := 0,
        orig_face := none }
    vert := fun v => { height := 0, border_blend := if v = 0 then [(5, 7 / 10)] else [] } }

/-- The sample land mesh in which face 0 (base 1) carries the borders 3 and 4 and its
three vertices (0, 1 and 2) are saturated for the border 3. -/
def sample_saturated : Mesh :=
  { face := fun f =>
      { terrain := 1, feature := 0, terrain_border := if f = 0 then [3, 4] else [], flag := 0,
        orig_face := none }
    vert := fun v => { height := 0, border_blend := if v < 3 then [(3, 1)] else [] } }

/-- A step from `ms` to `ms2` that removes no entry of a blend map and changes the value
of none. -/
def BlendKept (ms ms2 : Mesh) : Prop :=
  ∀ v k x, hash_map_find (ms.vert v).border_blend k = some x →
    hash_map_find (ms2.vert v).border_blend k = some x

/-! ## Regions of the terrain flood -/

/-- The faces the flood of `SetTerrainForConstraints` can reach from the face `s`: `s`
itself, and from a face reached every finite neighbour across an edge that is not
constrained. -/
inductive FloodReach (T : Topology) (s : Nat) : Nat → Prop
  | seed : FloodReach T s s
  | step (f vi : Nat) : FloodReach T s f → vi < 3 → T.is_constrained f vi = false →
      T.is_infinite (T.neighbor f vi) = false → FloodReach T s (T.neighbor f vi)

/-- The invariant of the flood for the seeds `seeds` with the terrains `T0`: a face in
`wet_faces` or `visited` has the terrain of a seed that reaches it; a finite face in
neither is natural; every seed is in one of them; and the finite neighbours of a visited
face across edges that are not constrained are in one of them. -/
def FloodInv (W : Tables) (T : Topology) (T0 : Nat → Int) (seeds : List Nat) (ms : Mesh)
    (wet visited : List Nat) : Prop :=
  (∀ g, g ∈ wet ∨ g ∈ visited → ∃ a ∈ seeds, FloodReach T a g ∧ (ms.face g).terrain = T0 a) ∧
  (∀ g ∈ T.finite_faces, g ∉ wet → g ∉ visited → (ms.face g).terrain = W.terrain_Natural) ∧
  (∀ a ∈ seeds, a ∈ wet ∨ a ∈ visited) ∧
  (∀ g ∈ visited, ∀ vi, vi < 3 → T.is_constrained g vi = false →
    T.is_infinite (T.neighbor g vi) = false →
    T.neighbor g vi ∈ wet ∨ T.neighbor g vi ∈ visited)

/-! ## Height queries on the mesh (`HeightWithinTri`, `MeshHeightAtPoint`) -/

/-- The unit constants of the height queries.  `DEG_TO_NM_LAT`, `NM_TO_MTR` and
`DEG_TO_RAD` are declared outside the sources at hand and `cos` is the C library's: they
are taken as they come, as exact rationals, `cos_deg y` standing for
`cos(y * DEG_TO_RAD)`. -/
structure GeoConsts where
  DEG_TO_NM_LAT : ℚ
  NM_TO_MTR : ℚ
  cos_deg : ℚ → ℚ

/-- The vector from `p` to `q` (`Vector_3(p, q)`). -/
def Vector_3 (p q : ℚ × ℚ × ℚ) : ℚ × ℚ × ℚ := (q.1 - p.1, q.2.1 - p.2.1, q.2.2 - p.2.2)

/-- The cross product of two vectors. -/
def cross_product (a b : ℚ × ℚ × ℚ) : ℚ × ℚ × ℚ :=
  (a.2.1 * b.2.2 - a.2.2 * b.2.1, a.2.2 * b.1 - a.1 * b.2.2, a.1 * b.2.1 - a.2.1 * b.1)

/-- The corner `p_i` of `HeightWithinTri`: the point of vertex `i` of `f` scaled to metres,
with the vertex's height. -/
def scaled_corner (K : GeoConsts) (T : Topology) (point : Nat → ℚ × ℚ) (ms : Mesh) (f i : Nat)
    (DEG_TO_NM_LON : ℚ) : ℚ × ℚ × ℚ :=
  ((point (T.vertex f i)).1 * (DEG_TO_NM_LON * K.NM_TO_MTR),
   (point (T.vertex f i)).2 * (K.DEG_TO_NM_LAT * K.NM_TO_MTR),
   (ms.vert (T.vertex f i)).height)

/-- Model of `HeightWithinTri`: the height at `p` of the plane through the three corners
of `f`; `none` when the assertion `!is_infinite(f)` stops it.  `point v` is
`v->point()`. -/
def HeightWithinTri (K : GeoConsts) (T : Topology) (point : Nat → ℚ × ℚ) (ms : Mesh) (f : Nat)
    (p : ℚ × ℚ) : Option ℚ :=
  if T.is_infinite f then none
  else
    let DEG_TO_NM_LON := K.DEG_TO_NM_LAT * K.cos_deg p.2
    let p1 := scaled_corner K T point ms f 0 DEG_TO_NM_LON
    let p2 := scaled_corner K T point ms f 1 DEG_TO_NM_LON
    let p3 := scaled_corner K T point ms f 2 DEG_TO_NM_LON
    let s1 := Vector_3 p2 p3
    let s2 := Vector_3 p2 p1
    let n := cross_product s1 s2
    some (p1.2.2 -
      (n.1 * (p.1 * (DEG_TO_NM_LON * K.NM_TO_MTR) - p1.1) +
        n.2.1 * (p.2 * (K.DEG_TO_NM_LAT * K.NM_TO_MTR) - p1.2.1)) / n.2.2)

/-- The kinds of place a point location reports (`CDT::Locate_type`). -/
inductive Locate_type where
  | VERTEX
  | EDGE
  | FACE
  | OUTSIDE_CONVEX_HULL
  | OUTSIDE_AFFINE_HULL
  deriving DecidableEq

/-- What a point location yields: the face, the kind of place and the index `li` that
goes with it (of the vertex for `VERTEX`, of the edge for `EDGE`). -/
structure Located where
  face : Nat
  lt : Locate_type
  li : Nat
  deriving DecidableEq

/-- Model of `MeshHeightAtPoint`.  `locate_cache` is the point location of the
triangulation, which is outside the sources at hand and taken as it comes;
`number_of_faces()` is the number of finite faces.  The result is `none` when an
assertion stops the function. -/
def MeshHeightAtPoint (K : GeoConsts) (DEM_NO_DATA : ℚ) (T : Topology) (point : Nat → ℚ × ℚ)
    (ms : Mesh) (locate_cache : ℚ × ℚ → Nat → Located) (inLon inLat : ℚ) (hint_id : Nat) :
    Option ℚ :=
  if T.finite_faces.length < 1 then some DEM_NO_DATA
  else
    if (locate_cache (inLon, inLat) hint_id).lt = Locate_type.VERTEX then
      some (ms.vert (T.vertex (locate_cache (inLon, inLat) hint_id).face
        (locate_cache (inLon, inLat) hint_id).li)).height
    else
      let f :=
        if (locate_cache (inLon, inLat) hint_id).lt = Locate_type.EDGE ∧
            T.is_infinite (locate_cache (inLon, inLat) hint_id).face = true then
          T.neighbor (locate_cache (inLon, inLat) hint_id).face
            (locate_cache (inLon, inLat) hint_id).li
        else (locate_cache (inLon, inLat) hint_id).face
      if T.is_infinite f = false then HeightWithinTri K T point ms f (inLon, inLat)
      else some DEM_NO_DATA

/-! ## The error of the mesh against the elevation raster (`CalcMeshError`) -/

/-- The raster as `CalcMeshError` and the point selection read it (`DEMGeo`, declared
outside the sources at hand): its size, the sample at a grid point and the longitude and
latitude of a column and of a row. -/
structure DEMGeo where
  mWidth : Nat
  mHeight : Nat
  get : Nat → Nat → ℚ
  x_to_lon : Nat → ℚ
  y_to_lat : Nat → ℚ

/-- The running state of `CalcMeshError`.  `last_tri` is the cached face (`none` for the
null handle); `last_tri_loc` and `last_plane` are set together with it from its corners
and are read off it here.  `std_dev` holds the sum of the squares.  The list `devs` is
not in the source: it keeps the deviation `derr` of every counted sample, latest first,
so that properties of the outputs can be stated. -/
structure CalcState where
  last_tri : Option Nat
  out_min : ℚ
  out_max : ℚ
  out_ave : ℚ
  std_dev : ℚ
  ctr : Nat
  devs : List ℚ
  deriving DecidableEq

/-- The corner `p_i` of the cached plane: the point of vertex `i` of `f` with its height. -/
def plane_corner (T : Topology) (point : Nat → ℚ × ℚ) (ms : Mesh) (f i : Nat) : ℚ × ℚ × ℚ :=
  ((point (T.vertex f i)).1, (point (T.vertex f i)).2, (ms.vert (T.vertex f i)).height)

/-- The face found for a sample: the located face, stepped across the located edge when
it is infinite. -/
def located_face (T : Topology) (r : Located) : Nat :=
  if r.lt = Locate_type.EDGE ∧ T.is_infinite r.face = true then T.neighbor r.face r.li else r.face

/-- The body of the two loops of `CalcMeshError` for the grid point `(x, y)`.
`on_right_side a b p` is `Segment2(a, b).on_right_side(p)` and `distance_denormaled p1 p2
p3 q` is the value `Plane3(p1, n).distance_denormaled(q)` for the normalised normal `n`
of the corners; both are declared outside the sources at hand, like the point location
`locate`, and are taken as they come. -/
def CalcMeshError_sample (DEM_NO_DATA : ℚ) (T : Topology) (point : Nat → ℚ × ℚ) (ms : Mesh)
    (locate : ℚ × ℚ → Option Nat → Located) (on_right_side : ℚ × ℚ → ℚ × ℚ → ℚ × ℚ → Bool)
    (distance_denormaled : ℚ × ℚ × ℚ → ℚ × ℚ × ℚ → ℚ × ℚ × ℚ → ℚ × ℚ × ℚ → ℚ)
    (elev : DEMGeo) (y : Nat) (st : CalcState) (x : Nat) : CalcState :=
  if elev.get x y ≠ DEM_NO_DATA then
    let ll : ℚ × ℚ := (elev.x_to_lon x, elev.y_to_lat y)
    let relocate : Bool :=
      match st.last_tri with
      | none => true
      | some t =>
          on_right_side (point (T.vertex t 0)) (point (T.vertex t 1)) ll ||
          on_right_side (point (T.vertex t 1)) (point (T.vertex t 2)) ll ||
          on_right_side (point (T.vertex t 2)) (point (T.vertex t 0)) ll
    let last : Option Nat :=
      if relocate then
        if T.is_infinite (located_face T (locate ll st.last_tri)) = false then
          some (located_face T (locate ll st.last_tri))
        else st.last_tri
      else st.last_tri
    match last with
    | none => { st with last_tri := none }
    | some t =>
        let derr := distance_denormaled (plane_corner T point ms t 0) (plane_corner T point ms t 1)
          (plane_corner T point ms t 2) (ll.1, ll.2, elev.get x y)
        { last_tri := some t
          out_min := min st.out_min derr
          out_max := max st.out_max derr
          out_ave := st.out_ave + derr
          std_dev := st.std_dev + derr * derr
          ctr := st.ctr + 1
          devs := derr :: st.devs }
  else st

/-- The state of `CalcMeshError` before the loops. -/
def CalcMeshError_init : CalcState :=
  { last_tri := none, out_min := 9900000000, out_max := 0, out_ave := 0, std_dev := 0, ctr := 0,
    devs := [] }

/-- The two loops of `CalcMeshError`, rows outside and columns inside, run when the mesh
has a face. -/
def CalcMeshError_scan (DEM_NO_DATA : ℚ) (T : Topology) (point : Nat → ℚ × ℚ) (ms : Mesh)
    (locate : ℚ × ℚ → Option Nat → Located) (on_right_side : ℚ × ℚ → ℚ × ℚ → ℚ × ℚ → Bool)
    (distance_denormaled : ℚ × ℚ × ℚ → ℚ × ℚ × ℚ → ℚ × ℚ × ℚ → ℚ × ℚ × ℚ → ℚ)
    (elev : DEMGeo) : CalcState :=
  if 1 ≤ T.finite_faces.length then
    (List.range elev.mHeight).foldl
      (fun st y =>
        (List.range elev.mWidth).foldl
          (CalcMeshError_sample DEM_NO_DATA T point ms locate on_right_side distance_denormaled
            elev y) st)
      CalcMeshError_init
  else CalcMeshError_init

/-- The outputs of `CalcMeshError`: the returned count, `out_min`, `out_max`, `out_ave`
and the mean of the squares (the source returns its square root in `std_dev`); the
divisions are made when a sample was counted. -/
structure CalcResult where
  count : Nat
  out_min : ℚ
  out_max : ℚ
  out_ave : ℚ
  mean_square : ℚ
  deriving DecidableEq

/-- Model of `CalcMeshError`. -/
def CalcMeshError (DEM_NO_DATA : ℚ) (T : Topology) (point : Nat → ℚ × ℚ) (ms : Mesh)
    (locate : ℚ × ℚ → Option Nat → Located) (on_right_side : ℚ × ℚ → ℚ × ℚ → ℚ × ℚ → Bool)
    (distance_denormaled : ℚ × ℚ × ℚ → ℚ × ℚ × ℚ → ℚ × ℚ × ℚ → ℚ × ℚ × ℚ → ℚ)
    (elev : DEMGeo) : CalcResult :=
  let st := CalcMeshError_scan DEM_NO_DATA T point ms locate on_right_side distance_denormaled elev
  { count := st.ctr
    out_min := st.out_min
    out_max := st.out_max
    out_ave := if 0 < st.ctr then st.out_ave / st.ctr else st.out_ave
    mean_square := if 0 < st.ctr then st.std_dev / st.ctr else st.std_dev }

/-- The points of the four vertices of the sample tile. -/
def sample_point (v : Nat) : ℚ × ℚ :=
  if v = 0 then (0, 0) else if v = 1 then (1, 0) else if v = 2 then (0, 1) else (1, 1)

/-- The point location of the sample tile: face 0 holds the points under the diagonal,
face 1 those above it, and a point off the tile is in the infinite face 2. -/
def sample_locate (p : ℚ × ℚ) (_hint : Option Nat) : Located :=
  if 0 ≤ p.1 ∧ 0 ≤ p.2 ∧ p.1 + p.2 ≤ 1 then { face := 0, lt := Locate_type.FACE, li := 0 }
  else if p.1 ≤ 1 ∧ p.2 ≤ 1 ∧ 1 < p.1 + p.2 then { face := 1, lt := Locate_type.FACE, li := 0 }
  else { face := 2, lt := Locate_type.OUTSIDE_CONVEX_HULL, li := 0 }

/-- A point is on the right of the segment from `a` to `b`. -/
def sample_on_right_side (a b p : ℚ × ℚ) : Bool :=
  decide ((b.1 - a.1) * (p.2 - a.2) - (b.2 - a.2) * (p.1 - a.1) < 0)

/-- The distance from a horizontal plane through `p1` whose normal points up. -/
def sample_distance (p1 _p2 _p3 q : ℚ × ℚ × ℚ) : ℚ := q.2.2 - p1.2.2

/-- The sample mesh data with every vertex at the height 1. -/
def sample_level : Mesh :=
  { face := fun _ => { terrain := 1, feature := 0, terrain_border := [], flag := 0, orig_face := none }
    vert := fun _ => { height := 1, border_blend := [] } }

/-- A raster of one sample, of elevation 0 at the point (1/4, 1/4). -/
def sample_dem : DEMGeo :=
  { mWidth := 1, mHeight := 1, get := fun _ _ => 0, x_to_lon := fun _ => 1 / 4,
    y_to_lat := fun _ => 1 / 4 }

/-! ## The selection of raster points (`InsertDEMPoint`, `AddEdgePoints`, `CopyWetPoints`) -/

/-- The state of the point selection: the mask of used grid points (`DEMMask`, kept as
the list of the points set to true) and the triangulation.  The list `calls` is not in
the source: it records every call of `InsertDEMPoint`, latest first, as the grid point
handed over and the value the mask had for it on entry. -/
structure Selection where
  used : List (Nat × Nat)
  mesh : CDT
  calls : List ((Nat × Nat) × Bool)
  deriving DecidableEq

/-- The call `io_used.set(x, y, true)`. -/
def Selection.set_used (s : Selection) (x y : Nat) : Selection :=
  { s with used := if (x, y) ∈ s.used then s.used else (x, y) :: s.used }

/-- Model of `InsertDEMPoint`: the point of the grid point goes into the triangulation
(which yields the vertex it has when the point is there already), the vertex takes the
sample as its height and the grid point is marked used.  The mask is not read. -/
def InsertDEMPoint (in_orig : DEMGeo) (s : Selection) (x y : Nat) : Selection :=
  let p : ℚ × ℚ := (in_orig.x_to_lon x, in_orig.y_to_lat y)
  { used := (s.set_used x y).used
    mesh := (s.mesh.safe_insert p).1.set_height (s.mesh.safe_insert p).2 (in_orig.get x y)
    calls := ((x, y), decide ((x, y) ∈ s.used)) :: s.calls }

/-- The values a loop `for (v = start; v < bound; v += step)` runs through; `none` when
the fuel runs out before the loop ends (a step of 0 below the bound never ends). -/
def for_steps (bound step : Nat) : Nat → Nat → Option (List Nat)
  | 0, start => if start < bound then none else some []
  | fuel + 1, start =>
      if start < bound then (for_steps bound step fuel (start + step)).map (fun l => start :: l)
      else some []

/-- Model of `AddEdgePoints`; the mask `deriv` has the size of `orig`.  `none` when one
of its loops does not end. -/
def AddEdgePoints (orig : DEMGeo) (interval divisions : Nat)
    (has_left has_bottom has_right has_top : Bool) (s : Selection) : Option Selection :=
  let div_skip_x := (orig.mWidth - 1) / divisions
  let div_skip_y := (orig.mHeight - 1) / divisions
  match for_steps (orig.mWidth - (if has_right then div_skip_x else 0)) div_skip_x orig.mWidth
      (if has_left then div_skip_x else 0),
    for_steps orig.mHeight interval orig.mHeight 0,
    for_steps (orig.mHeight - (if has_top then div_skip_y else 0)) div_skip_y orig.mHeight
      (if has_bottom then div_skip_y else 0),
    for_steps orig.mWidth interval orig.mWidth 0 with
  | some xs, some dys, some ys, some dxs =>
      let s1 := xs.foldl (fun s x => dys.foldl (fun s dy => InsertDEMPoint orig s x dy) s) s
      let s2 := ys.foldl (fun s y => dxs.foldl (fun s dx => InsertDEMPoint orig s dx y) s) s1
      let s3 :=
        if has_left || has_right then
          (List.range orig.mHeight).foldl
            (fun s y =>
              let t := if has_left then s.set_used 0 y else s
              if has_right then t.set_used (orig.mWidth - 1) y else t)
            s2
        else s2
      some
        (if has_bottom || has_top then
          (List.range orig.mWidth).foldl
            (fun s x =>
              let t := if has_bottom then s.set_used x 0 else s
              if has_top then t.set_used x (orig.mHeight - 1) else t)
            s3
        else s3)
  | _, _, _, _ => none

/-- Model of `CopyWetPoints`.  The polygon rasterizer is outside the sources at hand:
`scan` lists, for the rows 0, 1, ... until `DoneScan()`, the ranges `[x1, x2)` that
`GetRange` yields; the loop leaves after the row `mHeight - 1`, and after row 0 in any
case.  The result is the state and the count `wet`. -/
def CopyWetPoints (in_orig : DEMGeo) (in_skip : Nat) (scan : List (List (Nat × Nat)))
    (s : Selection) : Selection × Nat :=
  ((scan.take (max in_orig.mHeight 1)).enum).foldl
    (fun (a : Selection × Nat) row =>
      row.2.foldl
        (fun (a : Selection × Nat) r =>
          (List.range' r.1 (r.2 - r.1)).foldl
            (fun (a : Selection × Nat) x =>
              (if x % in_skip = 0 ∧ row.1 % in_skip = 0 then InsertDEMPoint in_orig a.1 x row.1
                else a.1, a.2 + 1))
            a)
        a)
    (s, 0)

/-- The corner step of `TriangulateMesh`: the four corners of the raster go into the
empty triangulation, under a mask that is all false. -/
def insert_corners (orig : DEMGeo) : Selection :=
  let c1 := InsertDEMPoint orig { used := [], mesh := { vertices := [], hull := [] }, calls := [] } 0 0
  let c2 := InsertDEMPoint orig c1 (orig.mWidth - 1) 0
  let c3 := InsertDEMPoint orig c2 (orig.mWidth - 1) (orig.mHeight - 1)
  InsertDEMPoint orig c3 0 (orig.mHeight - 1)

/-- The steps of `TriangulateMesh` that hand grid points to the triangulation, in their
order: the four corners, the edge points (`interval` 20, one division) and the wet
points.  Between the corners and the edge points the constraint points and the slaved
borders go into the mesh; `burn` is what they make of it.  `none` when a loop of
`AddEdgePoints` does not end. -/
def select_points (orig : DEMGeo) (has_left has_bottom has_right has_top : Bool)
    (LOW_RES_WATER_INTERVAL : Nat) (scan : List (List (Nat × Nat))) (burn : CDT → CDT) :
    Option Selection :=
  (AddEdgePoints orig 20 1 has_left has_bottom has_right has_top
    { insert_corners orig with mesh := burn (insert_corners orig).mesh }).map
    (fun e => (CopyWetPoints orig LOW_RES_WATER_INTERVAL scan e).1)

/-- A raster of two by two samples on the corners of the sample tile. -/
def sample_dem_square : DEMGeo :=
  { mWidth := 2, mHeight := 2, get := fun x y => x + 2 * y, x_to_lon := fun x => x,
    y_to_lat := fun y => y }

/-- Every grid point handed to `InsertDEMPoint` so far is marked used. -/
def Selection.Marked (s : Selection) : Prop := ∀ c ∈ s.calls, c.1 ∈ s.used

/-! ## Burning the map into the mesh (`must_burn_he`, `ExtendLanduseEdge`, `AddConstraintPoints`) -/

/-- The vector map as the burn-in reads it (`Pmwx`, declared outside the sources at
hand).  Half-edges, faces and vertices are named by numbers.  `halfedges` is the run of
`halfedges_begin()` to `halfedges_end()`; `twin`, `face` and `target` are the accessors
of a half-edge; `incident_halfedges v` is one turn of the circulator of the half-edges
that end in `v`; `vpoint v` is the point of a vertex; `is_unbounded`, `mTerrainType` and
`zoning` (`GetZoning()`) belong to a face, and `he_MustBurn h` says that the parameters
of `h` hold `he_MustBurn`. -/
structure Pmwx where
  halfedges : List Nat
  twin : Nat → Nat
  face : Nat → Nat
  target : Nat → Nat
  incident_halfedges : Nat → List Nat
  vpoint : Nat → ℚ × ℚ
  is_unbounded : Nat → Bool
  mTerrainType : Nat → Int
  zoning : Nat → Int
  he_MustBurn : Nat → Bool

/-- The source of a half-edge: the target of its twin. -/
def Pmwx.source (M : Pmwx) (he : Nat) : Nat := M.target (M.twin he)

/-- Model of `must_burn_he` (`BURN_ROADS` is 0). -/
def must_burn_he (M : Pmwx) (he : Nat) : Bool :=
  if M.is_unbounded (M.face he) || M.is_unbounded (M.face (M.twin he)) then false
  else
    M.he_MustBurn he || M.he_MustBurn (M.twin he) ||
      decide (M.mTerrainType (M.face he) ≠ M.mTerrainType (M.face (M.twin he))) ||
      decide (M.zoning (M.face he) ≠ M.zoning (M.face (M.twin he)))

/-- The predicate `CGAL::collinear(p, q, r)`. -/
def collinear (p q r : ℚ × ℚ) : Bool :=
  decide ((q.1 - p.1) * (r.2 - p.2) - (q.2 - p.2) * (r.1 - p.1) = 0)

/-- The predicate `CGAL::collinear_are_ordered_along_line(p, q, r)` on collinear points:
`q` lies between `p` and `r`. -/
def collinear_are_ordered_along_line (p q r : ℚ × ℚ) : Bool :=
  if p.1 < q.1 then !decide (r.1 < q.1)
  else if q.1 < p.1 then !decide (q.1 < r.1)
  else if p.2 < q.2 then !decide (r.2 < q.2)
  else if q.2 < p.2 then !decide (q.2 < r.2)
  else true

/-- Model of `collinear_he`. -/
def collinear_he (M : Pmwx) (he1 he2 : Nat) : Bool :=
  if !collinear (M.vpoint (M.source he1)) (M.vpoint (M.target he1)) (M.vpoint (M.target he2)) then
    false
  else if !collinear_are_ordered_along_line (M.vpoint (M.source he1)) (M.vpoint (M.target he1))
      (M.vpoint (M.target he2)) then false
  else true

/-- The `do ... while` of `ExtendLanduseEdge` over the half-edges `circ` that end in the
target of `best`, with `new_best` so far.  `none` stands for `return best` from inside
the loop, `some nb` for the end of the turn with `new_best = nb`.  `marks` lists the
half-edges whose `mMark` is set. -/
def scan_outgoing (M : Pmwx) (marks : List Nat) (best : Nat) :
    List Nat → Option Nat → Option (Option Nat)
  | [], new_best => some new_best
  | circ :: rest, new_best =>
      if must_burn_he M (M.twin circ) = true ∧ circ ≠ best then
        if M.twin circ ∈ marks ∨ M.twin (M.twin circ) ∈ marks then none
        else if new_best ≠ none then none
        else scan_outgoing M marks best rest (some (M.twin circ))
      else scan_outgoing M marks best rest new_best

/-- Model of `ExtendLanduseEdge` from `best`: the marks it leaves and the half-edge it
returns; `none` when the fuel runs out. -/
def ExtendLanduseEdge (M : Pmwx) : Nat → List Nat → Nat → Option (List Nat × Nat)
  | 0, _, _ => none
  | fuel + 1, marks, best =>
      match scan_outgoing M (best :: marks) best (M.incident_halfedges (M.target best)) none with
      | none => some (best :: marks, best)
      | some none => some (best :: marks, best)
      | some (some new_best) =>
          if !collinear_he M best new_best then some (best :: marks, best)
          else ExtendLanduseEdge M fuel (best :: marks) new_best

/-- Model of `InsertAnyPoint`: `elev_at p` is the elevation the raster gives for `p`
(`value_linear`, or `xy_nearest` when that has no data). -/
def InsertAnyPoint (elev_at : ℚ × ℚ → ℚ) (io_mesh : CDT) (p : ℚ × ℚ) : CDT × Nat :=
  ((io_mesh.safe_insert p).1.set_height (io_mesh.safe_insert p).2 (elev_at p),
    (io_mesh.safe_insert p).2)

/-- The state of `AddConstraintPoints`: the marked half-edges, the mesh and the
constraints recorded, latest first, each as the pair of mesh vertices and the pair of
half-edges. -/
structure BurnState where
  marks : List Nat
  mesh : CDT
  outCons : List ((Nat × Nat) × (Nat × Nat))
  deriving DecidableEq

/-- The body of the second loop of `AddConstraintPoints` for the half-edge `he`; `none`
when `ExtendLanduseEdge` runs out of fuel. -/
def burn_halfedge (M : Pmwx) (elev_at : ℚ × ℚ → ℚ) (st : Option BurnState) (he : Nat) :
    Option BurnState :=
  match st with
  | none => none
  | some s =>
      if M.twin he ∉ s.marks ∧ he ∉ s.marks ∧ must_burn_he M he = true then
        match ExtendLanduseEdge M (M.halfedges.length + 1) s.marks he with
        | none => none
        | some e1 =>
            match ExtendLanduseEdge M (M.halfedges.length + 1) e1.1 (M.twin he) with
            | none => none
            | some e2 =>
                let v1 := InsertAnyPoint elev_at s.mesh (M.vpoint (M.target e2.2))
                let v2 := InsertAnyPoint elev_at v1.1 (M.vpoint (M.target e1.2))
                some { marks := e2.1, mesh := v2.1,
                       outCons := ((v1.2, v2.2), (he, M.twin he)) :: s.outCons }
      else some s

/-- Model of `AddConstraintPoints`: every mark is cleared, then every half-edge is
visited in order. -/
def AddConstraintPoints (M : Pmwx) (elev_at : ℚ × ℚ → ℚ) (outMesh : CDT)
    (outCons : List ((Nat × Nat) × (Nat × Nat))) : Option BurnState :=
  M.halfedges.foldl (burn_halfedge M elev_at)
    (some { marks := [], mesh := outMesh, outCons := outCons })

/-- A map of one edge on the rim: the half-edge 0 from vertex 0 to vertex 1 lies on the
bounded face 1 of terrain 5, its twin 1 on the unbounded face 0 of terrain 0. -/
def sample_map_rim : Pmwx :=
  { halfedges := [0, 1]
    twin := fun h => if h = 0 then 1 else 0
    face := fun h => if h = 0 then 1 else 0
    target := fun h => if h = 0 then 1 else 0
    incident_halfedges := fun v => if v = 1 then [0] else [1]
    vpoint := fun v => if v = 0 then (0, 0) else (1, 0)
    is_unbounded := fun f => decide (f = 0)
    mTerrainType := fun f => if f = 1 then 5 else 0
    zoning := fun _ => 0
    he_MustBurn := fun _ => false }

/-- A map of two edges in line, from vertex 0 = (0, 0) over vertex 1 = (1, 0) to vertex
2 = (2, 0): the half-edges 0 and 2 run forward on the bounded face 1 of terrain 5, their
twins 1 and 3 run back on the bounded face 2 of terrain 2. -/
def sample_map_coast : Pmwx :=
  { halfedges := [0, 1, 2, 3]
    twin := fun h => if h = 0 then 1 else if h = 1 then 0 else if h = 2 then 3 else 2
    face := fun h => if h = 0 ∨ h = 2 then 1 else 2
    target := fun h => if h = 0 then 1 else if h = 1 then 0 else if h = 2 then 2 else 1
    incident_halfedges := fun v => if v = 0 then [1] else if v = 1 then [0, 3] else [2]
    vpoint := fun v => (v, 0)
    is_unbounded := fun _ => false
    mTerrainType := fun f => if f = 1 then 5 else 2
    zoning := fun _ => 0
    he_MustBurn := fun _ => false }

/-! ## Marching over the mesh (`MarchHeightStart`, `MarchHeightGo`) -/

/-- The orientations of three points (`CGAL::Orientation`). -/
inductive Orientation where
  | LEFT_TURN
  | RIGHT_TURN
  | COLLINEAR
  deriving DecidableEq

/-- The predicate `Orientation_2` on exact points: the sign of the determinant of
`q - p` and `r - p`. -/
def orientation (p q r : ℚ × ℚ) : Orientation :=
  if 0 < (q.1 - p.1) * (r.2 - p.2) - (q.2 - p.2) * (r.1 - p.1) then Orientation.LEFT_TURN
  else if (q.1 - p.1) * (r.2 - p.2) - (q.2 - p.2) * (r.1 - p.1) < 0 then Orientation.RIGHT_TURN
  else Orientation.COLLINEAR

/-- The sides of a triangle a point can lie on (`CGAL::Bounded_side`). -/
inductive Bounded_side where
  | ON_BOUNDED_SIDE
  | ON_BOUNDARY
  | ON_UNBOUNDED_SIDE
  deriving DecidableEq

/-- The kernel's `Triangle_2(a, b, c).bounded_side(p)`, which lies outside the sources at
hand: the three orientations of `p` against the edges agree inside the triangle, and a
point collinear with an edge and between its ends is on the boundary. -/
def bounded_side (a b c p : ℚ × ℚ) : Bounded_side :=
  if orientation b c p = orientation a b p ∧ orientation c a p = orientation a b p then
    Bounded_side.ON_BOUNDED_SIDE
  else if (orientation a b p = Orientation.COLLINEAR ∧ collinear_are_ordered_along_line a p b = true) ∨
      (orientation b c p = Orientation.COLLINEAR ∧ collinear_are_ordered_along_line b p c = true) ∨
      (orientation c a p = Orientation.COLLINEAR ∧ collinear_are_ordered_along_line c p a = true) then
    Bounded_side.ON_BOUNDARY
  else Bounded_side.ON_UNBOUNDED_SIDE

/-- The index `CDT::ccw(i)`. -/
def ccw (i : Nat) : Nat := (i + 1) % 3

/-- The index `CDT::cw(i)`. -/
def cw (i : Nat) : Nat := (i + 2) % 3

/-- The call `f->index(v)` for a vertex `v` of `f`. -/
def Topology.index_vertex (T : Topology) (f v : Nat) : Nat :=
  if T.vertex f 0 = v then 0 else if T.vertex f 1 = v then 1 else 2

/-- The call `f->index(n)` for a neighbour `n` of `f`. -/
def Topology.index_face (T : Topology) (f n : Nat) : Nat :=
  if T.neighbor f 0 = n then 0 else if T.neighbor f 1 = n then 1 else 2

/-- The test `f->has_neighbor(n)`. -/
def Topology.has_neighbor (T : Topology) (f n : Nat) : Bool :=
  decide (T.neighbor f 0 = n) || decide (T.neighbor f 1 = n) || decide (T.neighbor f 2 = n)

/-- The test `f->has_vertex(v)`. -/
def Topology.has_vertex (T : Topology) (f v : Nat) : Bool :=
  decide (T.vertex f 0 = v) || decide (T.vertex f 1 = v) || decide (T.vertex f 2 = v)

/-- Model of `common_vertex`: the index it stores, `none` when it returns false. -/
def common_vertex (T : Topology) (t1 t2 : Nat) : Option Nat :=
  if T.has_vertex t2 (T.vertex t1 0) then some 0
  else if T.has_vertex t2 (T.vertex t1 1) then some 1
  else if T.has_vertex t2 (T.vertex t1 2) then some 2
  else none

/-- The point that `CGAL::intersection` of the segments from `P` to `Q` and from `A` to
`B` yields when they lie on two lines that cross and the crossing is on both segments;
`none` when `CGAL::assign` to a point fails.  (Where it is called, neither `A` nor `B` is
collinear with `P` and `Q`, so the segments are not on one line.) -/
def segment_intersection (P Q A B : ℚ × ℚ) : Option (ℚ × ℚ) :=
  let d := (Q.1 - P.1) * (B.2 - A.2) - (Q.2 - P.2) * (B.1 - A.1)
  if d = 0 then none
  else
    let t := ((A.1 - P.1) * (B.2 - A.2) - (A.2 - P.2) * (B.1 - A.1)) / d
    let u := ((A.1 - P.1) * (Q.2 - P.2) - (A.2 - P.2) * (Q.1 - P.1)) / d
    if 0 ≤ t ∧ t ≤ 1 ∧ 0 ≤ u ∧ u ≤ 1 then some (A.1 + u * (B.1 - A.1), A.2 + u * (B.2 - A.2))
    else none

/-- The test `do_overlap(Segment(P, Q).bbox(), p.bbox())` on exact boxes. -/
def bbox_overlap (P Q p : ℚ × ℚ) : Bool :=
  decide (min P.1 Q.1 ≤ p.1) && decide (p.1 ≤ max P.1 Q.1) &&
    decide (min P.2 Q.2 ≤ p.2) && decide (p.2 ≤ max P.2 Q.2)

/-- The state a march keeps between calls (`CDT_MarchOverTerrain_t`); `locate_face` is
`none` for the null handle the constructor sets. -/
structure CDT_MarchOverTerrain_t where
  locate_pt : ℚ × ℚ
  locate_height : ℚ
  locate_face : Option Nat
  deriving DecidableEq

/-- What a march works on: the constants, the connectivity, the points and the data of
the mesh, the infinite vertex, and the two services of the triangulation that lie
outside the sources at hand and are taken as they come: the point location `locate`
(with a face as hint) and `line_walk`, which yields `none` for the null circulator and
else the faces the circulator runs through, by the number of steps made.  `last_ht` is
the value the variable `last_ht` happens to hold while it is not assigned. -/
structure Marching where
  K : GeoConsts
  T : Topology
  point : Nat → ℚ × ℚ
  ms : Mesh
  infinite_vertex : Nat
  locate : ℚ × ℚ → Option Nat → Located
  line_walk : ℚ × ℚ → ℚ × ℚ → Option Nat → Option (Nat → Nat)
  last_ht : ℚ

/-- The call `HeightWithinTri(inMesh, f, p)` of a march. -/
def Marching.height (E : Marching) (f : Nat) (p : ℚ × ℚ) : Option ℚ :=
  HeightWithinTri E.K E.T E.point E.ms f p

/-- The test `inMesh.triangle(f).bounded_side(p) != CGAL::ON_UNBOUNDED_SIDE`. -/
def Marching.holds (E : Marching) (f : Nat) (p : ℚ × ℚ) : Bool :=
  decide (bounded_side (E.point (E.T.vertex f 0)) (E.point (E.T.vertex f 1))
    (E.point (E.T.vertex f 2)) p ≠ Bounded_side.ON_UNBOUNDED_SIDE)

/-- How a call ends: it returns, a fatal assertion stops it (`Assert`, `AssertPrintf`;
the checks of `DebugAssert` are compiled out of a release build and are not modelled), or
the fuel of the embedding is used up. -/
inductive Run (α : Type) where
  | done (a : α)
  | stopped
  | fuel
  deriving DecidableEq

/-- Model of `MarchHeightStart`; `none` when the assertion of `HeightWithinTri` stops
it. -/
def MarchHeightStart (E : Marching) (loc : ℚ × ℚ) (info : CDT_MarchOverTerrain_t) :
    Option CDT_MarchOverTerrain_t :=
  let r := E.locate loc info.locate_face
  let locate_face :=
    if E.T.is_infinite r.face = true ∧ (r.lt = Locate_type.EDGE ∨ r.lt = Locate_type.VERTEX) then
      E.T.neighbor r.face (E.T.index_vertex r.face E.infinite_vertex)
    else r.face
  match E.height locate_face loc with
  | none => none
  | some h => some { locate_pt := loc, locate_height := h, locate_face := some locate_face }

/-- One crossing of the loop of `MarchHeightGo`, from the face `now` to the face `next`
along the ray from `src` to `goal`: the values of `last_pt` and `last_ht` and whether a
point was pushed; `none` when an assertion stops the march. -/
def march_cross (E : Marching) (src goal : ℚ × ℚ) (now next : Nat) : Option ((ℚ × ℚ) × ℚ × Bool) :=
  if E.T.has_neighbor now next then
    let cross_side := E.T.index_face now next
    let seg_source := E.point (E.T.vertex now (ccw cross_side))
    let seg_target := E.point (E.T.vertex now (cw cross_side))
    if orientation src goal seg_source = Orientation.COLLINEAR then
      some (seg_source, (E.ms.vert (E.T.vertex now (ccw cross_side))).height, true)
    else if orientation src goal seg_target = Orientation.COLLINEAR then
      some (seg_target, (E.ms.vert (E.T.vertex now (cw cross_side))).height, true)
    else
      match segment_intersection src goal seg_source seg_target with
      | some last_pt =>
          if !bbox_overlap src goal last_pt then some (last_pt, E.last_ht, false)
          else
            match E.height now last_pt with
            | none => none
            | some last_ht => some (last_pt, last_ht, true)
      | none => none
  else
    match common_vertex E.T now next with
    | some cross_side =>
        some (E.point (E.T.vertex now cross_side), (E.ms.vert (E.T.vertex now cross_side)).height,
          true)
    | none => none

/-- The loop `while (1)` of `MarchHeightGo`: `circ k` is the face the circulator stands
on after `k` steps and `inter` is `intermediates`. -/
def march_loop (E : Marching) (src goal : ℚ × ℚ) (circ : Nat → Nat) :
    Nat → Nat → List (ℚ × ℚ × ℚ) → Run (CDT_MarchOverTerrain_t × List (ℚ × ℚ × ℚ))
  | 0, _, _ => Run.fuel
  | fuel + 1, k, inter =>
      if E.T.is_infinite (circ k) = false ∧ E.holds (circ k) goal = true then
        match E.height (circ k) goal with
        | none => Run.stopped
        | some last_ht =>
            Run.done ({ locate_pt := goal, locate_height := last_ht, locate_face := some (circ k) },
              inter ++ [(goal.1, goal.2, last_ht)])
      else
        match march_cross E src goal (circ k) (circ (k + 1)) with
        | none => Run.stopped
        | some c =>
            if c.1 = goal then
              Run.done ({ locate_pt := c.1, locate_height := c.2.1,
                          locate_face := some (circ (k + 1)) },
                if c.2.2 then inter ++ [(c.1.1, c.1.2, c.2.1)] else inter)
            else
              march_loop E src goal circ fuel (k + 1)
                (if c.2.2 then inter ++ [(c.1.1, c.1.2, c.2.1)] else inter)

/-- Exchange the entries at `i` and `j` (`swap(v[i], v[j])`). -/
def swap_entries {α : Type} (l : List α) (i j : Nat) : List α :=
  match l[i]?, l[j]? with
  | some a, some b => (l.set i b).set j a
  | _, _ => l

/-- The loop that turns `intermediates` around: for `n` below half the size the entries
`n` and `size - n - 1` are exchanged. -/
def reverse_in_place {α : Type} (l : List α) : List α :=
  (List.range (l.length / 2)).foldl (fun v n => swap_entries v n (v.length - n - 1)) l

/-- Model of `MarchHeightGo` with `levels` calls still allowed by `Assert(level < 2)`:
a call made at `level = 2` is stopped. -/
def MarchHeightGo_level (E : Marching) (fuel : Nat) :
    Nat → CDT_MarchOverTerrain_t → ℚ × ℚ → Run (CDT_MarchOverTerrain_t × List (ℚ × ℚ × ℚ))
  | 0, _, _ => Run.stopped
  | levels + 1, march_info, goal =>
      match E.line_walk march_info.locate_pt goal march_info.locate_face with
      | none =>
          let r := E.locate goal march_info.locate_face
          let goal_face :=
            if E.T.is_infinite r.face = true ∧ r.lt = Locate_type.EDGE then E.T.neighbor r.face r.li
            else r.face
          match E.height goal_face goal with
          | none => Run.stopped
          | some goal_height =>
              match MarchHeightGo_level E fuel levels
                  { locate_pt := goal, locate_height := goal_height, locate_face := some goal_face }
                  march_info.locate_pt with
              | Run.done res =>
                  Run.done ({ locate_pt := goal, locate_height := goal_height,
                              locate_face := some goal_face }, reverse_in_place res.2)
              | Run.stopped => Run.stopped
              | Run.fuel => Run.fuel
      | some circ =>
          march_loop E march_info.locate_pt goal circ fuel 0
            [(march_info.locate_pt.1, march_info.locate_pt.2, march_info.locate_height)]

/-- Model of `MarchHeightGo` called with `level = 0`. -/
def MarchHeightGo (E : Marching) (fuel : Nat) (march_info : CDT_MarchOverTerrain_t)
    (goal : ℚ × ℚ) : Run (CDT_MarchOverTerrain_t × List (ℚ × ℚ × ℚ)) :=
  MarchHeightGo_level E fuel 2 march_info goal

/-- The height the mesh has at the point `p`: the value of `HeightWithinTri` on a finite
face that holds `p`, or the height of a vertex that lies at `p`. -/
def MeshHeightIs (E : Marching) (p : ℚ × ℚ) (h : ℚ) : Prop :=
  (∃ f, E.T.is_infinite f = false ∧ E.holds f p = true ∧ E.height f p = some h) ∨
  (∃ f i, i < 3 ∧ E.point (E.T.vertex f i) = p ∧ (E.ms.vert (E.T.vertex f i)).height = h)

/-- Sample constants: 60 sea miles to the degree, 1852 metres to the sea mile, and a
cosine of 1 (the equator). -/
def sample_consts : GeoConsts := { DEG_TO_NM_LAT := 60, NM_TO_MTR := 1852, cos_deg := fun _ => 1 }

/-- The line walk of the sample tile from a point of face 0: the circulator stands on
face 0 and then on face 1. -/
def sample_line_walk (_p _q : ℚ × ℚ) (_f : Option Nat) : Option (Nat → Nat) :=
  some (fun k => if k = 0 then 0 else 1)

/-- The sample tile at the level height 1, as a march sees it. -/
def sample_march : Marching :=
  { K := sample_consts, T := sample_topology, point := sample_point, ms := sample_level,
    infinite_vertex := 4, locate := sample_locate, line_walk := sample_line_walk, last_ht := 0 }

/-! ## The work loop of the fade propagation, turn by turn -/

/-- One turn of the loop `while (!to_visit.empty())` of the fade propagation, for the face
`border` taken from `to_visit` and `rest` what is left of the set: the mesh and the set
after the turn. -/
def fade_turn (W : Tables) (T : Topology) (DistPtToTri : Nat → Nat → ℚ) (tri : Nat)
    (layer visited : Int) (ms : Mesh) (border : Nat) (rest : List Nat) : Mesh × List Nat :=
  let r := if border ≠ tri then fade_face W T DistPtToTri tri layer ms border else (ms, true)
  let ms2 := r.1.set_flag border visited
  (ms2,
    if r.2 then
      [0, 1, 2].foldl
        (fun tv i =>
          if fade_wants W T ms2 layer visited (T.neighbor border i) then
            handle_set_insert tv (T.neighbor border i)
          else tv)
        rest
    else rest)

/-- The loop of `fade_loop` with its end made explicit: `none` when the fuel runs out
before `to_visit` is empty, otherwise the mesh and the faces the loop took from
`to_visit`, in the order in which it took them.  The record of the faces is not in the
source; it is kept to count how often a face is processed. -/
def fade_run (W : Tables) (T : Topology) (DistPtToTri : Nat → Nat → ℚ) (tri : Nat)
    (layer visited : Int) : Nat → Mesh → List Nat → List Nat → Option (Mesh × List Nat)
  | _, ms, [], log => some (ms, log)
  | 0, _, _ :: _, _ => none
  | fuel + 1, ms, border :: rest, log =>
      fade_run W T DistPtToTri tri layer visited fuel
        (fade_turn W T DistPtToTri tri layer visited ms border rest).1
        (fade_turn W T DistPtToTri tri layer visited ms border rest).2 (log ++ [border])

/-- A strip of three triangles.  The vertices are 0 = (0, 0), 1 = (1, 0), 2 = (0, 1),
3 = (1, 1) and 4 = (2, 1); face 0 has the vertices 0, 1, 2, face 1 the vertices 1, 3, 2
and face 2 the vertices 1, 4, 3; face 1 lies between face 0 and face 2, and the faces 3
to 7 are infinite. -/
def sample_strip : Topology :=
  { finite_faces := [0, 1, 2]
    vertex := fun f i =>
      if f = 0 then (if i = 0 then 0 else if i = 1 then 1 else 2)
      else if f = 1 then (if i = 0 then 1 else if i = 1 then 3 else 2)
      else if f = 2 then (if i = 0 then 1 else if i = 1 then 4 else 3) else 5
    neighbor := fun f i =>
      if f = 0 then (if i = 0 then 1 else if i = 1 then 3 else 4)
      else if f = 1 then (if i = 0 then 5 else if i = 1 then 0 else 2)
      else if f = 2 then (if i = 0 then 6 else if i = 1 then 1 else 7) else 0
    is_constrained := fun _ _ => false
    incident_faces := fun v =>
      if v = 0 then [0, 3, 4] else if v = 1 then [0, 1, 2, 4, 7]
      else if v = 2 then [0, 1, 3, 5] else if v = 3 then [1, 2, 5, 6] else [2, 6, 7]
    hull_edge_face := fun _ _ => none
    normal_z := fun _ => 1 }

/-- The distances in metres from the vertices of the strip to its face 0: the vertices
0, 1 and 2 are on it, vertex 3 is 50 away and vertex 4 is 150 away. -/
def sample_strip_dist (v _f : Nat) : ℚ := if v < 3 then 0 else if v = 3 then 50 else 150

/-- A mesh on the strip: face 0 has the terrain 5, the faces 1 and 2 the terrain 1,
and the vertices 1, 2 and 3 of face 1 are saturated for the terrain 5 already (as the
rebasing of a side leaves them). -/
def sample_strip_mesh : Mesh :=
  { face := fun f =>
      { terrain := if f = 0 then 5 else 1, feature := 0, terrain_border := [], flag := 0,
        orig_face := none }
    vert := fun v =>
      { height := 0, border_blend := if 1 ≤ v ∧ v ≤ 3 then [(5, 1)] else [] } }

/-! ## Saturated borders -/

/-- A border id is saturated on a face when the blend of each of the three vertices of
the face reads exactly 1.0 for it (the test of the optimisation pass). -/
def saturated (T : Topology) (ms : Mesh) (f : Nat) (b : Int) : Bool :=
  decide (ms.blend (T.vertex f 0) b = 1) && decide (ms.blend (T.vertex f 1) b = 1) &&
    decide (ms.blend (T.vertex f 2) b = 1)

/-- What the optimisation pass has reached on the face `f` in the state `m`, for the
mesh `ms` the pass started from: no border left on `f` is saturated and of higher
priority than the base; and `f` is as it was, or its base is a saturated border it
carried, of higher priority than the old base, with no saturated border it carried of
higher priority still, and no longer in its border set. -/
def OptimizeDone (W : Tables) (T : Topology) (ms : Mesh) (f : Nat) (m : Mesh) : Prop :=
  (∀ b ∈ (m.face f).terrain_border, saturated T ms f b = true →
    W.LowerPriorityNaturalTerrain (m.face f).terrain b = false) ∧
  (m.face f = ms.face f ∨
    ((m.face f).terrain ∈ (ms.face f).terrain_border ∧
      saturated T ms f (m.face f).terrain = true ∧
      W.LowerPriorityNaturalTerrain (ms.face f).terrain (m.face f).terrain = true ∧
      (∀ b ∈ (ms.face f).terrain_border, saturated T ms f b = true →
        W.LowerPriorityNaturalTerrain (m.face f).terrain b = false) ∧
      (m.face f).terrain ∉ (m.face f).terrain_border))

/-! ## The chain of an extension, the plane of a face -/

/-- The vector of a half-edge: the point of its target minus the point of its source. -/
def he_vector (M : Pmwx) (he : Nat) : ℚ × ℚ :=
  ((M.vpoint (M.target he)).1 - (M.vpoint (M.source he)).1,
    (M.vpoint (M.target he)).2 - (M.vpoint (M.source he)).2)

/-- In line and in the same direction, in the words of the description: the vector `e`
is a positive multiple of the vector `d`. -/
def same_direction (d e : ℚ × ℚ) : Prop :=
  ∃ t : ℚ, 0 < t ∧ e.1 = t * d.1 ∧ e.2 = t * d.2

/-- The step of `ExtendLanduseEdge` from `best` to `nb`, with `marks` the half-edges
marked when `nb` is chosen: `nb` starts where `best` ends, must be burnt, is not marked
and neither is its twin, is the only half-edge that leaves the target of `best`, must be
burnt and is not the way back along `best`, and lies in line with `best` in the same
direction: the vector of `nb`, which starts where `best` ends, is a positive multiple of
the vector of `best`. -/
def extend_step (M : Pmwx) (marks : List Nat) (best nb : Nat) : Prop :=
  M.source nb = M.target best ∧ must_burn_he M nb = true ∧ nb ∉ marks ∧ M.twin nb ∉ marks ∧
  (∀ circ ∈ M.incident_halfedges (M.target best),
    must_burn_he M (M.twin circ) = true → circ ≠ best → M.twin circ = nb) ∧
  same_direction (he_vector M best) (he_vector M nb)

/-- The chains of `ExtendLanduseEdge`: `ExtendChain M marks start chain e` says that
`chain` runs from `start` to `e` by steps of `extend_step`, each taken with the marks
that were there at the start and those of the half-edges of the chain before it. -/
inductive ExtendChain (M : Pmwx) : List Nat → Nat → List Nat → Nat → Prop
  | stop (marks : List Nat) (best : Nat) : ExtendChain M marks best [best] best
  | next (marks : List Nat) (best nb : Nat) (chain : List Nat) (e : Nat) :
      extend_step M (best :: marks) best nb → ExtendChain M (best :: marks) nb chain e →
      ExtendChain M marks best (best :: chain) e

/-- The sample land mesh with the height of vertex `v` equal to `v`: on face 0 of the
sample tile the heights are 0 at (0, 0), 1 at (1, 0) and 2 at (0, 1). -/
def sample_slope : Mesh :=
  { face := fun _ => { terrain := 1, feature := 0, terrain_border := [], flag := 0, orig_face := none }
    vert := fun v => { height := v, border_blend := [] } }

/-! ## The assertions at the start of `TriangulateMesh` -/

/-- The start of `TriangulateMesh` up to the corner step: the four assertions on the
elevation raster, in the order of the source, and then the insertion of the four
corners.  `none` when an assertion stops the program. -/
def TriangulateMesh_corners (DEM_NO_DATA : ℚ) (orig : DEMGeo) : Option Selection :=
  if orig.get 0 0 = DEM_NO_DATA then none
  else if orig.get (orig.mWidth - 1) (orig.mHeight - 1) = DEM_NO_DATA then none
  else if orig.get 0 (orig.mHeight - 1) = DEM_NO_DATA then none
  else if orig.get (orig.mWidth - 1) (orig.mHeight - 1) = DEM_NO_DATA then none
  else some (insert_corners orig)

/-- A raster of two by two samples on the corners of the sample tile whose sample at the
corner (1, 0) is the no-data value -32768; the other samples are 0. -/
def sample_dem_hole : DEMGeo :=
  { mWidth := 2, mHeight := 2, get := fun x y => if x = 1 ∧ y = 0 then -32768 else 0,
    x_to_lon := fun x => x, y_to_lat := fun y => y }

/-! ## Integer attributes of the XML writer (`WEDCore/WED_XMLWriter.cpp`) -/

/-- A value as an `int` holds it: reduced to the signed range of 32 bits. -/
def to_int32 (x : Int) : Int := (x + 2147483648) % 4294967296 - 2147483648

/-- The expression `((long long) value * 214748365) >> 31` of `add_attr_int`, stored in
an `int`: the product in 64 bits, shifted right by 31 bits (the floor of the quotient by
2^31). -/
def mul_shift (value : Int) : Int := to_int32 ((value * 214748365) / 2147483648)

/-- The character `'0' + this_digit` as a `char` holds it. -/
def digit_char (this_digit : Int) : Char := Char.ofNat (((48 + this_digit) % 256).toNat)

/-- The loop `while (value != 0)` of `add_attr_int`, which writes the characters from
the end of the buffer `c` towards its start; `acc` is what has been written.  The fuel
is the room left in the buffer: `none` stands for a write before its start. -/
def add_attr_int_loop : Nat → Int → List Char → Option (List Char)
  | 0, value, acc => if value = 0 then some acc else none
  | room + 1, value, acc =>
      if value = 0 then some acc
      else
        add_attr_int_loop room (mul_shift value)
          (digit_char (to_int32 (value - to_int32 (10 * mul_shift value))) :: acc)

/-- Model of `WED_XMLElement::add_attr_int` (`FAST_SPRINTF_REPLACEMENTS` is 1): the
attributes of the element after the call, `none` when a write misses the buffer of 12
characters.  The two `DebugAssert` are not part of a release build. -/
def add_attr_int (attrs : List (String × String)) (name : String) (value : Int) :
    Option (List (String × String)) :=
  if value = 0 then some (attrs ++ [(name, "0")])
  else
    match add_attr_int_loop 12 (if value < 0 then to_int32 (-value) else value) [] with
    | none => none
    | some digits =>
        if value < 0 then
          if digits.length < 12 then some (attrs ++ [(name, String.mk ('-' :: digits))]) else none
        else some (attrs ++ [(name, String.mk digits)])

/-! ## Paths and the record of exported files (`WEDImportExport/WED_OrthoExport.cpp`) -/

/-- Model of `is_dir_sep`: the separators are the slash, the colon and the backslash
(the character 92). -/
def is_dir_sep (c : Char) : Bool := c = '/' || c = ':' || c = Char.ofNat 92

/-- One turn of the `for` loop of `is_backout_path` that finds work: the first component
`".."` that follows a component other than `".."` is erased together with that
component; `none` when the loop finds no such pair. -/
def cancel_first : List String → Option (List String)
  | a :: b :: rest =>
      if b = ".." ∧ a ≠ ".." then some rest
      else (cancel_first (b :: rest)).map (fun l => a :: l)
  | _ => none

/-- The loop `do ... while (did_work)` of `is_backout_path`; `none` when the fuel runs
out. -/
def cancel_loop : Nat → List String → Option (List String)
  | 0, comps =>
      match cancel_first comps with
      | none => some comps
      | some _ => none
  | fuel + 1, comps =>
      match cancel_first comps with
      | none => some comps
      | some c => cancel_loop fuel c

/-- Model of `is_backout_path`.  `tokenize_string_func` is declared outside the sources
at hand; `tokenize p` stands for the components it yields for the path `p` with the
separators of `is_dir_sep`.  `none` when the loop runs out of fuel. -/
def is_backout_path (tokenize : (Char → Bool) → String → List String) (p : String) :
    Option Bool :=
  (cancel_loop ((tokenize is_dir_sep p).filter (fun c => c ≠ ".")).length
    ((tokenize is_dir_sep p).filter (fun c => c ≠ "."))).map
    (fun comps => comps.any (fun c => decide (c = "..")))

/-- The scan of the components of a path with a depth counter, after the words of the
description of `is_backout_path`: an ordinary component adds one to the depth, a `".."`
met at a positive depth takes one from it, and a `".."` met at depth 0 climbs above the
starting directory. -/
def climbs_above : Nat → List String → Bool
  | _, [] => false
  | depth, c :: rest =>
      if c = ".." then (if depth = 0 then true else climbs_above (depth - 1) rest)
      else climbs_above (depth + 1) rest

/-- The components of a list of characters between separators, the empty ones left
out; `cur` holds the characters of the component at hand, latest first. -/
def split_components (sep : Char → Bool) : List Char → List Char → List String
  | [], cur => if cur = [] then [] else [String.mk cur.reverse]
  | c :: rest, cur =>
      if sep c then
        (if cur = [] then [] else [String.mk cur.reverse]) ++ split_components sep rest []
      else split_components sep rest (c :: cur)

/-- A tokenizer for samples: the components between separators, the empty ones left
out. -/
def sample_tokenize (sep : Char → Bool) (p : String) : List String :=
  split_components sep p.toList []

/-- The part of `DSF_export_info_t` that remembers file names: the set `previous_dsfs`
(kept as a list without repeats) and the string `new_dsfs`.  Strings are lists of
characters. -/
structure DSF_export_info_t where
  previous_dsfs : List (List Char)
  new_dsfs : List Char
  deriving DecidableEq

/-- The call `previous_dsfs.insert(s)`. -/
def string_set_insert (s : List (List Char)) (x : List Char) : List (List Char) :=
  if x ∈ s then s else s ++ [x]

/-- The loop of the constructor of `DSF_export_info_t` over the positions of the string
`dsf` read from the preference `export/last`: at a space and at the last position,
`pos` is advanced and the substring from `last_pos` of the length `pos - last_pos` goes
into the set.  Every turn advances `pos`; the fuel is the length of the string. -/
def parse_last (dsf : List Char) : Nat → Nat → Nat → List (List Char) → List (List Char)
  | 0, _, _, prev => prev
  | fuel + 1, pos, last_pos, prev =>
      if pos < dsf.length then
        if dsf[pos]? = some ' ' ∨ pos = dsf.length - 1 then
          parse_last dsf fuel (pos + 1 + 1) (pos + 1)
            (string_set_insert prev ((dsf.drop last_pos).take (pos + 1 - last_pos)))
        else parse_last dsf fuel (pos + 1) last_pos prev
      else prev

/-- Model of the constructor `DSF_export_info_t::DSF_export_info_t` for a document whose
preference `export/last` holds `dsf`. -/
def DSF_export_info_t.init (dsf : List Char) : DSF_export_info_t :=
  { previous_dsfs := parse_last dsf dsf.length 0 0 [], new_dsfs := [] }

/-- Model of `DSF_export_info_t::mark_written`. -/
def DSF_export_info_t.mark_written (e : DSF_export_info_t) (file : List Char) :
    DSF_export_info_t :=
  { previous_dsfs := e.previous_dsfs.erase file
    new_dsfs :=
      if e.new_dsfs.length < 200 then
        (if e.new_dsfs ≠ [] then e.new_dsfs ++ [' '] else e.new_dsfs) ++ file
      else e.new_dsfs }

/-! ## Distances and directions in the words of the description -/

/-- The sample tile as a march sees it, with a point location that reports a point of
the left side of the tile (x = 0) as lying on an edge of the infinite face 2. -/
def sample_march_hull : Marching :=
  { sample_march with
    locate := fun p hint =>
      if p.1 = 0 then { face := 2, lt := Locate_type.EDGE, li := 0 } else sample_locate p hint }

/-! ## A sample for the regions of the terrain flood -/

/-- A strip of five triangles: the finite face `f` (0 to 4) has the vertices `f`, `f + 1`
and `f + 2`, the face `f + 1` across the edge opposite its vertex 0 and the face `f - 1`
across the edge opposite its vertex 2; every other neighbour is an infinite face (5 to
11).  The edge between the faces 0 and 1 and the edge between the faces 3 and 4 are
constrained, so the finite faces fall into the regions {0}, {1, 2, 3} and {4}. -/
def sample_topology_strip : Topology :=
  { finite_faces := [0, 1, 2, 3, 4]
    vertex := fun f i => f + i
    neighbor := fun f i =>
      if 5 ≤ f then 0
      else if i = 0 then (if f = 4 then 10 else f + 1)
      else if i = 2 then (if f = 0 then 11 else f - 1)
      else 5 + f
    is_constrained := fun f i =>
      decide ((f = 0 ∧ i = 0) ∨ (f = 1 ∧ i = 2) ∨ (f = 3 ∧ i = 0) ∨ (f = 4 ∧ i = 2))
    incident_faces := fun v =>
      (List.range 12).filter (fun g =>
        if g < 5 then decide (g ≤ v ∧ v ≤ g + 2)
        else if g < 10 then decide (v = g - 5 ∨ v = g - 3)
        else if g = 10 then decide (v = 5 ∨ v = 6) else decide (v = 0 ∨ v = 1))
    hull_edge_face := fun a b =>
      if b = a + 2 ∧ a < 5 then some a else if a = 0 ∧ b = 1 then some 0
      else if a = 5 ∧ b = 6 then some 4 else none
    normal_z := fun _ => 1 }

/-- The region of a finite face of the sample strip: 0 for the face 0, 1 for the faces
1 to 3, 2 for the face 4; an infinite face is a region of its own. -/
def sample_strip_region (f : Nat) : Nat :=
  if f = 0 then 0 else if f ≤ 3 then 1 else if f = 4 then 2 else f

/-! ## A sample for the extension at a turn -/

/-- A map of two edges that meet at a right angle, from vertex 0 = (0, 0) over vertex
1 = (1, 0) to vertex 2 = (1, 1): the half-edges 0 and 2 run forward on the bounded face 1
of terrain 5, their twins 1 and 3 run back on the bounded face 2 of terrain 2. -/
def sample_map_turn : Pmwx :=
  { sample_map_coast with
    vpoint := fun v => if v = 2 then (1, 1) else (v, 0) }

/-! ## A sample for the burn-in of the map -/

/-- A map of a square cut by a diagonal: the vertices 0 = (0, 0), 1 = (1, 0), 2 = (1, 1)
and 3 = (0, 1); the half-edges 0 (from 0 to 1), 2 (from 1 to 2) and 8 (from 2 to 0) go
round the bounded face 1 of terrain 5, the half-edges 4 (from 2 to 3), 6 (from 3 to 0)
and 9 (from 0 to 2) round the bounded face 2 of terrain 2, and the twins 1, 3, 5 and 7 of
the four sides lie on the unbounded face 0. -/
def sample_map_square : Pmwx :=
  { halfedges := [0, 1, 2, 3, 4, 5, 6, 7, 8, 9]
    twin := fun h => if h % 2 = 0 then h + 1 else h - 1
    face := fun h => if h = 0 ∨ h = 2 ∨ h = 8 then 1 else if h = 4 ∨ h = 6 ∨ h = 9 then 2 else 0
    target := fun h =>
      if h = 0 ∨ h = 3 then 1 else if h = 2 ∨ h = 5 ∨ h = 9 then 2
      else if h = 4 ∨ h = 7 then 3 else 0
    incident_halfedges := fun v =>
      if v = 0 then [1, 6, 8] else if v = 1 then [0, 3] else if v = 2 then [2, 5, 9] else [4, 7]
    vpoint := fun v => if v = 0 then (0, 0) else if v = 1 then (1, 0) else if v = 2 then (1, 1) else (0, 1)
    is_unbounded := fun f => decide (f = 0)
    mTerrainType := fun f => if f = 1 then 5 else if f = 2 then 2 else 0
    zoning := fun _ => 0
    he_MustBurn := fun _ => false }

/-! ## Lemmas on the reader -/

theorem read_blends_rest_le (L : List Char → Int) :
    ∀ (lines : List (List Char)) (sc : Scratch) (dest : mesh_match_t)
      (s : Scratch × mesh_match_t) (rest : List (List Char)),
      read_blends L lines sc dest = Outcome.ok s rest → rest.length ≤ lines.length := by
  intro lines
  induction lines with
  | nil =>
    intro sc dest s rest h
    simp only [read_blends] at h
    split at h
    · injection h with _ h2; subst h2; simp
    · cases h
  | cons buf tl ih =>
    intro sc dest s rest h
    simp only [read_blends] at h
    split at h
    · injection h with _ h2; subst h2; simp
    · split at h
      · cases h
      · have := ih _ _ _ _ h
        simp only [List.length_cons]; omega

theorem read_borders_rest_le (L : List Char → Int) :
    ∀ (lines : List (List Char)) (sc : Scratch) (dest : mesh_match_t)
      (s : Scratch × mesh_match_t) (rest : List (List Char)),
      read_borders L lines sc dest = Outcome.ok s rest → rest.length ≤ lines.length := by
  intro lines
  induction lines with
  | nil =>
    intro sc dest s rest h
    simp only [read_borders] at h
    split at h
    · injection h with _ h2; subst h2; simp
    · cases h
  | cons buf tl ih =>
    intro sc dest s rest h
    simp only [read_borders] at h
    split at h
    · injection h with _ h2; subst h2; simp
    · split at h
      · cases h
      · have := ih _ _ _ _ h
        simp only [List.length_cons]; omega

theorem read_blends_ne_fuel (L : List Char → Int) :
    ∀ (lines : List (List Char)) (sc : Scratch) (dest : mesh_match_t),
      read_blends L lines sc dest ≠ Outcome.fuel := by
  intro lines
  induction lines with
  | nil => intro sc dest; simp only [read_blends]; split <;> simp
  | cons buf tl ih =>
    intro sc dest; simp only [read_blends]; split
    · simp
    · split
      · simp
      · exact ih _ _

theorem read_borders_ne_fuel (L : List Char → Int) :
    ∀ (lines : List (List Char)) (sc : Scratch) (dest : mesh_match_t),
      read_borders L lines sc dest ≠ Outcome.fuel := by
  intro lines
  induction lines with
  | nil => intro sc dest; simp only [read_borders]; split <;> simp
  | cons buf tl ih =>
    intro sc dest; simp only [read_borders]; split
    · simp
    · split
      · simp
      · exact ih _ _

/-- A turn of `while (go)` reads at least two chunks, and fuel beyond the number of
chunks is never used up. -/
theorem read_side_spec (L : List Char → Int) :
    ∀ (fuel : Nat) (lines : List (List Char)) (sc : Scratch) (dest : mesh_match_t),
      (∀ s rest, read_side L fuel lines sc dest = Outcome.ok s rest → rest.length + 2 ≤ lines.length) ∧
      (lines.length < fuel → read_side L fuel lines sc dest ≠ Outcome.fuel) := by
  intro fuel
  induction fuel with
  | zero =>
    intro lines sc dest
    refine ⟨?_, ?_⟩
    · intro s rest h; simp [read_side] at h
    · intro h; omega
  | succ n ih =>
    intro lines sc dest
    cases lines with
    | nil => simp [read_side]
    | cons buf l1 =>
      cases l1 with
      | nil => simp [read_side]
      | cons buf2 l2 =>
        simp only [read_side]
        split
        · simp
        · simp
        · rename_i hf; exact absurd hf (read_blends_ne_fuel L _ _ _)
        · rename_i s3 l3 h3
          have hl3 := read_blends_rest_le L _ _ _ _ _ h3
          split
          · cases l3 with
            | nil => simp
            | cons buf3 l4 =>
              cases l4 with
              | nil => simp
              | cons buf4 l5 =>
                simp only []
                split
                · simp
                · simp
                · rename_i hf; exact absurd hf (read_borders_ne_fuel L _ _ _)
                · rename_i s5 l6 h5
                  have hl6 := read_borders_rest_le L _ _ _ _ _ h5
                  have := ih l6 s5.1 s5.2
                  simp only [List.length_cons] at hl3 hl6 ⊢
                  refine ⟨?_, ?_⟩
                  · intro s rest h
                    have := this.1 s rest h
                    omega
                  · intro hlt
                    exact this.2 (by omega)
          · refine ⟨?_, ?_⟩
            · intro s rest h
              injection h with _ h2
              subst h2
              simp only [List.length_cons]; omega
            · intro _; simp

theorem read_sides_ne_fuel (L : List Char → Int) (fuel : Nat) (lines : List (List Char))
    (sc : Scratch) (h : lines.length < fuel) : read_sides L fuel lines sc ≠ Outcome.fuel := by
  unfold read_sides
  split
  · simp
  · simp
  · rename_i hf; exact absurd hf ((read_side_spec L fuel lines sc _).2 h)
  · rename_i s0 l0 h0
    have e0 := (read_side_spec L fuel lines sc _).1 _ _ h0
    split
    · simp
    · simp
    · rename_i hf; exact absurd hf ((read_side_spec L fuel l0 _ _).2 (by omega))
    · rename_i s1 l1 h1
      have e1 := (read_side_spec L fuel l0 _ _).1 _ _ h1
      split
      · simp
      · simp
      · rename_i hf; exact absurd hf ((read_side_spec L fuel l1 _ _).2 (by omega))
      · rename_i s2 l2 h2
        have e2 := (read_side_spec L fuel l1 _ _).1 _ _ h2
        split
        · simp
        · simp
        · rename_i hf; exact absurd hf ((read_side_spec L fuel l2 _ _).2 (by omega))
        · simp


theorem read_blends_suffix (L : List Char → Int) :
    ∀ (lines : List (List Char)) (sc : Scratch) (dest : mesh_match_t)
      (s : Scratch × mesh_match_t) (rest : List (List Char)),
      read_blends L lines sc dest = Outcome.ok s rest → ∃ used, lines = used ++ rest := by
  intro lines
  induction lines with
  | nil =>
    intro sc dest s rest h
    simp only [read_blends] at h
    split at h
    · injection h with _ h2; subst h2; exact ⟨[], rfl⟩
    · cases h
  | cons buf tl ih =>
    intro sc dest s rest h
    simp only [read_blends] at h
    split at h
    · injection h with _ h2; subst h2; exact ⟨[], rfl⟩
    · split at h
      · cases h
      · obtain ⟨used, hu⟩ := ih _ _ _ _ h
        exact ⟨buf :: used, by rw [hu]; rfl⟩

theorem read_borders_suffix (L : List Char → Int) :
    ∀ (lines : List (List Char)) (sc : Scratch) (dest : mesh_match_t)
      (s : Scratch × mesh_match_t) (rest : List (List Char)),
      read_borders L lines sc dest = Outcome.ok s rest → ∃ used, lines = used ++ rest := by
  intro lines
  induction lines with
  | nil =>
    intro sc dest s rest h
    simp only [read_borders] at h
    split at h
    · injection h with _ h2; subst h2; exact ⟨[], rfl⟩
    · cases h
  | cons buf tl ih =>
    intro sc dest s rest h
    simp only [read_borders] at h
    split at h
    · injection h with _ h2; subst h2; exact ⟨[], rfl⟩
    · split at h
      · cases h
      · obtain ⟨used, hu⟩ := ih _ _ _ _ h
        exact ⟨buf :: used, by rw [hu]; rfl⟩

/-- A side that is read to its end has used up a chunk that starts with `VC`. -/
theorem read_side_uses_VC (L : List Char → Int) :
    ∀ (fuel : Nat) (lines : List (List Char)) (sc : Scratch) (dest : mesh_match_t)
      (s : Scratch × mesh_match_t) (rest : List (List Char)),
      read_side L fuel lines sc dest = Outcome.ok s rest →
      ∃ used, lines = used ++ rest ∧ ∃ c ∈ used, MATCH c "VC".toList = true := by
  intro fuel
  induction fuel with
  | zero => intro lines sc dest s rest h; simp [read_side] at h
  | succ n ih =>
    intro lines sc dest s rest h
    cases lines with
    | nil => simp [read_side] at h
    | cons buf l1 =>
      cases l1 with
      | nil => simp [read_side] at h
      | cons buf2 l2 =>
        simp only [read_side] at h
        split at h
        · cases h
        · cases h
        · cases h
        · rename_i s3 l3 h3
          obtain ⟨u1, hu1⟩ := read_blends_suffix L _ _ _ _ _ h3
          split at h
          · cases l3 with
            | nil => simp at h
            | cons buf3 l4 =>
              cases l4 with
              | nil => simp at h
              | cons buf4 l5 =>
                simp only [] at h
                split at h
                · cases h
                · cases h
                · cases h
                · rename_i s5 l6 h5
                  obtain ⟨u2, hu2⟩ := read_borders_suffix L _ _ _ _ _ h5
                  obtain ⟨u3, hu3, c, hc, hm⟩ := ih _ _ _ _ _ h
                  refine ⟨buf :: buf2 :: (u1 ++ buf3 :: buf4 :: (u2 ++ u3)), ?_, c, ?_, hm⟩
                  · rw [hu1, hu2, hu3]; simp
                  · simp [hc]
          · rename_i hgo
            injection h with _ h2
            subst h2
            refine ⟨buf :: buf2 :: u1, by rw [hu1]; rfl, buf, List.mem_cons_self _ _, ?_⟩
            simpa using hgo

/-- Four sides that are read have used up four chunks that start with `VC`. -/
theorem read_sides_uses_four_VC (L : List Char → Int) (fuel : Nat) (lines : List (List Char))
    (sc : Scratch) (r : LoadResult) (rest : List (List Char))
    (h : read_sides L fuel lines sc = Outcome.ok r rest) :
    4 ≤ lines.countP (fun c => MATCH c "VC".toList) := by
  unfold read_sides at h
  split at h
  · cases h
  · cases h
  · cases h
  · rename_i s0 l0 h0
    obtain ⟨u0, e0, c0, m0, p0⟩ := read_side_uses_VC L _ _ _ _ _ _ h0
    split at h
    · cases h
    · cases h
    · cases h
    · rename_i s1 l1 h1
      obtain ⟨u1, e1, c1, m1, p1⟩ := read_side_uses_VC L _ _ _ _ _ _ h1
      split at h
      · cases h
      · cases h
      · cases h
      · rename_i s2 l2 h2
        obtain ⟨u2, e2, c2, m2, p2⟩ := read_side_uses_VC L _ _ _ _ _ _ h2
        split at h
        · cases h
        · cases h
        · cases h
        · rename_i s3 l3 h3
          obtain ⟨u3, e3, c3, m3, p3⟩ := read_side_uses_VC L _ _ _ _ _ _ h3
          rw [e0, e1, e2, e3]
          simp only [List.countP_append]
          have k0 : 0 < u0.countP (fun c => MATCH c "VC".toList) :=
            List.countP_pos_iff.mpr ⟨c0, m0, p0⟩
          have k1 : 0 < u1.countP (fun c => MATCH c "VC".toList) :=
            List.countP_pos_iff.mpr ⟨c1, m1, p1⟩
          have k2 : 0 < u2.countP (fun c => MATCH c "VC".toList) :=
            List.countP_pos_iff.mpr ⟨c2, m2, p2⟩
          have k3 : 0 < u3.countP (fun c => MATCH c "VC".toList) :=
            List.countP_pos_iff.mpr ⟨c3, m3, p3⟩
          omega

/-- The slip in the `VC` branch: a chunk that starts with `VC` is scanned with the
format of the `VT` line, so nothing is converted; the vertex pushed takes the
coordinates left in `x` and `y` by the line before and the height 0. -/
theorem push_vertex_of_VC (rest : List Char) (sc : Scratch) (dest : mesh_match_t) :
    push_vertex ('V' :: 'C' :: rest) sc dest =
      (sc, { dest with vertices := dest.vertices ++
        [{ loc := (sc.x, sc.y), height := 0, blending := [], buddy := none }] }) := by
  simp [push_vertex, sscanf, scanned_num, isspace]

/-- The reader returns false with cleared records, or runs into undefined behaviour,
when the file cannot be opened, when a call of `fgets` meets the end of the file before
the four sides have been read, and whenever the text holds fewer than four chunks that
start with `VC`, the mark of the last vertex of a side. -/
theorem load_match_file_bails_or_undefined (L : List Char → Int) (sc : Scratch)
    (file : Option (List Char)) :
    (file = none → load_match_file L sc file = some LoadResult.bail) ∧
    (∀ text, file = some text →
      read_sides L ((fgets_chunks 80 text []).length + 1) (fgets_chunks 80 text []) sc =
        Outcome.eof → load_match_file L sc file = some LoadResult.bail) ∧
    (∀ text, file = some text →
      (fgets_chunks 80 text []).countP (fun c => MATCH c "VC".toList) < 4 →
      load_match_file L sc file = some LoadResult.bail ∨ load_match_file L sc file = none) := by
  refine ⟨?_, ?_, ?_⟩
  · intro h; subst h; rfl
  · intro text h he
    subst h
    simp only [load_match_file, he]
  · intro text h he
    subst h
    simp only [load_match_file]
    cases hr : read_sides L ((fgets_chunks 80 text []).length + 1) (fgets_chunks 80 text []) sc with
    | eof => exact Or.inl rfl
    | undefined => exact Or.inr rfl
    | fuel => exact Or.inl rfl
    | ok r rest =>
      exfalso
      have := read_sides_uses_four_VC L _ _ sc r rest hr
      omega

/-! ## Claims on `load_match_file` -/

set_option maxRecDepth 100000 in
/-- C1 (the code departs from the claim): the text written for the sample side, a `VT`
vertex at (0, 0) of height 5 and a final `VC` vertex at (0, 1) of height 7, is read back
with `true`, but the final vertex of the record is at (0, 0) with height 0: the `VC`
line is scanned with the format of the `VT` line.  The record read is not the one
written. -/
theorem load_match_file_final_vertex_lost :
    (load_match_file sample_LookupToken sample_scratch
        (some (write_border_file sample_FetchTokenString
          sample_side sample_side sample_side sample_side))).map (fun r => r.ok) = some true ∧
    (load_match_file sample_LookupToken sample_scratch
        (some (write_border_file sample_FetchTokenString
          sample_side sample_side sample_side sample_side))).map (fun r => r.outLeft) =
      some { vertices := [{ loc := (0, 0), height := 5, blending := [(1, 1)], buddy := none },
                          { loc := (0, 0), height := 0, blending := [(2, 1 / 2)], buddy := none }],
             edges := [{ base := 1, borders := [2], buddy := none }] } ∧
    (load_match_file sample_LookupToken sample_scratch
        (some (write_border_file sample_FetchTokenString
          sample_side sample_side sample_side sample_side))).map (fun r => r.outLeft) ≠
      some sample_side := by
  decide!

set_option maxRecDepth 100000 in
/-- C2 (the code departs from the claim): the text of `file_blend_without_vertex` ends
before a single side has been read (it holds no chunk that starts with `VC`), so the
claim has `load_match_file` return false with four empty records.  Its first line starts
with neither `VT` nor `VC` and pushes no vertex, its second line sets `count` to 1, and
the `VB` line read next is stored through `dest->vertices.back()` of the empty vector:
the behaviour of the call is undefined, it does not return false by way of `bail`. -/
theorem load_match_file_undefined_on_blend_without_vertex :
    (fgets_chunks 80 file_blend_without_vertex []).countP (fun c => MATCH c "VC".toList) = 0 ∧
    modify_back (fun (v : mesh_match_vertex_t) =>
      { v with blending := hash_map_set v.blending (sample_LookupToken "ter_a".toList) 1 })
      [] = none ∧
    read_side sample_LookupToken 4 (fgets_chunks 80 file_blend_without_vertex [])
      sample_scratch ⟨[], []⟩ = Outcome.undefined ∧
    load_match_file sample_LookupToken sample_scratch (some file_blend_without_vertex) = none ∧
    load_match_file sample_LookupToken sample_scratch (some file_blend_without_vertex) ≠
      some LoadResult.bail := by
  decide!

set_option maxRecDepth 100000 in
/-- C3 as stated fails: the line `TERRAIN` of `side_bad_terrain` has no field, its scan
converts nothing, and `load_match_file` still returns true with records that are not
empty; the face takes the terrain name left by the `TERRAIN` line before. -/
theorem load_match_file_accepts_bad_terrain_line :
    sscanf "TERRAIN\n".toList "TERRAIN %s".toList = [] ∧
    (load_match_file sample_LookupToken sample_scratch
      (some (side_bad_terrain ++ side_bad_terrain ++ side_bad_terrain ++ side_bad_terrain))).map
        (fun r => r.ok) = some true ∧
    (load_match_file sample_LookupToken sample_scratch
      (some (side_bad_terrain ++ side_bad_terrain ++ side_bad_terrain ++ side_bad_terrain))).map
        (fun r => r.outLeft.edges.map (fun e => e.base)) = some [1, 1] := by
  decide!

/-- C3 amended: `load_match_file` returns false only when the file cannot be opened or
a call of `fgets` meets the end of the file before the four sides have been read; no
line is rejected for the way it scans. -/
theorem load_match_file_false_only_at_end_of_file (L : List Char → Int) (sc : Scratch)
    (file : Option (List Char))
    (h : (load_match_file L sc file).map (fun r => r.ok) = some false) :
    file = none ∨ ∃ text, file = some text ∧
      read_sides L ((fgets_chunks 80 text []).length + 1) (fgets_chunks 80 text []) sc =
        Outcome.eof := by
  cases file with
  | none => exact Or.inl rfl
  | some text =>
    refine Or.inr ⟨text, rfl, ?_⟩
    have hf := read_sides_ne_fuel L ((fgets_chunks 80 text []).length + 1)
      (fgets_chunks 80 text []) sc (Nat.lt_succ_self _)
    cases hr : read_sides L ((fgets_chunks 80 text []).length + 1) (fgets_chunks 80 text []) sc with
    | eof => rfl
    | undefined =>
      simp only [load_match_file, hr] at h
      cases h
    | fuel => exact absurd hr hf
    | ok r rest =>
      exfalso
      simp only [load_match_file, hr, Option.map_some', Option.some.injEq] at h
      revert hr
      unfold read_sides
      split
      · simp
      · simp
      · simp
      · split
        · simp
        · simp
        · simp
        · split
          · simp
          · simp
          · simp
          · split
            · simp
            · simp
            · simp
            · intro hr
              injection hr with h1 _
              subst h1
              simp at h

set_option maxRecDepth 100000 in
/-- Witness of the amended C3: the file that holds three of the four sides. -/
theorem load_match_file_false_only_at_end_of_file_witness :
    (load_match_file sample_LookupToken sample_scratch
      (some (side_bad_vertex ++ side_bad_vertex ++ side_bad_vertex))).map (fun r => r.ok) =
        some false ∧
    (some (side_bad_vertex ++ side_bad_vertex ++ side_bad_vertex) = none ∨
      ∃ text, some (side_bad_vertex ++ side_bad_vertex ++ side_bad_vertex) = some text ∧
        read_sides sample_LookupToken ((fgets_chunks 80 text []).length + 1)
          (fgets_chunks 80 text []) sample_scratch = Outcome.eof) :=
  ⟨by decide!, load_match_file_false_only_at_end_of_file sample_LookupToken sample_scratch
    (some (side_bad_vertex ++ side_bad_vertex ++ side_bad_vertex)) (by decide!)⟩

set_option maxRecDepth 100000 in
/-- C4 (the code departs from the claim): on a file whose sides have a vertex line that
starts with neither `VT` nor `VC`, `load_match_file` returns true with a left record of
two vertices and two edges, so `vertices[n+1]` is out of bounds at the last edge. -/
theorem load_match_file_vertices_not_edges_plus_one :
    (load_match_file sample_LookupToken sample_scratch
      (some (side_bad_vertex ++ side_bad_vertex ++ side_bad_vertex ++ side_bad_vertex))).map
        (fun r => r.ok) = some true ∧
    (load_match_file sample_LookupToken sample_scratch
      (some (side_bad_vertex ++ side_bad_vertex ++ side_bad_vertex ++ side_bad_vertex))).map
        (fun r => r.outLeft.vertices.length) = some 2 ∧
    (load_match_file sample_LookupToken sample_scratch
      (some (side_bad_vertex ++ side_bad_vertex ++ side_bad_vertex ++ side_bad_vertex))).map
        (fun r => r.outLeft.edges.length) = some 2 := by
  decide!

/-! ## Lemmas on the border matcher -/

theorem modify_at_length {α : Type} (f : α → α) :
    ∀ (n : Nat) (l : List α), (modify_at f n l).length = l.length := by
  intro n l
  induction l generalizing n with
  | nil => cases n <;> rfl
  | cons a l ih =>
    cases n with
    | zero => rfl
    | succ n => simp [modify_at, ih]

theorem modify_at_getElem? {α : Type} (f : α → α) :
    ∀ (n : Nat) (l : List α) (i : Nat),
      (modify_at f n l)[i]? = if i = n then (l[i]?).map f else l[i]? := by
  intro n l
  induction l generalizing n with
  | nil => intro i; cases n <;> simp [modify_at]
  | cons a l ih =>
    intro i
    cases n with
    | zero =>
      cases i with
      | zero => simp [modify_at]
      | succ i => simp [modify_at]
    | succ n =>
      cases i with
      | zero => simp [modify_at]
      | succ i => simp [modify_at, ih]

theorem modify_at_map {α β : Type} (f : α → α) (g : α → β) (hg : ∀ a, g (f a) = g a) :
    ∀ (n : Nat) (l : List α), (modify_at f n l).map g = l.map g := by
  intro n l
  induction l generalizing n with
  | nil => cases n <;> rfl
  | cons a l ih =>
    cases n with
    | zero => simp [modify_at, hg]
    | succ n => simp [modify_at, ih]

/-- What `safe_insert` yields: a vertex at the point asked for, every vertex that was
there left as it was, the hull untouched. -/
theorem safe_insert_spec (m : CDT) (p : ℚ × ℚ) :
    (∃ w, (m.safe_insert p).1.vertices[(m.safe_insert p).2]? = some w ∧ w.point = p) ∧
    (∀ (b : Nat) (w : MeshVertex), m.vertices[b]? = some w →
      (m.safe_insert p).1.vertices[b]? = some w) ∧
    (m.safe_insert p).1.hull = m.hull := by
  unfold CDT.safe_insert
  split
  · rename_i h
    refine ⟨?_, fun b w hb => hb, rfl⟩
    refine ⟨m.vertices[List.findIdx (fun w => decide (w.point = p)) m.vertices], ?_, ?_⟩
    · simp [h]
    · have := List.findIdx_getElem (w := h)
      simpa using this
  · refine ⟨⟨{ point := p, height := 0 }, by simp, rfl⟩, ?_, rfl⟩
    intro b w hb
    have hlt : b < m.vertices.length := by
      rcases List.getElem?_eq_some_iff.mp hb with ⟨hlt, _⟩
      exact hlt
    simp [List.getElem?_append_left hlt, hb]
theorem set_height_getElem? (m : CDT) (v : Nat) (h : ℚ) (b : Nat) :
    (m.set_height v h).vertices[b]? =
      if b = v then (m.vertices[b]?).map (fun w => { w with height := h }) else m.vertices[b]? := by
  simp [CDT.set_height, modify_at_getElem?]

/-- Step 3 of `match_border`, vertex by vertex: the mesh keeps every vertex where it
was, a vertex keeps its height unless a master without a buddy lies on it, a master
that had a buddy keeps it, and a master without one gets a vertex at its location,
of its height unless a later master without a buddy has the same location. -/
theorem insert_unmatched_spec : ∀ (vs : List mesh_match_vertex_t) (m : CDT),
    (∀ (b : Nat) (w : MeshVertex), m.vertices[b]? = some w →
      ∃ w', (insert_unmatched m vs).1.vertices[b]? = some w' ∧ w'.point = w.point ∧
        ((∀ q ∈ vs, q.buddy = none → q.loc ≠ w.point) → w'.height = w.height)) ∧
    (∀ (i : Nat) (pts : mesh_match_vertex_t), vs[i]? = some pts →
      (pts.buddy ≠ none → (insert_unmatched m vs).2[i]? = some pts) ∧
      (pts.buddy = none → ∃ (b : Nat) (w : MeshVertex),
        (insert_unmatched m vs).2[i]? = some { pts with buddy := some b } ∧
        (insert_unmatched m vs).1.vertices[b]? = some w ∧ w.point = pts.loc ∧
        ((∀ (j : Nat) (q : mesh_match_vertex_t), i < j → vs[j]? = some q → q.buddy = none →
            q.loc ≠ pts.loc) → w.height = pts.height))) := by
  intro vs
  induction vs with
  | nil =>
    intro m
    refine ⟨?_, ?_⟩
    · intro b w hb
      exact ⟨w, by simpa [insert_unmatched] using hb, rfl, fun _ => rfl⟩
    · intro i pts h
      simp at h
  | cons pts rest ih =>
    intro m
    by_cases hb : pts.buddy = none
    · obtain ⟨⟨w0, hw0, hp0⟩, hkeep, _⟩ := safe_insert_spec m pts.loc
      have key : ∀ (b : Nat) (w : MeshVertex), (m.safe_insert pts.loc).1.vertices[b]? = some w →
          ∃ w', (insert_unmatched ((m.safe_insert pts.loc).1.set_height (m.safe_insert pts.loc).2
              pts.height) rest).1.vertices[b]? = some w' ∧ w'.point = w.point ∧
            ((∀ q ∈ rest, q.buddy = none → q.loc ≠ w.point) →
              w'.height = if b = (m.safe_insert pts.loc).2 then pts.height else w.height) := by
        intro b w hbw
        by_cases hbr : b = (m.safe_insert pts.loc).2
        · have h1 : ((m.safe_insert pts.loc).1.set_height (m.safe_insert pts.loc).2
              pts.height).vertices[b]? = some { w with height := pts.height } := by
            rw [set_height_getElem?]; simp [hbr] at hbw ⊢; simp [hbw]
          obtain ⟨w', e1, e2, e3⟩ := (ih _).1 b _ h1
          exact ⟨w', e1, e2, fun hq => by simpa [hbr] using e3 hq⟩
        · have h1 : ((m.safe_insert pts.loc).1.set_height (m.safe_insert pts.loc).2
              pts.height).vertices[b]? = some w := by
            rw [set_height_getElem?]; simp [hbr, hbw]
          obtain ⟨w', e1, e2, e3⟩ := (ih _).1 b _ h1
          exact ⟨w', e1, e2, fun hq => by simpa [hbr] using e3 hq⟩
      refine ⟨?_, ?_⟩
      · intro b w hbw
        obtain ⟨w', e1, e2, e3⟩ := key b w (hkeep b w hbw)
        refine ⟨w', by simpa [insert_unmatched, hb] using e1, e2, ?_⟩
        intro hq
        have hne : b ≠ (m.safe_insert pts.loc).2 := by
          intro hbr
          have : w0 = w := by
            have := hkeep b w hbw
            rw [hbr, hw0] at this
            exact Option.some.inj this
          exact hq pts (List.mem_cons_self _ _) hb (by rw [← this]; exact hp0.symm)
        have := e3 (fun q hqm => hq q (List.mem_cons_of_mem _ hqm))
        simpa [hne] using this
      · intro i p hi
        cases i with
        | zero =>
          simp at hi
          subst hi
          refine ⟨fun h => absurd hb h, fun _ => ?_⟩
          obtain ⟨w', e1, e2, e3⟩ := key _ w0 hw0
          refine ⟨(m.safe_insert pts.loc).2, w', by simp [insert_unmatched, hb],
            by simpa [insert_unmatched, hb] using e1, by rw [e2, hp0], ?_⟩
          intro hlater
          have := e3 (by
            intro q hqm hqb
            obtain ⟨j, hj⟩ := List.getElem?_of_mem hqm
            rw [hp0]
            exact hlater (j + 1) q (Nat.succ_pos j) (by simpa using hj) hqb)
          simpa using this
        | succ i =>
          simp at hi
          obtain ⟨k1, k2⟩ := (ih ((m.safe_insert pts.loc).1.set_height (m.safe_insert pts.loc).2
              pts.height)).2 i p hi
          refine ⟨fun h => by simpa [insert_unmatched, hb] using k1 h, fun h => ?_⟩
          obtain ⟨b, w, e1, e2, e3, e4⟩ := k2 h
          refine ⟨b, w, by simpa [insert_unmatched, hb] using e1,
            by simpa [insert_unmatched, hb] using e2, e3, ?_⟩
          intro hlater
          exact e4 (fun j q hij hj hqb => hlater (j + 1) q (by omega) (by simpa using hj) hqb)
    · refine ⟨?_, ?_⟩
      · intro b w hbw
        obtain ⟨w', e1, e2, e3⟩ := (ih m).1 b w hbw
        exact ⟨w', by simpa [insert_unmatched, hb] using e1, e2,
          fun hq => e3 (fun q hqm => hq q (List.mem_cons_of_mem _ hqm))⟩
      · intro i p hi
        cases i with
        | zero =>
          simp at hi
          subst hi
          exact ⟨fun _ => by simp [insert_unmatched, hb], fun h => absurd h hb⟩
        | succ i =>
          simp at hi
          obtain ⟨k1, k2⟩ := (ih m).2 i p hi
          refine ⟨fun h => by simpa [insert_unmatched, hb] using k1 h, fun h => ?_⟩
          obtain ⟨b, w, e1, e2, e3, e4⟩ := k2 h
          refine ⟨b, w, by simpa [insert_unmatched, hb] using e1,
            by simpa [insert_unmatched, hb] using e2, e3, ?_⟩
          intro hlater
          exact e4 (fun j q hij hj hqb => hlater (j + 1) q (by omega) (by simpa using hj) hqb)
theorem insert_unmatched_buddy : ∀ (vs : List mesh_match_vertex_t) (m : CDT),
    ∀ v ∈ (insert_unmatched m vs).2, v.buddy ≠ none := by
  intro vs
  induction vs with
  | nil => intro m v hv; simp [insert_unmatched] at hv
  | cons pts rest ih =>
    intro m v hv
    by_cases hb : pts.buddy = none
    · simp only [insert_unmatched, hb, if_true, List.mem_cons] at hv
      rcases hv with hv | hv
      · subst hv; simp
      · exact ih _ v hv
    · simp only [insert_unmatched, hb, if_false, List.mem_cons] at hv
      rcases hv with hv | hv
      · subst hv; exact hb
      · exact ih _ v hv

theorem mem_modify_at {α : Type} (f : α → α) :
    ∀ (n : Nat) (l : List α) (a : α), a ∈ modify_at f n l → a ∈ l ∨ ∃ b ∈ l, a = f b := by
  intro n l
  induction l generalizing n with
  | nil => intro a h; cases n <;> simp [modify_at] at h
  | cons x l ih =>
    intro a h
    cases n with
    | zero =>
      simp only [modify_at, List.mem_cons] at h
      rcases h with h | h
      · exact Or.inr ⟨x, List.mem_cons_self _ _, h⟩
      · exact Or.inl (List.mem_cons_of_mem _ h)
    | succ n =>
      simp only [modify_at, List.mem_cons] at h
      rcases h with h | h
      · exact Or.inl (h ▸ List.mem_cons_self _ _)
      · rcases ih n a h with h | ⟨b, hb, e⟩
        · exact Or.inl (List.mem_cons_of_mem _ h)
        · exact Or.inr ⟨b, List.mem_cons_of_mem _ hb, e⟩

theorem mem_map_set : ∀ (mp : List (ℚ × Nat)) (k : ℚ) (v : Nat) (e : ℚ × Nat),
    e ∈ map_set mp k v → e = (k, v) ∨ e ∈ mp := by
  intro mp
  induction mp with
  | nil => intro k v e h; simpa [map_set] using h
  | cons a mp ih =>
    intro k v e h
    obtain ⟨k', v'⟩ := a
    simp only [map_set] at h
    split at h
    · simp only [List.mem_cons] at h ⊢
      rcases h with h | h | h
      · exact Or.inl h
      · exact Or.inr (Or.inl h)
      · exact Or.inr (Or.inr h)
    · split at h
      · simp only [List.mem_cons] at h ⊢
        rcases h with h | h
        · exact Or.inl h
        · exact Or.inr (Or.inr h)
      · simp only [List.mem_cons] at h ⊢
        rcases h with h | h
        · exact Or.inr (Or.inl h)
        · rcases ih k v e h with h | h
          · exact Or.inl h
          · exact Or.inr (Or.inr h)

theorem map_find_mem : ∀ (mp : List (ℚ × Nat)) (k : ℚ) (s : Nat),
    map_find mp k = some s → (k, s) ∈ mp := by
  intro mp
  induction mp with
  | nil => intro k s h; simp [map_find] at h
  | cons a mp ih =>
    intro k s h
    obtain ⟨k', v'⟩ := a
    simp only [map_find] at h
    split at h
    · rename_i hk
      simp only [Option.some.injEq] at h
      subst hk; subst h
      exact List.mem_cons_self _ _
    · exact List.mem_cons_of_mem _ (ih k s h)

theorem mem_map_erase : ∀ (mp : List (ℚ × Nat)) (k : ℚ) (e : ℚ × Nat),
    e ∈ map_erase mp k → e ∈ mp := by
  intro mp
  induction mp with
  | nil => intro k e h; simp [map_erase] at h
  | cons a mp ih =>
    intro k e h
    obtain ⟨k', v'⟩ := a
    simp only [map_erase] at h
    split at h
    · exact List.mem_cons_of_mem _ h
    · simp only [List.mem_cons] at h ⊢
      rcases h with h | h
      · exact Or.inl h
      · exact Or.inr (ih k e h)

/-- Every slave that `fetch_border` returns is a vertex of the hull. -/
theorem fetch_border_mem_hull (m : CDT) (origin : ℚ × ℚ) (side : Nat) :
    ∀ e ∈ fetch_border m origin side, e.2 ∈ m.hull := by
  unfold fetch_border
  generalize hH : m.hull = H
  have aux : ∀ (l : List Nat) (acc : List (ℚ × Nat)), (∀ e ∈ acc, e.2 ∈ H) → (∀ x ∈ l, x ∈ H) →
      ∀ e ∈ l.foldl (fun outPts now =>
        if (side = 1 ∨ side = 3) ∧ (m.point now).2 = origin.2 then
          map_set (if (side = 0 ∨ side = 2) ∧ (m.point now).1 = origin.1 then
            map_set outPts ((m.point now).2 - origin.2) now else outPts)
            ((m.point now).1 - origin.1) now
        else (if (side = 0 ∨ side = 2) ∧ (m.point now).1 = origin.1 then
            map_set outPts ((m.point now).2 - origin.2) now else outPts)) acc, e.2 ∈ H := by
    intro l
    induction l with
    | nil => intro acc hacc _ e he; exact hacc e he
    | cons x l ih =>
      intro acc hacc hl e he
      simp only [List.foldl_cons] at he
      refine ih _ ?_ (fun y hy => hl y (List.mem_cons_of_mem _ hy)) e he
      have hx : x ∈ H := hl x (List.mem_cons_self _ _)
      have h1 : ∀ e ∈ (if (side = 0 ∨ side = 2) ∧ (m.point x).1 = origin.1 then
            map_set acc ((m.point x).2 - origin.2) x else acc), e.2 ∈ H := by
        intro e he
        split at he
        · rcases mem_map_set _ _ _ _ he with h | h
          · rw [h]; exact hx
          · exact hacc e h
        · exact hacc e he
      intro e he
      split at he
      · rcases mem_map_set _ _ _ _ he with h | h
        · rw [h]; exact hx
        · exact h1 e h
      · exact h1 e he
  exact aux H [] (by simp) (fun x hx => hx)

/-- The pairing loop changes nothing of a master vertex but its buddy. -/
theorem pairing_loop_map (m : CDT) (side : Nat) :
    ∀ (fuel : Nat) (slaves : List (ℚ × Nat)) (vs : List mesh_match_vertex_t),
      (pairing_loop m side fuel slaves vs).2.map (fun v => (v.loc, v.height, v.blending)) =
        vs.map (fun v => (v.loc, v.height, v.blending)) := by
  intro fuel
  induction fuel with
  | zero => intro slaves vs; rfl
  | succ n ih =>
    intro slaves vs
    simp only [pairing_loop]
    split
    · rfl
    · split
      · rfl
      · rw [ih]
        unfold set_buddy
        exact modify_at_map (fun v : mesh_match_vertex_t => { v with buddy := map_find slaves _ })
          (fun v : mesh_match_vertex_t => (v.loc, v.height, v.blending)) (fun _ => rfl) _ _

/-- A buddy that the pairing loop leaves was there before or is one of the slaves. -/
theorem pairing_loop_buddy (m : CDT) (side : Nat) (P : Nat → Prop) :
    ∀ (fuel : Nat) (slaves : List (ℚ × Nat)) (vs : List mesh_match_vertex_t),
      (∀ e ∈ slaves, P e.2) → (∀ v ∈ vs, ∀ s, v.buddy = some s → P s) →
      ∀ v ∈ (pairing_loop m side fuel slaves vs).2, ∀ s, v.buddy = some s → P s := by
  intro fuel
  induction fuel with
  | zero => intro slaves vs _ hv; exact hv
  | succ n ih =>
    intro slaves vs hs hv
    simp only [pairing_loop]
    split
    · exact hv
    · split
      · exact hv
      · rename_i best _ _
        refine ih _ _ (fun e he => hs e (mem_map_erase _ _ _ he)) ?_
        intro v hvm s hvs
        rcases mem_modify_at _ _ _ _ hvm with h | ⟨b, _, e⟩
        · exact hv v h s hvs
        · subst e
          simp only at hvs
          exact hs _ (map_find_mem _ _ _ hvs)
theorem map_set_pairwise : ∀ (mp : List (ℚ × Nat)) (k : ℚ) (v : Nat),
    mp.Pairwise (fun a b => a.1 < b.1) → (map_set mp k v).Pairwise (fun a b => a.1 < b.1) := by
  intro mp
  induction mp with
  | nil => intro k v _; simp [map_set]
  | cons a mp ih =>
    intro k v hs
    obtain ⟨k', v'⟩ := a
    have hs' := List.pairwise_cons.mp hs
    simp only [map_set]
    split
    · rename_i hlt
      refine List.pairwise_cons.mpr ⟨?_, hs⟩
      intro e he
      simp only [List.mem_cons] at he
      rcases he with he | he
      · rw [he]; exact hlt
      · exact lt_trans hlt (hs'.1 e he)
    · split
      · rename_i _ heq
        refine List.pairwise_cons.mpr ⟨?_, hs'.2⟩
        intro e he
        have := hs'.1 e he
        simpa [heq] using this
      · rename_i hnlt hne
        refine List.pairwise_cons.mpr ⟨?_, ih k v hs'.2⟩
        intro e he
        rcases mem_map_set _ _ _ _ he with h | h
        · rw [h]
          exact lt_of_le_of_ne (not_lt.mp hnlt) (fun h' => hne h'.symm)
        · exact hs'.1 e h

theorem map_erase_pairwise : ∀ (mp : List (ℚ × Nat)) (k : ℚ),
    mp.Pairwise (fun a b => a.1 < b.1) → (map_erase mp k).Pairwise (fun a b => a.1 < b.1) := by
  intro mp
  induction mp with
  | nil => intro k _; simp [map_erase]
  | cons a mp ih =>
    intro k hs
    obtain ⟨k', v'⟩ := a
    have hs' := List.pairwise_cons.mp hs
    simp only [map_erase]
    split
    · exact hs'.2
    · exact List.pairwise_cons.mpr ⟨fun e he => hs'.1 e (mem_map_erase _ _ _ he), ih k hs'.2⟩

/-- The pool of slaves that `fetch_border` returns is increasing in the offset. -/
theorem fetch_border_pairwise (m : CDT) (origin : ℚ × ℚ) (side : Nat) :
    (fetch_border m origin side).Pairwise (fun a b => a.1 < b.1) := by
  unfold fetch_border
  have aux : ∀ (l : List Nat) (acc : List (ℚ × Nat)), acc.Pairwise (fun a b => a.1 < b.1) →
      (l.foldl (fun outPts now =>
        if (side = 1 ∨ side = 3) ∧ (m.point now).2 = origin.2 then
          map_set (if (side = 0 ∨ side = 2) ∧ (m.point now).1 = origin.1 then
            map_set outPts ((m.point now).2 - origin.2) now else outPts)
            ((m.point now).1 - origin.1) now
        else (if (side = 0 ∨ side = 2) ∧ (m.point now).1 = origin.1 then
            map_set outPts ((m.point now).2 - origin.2) now else outPts)) acc).Pairwise
        (fun a b => a.1 < b.1) := by
    intro l
    induction l with
    | nil => intro acc hacc; exact hacc
    | cons x l ih =>
      intro acc hacc
      simp only [List.foldl_cons]
      apply ih
      have h1 : (if (side = 0 ∨ side = 2) ∧ (m.point x).1 = origin.1 then
            map_set acc ((m.point x).2 - origin.2) x else acc).Pairwise (fun a b => a.1 < b.1) := by
        split
        · exact map_set_pairwise _ _ _ hacc
        · exact hacc
      split
      · exact map_set_pairwise _ _ _ h1
      · exact h1
  exact aux m.hull [] List.Pairwise.nil

/-- The pool of slaves stays increasing in the offset through the pairing loop. -/
theorem pairing_loop_pairwise (m : CDT) (side : Nat) :
    ∀ (fuel : Nat) (slaves : List (ℚ × Nat)) (vs : List mesh_match_vertex_t),
      slaves.Pairwise (fun a b => a.1 < b.1) →
      (pairing_loop m side fuel slaves vs).1.Pairwise (fun a b => a.1 < b.1) := by
  intro fuel
  induction fuel with
  | zero => intro slaves vs h; exact h
  | succ n ih =>
    intro slaves vs h
    simp only [pairing_loop]
    split
    · exact h
    · split
      · exact h
      · exact ih _ _ (map_erase_pairwise _ _ h)
theorem multimap_insert_ne_nil {β : Type} (mm : List (ℚ × β)) (k : ℚ) (v : β) :
    multimap_insert mm k v ≠ [] := by
  cases mm with
  | nil => simp [multimap_insert]
  | cons a mm =>
    simp only [multimap_insert]
    split <;> simp

theorem foldl_multimap_insert_eq_nil {β : Type} (cs : List (ℚ × β)) :
    cs.foldl (fun nearest c => multimap_insert nearest c.1 c.2) [] = [] → cs = [] := by
  induction cs using List.reverseRecOn with
  | nil => intro _; rfl
  | append_singleton cs c _ =>
    intro h
    rw [List.foldl_append] at h
    simp only [List.foldl_cons, List.foldl_nil] at h
    exact absurd h (multimap_insert_ne_nil _ _ _)

/-- The first entry of a multimap filled from `cs` is the first entry of `cs` of least
key: the entries before it in `cs` have a greater key, the ones after it none smaller. -/
theorem foldl_multimap_insert_head {β : Type} (cs : List (ℚ × β)) :
    ∀ (b : ℚ × β) (others : List (ℚ × β)),
      cs.foldl (fun nearest c => multimap_insert nearest c.1 c.2) [] = b :: others →
      ∃ pre post, cs = pre ++ b :: post ∧ (∀ c ∈ pre, b.1 < c.1) ∧ (∀ c ∈ post, b.1 ≤ c.1) := by
  induction cs using List.reverseRecOn with
  | nil => intro b others h; simp at h
  | append_singleton cs c ih =>
    intro b others h
    rw [List.foldl_append] at h
    simp only [List.foldl_cons, List.foldl_nil] at h
    cases hr : cs.foldl (fun nearest c => multimap_insert nearest c.1 c.2) [] with
    | nil =>
      have hcs := foldl_multimap_insert_eq_nil cs hr
      subst hcs
      rw [hr] at h
      simp only [multimap_insert, List.cons.injEq] at h
      refine ⟨[], [], ?_, by simp, by simp⟩
      rw [← h.1]
    | cons a r =>
      rw [hr] at h
      obtain ⟨pre, post, hcs, hpre, hpost⟩ := ih a r hr
      simp only [multimap_insert] at h
      split at h
      · rename_i hlt
        simp only [List.cons.injEq] at h
        have hb : b = c := by rw [← h.1]
        subst hb
        refine ⟨cs, [], rfl, ?_, by simp⟩
        intro x hx
        rw [hcs] at hx
        simp only [List.mem_append, List.mem_cons] at hx
        rcases hx with hx | hx | hx
        · exact lt_trans hlt (hpre x hx)
        · rw [hx]; exact hlt
        · exact lt_of_lt_of_le hlt (hpost x hx)
      · rename_i hnlt
        simp only [List.cons.injEq] at h
        have hb : b = a := h.1.symm
        subst hb
        refine ⟨pre, post ++ [c], by simp [hcs], hpre, ?_⟩
        intro x hx
        simp only [List.mem_append, List.mem_singleton] at hx
        rcases hx with hx | hx
        · exact hpost x hx
        · rw [hx]; exact not_lt.mp hnlt

/-- The entries of `candidate_pairs` are the pairs of a master without a buddy and a slave. -/
theorem mem_candidate_pairs (m : CDT) (side : Nat) (slaves : List (ℚ × Nat)) :
    ∀ (vs : List mesh_match_vertex_t) (i0 : Nat) (c : ℚ × (ℚ × Nat)),
      c ∈ candidate_pairs m side slaves i0 vs ↔
        ∃ (j : Nat) (pts : mesh_match_vertex_t) (sl : ℚ × Nat), vs[j]? = some pts ∧
          pts.buddy = none ∧ sl ∈ slaves ∧
          c = (my_dist side pts.loc (m.point sl.2), (sl.1, i0 + j)) := by
  intro vs
  induction vs with
  | nil => intro i0 c; simp [candidate_pairs]
  | cons pts rest ih =>
    intro i0 c
    simp only [candidate_pairs, List.mem_append, ih]
    constructor
    · rintro (h | ⟨j, q, sl, hj, hq, hsl, hc⟩)
      · split at h
        · rename_i hb
          simp only [List.mem_map] at h
          obtain ⟨sl, hsl, hc⟩ := h
          exact ⟨0, pts, sl, by simp, hb, hsl, by simp [← hc]⟩
        · simp at h
      · exact ⟨j + 1, q, sl, by simpa using hj, hq, hsl, by rw [hc]; congr 2; omega⟩
    · rintro ⟨j, q, sl, hj, hq, hsl, hc⟩
      cases j with
      | zero =>
        simp at hj
        subst hj
        left
        simp only [hq, if_true, List.mem_map]
        exact ⟨sl, hsl, by simp [hc]⟩
      | succ j =>
        right
        exact ⟨j, q, sl, by simpa using hj, hq, hsl, by rw [hc]; congr 2; omega⟩

theorem map_find_of_mem : ∀ (mp : List (ℚ × Nat)) (e : ℚ × Nat),
    mp.Pairwise (fun a b => a.1 < b.1) → e ∈ mp → map_find mp e.1 = some e.2 := by
  intro mp
  induction mp with
  | nil => intro e _ h; simp at h
  | cons a mp ih =>
    intro e hs he
    obtain ⟨k', v'⟩ := a
    rw [List.pairwise_cons] at hs
    simp only [List.mem_cons] at he
    simp only [map_find]
    rcases he with he | he
    · subst he; simp
    · have hlt := hs.1 e he
      have hne : ¬ e.1 = k' := fun h => by simp [h] at hlt
      simp only [hne, if_false]
      exact ih e hs.2 he
theorem map_erase_length : ∀ (mp : List (ℚ × Nat)) (k : ℚ),
    (∃ e ∈ mp, e.1 = k) → (map_erase mp k).length + 1 = mp.length := by
  intro mp
  induction mp with
  | nil => intro k h; obtain ⟨e, he, _⟩ := h; simp at he
  | cons a mp ih =>
    intro k h
    obtain ⟨k', v'⟩ := a
    simp only [map_erase]
    split
    · simp
    · rename_i hne
      obtain ⟨e, he, hk⟩ := h
      simp only [List.mem_cons] at he
      rcases he with he | he
      · subst he
        exact absurd hk.symm hne
      · simp only [List.length_cons]
        rw [ih k ⟨e, he, hk⟩]

/-- The fuel of the pairing loop is enough: started with at least as much fuel as there
are slaves, the loop stops only because no slave is left or because `nearest` is empty,
as `while (!slaves.empty())` with its `break` does. -/
theorem pairing_loop_runs_out (m : CDT) (side : Nat) :
    ∀ (fuel : Nat) (slaves : List (ℚ × Nat)) (vs : List mesh_match_vertex_t),
      slaves.length ≤ fuel →
      (pairing_loop m side fuel slaves vs).1 = [] ∨
      nearest_pairs m side (pairing_loop m side fuel slaves vs).1
        (pairing_loop m side fuel slaves vs).2 = [] := by
  intro fuel
  induction fuel with
  | zero =>
    intro slaves vs h
    left
    simp only [pairing_loop]
    exact List.eq_nil_of_length_eq_zero (Nat.le_zero.mp h)
  | succ n ih =>
    intro slaves vs h
    simp only [pairing_loop]
    split
    · rename_i he
      left
      simpa using he
    · split
      · rename_i hn
        exact Or.inr hn
      · rename_i best others hb
        apply ih
        obtain ⟨pre, post, hcs, _, _⟩ := foldl_multimap_insert_head _ best others hb
        have hmem : best ∈ candidate_pairs m side slaves 0 vs := by rw [hcs]; simp
        obtain ⟨j, p, sl, _, _, hsl, hbest⟩ := (mem_candidate_pairs m side slaves vs 0 best).1 hmem
        have := map_erase_length slaves best.2.1 ⟨sl, hsl, by rw [hbest]⟩
        omega

/-! ## Claims on `match_border` -/

/-- C5 as stated fails: the record has two master vertices at (0, 0), of heights 5 and 0
(what `load_match_file` leaves for its last two vertices), and the mesh has no vertex on
the side.  Neither master is paired; both get the vertex 2 inserted at (0, 0), and its
height at the end is 0, not the 5 recorded for the first master. -/
theorem match_border_height_overwritten :
    (paired_vertices sample_mesh_off_line sample_master_repeated 0)[0]? =
      some { loc := (0, 0), height := 5, blending := [], buddy := none } ∧
    ((match_border sample_mesh_off_line sample_master_repeated 0).2.vertices[0]?).map
      (fun v => v.buddy) = some (some 2) ∧
    (match_border sample_mesh_off_line sample_master_repeated 0).1.vertices[2]? =
      some { point := (0, 0), height := 0 } := by
  decide!

/-- C5 amended: when `match_border` returns, every master vertex has a buddy; the pairing
loop changes no location and no height of the record; a master vertex that the pairing
loop left without a buddy has as buddy a mesh vertex at exactly the master's location,
and that vertex has the master's height provided no later master vertex left without a
buddy has the same location. -/
theorem match_border_every_master_has_buddy (m : CDT) (bd : mesh_match_t) (side : Nat) :
    (∀ v ∈ (match_border m bd side).2.vertices, v.buddy ≠ none) ∧
    (paired_vertices m bd side).map (fun v => (v.loc, v.height, v.blending)) =
      bd.vertices.map (fun v => (v.loc, v.height, v.blending)) ∧
    (∀ (i : Nat) (pts : mesh_match_vertex_t),
      (paired_vertices m bd side)[i]? = some pts → pts.buddy = none →
      ∃ (b : Nat) (w : MeshVertex),
        (match_border m bd side).2.vertices[i]? = some { pts with buddy := some b } ∧
        (match_border m bd side).1.vertices[b]? = some w ∧ w.point = pts.loc ∧
        ((∀ (j : Nat) (q : mesh_match_vertex_t), i < j →
            (paired_vertices m bd side)[j]? = some q → q.buddy = none → q.loc ≠ pts.loc) →
          w.height = pts.height)) := by
  refine ⟨?_, ?_, ?_⟩
  · intro v hv
    exact insert_unmatched_buddy _ _ v hv
  · unfold paired_vertices
    split
    · rename_i h; rw [h]
    · rename_i v0 tl h
      rw [pairing_loop_map]
  · intro i pts hi hb
    exact ((insert_unmatched_spec (paired_vertices m bd side) m).2 i pts hi).2 hb

/-- C7 as stated fails: on the sample mesh the second master vertex, recorded at (0, 1)
with height 20, is paired with the hull vertex at (0, 3/2) of height 3, which stays where
it is and keeps its height. -/
theorem match_border_paired_vertex_not_moved :
    ((match_border sample_mesh sample_master 0).2.vertices[1]?).map
      (fun v => (v.loc, v.height, v.buddy)) = some ((0, 1), 20, some 1) ∧
    (match_border sample_mesh sample_master 0).1.vertices[1]? =
      some { point := (0, 3 / 2), height := 3 } := by
  decide!

/-- C7 amended: for a record that comes in without buddies and a mesh whose hull holds
valid vertices, after `match_border` a master vertex that the pairing loop left without
a buddy has a buddy at exactly the master's location, while a master vertex that the
pairing loop bound keeps the hull vertex it was bound to, and that vertex has the point
it had before `match_border`. -/
theorem match_border_buddy_position (m : CDT) (bd : mesh_match_t) (side : Nat)
    (hhull : ∀ s ∈ m.hull, s < m.vertices.length)
    (hnone : ∀ v ∈ bd.vertices, v.buddy = none)
    (i : Nat) (pts : mesh_match_vertex_t) (hi : (paired_vertices m bd side)[i]? = some pts) :
    (pts.buddy = none → ∃ (b : Nat) (w : MeshVertex),
      (match_border m bd side).2.vertices[i]? = some { pts with buddy := some b } ∧
      (match_border m bd side).1.vertices[b]? = some w ∧ w.point = pts.loc) ∧
    (∀ s, pts.buddy = some s →
      (match_border m bd side).2.vertices[i]? = some pts ∧ s ∈ m.hull ∧
      (match_border m bd side).1.point s = m.point s) := by
  have hspec := insert_unmatched_spec (paired_vertices m bd side) m
  refine ⟨?_, ?_⟩
  · intro hb
    obtain ⟨b, w, e1, e2, e3, _⟩ := (hspec.2 i pts hi).2 hb
    exact ⟨b, w, e1, e2, e3⟩
  · intro s hs
    have hmem : pts ∈ paired_vertices m bd side := List.getElem?_mem hi
    have hsh : s ∈ m.hull := by
      unfold paired_vertices at hmem
      split at hmem
      · simp at hmem
      · rename_i v0 tl hv
        refine pairing_loop_buddy m side (fun s => s ∈ m.hull) _ _ _
          (fetch_border_mem_hull m v0.loc side) ?_ pts hmem s hs
        intro v hv' s' hs'
        have := hnone v hv'
        rw [this] at hs'
        cases hs'
    refine ⟨(hspec.2 i pts hi).1 (by rw [hs]; simp), hsh, ?_⟩
    have hlt := hhull s hsh
    obtain ⟨w', e1, e2, _⟩ := hspec.1 s (m.vertices[s]) (by simp [hlt])
    unfold CDT.point
    simp only [match_border, e1]
    simp [hlt, e2]

/-- Witness of the amended C7: the second master vertex of the sample record. -/
theorem match_border_buddy_position_witness :
    (match_border sample_mesh sample_master 0).2.vertices[1]? =
      some { loc := (0, 1), height := 20, blending := [], buddy := some 1 } ∧
    (1 : Nat) ∈ sample_mesh.hull ∧
    (match_border sample_mesh sample_master 0).1.point 1 = sample_mesh.point 1 :=
  (match_border_buddy_position sample_mesh sample_master 0 (by decide) (by decide) 1
    { loc := (0, 1), height := 20, blending := [], buddy := some 1 } (by decide!)).2 1 rfl

/-! ## Lemmas on the mesh data -/

theorem hash_map_find_set : ∀ (m : List (Int × ℚ)) (k : Int) (x : ℚ) (k2 : Int),
    hash_map_find (hash_map_set m k x) k2 = if k2 = k then some x else hash_map_find m k2 := by
  intro m
  induction m with
  | nil =>
    intro k x k2
    simp only [hash_map_set, hash_map_find]
    by_cases h : k = k2
    · simp [h]
    · have : ¬ k2 = k := fun h' => h h'.symm
      simp [h, this]
  | cons a m ih =>
    intro k x k2
    obtain ⟨k', v'⟩ := a
    simp only [hash_map_set]
    by_cases h : k' = k
    · subst h
      simp only [if_true, hash_map_find]
      by_cases h2 : k' = k2
      · simp [h2]
      · have : ¬ k2 = k' := fun h' => h2 h'.symm
        simp [h2, this]
    · simp only [h, if_false, hash_map_find, ih]
      by_cases h2 : k' = k2
      · have : ¬ k2 = k := fun h' => h (h2.trans h')
        simp [h2, this]
      · simp [h2]

theorem hash_map_get_set (m : List (Int × ℚ)) (k : Int) (x : ℚ) (k2 : Int) :
    hash_map_get (hash_map_set m k x) k2 = if k2 = k then x else hash_map_get m k2 := by
  unfold hash_map_get
  rw [hash_map_find_set]
  split_ifs <;> rfl

theorem mem_handle_set_insert : ∀ (s : List Nat) (k x : Nat),
    x ∈ handle_set_insert s k ↔ x = k ∨ x ∈ s := by
  intro s
  induction s with
  | nil => intro k x; simp [handle_set_insert]
  | cons a s ih =>
    intro k x
    simp only [handle_set_insert]
    split
    · simp
    · split
      · rename_i h; subst h; simp
      · simp only [List.mem_cons, ih]
        tauto

theorem mem_set_insert : ∀ (s : List Int) (k x : Int),
    x ∈ set_insert s k ↔ x = k ∨ x ∈ s := by
  intro s
  induction s with
  | nil => intro k x; simp [set_insert]
  | cons a s ih =>
    intro k x
    simp only [set_insert]
    split
    · simp
    · split
      · rename_i h; subst h; simp
      · simp only [List.mem_cons, ih]
        tauto

theorem set_insert_ne_nil (s : List Int) (k : Int) : set_insert s k ≠ [] := by
  intro h
  have : k ∈ set_insert s k := (mem_set_insert s k k).2 (Or.inl rfl)
  rw [h] at this
  simp at this

@[simp] theorem Mesh.set_blend_face (ms : Mesh) (v : Nat) (layer : Int) (x : ℚ) :
    (ms.set_blend v layer x).face = ms.face := rfl

@[simp] theorem Mesh.touch_blend_face (ms : Mesh) (v : Nat) (layer : Int) :
    (ms.touch_blend v layer).face = ms.face := rfl

@[simp] theorem Mesh.set_vert_face (ms : Mesh) (v : Nat) (i : VertexInfo) :
    (ms.set_vert v i).face = ms.face := rfl

@[simp] theorem Mesh.set_face_vert (ms : Mesh) (f : Nat) (i : FaceInfo) :
    (ms.set_face f i).vert = ms.vert := rfl

@[simp] theorem Mesh.set_face_face (ms : Mesh) (f : Nat) (i : FaceInfo) (g : Nat) :
    (ms.set_face f i).face g = if g = f then i else ms.face g := by
  simp [Mesh.set_face, Function.update_apply]

theorem Mesh.blend_set_blend (ms : Mesh) (v : Nat) (layer : Int) (x : ℚ) (u : Nat) (k : Int) :
    (ms.set_blend v layer x).blend u k =
      if u = v then (if k = layer then x else ms.blend u k) else ms.blend u k := by
  unfold Mesh.blend Mesh.set_blend Mesh.set_vert
  by_cases h : u = v
  · subst h
    simp [Function.update_apply, hash_map_get_set]
  · simp [Function.update_apply, h]

/-- The loop over the three vertices in `RebaseTriangle`, on any list of indices: the
faces stay, a vertex of the list on the shared edge ends with the larger of its old
blend and zero, any other vertex of the list ends with 1 and in the set, and the set
gains nothing else. -/
theorem rebase_fold_spec (T : Topology) (tri : Nat) (layer : Int) (v1 v2 : Option Nat) :
    ∀ (l : List Nat) (s : Mesh × List Nat),
      (l.foldl
        (fun s i =>
          if some (T.vertex tri i) = v1 ∨ some (T.vertex tri i) = v2 then
            (s.1.set_blend (T.vertex tri i) layer (max (s.1.blend (T.vertex tri i) layer) 0), s.2)
          else
            (s.1.set_blend (T.vertex tri i) layer 1, handle_set_insert s.2 (T.vertex tri i)))
        s).1.face = s.1.face ∧
      ∀ u : Nat,
        ((∃ i ∈ l, T.vertex tri i = u) →
          (l.foldl
            (fun s i =>
              if some (T.vertex tri i) = v1 ∨ some (T.vertex tri i) = v2 then
                (s.1.set_blend (T.vertex tri i) layer (max (s.1.blend (T.vertex tri i) layer) 0), s.2)
              else
                (s.1.set_blend (T.vertex tri i) layer 1, handle_set_insert s.2 (T.vertex tri i)))
            s).1.blend u layer =
            if some u = v1 ∨ some u = v2 then max (s.1.blend u layer) 0 else 1) ∧
        ((∀ i ∈ l, T.vertex tri i ≠ u) →
          (l.foldl
            (fun s i =>
              if some (T.vertex tri i) = v1 ∨ some (T.vertex tri i) = v2 then
                (s.1.set_blend (T.vertex tri i) layer (max (s.1.blend (T.vertex tri i) layer) 0), s.2)
              else
                (s.1.set_blend (T.vertex tri i) layer 1, handle_set_insert s.2 (T.vertex tri i)))
            s).1.blend u layer = s.1.blend u layer) ∧
        (u ∈ (l.foldl
            (fun s i =>
              if some (T.vertex tri i) = v1 ∨ some (T.vertex tri i) = v2 then
                (s.1.set_blend (T.vertex tri i) layer (max (s.1.blend (T.vertex tri i) layer) 0), s.2)
              else
                (s.1.set_blend (T.vertex tri i) layer 1, handle_set_insert s.2 (T.vertex tri i)))
            s).2 ↔
          u ∈ s.2 ∨ ((∃ i ∈ l, T.vertex tri i = u) ∧ ¬ (some u = v1 ∨ some u = v2))) := by
  intro l
  induction l with
  | nil => intro s; simp
  | cons i l ih =>
    intro s
    simp only [List.foldl_cons]
    by_cases hE : some (T.vertex tri i) = v1 ∨ some (T.vertex tri i) = v2
    · simp only [hE, if_true]
      obtain ⟨hf, hu⟩ := ih (s.1.set_blend (T.vertex tri i) layer (max (s.1.blend (T.vertex tri i) layer) 0), s.2)
      refine ⟨by rw [hf]; rfl, ?_⟩
      intro u
      obtain ⟨h1, h2, h3⟩ := hu u
      refine ⟨?_, ?_, ?_⟩
      · intro hex
        by_cases hl : ∃ j ∈ l, T.vertex tri j = u
        · rw [h1 hl]
          simp only [Mesh.blend_set_blend]
          by_cases hui : u = T.vertex tri i
          · subst hui
            simp [hE]
          · simp [hui]
        · have hall : ∀ j ∈ l, T.vertex tri j ≠ u := fun j hj he => hl ⟨j, hj, he⟩
          rw [h2 hall]
          obtain ⟨j, hj, he⟩ := hex
          simp only [List.mem_cons] at hj
          rcases hj with hj | hj
          · subst hj; subst he
            simp [Mesh.blend_set_blend, hE]
          · exact absurd he (hall j hj)
      · intro hall
        rw [h2 (fun j hj => hall j (List.mem_cons_of_mem _ hj))]
        have : u ≠ T.vertex tri i := fun h => hall i (List.mem_cons_self _ _) h.symm
        simp [Mesh.blend_set_blend, this]
      · rw [h3]
        simp only [List.mem_cons]
        constructor
        · rintro (h | ⟨⟨j, hj, he⟩, hn⟩)
          · exact Or.inl h
          · exact Or.inr ⟨⟨j, Or.inr hj, he⟩, hn⟩
        · rintro (h | ⟨⟨j, hj, he⟩, hn⟩)
          · exact Or.inl h
          · rcases hj with hj | hj
            · subst hj; subst he; exact absurd hE hn
            · exact Or.inr ⟨⟨j, hj, he⟩, hn⟩
    · simp only [hE, if_false]
      obtain ⟨hf, hu⟩ := ih (s.1.set_blend (T.vertex tri i) layer 1, handle_set_insert s.2 (T.vertex tri i))
      refine ⟨by rw [hf]; rfl, ?_⟩
      intro u
      obtain ⟨h1, h2, h3⟩ := hu u
      refine ⟨?_, ?_, ?_⟩
      · intro hex
        by_cases hl : ∃ j ∈ l, T.vertex tri j = u
        · rw [h1 hl]
          simp only [Mesh.blend_set_blend]
          by_cases hui : u = T.vertex tri i
          · subst hui
            simp [hE]
          · simp [hui]
        · have hall : ∀ j ∈ l, T.vertex tri j ≠ u := fun j hj he => hl ⟨j, hj, he⟩
          rw [h2 hall]
          obtain ⟨j, hj, he⟩ := hex
          simp only [List.mem_cons] at hj
          rcases hj with hj | hj
          · subst hj; subst he
            simp [Mesh.blend_set_blend, hE]
          · exact absurd he (hall j hj)
      · intro hall
        rw [h2 (fun j hj => hall j (List.mem_cons_of_mem _ hj))]
        have : u ≠ T.vertex tri i := fun h => hall i (List.mem_cons_self _ _) h.symm
        simp [Mesh.blend_set_blend, this]
      · rw [h3]
        simp only [List.mem_cons, mem_handle_set_insert]
        constructor
        · rintro ((h | h) | ⟨⟨j, hj, he⟩, hn⟩)
          · subst h; exact Or.inr ⟨⟨i, Or.inl rfl, rfl⟩, hE⟩
          · exact Or.inl h
          · exact Or.inr ⟨⟨j, Or.inr hj, he⟩, hn⟩
        · rintro (h | ⟨⟨j, hj, he⟩, hn⟩)
          · exact Or.inl (Or.inr h)
          · rcases hj with hj | hj
            · subst hj; exact Or.inl (Or.inl he.symm)
            · exact Or.inr ⟨⟨j, hj, he⟩, hn⟩
/-! ## Claims on `RebaseTriangle` -/

/-- C10 as stated fails: vertex 0 of the sample face lies on the shared edge and carries
a blend of 7/10 for the face's terrain 5; after `RebaseTriangle` to the base 4 its blend
for 5 is still 7/10, not 0. -/
theorem RebaseTriangle_keeps_edge_blend :
    ((RebaseTriangle sample_tables sample_topology sample_blended 0 4 (some 0) (some 1) []).1.face 0).terrain = 4 ∧
    (RebaseTriangle sample_tables sample_topology sample_blended 0 4 (some 0) (some 1) []).1.blend 0 5 =
      7 / 10 := by
  decide!

/-- C10 amended: for a face of base HIGH and a new base LOW, neither being water and both
with a transition distance other than zero, `RebaseTriangle` sets the base to LOW and
adds HIGH to the borders of the face; a vertex of the face that is `v1` or `v2` ends with
the larger of its former HIGH blend and 0 (so 0 when it had none); any other vertex of
the face ends with the HIGH blend 1 and is recorded in the set of modified vertices. -/
theorem RebaseTriangle_rebases (W : Tables) (T : Topology) (ms : Mesh) (tri : Nat)
    (new_base : Int) (v1 v2 : Option Nat) (ioModVertices : List Nat)
    (hhigh : (ms.face tri).terrain ≠ W.terrain_Water) (hlow : new_base ≠ W.terrain_Water)
    (hx1 : W.xon_dist (ms.face tri).terrain ≠ 0) (hx2 : W.xon_dist new_base ≠ 0) :
    ((RebaseTriangle W T ms tri new_base v1 v2 ioModVertices).1.face tri).terrain = new_base ∧
    (ms.face tri).terrain ∈
      ((RebaseTriangle W T ms tri new_base v1 v2 ioModVertices).1.face tri).terrain_border ∧
    ∀ i, i < 3 →
      ((some (T.vertex tri i) = v1 ∨ some (T.vertex tri i) = v2) →
        (RebaseTriangle W T ms tri new_base v1 v2 ioModVertices).1.blend (T.vertex tri i)
          (ms.face tri).terrain = max (ms.blend (T.vertex tri i) (ms.face tri).terrain) 0) ∧
      (¬ (some (T.vertex tri i) = v1 ∨ some (T.vertex tri i) = v2) →
        (RebaseTriangle W T ms tri new_base v1 v2 ioModVertices).1.blend (T.vertex tri i)
          (ms.face tri).terrain = 1 ∧
        T.vertex tri i ∈ (RebaseTriangle W T ms tri new_base v1 v2 ioModVertices).2) := by
  have hxon : has_no_xon W (ms.face tri).terrain new_base = false := by
    simp [has_no_xon, hx1, hx2]
  have hcond : ¬ ((ms.face tri).terrain = W.terrain_Water ∨ new_base = W.terrain_Water) := by
    rintro (h | h)
    · exact hhigh h
    · exact hlow h
  obtain ⟨hf, hu⟩ := rebase_fold_spec T tri (ms.face tri).terrain v1 v2 [0, 1, 2]
    ((ms.set_terrain tri new_base).insert_border tri (ms.face tri).terrain, ioModVertices)
  have hR : RebaseTriangle W T ms tri new_base v1 v2 ioModVertices =
      [0, 1, 2].foldl
        (fun s i =>
          if some (T.vertex tri i) = v1 ∨ some (T.vertex tri i) = v2 then
            (s.1.set_blend (T.vertex tri i) (ms.face tri).terrain
              (max (s.1.blend (T.vertex tri i) (ms.face tri).terrain) 0), s.2)
          else
            (s.1.set_blend (T.vertex tri i) (ms.face tri).terrain 1,
              handle_set_insert s.2 (T.vertex tri i)))
        (((ms.set_terrain tri new_base).insert_border tri (ms.face tri).terrain), ioModVertices) := by
    unfold RebaseTriangle
    rw [if_neg hcond, hxon]
    simp [hlow]
  rw [hR]
  refine ⟨?_, ?_, ?_⟩
  · rw [hf]
    simp [Mesh.insert_border, Mesh.set_terrain]
  · rw [hf]
    simp [Mesh.insert_border, Mesh.set_terrain, mem_set_insert]
  · intro i hi
    have hmem : i ∈ [0, 1, 2] := by
      simp only [List.mem_cons, List.mem_singleton]
      omega
    obtain ⟨h1, _, h3⟩ := hu (T.vertex tri i)
    have hb0 : ((ms.set_terrain tri new_base).insert_border tri (ms.face tri).terrain).blend
        (T.vertex tri i) (ms.face tri).terrain = ms.blend (T.vertex tri i) (ms.face tri).terrain := rfl
    refine ⟨?_, ?_⟩
    · intro hE
      rw [h1 ⟨i, hmem, rfl⟩, if_pos hE]
      rfl
    · intro hE
      refine ⟨?_, ?_⟩
      · rw [h1 ⟨i, hmem, rfl⟩, if_neg hE]
      · rw [h3]
        exact Or.inr ⟨⟨i, hmem, rfl⟩, hE⟩

/-- Witness of the amended C10: the call of the counterexample. -/
theorem RebaseTriangle_rebases_witness :
    ((RebaseTriangle sample_tables sample_topology sample_blended 0 4 (some 0) (some 1) []).1.face 0).terrain = 4 ∧
    (5 : Int) ∈
      ((RebaseTriangle sample_tables sample_topology sample_blended 0 4 (some 0) (some 1) []).1.face 0).terrain_border :=
  have h := RebaseTriangle_rebases sample_tables sample_topology sample_blended 0 4 (some 0) (some 1) []
    (by decide) (by decide) (by decide!) (by decide!)
  ⟨h.1, h.2.1⟩

/-! ## Lemmas on `SetTerrainForConstraints` -/

theorem set_all_natural_face (W : Tables) (NO_VALUE : Int) (T : Topology) (ms : Mesh) (f : Nat)
    (hf : f ∈ T.finite_faces) :
    ((set_all_natural W NO_VALUE T ms).face f).terrain = W.terrain_Natural := by
  unfold set_all_natural
  have aux : ∀ (l : List Nat) (s : Mesh),
      (f ∈ l ∨ (s.face f).terrain = W.terrain_Natural) →
      ((l.foldl (fun s ffi =>
        s.set_face ffi { s.face ffi with terrain := W.terrain_Natural, feature := NO_VALUE }) s).face
          f).terrain = W.terrain_Natural := by
    intro l
    induction l with
    | nil => intro s h; simpa using h
    | cons a l ih =>
      intro s h
      simp only [List.foldl_cons]
      apply ih
      by_cases hfa : f = a
      · right; simp [hfa]
      · rcases h with h | h
        · simp only [List.mem_cons] at h
          rcases h with h | h
          · exact absurd h hfa
          · exact Or.inl h
        · right; simp [hfa, h]
  exact aux _ _ (Or.inl hf)

theorem seed_face_terrain (ms : Mesh) (fh : Nat) (t : Int) (o g : Nat) :
    ((seed_face ms fh t o).face g).terrain = if g = fh then t else (ms.face g).terrain := by
  simp only [seed_face, Mesh.set_face_face]
  split <;> rfl

/-- The seeding keeps every terrain among the allowed ones: those of finite faces and
those of the faces in `wet_faces`. -/
theorem seed_constraints_allowed (T : Topology) (A : Int → Prop) :
    ∀ (cs : List LanduseConstraint) (ms : Mesh) (wet : List Nat) (s : Mesh × List Nat),
      (∀ c ∈ cs, A c.left_terrain ∧ A c.right_terrain) →
      (∀ f, T.is_infinite f = false → A (ms.face f).terrain) →
      (∀ f ∈ wet, A (ms.face f).terrain) →
      seed_constraints ms wet cs = some s →
      (∀ f, T.is_infinite f = false → A (s.1.face f).terrain) ∧ (∀ f ∈ s.2, A (s.1.face f).terrain) := by
  intro cs
  induction cs with
  | nil =>
    intro ms wet s _ h1 h2 h
    simp only [seed_constraints, Option.some.injEq] at h
    subst h
    exact ⟨h1, h2⟩
  | cons c cs ih =>
    intro ms wet s hA h1 h2 h
    simp only [seed_constraints] at h
    split at h
    · cases h
    · rename_i fl _
      split at h
      · cases h
      · rename_i fr _
        have hc := hA c (List.mem_cons_self _ _)
        have key : ∀ f, (A (ms.face f).terrain ∨ f = fl ∨ f = fr) →
            A ((seed_face (seed_face ms fl c.left_terrain c.left_orig) fr c.right_terrain
              c.right_orig).face f).terrain := by
          intro f hf
          rw [seed_face_terrain, seed_face_terrain]
          by_cases e1 : f = fr
          · rw [if_pos e1]; exact hc.2
          · rw [if_neg e1]
            by_cases e2 : f = fl
            · rw [if_pos e2]; exact hc.1
            · rw [if_neg e2]
              rcases hf with hf | hf | hf
              · exact hf
              · exact absurd hf e2
              · exact absurd hf e1
        refine ih _ _ s (fun c' hc' => hA c' (List.mem_cons_of_mem _ hc')) ?_ ?_ h
        · intro f hf
          exact key f (Or.inl (h1 f hf))
        · intro f hf
          rw [mem_handle_set_insert, mem_handle_set_insert] at hf
          rcases hf with hf | hf | hf
          · exact key f (Or.inr (Or.inr hf))
          · exact key f (Or.inr (Or.inl hf))
          · exact key f (Or.inl (h2 f hf))

/-- What one neighbour step of the flood does to the terrains and to `wet_faces`: a
terrain is kept or becomes `tg` on a finite face; a face that joins is finite and was
not visited. -/
theorem flood_neighbor_spec (W : Tables) (T : Topology) (f : Nat) (tg : Int)
    (og : Option Nat) (visited : List Nat) (s : Mesh × List Nat) (vi : Nat) :
    (∀ g, ((flood_neighbor W T f tg og visited s vi).1.face g).terrain = (s.1.face g).terrain ∨
      (T.is_infinite g = false ∧ ((flood_neighbor W T f tg og visited s vi).1.face g).terrain = tg)) ∧
    (∀ g ∈ (flood_neighbor W T f tg og visited s vi).2,
      g ∈ s.2 ∨ (T.is_infinite g = false ∧ g ∉ visited)) := by
  unfold flood_neighbor
  by_cases hc : T.is_constrained f vi = false
  · by_cases hfin : T.is_infinite (T.neighbor f vi) = false ∧ T.neighbor f vi ∉ visited
    · rw [if_pos hc, if_pos hfin]
      dsimp only
      refine ⟨?_, ?_⟩
      · intro g
        by_cases hg : g = T.neighbor f vi
        · subst hg
          by_cases hconf : (s.1.face (T.neighbor f vi)).terrain ≠ W.terrain_Natural ∧
              (s.1.face (T.neighbor f vi)).terrain ≠ tg
          · left
            rw [if_pos hconf]
            split_ifs <;> simp [Mesh.set_face_face]
          · right
            refine ⟨hfin.1, ?_⟩
            rw [if_neg hconf]
            split_ifs <;> simp [Mesh.set_face_face]
        · left
          split_ifs <;> simp [Mesh.set_face_face, hg]
      · intro g hg
        rw [mem_handle_set_insert] at hg
        rcases hg with hg | hg
        · subst hg; exact Or.inr hfin
        · exact Or.inl hg
    · rw [if_pos hc, if_neg hfin]
      exact ⟨fun g => Or.inl rfl, fun g hg => Or.inl hg⟩
  · rw [if_neg hc]
    exact ⟨fun g => Or.inl rfl, fun g hg => Or.inl hg⟩

theorem flood_neighbor_allowed (W : Tables) (T : Topology) (A : Int → Prop) (f : Nat) (tg : Int)
    (og : Option Nat) (visited : List Nat) (s : Mesh × List Nat) (vi : Nat) (htg : A tg)
    (h1 : ∀ g, T.is_infinite g = false → A (s.1.face g).terrain)
    (h2 : ∀ g ∈ s.2, A (s.1.face g).terrain) :
    (∀ g, T.is_infinite g = false → A ((flood_neighbor W T f tg og visited s vi).1.face g).terrain) ∧
    (∀ g ∈ (flood_neighbor W T f tg og visited s vi).2,
      A ((flood_neighbor W T f tg og visited s vi).1.face g).terrain) := by
  obtain ⟨k1, k2⟩ := flood_neighbor_spec W T f tg og visited s vi
  refine ⟨?_, ?_⟩
  · intro g hg
    rcases k1 g with h | ⟨_, h⟩
    · rw [h]; exact h1 g hg
    · rw [h]; exact htg
  · intro g hg
    rcases k1 g with h | ⟨_, h⟩
    · rw [h]
      rcases k2 g hg with h' | ⟨h', _⟩
      · exact h2 g h'
      · exact h1 g h'
    · rw [h]; exact htg

theorem flood_fold_allowed (W : Tables) (T : Topology) (A : Int → Prop) (f : Nat) (tg : Int)
    (og : Option Nat) (visited : List Nat) (htg : A tg) :
    ∀ (l : List Nat) (s : Mesh × List Nat),
      (∀ g, T.is_infinite g = false → A (s.1.face g).terrain) →
      (∀ g ∈ s.2, A (s.1.face g).terrain) →
      (∀ g, T.is_infinite g = false →
        A ((l.foldl (flood_neighbor W T f tg og visited) s).1.face g).terrain) ∧
      (∀ g ∈ (l.foldl (flood_neighbor W T f tg og visited) s).2,
        A ((l.foldl (flood_neighbor W T f tg og visited) s).1.face g).terrain) := by
  intro l
  induction l with
  | nil => intro s h1 h2; exact ⟨h1, h2⟩
  | cons vi l ih =>
    intro s h1 h2
    simp only [List.foldl_cons]
    obtain ⟨k1, k2⟩ := flood_neighbor_allowed W T A f tg og visited s vi htg h1 h2
    exact ih _ k1 k2

/-- The flood keeps every terrain among the allowed ones. -/
theorem flood_loop_allowed (W : Tables) (T : Topology) (A : Int → Prop) :
    ∀ (fuel : Nat) (ms : Mesh) (wet visited : List Nat),
      (∀ g, T.is_infinite g = false → A (ms.face g).terrain) →
      (∀ g ∈ wet, A (ms.face g).terrain) →
      ∀ g, T.is_infinite g = false → A ((flood_loop W T fuel ms wet visited).1.face g).terrain := by
  intro fuel
  induction fuel with
  | zero => intro ms wet visited h1 _; exact h1
  | succ n ih =>
    intro ms wet visited h1 h2
    cases wet with
    | nil => exact h1
    | cons f rest =>
      simp only [flood_loop]
      have htg : A (ms.face f).terrain := h2 f (List.mem_cons_self _ _)
      have hs1 : ∀ g, T.is_infinite g = false → A ((ms.set_flag f 0).face g).terrain := by
        intro g hg
        simp only [Mesh.set_flag, Mesh.set_face_face]
        split
        · rename_i e; subst e; exact h1 g hg
        · exact h1 g hg
      have hs2 : ∀ g ∈ rest, A ((ms.set_flag f 0).face g).terrain := by
        intro g hg
        simp only [Mesh.set_flag, Mesh.set_face_face]
        split
        · rename_i e; subst e; exact htg
        · exact h2 g (List.mem_cons_of_mem _ hg)
      obtain ⟨k1, k2⟩ := flood_fold_allowed W T A f (ms.face f).terrain (ms.face f).orig_face
        (handle_set_insert visited f) htg [0, 1, 2] (ms.set_flag f 0, rest) hs1 hs2
      exact ih _ _ _ k1 k2

theorem foldl_face {α : Type} (g : Mesh → α → Mesh) (hg : ∀ s a, (g s a).face = s.face) :
    ∀ (l : List α) (s : Mesh), (l.foldl g s).face = s.face := by
  intro l
  induction l with
  | nil => intro s; rfl
  | cons a l ih => intro s; simp only [List.foldl_cons]; rw [ih, hg]

theorem set_water_heights_face (W : Tables) (T : Topology) (xy_nearest : Nat → Option ℚ)
    (ms : Mesh) : (set_water_heights W T xy_nearest ms).face = ms.face := by
  unfold set_water_heights
  apply foldl_face
  intro s ffi
  split
  · apply foldl_face
    intro s2 vi
    split <;> rfl
  · rfl
theorem handle_set_insert_pairwise : ∀ (s : List Nat) (k : Nat),
    s.Pairwise (fun a b => a < b) → (handle_set_insert s k).Pairwise (fun a b => a < b) := by
  intro s
  induction s with
  | nil => intro k _; simp [handle_set_insert]
  | cons a s ih =>
    intro k hs
    have hs' := List.pairwise_cons.mp hs
    simp only [handle_set_insert]
    split
    · rename_i hlt
      refine List.pairwise_cons.mpr ⟨?_, hs⟩
      intro e he
      simp only [List.mem_cons] at he
      rcases he with he | he
      · rw [he]; exact hlt
      · exact lt_trans hlt (hs'.1 e he)
    · split
      · exact hs
      · rename_i hnlt hne
        refine List.pairwise_cons.mpr ⟨?_, ih k hs'.2⟩
        intro e he
        rw [mem_handle_set_insert] at he
        rcases he with h | h
        · rw [h]; omega
        · exact hs'.1 e h

theorem filter_length_le_of_imp {α : Type} (p q : α → Bool) (hpq : ∀ x, p x = true → q x = true) :
    ∀ (l : List α), (l.filter p).length ≤ (l.filter q).length := by
  intro l
  induction l with
  | nil => simp
  | cons a l ih =>
    simp only [List.filter_cons]
    by_cases hp : p a = true
    · simp only [hp, hpq a hp, if_true, List.length_cons]
      omega
    · simp only [hp, Bool.false_eq_true, if_false]
      split
      · simp only [List.length_cons]; omega
      · exact ih

theorem filter_length_lt_of_imp {α : Type} (p q : α → Bool) (hpq : ∀ x, p x = true → q x = true) :
    ∀ (l : List α) (a : α), a ∈ l → q a = true → p a = false →
      (l.filter p).length < (l.filter q).length := by
  intro l
  induction l with
  | nil => intro a h; simp at h
  | cons b l ih =>
    intro a ha hq hp
    simp only [List.mem_cons] at ha
    simp only [List.filter_cons]
    rcases ha with ha | ha
    · subst ha
      simp only [hp, hq, Bool.false_eq_true, if_false, if_true, List.length_cons]
      have := filter_length_le_of_imp p q hpq l
      omega
    · have := ih a ha hq hp
      by_cases hpb : p b = true
      · simp only [hpb, hpq b hpb, if_true, List.length_cons]
        omega
      · simp only [hpb, Bool.false_eq_true, if_false]
        split
        · simp only [List.length_cons]; omega
        · exact this

theorem flood_neighbor_pairwise (W : Tables) (T : Topology) (f : Nat) (tg : Int)
    (og : Option Nat) (visited : List Nat) (s : Mesh × List Nat) (vi : Nat)
    (h : s.2.Pairwise (fun a b => a < b)) :
    (flood_neighbor W T f tg og visited s vi).2.Pairwise (fun a b => a < b) := by
  unfold flood_neighbor
  split
  · split
    · exact handle_set_insert_pairwise _ _ h
    · exact h
  · exact h

/-- The three neighbour steps of one turn of the flood: `wet_faces` stays increasing and
gains only finite faces that were not visited. -/
theorem flood_fold_wet (W : Tables) (T : Topology) (f : Nat) (tg : Int) (og : Option Nat)
    (visited : List Nat) :
    ∀ (l : List Nat) (s : Mesh × List Nat), s.2.Pairwise (fun a b => a < b) →
      (l.foldl (flood_neighbor W T f tg og visited) s).2.Pairwise (fun a b => a < b) ∧
      ∀ g ∈ (l.foldl (flood_neighbor W T f tg og visited) s).2,
        g ∈ s.2 ∨ (T.is_infinite g = false ∧ g ∉ visited) := by
  intro l
  induction l with
  | nil => intro s h; exact ⟨h, fun g hg => Or.inl hg⟩
  | cons vi l ih =>
    intro s h
    simp only [List.foldl_cons]
    obtain ⟨k1, k2⟩ := ih _ (flood_neighbor_pairwise W T f tg og visited s vi h)
    refine ⟨k1, ?_⟩
    intro g hg
    rcases k2 g hg with h' | h'
    · exact (flood_neighbor_spec W T f tg og visited s vi).2 g h'
    · exact Or.inr h'

/-- The flood runs to the end: when `wet_faces` is increasing and holds faces of a list
`S` that were not visited, `S` holds every finite face, and the fuel is at least the
number of entries of `S` not visited, the loop ends with `wet_faces` empty. -/
theorem flood_loop_finishes (W : Tables) (T : Topology) (S : List Nat)
    (hS : ∀ g, T.is_infinite g = false → g ∈ S) :
    ∀ (fuel : Nat) (ms : Mesh) (wet visited : List Nat),
      wet.Pairwise (fun a b => a < b) → (∀ g ∈ wet, g ∈ S ∧ g ∉ visited) →
      (S.filter (fun x => decide (x ∉ visited))).length ≤ fuel →
      (flood_loop W T fuel ms wet visited).2.1 = [] := by
  intro fuel
  induction fuel with
  | zero =>
    intro ms wet visited _ hw hm
    cases wet with
    | nil => rfl
    | cons f rest =>
      exfalso
      obtain ⟨h1, h2⟩ := hw f (List.mem_cons_self _ _)
      have : f ∈ S.filter (fun x => decide (x ∉ visited)) := by
        simp [List.mem_filter, h1, h2]
      have hpos := List.length_pos_of_mem this
      omega
  | succ n ih =>
    intro ms wet visited hp hw hm
    cases wet with
    | nil => rfl
    | cons f rest =>
      simp only [flood_loop]
      obtain ⟨h1, h2⟩ := hw f (List.mem_cons_self _ _)
      have hp' := List.pairwise_cons.mp hp
      obtain ⟨k1, k2⟩ := flood_fold_wet W T f (ms.face f).terrain (ms.face f).orig_face
        (handle_set_insert visited f) [0, 1, 2] (ms.set_flag f 0, rest) hp'.2
      refine ih _ _ _ k1 ?_ ?_
      · intro g hg
        rcases k2 g hg with h | ⟨h, h'⟩
        · have hgw := hw g (List.mem_cons_of_mem _ h)
          refine ⟨hgw.1, ?_⟩
          rw [mem_handle_set_insert]
          rintro (e | e)
          · have := hp'.1 g h
            omega
          · exact hgw.2 e
        · exact ⟨hS g h, h'⟩
      · have := filter_length_lt_of_imp (fun x => decide (x ∉ handle_set_insert visited f))
          (fun x => decide (x ∉ visited))
          (by
            intro x hx
            simp only [decide_eq_true_eq, mem_handle_set_insert] at hx ⊢
            exact fun h => hx (Or.inr h))
          S f h1 (by simpa using h2) (by simp [mem_handle_set_insert])
        omega

theorem seed_constraints_wet :
    ∀ (cs : List LanduseConstraint) (ms : Mesh) (wet : List Nat) (s : Mesh × List Nat),
      wet.Pairwise (fun a b => a < b) → seed_constraints ms wet cs = some s →
      s.2.Pairwise (fun a b => a < b) := by
  intro cs
  induction cs with
  | nil =>
    intro ms wet s hw h
    simp only [seed_constraints, Option.some.injEq] at h
    subst h
    exact hw
  | cons c cs ih =>
    intro ms wet s hw h
    simp only [seed_constraints] at h
    split at h
    · cases h
    · split at h
      · cases h
      · exact ih _ _ s
          (handle_set_insert_pairwise _ _ (handle_set_insert_pairwise _ _ hw)) h

theorem seed_constraints_some :
    ∀ (cs : List LanduseConstraint) (ms : Mesh) (wet : List Nat),
      (∀ c ∈ cs, c.left_face ≠ none ∧ c.right_face ≠ none) →
      ∃ s, seed_constraints ms wet cs = some s := by
  intro cs
  induction cs with
  | nil => intro ms wet _; exact ⟨_, rfl⟩
  | cons c cs ih =>
    intro ms wet h
    obtain ⟨h1, h2⟩ := h c (List.mem_cons_self _ _)
    simp only [seed_constraints]
    cases hl : c.left_face with
    | none => exact absurd hl h1
    | some fl =>
      cases hr : c.right_face with
      | none => exact absurd hr h2
      | some fr =>
        exact ih _ _ (fun c' hc' => h c' (List.mem_cons_of_mem _ hc'))

/-! ## Claim on `SetTerrainForConstraints` -/

/-- C8: when every constraint is found as an edge of the mesh (no assertion stops the
function), `SetTerrainForConstraints` returns, its flood has emptied `wet_faces`, and
every finite face has then the terrain natural or the terrain of the map face on one
side of a constraint; so no finite face has the terrain `unassigned`, for any value
`unassigned` that is neither natural nor a terrain of those map faces. -/
theorem SetTerrainForConstraints_assigns (W : Tables) (NO_VALUE : Int) (T : Topology)
    (xy_nearest : Nat → Option ℚ) (ioMesh : Mesh) (inCoastlines : List LanduseConstraint)
    (unassigned : Int) (hnat : W.terrain_Natural ≠ unassigned)
    (hmap : ∀ c ∈ inCoastlines, c.left_terrain ≠ unassigned ∧ c.right_terrain ≠ unassigned)
    (hfound : ∀ c ∈ inCoastlines, c.left_face ≠ none ∧ c.right_face ≠ none) :
    ∃ out s, SetTerrainForConstraints W NO_VALUE T xy_nearest ioMesh inCoastlines = some out ∧
      seed_constraints (set_all_natural W NO_VALUE T ioMesh) [] inCoastlines = some s ∧
      (flood_loop W T (flood_fuel T s.2) s.1 s.2 []).2.1 = [] ∧
      ∀ f ∈ T.finite_faces,
        (out.face f).terrain ≠ unassigned ∧
        ((out.face f).terrain = W.terrain_Natural ∨
          ∃ c ∈ inCoastlines, (out.face f).terrain = c.left_terrain ∨
            (out.face f).terrain = c.right_terrain) := by
  obtain ⟨s, hs⟩ := seed_constraints_some inCoastlines (set_all_natural W NO_VALUE T ioMesh) [] hfound
  have hout : SetTerrainForConstraints W NO_VALUE T xy_nearest ioMesh inCoastlines =
      some (set_water_heights W T xy_nearest (flood_loop W T (flood_fuel T s.2) s.1 s.2 []).1) := by
    simp only [SetTerrainForConstraints, hs]
  refine ⟨_, s, hout, hs, ?_, ?_⟩
  · refine flood_loop_finishes W T (s.2 ++ T.finite_faces) ?_ _ _ _ _
      (seed_constraints_wet _ _ _ s List.Pairwise.nil hs) ?_ ?_
    · intro g hg
      simp only [Topology.is_infinite, decide_eq_false_iff_not, not_not] at hg
      exact List.mem_append_right _ hg
    · intro g hg
      exact ⟨List.mem_append_left _ hg, by simp⟩
    · simp [flood_fuel]
  · have hA := seed_constraints_allowed T
      (fun t => t = W.terrain_Natural ∨
        ∃ c ∈ inCoastlines, t = c.left_terrain ∨ t = c.right_terrain)
      inCoastlines (set_all_natural W NO_VALUE T ioMesh) [] s
      (fun c hc => ⟨Or.inr ⟨c, hc, Or.inl rfl⟩, Or.inr ⟨c, hc, Or.inr rfl⟩⟩)
      (by
        intro f hf
        simp only [Topology.is_infinite, decide_eq_false_iff_not, not_not] at hf
        exact Or.inl (set_all_natural_face W NO_VALUE T ioMesh f hf))
      (by simp) hs
    have hfl := flood_loop_allowed W T
      (fun t => t = W.terrain_Natural ∨
        ∃ c ∈ inCoastlines, t = c.left_terrain ∨ t = c.right_terrain)
      (flood_fuel T s.2) s.1 s.2 [] hA.1 hA.2
    intro f hf
    have hfin : T.is_infinite f = false := by
      simp [Topology.is_infinite, hf]
    have := hfl f hfin
    rw [set_water_heights_face]
    refine ⟨?_, this⟩
    rcases this with h | ⟨c, hc, h | h⟩
    · rw [h]; exact hnat
    · rw [h]; exact (hmap c hc).1
    · rw [h]; exact (hmap c hc).2

/-- Witness of C8: the sample tile with one constraint along the diagonal, water
(terrain 2) on the side of face 0 and the terrain 7 on the side of face 1. -/
theorem SetTerrainForConstraints_assigns_witness :
    ∃ out s, SetTerrainForConstraints sample_tables (-1) sample_topology (fun _ => none) sample_land
        [{ left_face := some 0, left_terrain := 2, left_orig := 0,
           right_face := some 1, right_terrain := 7, right_orig := 1 }] = some out ∧
      seed_constraints (set_all_natural sample_tables (-1) sample_topology sample_land) []
        [{ left_face := some 0, left_terrain := 2, left_orig := 0,
           right_face := some 1, right_terrain := 7, right_orig := 1 }] = some s ∧
      (flood_loop sample_tables sample_topology (flood_fuel sample_topology s.2) s.1 s.2 []).2.1 = [] ∧
      ∀ f ∈ sample_topology.finite_faces,
        (out.face f).terrain ≠ -1 ∧
        ((out.face f).terrain = sample_tables.terrain_Natural ∨
          ∃ c ∈ [({ left_face := some 0, left_terrain := 2, left_orig := 0,
                    right_face := some 1, right_terrain := 7, right_orig := 1 } : LanduseConstraint)],
            (out.face f).terrain = c.left_terrain ∨ (out.face f).terrain = c.right_terrain) :=
  SetTerrainForConstraints_assigns sample_tables (-1) sample_topology (fun _ => none) sample_land
    [{ left_face := some 0, left_terrain := 2, left_orig := 0,
       right_face := some 1, right_terrain := 7, right_orig := 1 }] (-1)
    (by decide) (by decide) (by decide)

/-! ## Lemmas on the border passes: water faces are left alone -/

theorem WaterKept.refl (W : Tables) (ms : Mesh) : WaterKept W ms ms :=
  fun _ h => ⟨h, rfl⟩

theorem WaterKept.trans {W : Tables} {a b c : Mesh} (h1 : WaterKept W a b) (h2 : WaterKept W b c) :
    WaterKept W a c := by
  intro f hf
  obtain ⟨k1, k2⟩ := h2 f hf
  obtain ⟨k3, k4⟩ := h1 f k1
  exact ⟨k3, k2.trans k4⟩

theorem WaterKept.of_face_eq {W : Tables} {a b : Mesh} (h : b.face = a.face) : WaterKept W a b := by
  intro f hf
  rw [h] at hf ⊢
  exact ⟨hf, rfl⟩

theorem foldl_face_fst {α β : Type} (g : Mesh × β → α → Mesh × β)
    (hg : ∀ s a, (g s a).1.face = s.1.face) :
    ∀ (l : List α) (s : Mesh × β), (l.foldl g s).1.face = s.1.face := by
  intro l
  induction l with
  | nil => intro s; rfl
  | cons a l ih => intro s; simp only [List.foldl_cons]; rw [ih, hg]

theorem insert_border_waterKept (W : Tables) (ms : Mesh) (f : Nat) (layer : Int)
    (hf : (ms.face f).terrain ≠ W.terrain_Water) : WaterKept W ms (ms.insert_border f layer) := by
  intro g hg
  simp only [Mesh.insert_border, Mesh.set_face_face] at hg ⊢
  by_cases e : g = f
  · subst e
    simp only [if_true] at hg
    exact absurd hg hf
  · simp only [e, if_false] at hg ⊢
    exact ⟨hg, trivial⟩

theorem set_flag_terrain (ms : Mesh) (f : Nat) (n : Int) (g : Nat) :
    ((ms.set_flag f n).face g).terrain = (ms.face g).terrain := by
  simp only [Mesh.set_flag, Mesh.set_face_face]
  split
  · rename_i e; subst e; rfl
  · rfl

theorem insert_border_terrain (ms : Mesh) (f : Nat) (layer : Int) (g : Nat) :
    ((ms.insert_border f layer).face g).terrain = (ms.face g).terrain := by
  simp only [Mesh.insert_border, Mesh.set_face_face]
  split
  · rename_i e; subst e; rfl
  · rfl

/-- The calculation phase on a face changes no terrain, and on a face that is not water
it leaves the water faces alone. -/
theorem fade_face_spec (W : Tables) (T : Topology) (DistPtToTri : Nat → Nat → ℚ) (tri : Nat)
    (layer : Int) (ms : Mesh) (border : Nat) :
    (∀ g, ((fade_face W T DistPtToTri tri layer ms border).1.face g).terrain = (ms.face g).terrain) ∧
    ((ms.face border).terrain ≠ W.terrain_Water →
      WaterKept W ms (fade_face W T DistPtToTri tri layer ms border).1) := by
  unfold fade_face
  split
  · dsimp only
    split
    · have hface : ∀ (m4 : Mesh), m4.face = ms.face →
          (∀ g, ((m4.insert_border border layer).face g).terrain = (ms.face g).terrain) ∧
          ((ms.face border).terrain ≠ W.terrain_Water →
            WaterKept W ms (m4.insert_border border layer)) := by
        intro m4 h4
        refine ⟨fun g => by rw [insert_border_terrain, h4], fun hb => ?_⟩
        exact (WaterKept.of_face_eq h4).trans
          (insert_border_waterKept W m4 border layer (by rw [h4]; exact hb))
      apply hface
      split_ifs <;> rfl
    · exact ⟨fun _ => rfl, fun _ => WaterKept.refl W ms⟩
  · exact ⟨fun _ => rfl, fun _ => WaterKept.refl W ms⟩

theorem mem_foldl_insert_if (p : Nat → Bool) (nb : Nat → Nat) :
    ∀ (l : List Nat) (tv : List Nat),
      ∀ g ∈ l.foldl (fun tv i => if p (nb i) then handle_set_insert tv (nb i) else tv) tv,
        g ∈ tv ∨ p g = true := by
  intro l
  induction l with
  | nil => intro tv g hg; exact Or.inl hg
  | cons i l ih =>
    intro tv g hg
    simp only [List.foldl_cons] at hg
    rcases ih _ g hg with h | h
    · split at h
      · rename_i hp
        rw [mem_handle_set_insert] at h
        rcases h with h | h
        · subst h; exact Or.inr hp
        · exact Or.inl h
      · exact Or.inl h
    · exact Or.inr h

theorem erase_fold_spec (tri : Nat) :
    ∀ (l : List Int) (s : Mesh),
      (∀ g, g ≠ tri → (l.foldl (fun s nlayer => s.erase_border tri nlayer) s).face g = s.face g) ∧
      ((l.foldl (fun s nlayer => s.erase_border tri nlayer) s).face tri).terrain =
        (s.face tri).terrain := by
  intro l
  induction l with
  | nil => intro s; exact ⟨fun _ _ => rfl, rfl⟩
  | cons b l ih =>
    intro s
    simp only [List.foldl_cons]
    obtain ⟨k1, k2⟩ := ih (s.erase_border tri b)
    refine ⟨?_, ?_⟩
    · intro g hg
      rw [k1 g hg]
      simp [Mesh.erase_border, Mesh.set_face_face, hg]
    · rw [k2]
      simp [Mesh.erase_border, Mesh.set_face_face]

theorem promote_layer_frame (W : Tables) (T : Topology) (tri : Nat) (s : Mesh × Bool)
    (blayer : Int) (t0 : Int) :
    (∀ g, g ≠ tri → (promote_layer W T tri s blayer).1.face g = s.1.face g) ∧
    ((promote_layer W T tri s blayer).1.face tri).terrain_border = (s.1.face tri).terrain_border ∧
    ((s.2 = true ∨ (s.1.face tri).terrain = t0) →
      ((promote_layer W T tri s blayer).2 = true ∨
        ((promote_layer W T tri s blayer).1.face tri).terrain = t0)) := by
  unfold promote_layer
  split_ifs with h0 h1 h2 h3
  · refine ⟨?_, ?_, fun _ => Or.inl rfl⟩
    · intro g hg
      simp [Mesh.set_terrain, Mesh.set_face_face, hg]
    · simp [Mesh.set_terrain, Mesh.set_face_face]
  · exact ⟨fun _ _ => rfl, rfl, fun h => h⟩
  · exact ⟨fun _ _ => rfl, rfl, fun h => h⟩
  · exact ⟨fun _ _ => rfl, rfl, fun h => h⟩
  · exact ⟨fun _ _ => rfl, rfl, fun h => h⟩

theorem promote_fold_frame (W : Tables) (T : Topology) (tri : Nat) (t0 : Int) :
    ∀ (l : List Int) (s : Mesh × Bool),
      (∀ g, g ≠ tri → (l.foldl (promote_layer W T tri) s).1.face g = s.1.face g) ∧
      ((l.foldl (promote_layer W T tri) s).1.face tri).terrain_border =
        (s.1.face tri).terrain_border ∧
      ((s.2 = true ∨ (s.1.face tri).terrain = t0) →
        ((l.foldl (promote_layer W T tri) s).2 = true ∨
          ((l.foldl (promote_layer W T tri) s).1.face tri).terrain = t0)) := by
  intro l
  induction l with
  | nil => intro s; exact ⟨fun _ _ => rfl, rfl, fun h => h⟩
  | cons b l ih =>
    intro s
    simp only [List.foldl_cons]
    obtain ⟨k1, k2, k3⟩ := ih (promote_layer W T tri s b)
    obtain ⟨p1, p2, p3⟩ := promote_layer_frame W T tri s b t0
    exact ⟨fun g hg => (k1 g hg).trans (p1 g hg), k2.trans p2, fun h => k3 (p3 h)⟩

theorem erase_fold_border (tri : Nat) :
    ∀ (l : List Int) (s : Mesh),
      ((l.foldl (fun s nlayer => s.erase_border tri nlayer) s).face tri).terrain_border =
        l.foldl (fun acc nlayer => acc.erase nlayer) (s.face tri).terrain_border := by
  intro l
  induction l with
  | nil => intro s; rfl
  | cons b l ih =>
    intro s
    simp only [List.foldl_cons]
    rw [ih]
    simp [Mesh.erase_border, Mesh.set_face_face]

theorem fade_face_flag (W : Tables) (T : Topology) (DistPtToTri : Nat → Nat → ℚ) (tri : Nat)
    (layer : Int) (ms : Mesh) (border : Nat) (g : Nat) :
    ((fade_face W T DistPtToTri tri layer ms border).1.face g).flag = (ms.face g).flag := by
  unfold fade_face
  split
  · dsimp only
    split
    · have hface : ∀ (m4 : Mesh), m4.face = ms.face →
          ((m4.insert_border border layer).face g).flag = (ms.face g).flag := by
        intro m4 h4
        simp only [Mesh.insert_border, Mesh.set_face_face, h4]
        split
        · rename_i e; subst e; rfl
        · rfl
      apply hface
      split_ifs <;> rfl
    · rfl
  · rfl

theorem set_flag_flag (ms : Mesh) (f : Nat) (n : Int) (g : Nat) :
    ((ms.set_flag f n).face g).flag = if g = f then n else (ms.face g).flag := by
  simp only [Mesh.set_flag, Mesh.set_face_face]
  split <;> rfl

theorem foldl_insert_if_pairwise (p : Nat → Bool) (nb : Nat → Nat) :
    ∀ (l : List Nat) (tv : List Nat), tv.Pairwise (fun a b => a < b) →
      (l.foldl (fun tv i => if p (nb i) then handle_set_insert tv (nb i) else tv) tv).Pairwise
        (fun a b => a < b) := by
  intro l
  induction l with
  | nil => intro tv h; exact h
  | cons i l ih =>
    intro tv h
    simp only [List.foldl_cons]
    apply ih
    split
    · exact handle_set_insert_pairwise _ _ h
    · exact h

/-- The number of turns the work loop of a seed can still take: the finite faces whose
flag is not yet the pass number, and one more while the seed waits in `to_visit`. -/
theorem fade_loop_fuel_enough (W : Tables) (T : Topology) (DistPtToTri : Nat → Nat → ℚ)
    (tri : Nat) (layer visited : Int) :
    ∀ (fuel fuel2 : Nat) (ms : Mesh) (tv : List Nat),
      tv.Pairwise (fun a b => a < b) → (ms.face tri).flag = visited →
      (∀ b ∈ tv, b = tri ∨ (b ∈ T.finite_faces ∧ (ms.face b).flag ≠ visited)) →
      (T.finite_faces.filter (fun f => decide ((ms.face f).flag ≠ visited))).length +
        (if tri ∈ tv then 1 else 0) ≤ fuel →
      (T.finite_faces.filter (fun f => decide ((ms.face f).flag ≠ visited))).length +
        (if tri ∈ tv then 1 else 0) ≤ fuel2 →
      fade_loop W T DistPtToTri tri layer visited fuel ms tv =
        fade_loop W T DistPtToTri tri layer visited fuel2 ms tv := by
  intro fuel
  induction fuel with
  | zero =>
    intro fuel2 ms tv _ _ hinv h1 _
    have htv : tv = [] := by
      cases tv with
      | nil => rfl
      | cons b rest =>
        exfalso
        rcases hinv b (List.mem_cons_self _ _) with h | ⟨h, h'⟩
        · subst h
          simp at h1
        · have : b ∈ T.finite_faces.filter (fun f => decide ((ms.face f).flag ≠ visited)) := by
            simp [List.mem_filter, h, h']
          have := List.length_pos_of_mem this
          omega
    subst htv
    cases fuel2 <;> rfl
  | succ n ih =>
    intro fuel2 ms tv hp hflag hinv h1 h2
    cases tv with
    | nil => cases fuel2 <;> rfl
    | cons border rest =>
      have hp' := List.pairwise_cons.mp hp
      have hnotin : border ∉ rest := fun h => by
        have := hp'.1 border h
        omega
      -- the state after one turn
      have hstep : ∀ (r : Mesh × Bool),
          (∀ g, (r.1.face g).flag = (ms.face g).flag) →
          (if r.2 then [0, 1, 2].foldl (fun tv i =>
              if fade_wants W T (r.1.set_flag border visited) layer visited (T.neighbor border i) then
                handle_set_insert tv (T.neighbor border i) else tv) rest
            else rest).Pairwise (fun a b => a < b) ∧
          ((r.1.set_flag border visited).face tri).flag = visited ∧
          (∀ b ∈ (if r.2 then [0, 1, 2].foldl (fun tv i =>
              if fade_wants W T (r.1.set_flag border visited) layer visited (T.neighbor border i) then
                handle_set_insert tv (T.neighbor border i) else tv) rest
            else rest),
            b = tri ∨ (b ∈ T.finite_faces ∧
              ((r.1.set_flag border visited).face b).flag ≠ visited)) ∧
          (T.finite_faces.filter
              (fun f => decide (((r.1.set_flag border visited).face f).flag ≠ visited))).length +
            (if tri ∈ (if r.2 then [0, 1, 2].foldl (fun tv i =>
              if fade_wants W T (r.1.set_flag border visited) layer visited (T.neighbor border i) then
                handle_set_insert tv (T.neighbor border i) else tv) rest
            else rest) then 1 else 0) <
          (T.finite_faces.filter (fun f => decide ((ms.face f).flag ≠ visited))).length +
            (if tri ∈ border :: rest then 1 else 0) := by
        intro r hr
        have hfl : ∀ g, ((r.1.set_flag border visited).face g).flag =
            if g = border then visited else (ms.face g).flag := by
          intro g; rw [set_flag_flag, hr]
        have hwant : ∀ b, fade_wants W T (r.1.set_flag border visited) layer visited b = true →
            b ∈ T.finite_faces ∧ ((r.1.set_flag border visited).face b).flag ≠ visited := by
          intro b hb
          simp only [fade_wants, Bool.and_eq_true, decide_eq_true_eq, Topology.is_infinite,
            Bool.not_eq_true', decide_eq_false_iff_not, not_not] at hb
          exact ⟨hb.1.1.2, hb.1.1.1⟩
        have hmem : ∀ b ∈ (if r.2 then [0, 1, 2].foldl (fun tv i =>
              if fade_wants W T (r.1.set_flag border visited) layer visited (T.neighbor border i) then
                handle_set_insert tv (T.neighbor border i) else tv) rest
            else rest),
            b ∈ rest ∨ fade_wants W T (r.1.set_flag border visited) layer visited b = true := by
          intro b hb
          split at hb
          · exact mem_foldl_insert_if _ (T.neighbor border) [0, 1, 2] rest b hb
          · exact Or.inl hb
        have htriflag : ((r.1.set_flag border visited).face tri).flag = visited := by
          rw [hfl]; split
          · rfl
          · exact hflag
        have hinv2 : ∀ b ∈ (if r.2 then [0, 1, 2].foldl (fun tv i =>
              if fade_wants W T (r.1.set_flag border visited) layer visited (T.neighbor border i) then
                handle_set_insert tv (T.neighbor border i) else tv) rest
            else rest),
            b = tri ∨ (b ∈ T.finite_faces ∧
              ((r.1.set_flag border visited).face b).flag ≠ visited) := by
          intro b hb
          rcases hmem b hb with h | h
          · rcases hinv b (List.mem_cons_of_mem _ h) with h' | ⟨h', h''⟩
            · exact Or.inl h'
            · right
              refine ⟨h', ?_⟩
              rw [hfl]
              have : b ≠ border := fun e => hnotin (e ▸ h)
              simp [this, h'']
          · exact Or.inr (hwant b h)
        have htri2 : tri ∈ (if r.2 then [0, 1, 2].foldl (fun tv i =>
              if fade_wants W T (r.1.set_flag border visited) layer visited (T.neighbor border i) then
                handle_set_insert tv (T.neighbor border i) else tv) rest
            else rest) → tri ∈ rest := by
          intro h
          rcases hmem tri h with h' | h'
          · exact h'
          · exact absurd htriflag (hwant tri h').2
        refine ⟨?_, htriflag, hinv2, ?_⟩
        · split
          · exact foldl_insert_if_pairwise _ _ _ _ hp'.2
          · exact hp'.2
        · have himp : ∀ x, (fun f => decide (((r.1.set_flag border visited).face f).flag ≠ visited)) x = true →
              (fun f => decide ((ms.face f).flag ≠ visited)) x = true := by
            intro x hx
            simp only [decide_eq_true_eq] at hx ⊢
            rw [hfl] at hx
            split at hx
            · exact absurd rfl hx
            · exact hx
          by_cases hbt : border = tri
          · have hle := filter_length_le_of_imp _ _ himp T.finite_faces
            have h0 : ¬ tri ∈ (if r.2 then [0, 1, 2].foldl (fun tv i =>
                if fade_wants W T (r.1.set_flag border visited) layer visited (T.neighbor border i) then
                  handle_set_insert tv (T.neighbor border i) else tv) rest
              else rest) := fun h => hnotin (hbt ▸ htri2 h)
            rw [if_neg h0, if_pos (by rw [hbt]; exact List.mem_cons_self _ _)]
            omega
          · rcases hinv border (List.mem_cons_self _ _) with h | ⟨h, h'⟩
            · exact absurd h hbt
            · have hlt := filter_length_lt_of_imp _ _ himp T.finite_faces border h
                (by simpa using h') (by simp [hfl])
              have hsec : (if tri ∈ (if r.2 then [0, 1, 2].foldl (fun tv i =>
                  if fade_wants W T (r.1.set_flag border visited) layer visited (T.neighbor border i) then
                    handle_set_insert tv (T.neighbor border i) else tv) rest
                else rest) then 1 else 0) ≤ (if tri ∈ border :: rest then 1 else 0) := by
                by_cases ht : tri ∈ (if r.2 then [0, 1, 2].foldl (fun tv i =>
                    if fade_wants W T (r.1.set_flag border visited) layer visited (T.neighbor border i) then
                      handle_set_insert tv (T.neighbor border i) else tv) rest
                  else rest)
                · rw [if_pos ht, if_pos (List.mem_cons_of_mem _ (htri2 ht))]
                · rw [if_neg ht]; exact Nat.zero_le _
              omega
      have hr : ∀ g, ((if border ≠ tri then fade_face W T DistPtToTri tri layer ms border
          else (ms, true)).1.face g).flag = (ms.face g).flag := by
        intro g
        split
        · exact fade_face_flag W T DistPtToTri tri layer ms border g
        · rfl
      obtain ⟨k1, k2, k3, k4⟩ := hstep _ hr
      cases fuel2 with
      | zero =>
        exfalso
        have : 0 < (T.finite_faces.filter (fun f => decide ((ms.face f).flag ≠ visited))).length +
            (if tri ∈ border :: rest then 1 else 0) := by omega
        omega
      | succ n2 =>
        simp only [fade_loop]
        exact ih n2 _ _ k1 k2 k3 (by omega) (by omega)

/-- The fuel `calculate_borders` gives the loop of one seed is enough: more fuel gives the
same mesh. -/
theorem fade_loop_seed_fuel (W : Tables) (T : Topology) (DistPtToTri : Nat → Nat → ℚ)
    (tri : Nat) (layer visited : Int) (ms : Mesh) (k : Nat) :
    fade_loop W T DistPtToTri tri layer visited (T.finite_faces.length + 1)
        (ms.set_flag tri visited) [tri] =
      fade_loop W T DistPtToTri tri layer visited (T.finite_faces.length + 1 + k)
        (ms.set_flag tri visited) [tri] := by
  have hlen : (T.finite_faces.filter
      (fun f => decide (((ms.set_flag tri visited).face f).flag ≠ visited))).length ≤
      T.finite_faces.length := List.length_filter_le _ _
  apply fade_loop_fuel_enough
  · exact List.pairwise_singleton _ _
  · rw [set_flag_flag]; simp
  · intro b hb
    left
    simpa using hb
  · simp only [List.mem_singleton, if_true]; omega
  · simp only [List.mem_singleton, if_true]; omega

/-! ## Claim on the border passes -/

set_option maxRecDepth 100000 in
/-- The hypothesis on the rule table in the theorem on the border passes cannot be
dropped.  The priority order is not part of this file of the program; under a
hypothetical table in which the terrain 1 is lower than water and water lower than 3,
the sample tile, whose faces enter with the terrain 1 and no border and whose left and
bottom masters record water as base and the border 3 for the edges of face 0, ends
with a finite water face that has a border, which the check that follows the passes
rejects. -/
theorem border_passes_border_on_water :
    (∀ f, (sample_land.face f).terrain_border = []) ∧
    ((border_passes sample_tables sample_topology (fun _ _ => 0) true
      [sample_left_master, sample_bottom_master, ⟨[], []⟩, ⟨[], []⟩] sample_land).face 0).terrain =
        sample_tables.terrain_Water ∧
    ((border_passes sample_tables sample_topology (fun _ _ => 0) true
      [sample_left_master, sample_bottom_master, ⟨[], []⟩, ⟨[], []⟩] sample_land).face 0).terrain_border =
        [3] ∧
    water_check sample_tables sample_topology
      (border_passes sample_tables sample_topology (fun _ _ => 0) true
        [sample_left_master, sample_bottom_master, ⟨[], []⟩, ⟨[], []⟩] sample_land) = false := by
  refine ⟨fun _ => rfl, ?_⟩
  decide!

/-- C11: for a maximum transition distance `D > 0` and distances `d1 ≤ d2` (so for
`0 ≤ d1 ≤ d2` in particular), the fade `max(0, min((D - d) / D, 1))` of the border
propagation lies between 0 and 1 at every distance, the fade at `d2` is not above the
fade at `d1`, and the fade is 0 at every distance that is at least `D`. -/
theorem fade_level_bounded_monotone (D d1 d2 : ℚ) (hD : 0 < D) (h12 : d1 ≤ d2) :
    (∀ d, 0 ≤ fade_level D d ∧ fade_level D d ≤ 1) ∧
    fade_level D d2 ≤ fade_level D d1 ∧
    (∀ d, D ≤ d → fade_level D d = 0) := by
  refine ⟨fun d => ⟨le_max_left _ _, max_le (by norm_num) (min_le_right _ _)⟩, ?_, ?_⟩
  · unfold fade_level
    apply max_le_max le_rfl
    apply min_le_min _ le_rfl
    apply div_le_div_of_nonneg_right _ hD.le
    linarith
  · intro d hd
    unfold fade_level
    apply max_eq_left
    apply le_trans (min_le_left _ _)
    apply div_nonpos_of_nonpos_of_nonneg _ hD.le
    linarith

/-- Witness of C11: the maximum distance 100 and the distances 25 and 50, whose fades
are 3/4 and 1/2. -/
theorem fade_level_bounded_monotone_witness :
    fade_level 100 50 ≤ fade_level 100 25 ∧ fade_level 100 25 = 3 / 4 ∧
      fade_level 100 50 = 1 / 2 ∧ fade_level 100 100 = 0 :=
  ⟨(fade_level_bounded_monotone 100 25 50 (by norm_num) (by norm_num)).2.1,
    by decide!, by decide!,
    (fade_level_bounded_monotone 100 25 50 (by norm_num) (by norm_num)).2.2 100
      le_rfl⟩
/-! ## Lemmas on the optimisation pass -/

theorem hash_map_find_append (m l : List (Int × ℚ)) (k : Int) (x : ℚ)
    (h : hash_map_find m k = some x) : hash_map_find (m ++ l) k = some x := by
  induction m with
  | nil => simp [hash_map_find] at h
  | cons a m ih =>
    obtain ⟨k', v'⟩ := a
    simp only [List.cons_append, hash_map_find] at h ⊢
    split
    · rename_i e; rw [if_pos e] at h; exact h
    · rename_i e; rw [if_neg e] at h; exact ih h

theorem hash_map_find_touch (m : List (Int × ℚ)) (layer k : Int) (x : ℚ)
    (h : hash_map_find m k = some x) : hash_map_find (hash_map_touch m layer) k = some x := by
  unfold hash_map_touch
  split
  · exact h
  · exact hash_map_find_append m _ k x h

theorem blendKept_refl (ms : Mesh) : BlendKept ms ms := fun _ _ _ h => h

theorem blendKept_trans {a b c : Mesh} (h1 : BlendKept a b) (h2 : BlendKept b c) :
    BlendKept a c := fun v k x h => h2 v k x (h1 v k x h)

theorem blendKept_of_vert_eq {a b : Mesh} (h : b.vert = a.vert) : BlendKept a b := by
  intro v k x hx
  rw [h]
  exact hx

theorem touch_blend_blendKept (ms : Mesh) (v : Nat) (layer : Int) :
    BlendKept ms (ms.touch_blend v layer) := by
  intro w k x hx
  simp only [Mesh.touch_blend, Mesh.set_vert, Function.update]
  split
  · rename_i e
    subst e
    exact hash_map_find_touch _ layer k x hx
  · exact hx

theorem promote_layer_blendKept (W : Tables) (T : Topology) (tri : Nat) (s : Mesh × Bool)
    (blayer : Int) : BlendKept s.1 (promote_layer W T tri s blayer).1 := by
  have t1 := touch_blend_blendKept s.1 (T.vertex tri 0) blayer
  have t2 := touch_blend_blendKept (s.1.touch_blend (T.vertex tri 0) blayer) (T.vertex tri 1) blayer
  have t3 := touch_blend_blendKept
    ((s.1.touch_blend (T.vertex tri 0) blayer).touch_blend (T.vertex tri 1) blayer)
    (T.vertex tri 2) blayer
  unfold promote_layer
  split_ifs
  · exact blendKept_trans (blendKept_trans (blendKept_trans t1 t2) t3) (blendKept_of_vert_eq rfl)
  · exact blendKept_trans (blendKept_trans t1 t2) t3
  · exact blendKept_trans (blendKept_trans t1 t2) t3
  · exact blendKept_trans t1 t2
  · exact t1

theorem promote_fold_blendKept (W : Tables) (T : Topology) (tri : Nat) :
    ∀ (l : List Int) (s : Mesh × Bool),
      BlendKept s.1 (l.foldl (promote_layer W T tri) s).1 := by
  intro l
  induction l with
  | nil => intro s; exact blendKept_refl _
  | cons b l ih =>
    intro s
    exact blendKept_trans (promote_layer_blendKept W T tri s b) (ih _)

theorem erase_fold_vert (tri : Nat) :
    ∀ (l : List Int) (s : Mesh),
      (l.foldl (fun s nlayer => s.erase_border tri nlayer) s).vert = s.vert := by
  intro l
  induction l with
  | nil => intro s; rfl
  | cons b l ih =>
    intro s
    simp only [List.foldl_cons]
    rw [ih]
    rfl

theorem optimize_face_blendKept (W : Tables) (T : Topology) (ms : Mesh) (tri : Nat) :
    BlendKept ms (optimize_face W T ms tri) := by
  unfold optimize_face
  split
  · dsimp only
    split
    · exact blendKept_trans (promote_fold_blendKept W T tri _ (ms, false))
        (blendKept_of_vert_eq (erase_fold_vert tri _ _))
    · exact promote_fold_blendKept W T tri _ (ms, false)
  · exact blendKept_refl ms

theorem count_foldl_erase (b : Int) :
    ∀ (l2 acc : List Int),
      List.count b (l2.foldl (fun acc nlayer => acc.erase nlayer) acc) =
        List.count b acc - List.count b l2 := by
  intro l2
  induction l2 with
  | nil => intro acc; simp
  | cons a l2 ih =>
    intro acc
    simp only [List.foldl_cons]
    rw [ih, List.count_erase, List.count_cons]
    by_cases e : a = b
    · subst e
      simp
      omega
    · have e2 : ¬ b = a := fun h => e h.symm
      simp [e, e2]

theorem mem_foldl_erase_filter (p : Int → Bool) (l : List Int) (b : Int)
    (h : b ∈ (l.filter p).foldl (fun acc nlayer => acc.erase nlayer) l) :
    b ∈ l ∧ p b = false := by
  have hpos : 0 < List.count b ((l.filter p).foldl (fun acc nlayer => acc.erase nlayer) l) :=
    List.count_pos_iff.mpr h
  rw [count_foldl_erase] at hpos
  refine ⟨List.count_pos_iff.mp (by omega), ?_⟩
  by_contra hp
  have hp : p b = true := by simpa using hp
  rw [List.count_filter hp] at hpos
  omega

/-- What the optimisation does to one face: the other faces stay as they are; when a
border was promoted, every border left on the face was there before and is of higher
priority than the new base; when none was promoted, base and borders stay. -/
theorem optimize_face_spec (W : Tables) (T : Topology) (ms : Mesh) (tri : Nat) :
    (∀ g, g ≠ tri → (optimize_face W T ms tri).face g = ms.face g) ∧
    ((ms.face tri).terrain ≠ W.terrain_Water →
      ((ms.face tri).terrain_border.foldl (promote_layer W T tri) (ms, false)).2 = true →
      ∀ b ∈ ((optimize_face W T ms tri).face tri).terrain_border,
        b ∈ (ms.face tri).terrain_border ∧
        W.LowerPriorityNaturalTerrain ((optimize_face W T ms tri).face tri).terrain b = true) ∧
    ((((optimize_face W T ms tri).face tri).terrain = (ms.face tri).terrain ∧
        ((optimize_face W T ms tri).face tri).terrain_border = (ms.face tri).terrain_border) ∨
      ∀ b ∈ ((optimize_face W T ms tri).face tri).terrain_border,
        b ∈ (ms.face tri).terrain_border ∧
        W.LowerPriorityNaturalTerrain ((optimize_face W T ms tri).face tri).terrain b = true) := by
  obtain ⟨p1, p2, p3⟩ := promote_fold_frame W T tri (ms.face tri).terrain
    (ms.face tri).terrain_border (ms, false)
  have p3 := p3 (Or.inr rfl)
  obtain ⟨e1, e2⟩ := erase_fold_spec tri
    ((((ms.face tri).terrain_border.foldl (promote_layer W T tri) (ms, false)).1.face
        tri).terrain_border.filter
      (fun blayer => !W.LowerPriorityNaturalTerrain
        (((ms.face tri).terrain_border.foldl (promote_layer W T tri) (ms, false)).1.face
          tri).terrain blayer))
    ((ms.face tri).terrain_border.foldl (promote_layer W T tri) (ms, false)).1
  have hprune : (ms.face tri).terrain ≠ W.terrain_Water →
      ((ms.face tri).terrain_border.foldl (promote_layer W T tri) (ms, false)).2 = true →
      ∀ b ∈ ((optimize_face W T ms tri).face tri).terrain_border,
        b ∈ (ms.face tri).terrain_border ∧
        W.LowerPriorityNaturalTerrain ((optimize_face W T ms tri).face tri).terrain b = true := by
    intro hnw hopt b hb
    unfold optimize_face at hb ⊢
    rw [if_pos hnw] at hb ⊢
    dsimp only at hb ⊢
    rw [if_pos hopt] at hb ⊢
    rw [erase_fold_border] at hb
    rw [e2]
    have := mem_foldl_erase_filter _ _ b hb
    rw [p2] at this
    refine ⟨this.1, ?_⟩
    simpa using this.2
  refine ⟨?_, hprune, ?_⟩
  · intro g hg
    unfold optimize_face
    split
    · dsimp only
      split
      · rw [e1 g hg, p1 g hg]
      · exact p1 g hg
    · rfl
  · by_cases hnw : (ms.face tri).terrain ≠ W.terrain_Water
    · by_cases hopt : ((ms.face tri).terrain_border.foldl (promote_layer W T tri) (ms, false)).2 = true
      · exact Or.inr (hprune hnw hopt)
      · left
        unfold optimize_face
        rw [if_pos hnw]
        dsimp only
        rw [if_neg hopt]
        rcases p3 with h | h
        · exact absurd h hopt
        · exact ⟨h, p2⟩
    · left
      unfold optimize_face
      rw [if_neg hnw]
      exact ⟨rfl, rfl⟩
theorem optimize_fold_blendKept (W : Tables) (T : Topology) :
    ∀ (l : List Nat) (s : Mesh), BlendKept s (l.foldl (optimize_face W T) s) := by
  intro l
  induction l with
  | nil => intro s; exact blendKept_refl s
  | cons a l ih => intro s; exact blendKept_trans (optimize_face_blendKept W T s a) (ih _)

theorem optimize_fold_pruned (W : Tables) (T : Topology) (f : Nat) (t0 : Int) (B0 : List Int) :
    ∀ (l : List Nat) (s : Mesh),
      ((s.face f).terrain = t0 ∧ (s.face f).terrain_border = B0 ∨
        ∀ b ∈ (s.face f).terrain_border,
          b ∈ B0 ∧ W.LowerPriorityNaturalTerrain (s.face f).terrain b = true) →
      (((l.foldl (optimize_face W T) s).face f).terrain = t0 ∧
          ((l.foldl (optimize_face W T) s).face f).terrain_border = B0 ∨
        ∀ b ∈ ((l.foldl (optimize_face W T) s).face f).terrain_border,
          b ∈ B0 ∧
          W.LowerPriorityNaturalTerrain ((l.foldl (optimize_face W T) s).face f).terrain b = true) := by
  intro l
  induction l with
  | nil => intro s h; exact h
  | cons a l ih =>
    intro s h
    simp only [List.foldl_cons]
    apply ih
    obtain ⟨q1, _, q3⟩ := optimize_face_spec W T s a
    by_cases e : f = a
    · subst e
      rcases q3 with ⟨k1, k2⟩ | k
      · rw [k1, k2]; exact h
      · right
        intro b hb
        obtain ⟨m1, m2⟩ := k b hb
        refine ⟨?_, m2⟩
        rcases h with ⟨_, h2⟩ | h
        · rw [← h2]; exact m1
        · exact (h b m1).1
    · rw [q1 f e]; exact h

/-! ## Claim on the optimisation pass -/

set_option maxRecDepth 100000 in
/-- C12 as stated fails: on the sample tile face 0 has the base 1 and the borders 3 and
4, and its three vertices are saturated for 3.  With the priority table that orders the
terrains by their tokens the pass promotes 3 to be the base.  The border 4 is not of
lower priority than the new base 3, and it is still in the border set of the face: the
pass removes the borders that are not of higher priority than the base. -/
theorem optimize_borders_pass_keeps_higher_border :
    (sample_saturated.face 0).terrain = 1 ∧
    ((optimize_borders_pass sample_tables sample_topology true sample_saturated).face 0).terrain = 3 ∧
    sample_tables.LowerPriorityNaturalTerrain 4 3 = false ∧
    ((optimize_borders_pass sample_tables sample_topology true sample_saturated).face
      0).terrain_border = [4] := by
  decide!

/-- C12 amended: after the optimisation of a face that promoted a border, and after the
whole pass on every face whose base was changed, every border id left in the border set
of the face was there before and is of higher priority than the (updated) base, so each
border id than which the base is not of lower priority has been removed; and the pass
removes no entry of any vertex's blend map and changes the value of none. -/
theorem optimize_borders_pass_prunes (W : Tables) (T : Topology) (optimize_borders : Bool)
    (ms : Mesh) :
    (∀ tri, (ms.face tri).terrain ≠ W.terrain_Water →
      ((ms.face tri).terrain_border.foldl (promote_layer W T tri) (ms, false)).2 = true →
      ∀ b ∈ ((optimize_face W T ms tri).face tri).terrain_border,
        b ∈ (ms.face tri).terrain_border ∧
        W.LowerPriorityNaturalTerrain ((optimize_face W T ms tri).face tri).terrain b = true) ∧
    (∀ f, ((optimize_borders_pass W T optimize_borders ms).face f).terrain ≠ (ms.face f).terrain →
      ∀ b ∈ ((optimize_borders_pass W T optimize_borders ms).face f).terrain_border,
        b ∈ (ms.face f).terrain_border ∧
        W.LowerPriorityNaturalTerrain
          ((optimize_borders_pass W T optimize_borders ms).face f).terrain b = true) ∧
    (∀ v k x, hash_map_find (ms.vert v).border_blend k = some x →
      hash_map_find ((optimize_borders_pass W T optimize_borders ms).vert v).border_blend k =
        some x) := by
  refine ⟨fun tri => (optimize_face_spec W T ms tri).2.1, ?_, ?_⟩
  · intro f hf
    unfold optimize_borders_pass at hf ⊢
    split at hf
    · rename_i hob
      rw [if_pos hob]
      rcases optimize_fold_pruned W T f (ms.face f).terrain (ms.face f).terrain_border
          T.finite_faces ms (Or.inl ⟨rfl, rfl⟩) with h | h
      · exact absurd h.1 hf
      · exact h
    · exact absurd rfl hf
  · unfold optimize_borders_pass
    split
    · exact optimize_fold_blendKept W T T.finite_faces ms
    · exact blendKept_refl ms

/-! ## Lemmas on the pairing loop: one slave, one master -/

theorem mem_map_erase_ne : ∀ (mp : List (ℚ × Nat)) (k : ℚ) (e : ℚ × Nat),
    mp.Pairwise (fun a b => a.1 < b.1) → e ∈ map_erase mp k → e.1 ≠ k := by
  intro mp
  induction mp with
  | nil => intro k e _ h; simp [map_erase] at h
  | cons a mp ih =>
    intro k e hp h
    obtain ⟨k', v'⟩ := a
    have hp' := List.pairwise_cons.mp hp
    simp only [map_erase] at h
    split at h
    · rename_i hk
      have := hp'.1 e h
      simp only at this
      intro he
      rw [he, hk] at this
      exact lt_irrefl _ this
    · rename_i hk
      rcases List.mem_cons.mp h with h | h
      · subst h
        exact fun he => hk he.symm
      · exact ih k e hp'.2 h

theorem fetch_border_key (m : CDT) (origin : ℚ × ℚ) (side : Nat) :
    ∀ e ∈ fetch_border m origin side,
      e.1 = if side = 0 ∨ side = 2 then (m.point e.2).2 - origin.2
        else (m.point e.2).1 - origin.1 := by
  unfold fetch_border
  generalize hl : m.hull = l
  have key : ∀ (l : List Nat) (acc : List (ℚ × Nat)),
      (∀ e ∈ acc, e.1 = if side = 0 ∨ side = 2 then (m.point e.2).2 - origin.2
        else (m.point e.2).1 - origin.1) →
      ∀ e ∈ l.foldl (fun outPts now =>
          let o1 :=
            if (side = 0 ∨ side = 2) ∧ (m.point now).1 = origin.1 then
              map_set outPts ((m.point now).2 - origin.2) now
            else outPts
          if (side = 1 ∨ side = 3) ∧ (m.point now).2 = origin.2 then
            map_set o1 ((m.point now).1 - origin.1) now
          else o1) acc,
        e.1 = if side = 0 ∨ side = 2 then (m.point e.2).2 - origin.2
          else (m.point e.2).1 - origin.1 := by
    intro l
    induction l with
    | nil => intro acc h; exact h
    | cons now l ih =>
      intro acc h
      simp only [List.foldl_cons]
      apply ih
      intro e he
      split at he
      · rename_i h13
        have hside : ¬ (side = 0 ∨ side = 2) := by omega
        rcases mem_map_set _ _ _ _ he with he | he
        · subst he
          simp [hside]
        · split at he
          · rename_i h02
            exact absurd h02.1 hside
          · exact h e he
      · split at he
        · rename_i h02
          rcases mem_map_set _ _ _ _ he with he | he
          · subst he
            simp [h02.1]
          · exact h e he
        · exact h e he
  exact key l [] (by simp)

theorem countP_modify_at {α : Type} (p : α → Bool) (f : α → α) :
    ∀ (l : List α) (i : Nat) (a : α), l[i]? = some a → p a = false → p (f a) = true →
      (modify_at f i l).countP p = l.countP p + 1 := by
  intro l
  induction l with
  | nil => intro i a h; simp at h
  | cons x l ih =>
    intro i a h hp hq
    cases i with
    | zero =>
      simp only [List.getElem?_cons_zero, Option.some.injEq] at h
      subst h
      simp [modify_at, List.countP_cons, hp, hq]
    | succ i =>
      simp only [List.getElem?_cons_succ] at h
      simp only [modify_at, List.countP_cons]
      rw [ih i a h hp hq]
      omega

theorem nearest_pairs_eq_nil (m : CDT) (side : Nat) (slaves : List (ℚ × Nat))
    (vs : List mesh_match_vertex_t) (h : nearest_pairs m side slaves vs = [])
    (hs : slaves ≠ []) : ∀ v ∈ vs, v.buddy ≠ none := by
  intro v hv hb
  have hc := foldl_multimap_insert_eq_nil _ h
  obtain ⟨sl, rest, hsl⟩ := List.exists_cons_of_ne_nil hs
  obtain ⟨j, hj⟩ := List.getElem?_of_mem hv
  have : (my_dist side v.loc (m.point sl.2), (sl.1, 0 + j)) ∈
      candidate_pairs m side slaves 0 vs :=
    (mem_candidate_pairs m side slaves vs 0 _).mpr ⟨j, v, sl, hj, hb, by rw [hsl]; simp, rfl⟩
  rw [hc] at this
  simp at this
/-- The pairing loop as a whole.  When the slaves have distinct keys and a slave's key
is its offset, when the buddies in the record are distinct and none of them is among the
slaves, then after the loop the buddies are distinct, every turn has bound one master
and erased one slave, and the loop has run until no slave or no master without a buddy
was left. -/
theorem pairing_loop_spec (m : CDT) (side : Nat) (key : Nat → ℚ) :
    ∀ (fuel : Nat) (slaves : List (ℚ × Nat)) (vs : List mesh_match_vertex_t),
      slaves.length ≤ fuel →
      slaves.Pairwise (fun a b => a.1 < b.1) →
      (∀ e ∈ slaves, e.1 = key e.2) →
      (∀ (i j : Nat) (v w : mesh_match_vertex_t) (b : Nat), vs[i]? = some v → vs[j]? = some w → v.buddy = some b → w.buddy = some b →
        i = j) →
      (∀ v ∈ vs, ∀ b, v.buddy = some b → ∀ e ∈ slaves, e.2 ≠ b) →
      (∀ (i j : Nat) (v w : mesh_match_vertex_t) (b : Nat),
        (pairing_loop m side fuel slaves vs).2[i]? = some v →
        (pairing_loop m side fuel slaves vs).2[j]? = some w →
        v.buddy = some b → w.buddy = some b → i = j) ∧
      (pairing_loop m side fuel slaves vs).2.countP (fun v => decide (v.buddy ≠ none)) +
          (pairing_loop m side fuel slaves vs).1.length =
        vs.countP (fun v => decide (v.buddy ≠ none)) + slaves.length ∧
      ((pairing_loop m side fuel slaves vs).1 = [] ∨
        ∀ v ∈ (pairing_loop m side fuel slaves vs).2, v.buddy ≠ none) ∧
      (pairing_loop m side fuel slaves vs).2.length = vs.length := by
  intro fuel
  induction fuel with
  | zero =>
    intro slaves vs hf _ _ hd _
    have : slaves = [] := List.length_eq_zero.mp (Nat.le_zero.mp hf)
    subst this
    exact ⟨hd, rfl, Or.inl rfl, rfl⟩
  | succ n ih =>
    intro slaves vs hf hp hk hd hdis
    unfold pairing_loop
    split
    · rename_i hem
      have : slaves = [] := List.isEmpty_iff.mp hem
      exact ⟨hd, rfl, Or.inl this, rfl⟩
    · rename_i hem
      have hne : slaves ≠ [] := fun h => hem (by rw [h]; rfl)
      split
      · rename_i hnil
        exact ⟨hd, rfl, Or.inr (nearest_pairs_eq_nil m side slaves vs hnil hne), rfl⟩
      · rename_i best others hbest
        obtain ⟨pre, post, hcs, _, _⟩ := foldl_multimap_insert_head _ best others hbest
        have hmem : best ∈ candidate_pairs m side slaves 0 vs := by
          rw [hcs]; simp
        obtain ⟨j, pts, sl, hj, hnone, hsl, hb⟩ :=
          (mem_candidate_pairs m side slaves vs 0 best).mp hmem
        have e1 : best.2.1 = sl.1 := by rw [hb]
        have e2 : best.2.2 = j := by rw [hb]; simp
        have hfind : map_find slaves best.2.1 = some sl.2 := by
          rw [e1]; exact map_find_of_mem slaves sl hp hsl
        rw [hfind, e1, e2]
        have hlen : (map_erase slaves sl.1).length + 1 = slaves.length :=
          map_erase_length slaves sl.1 ⟨sl, hsl, rfl⟩
        have hget : ∀ i, (set_buddy vs j (some sl.2))[i]? =
            if i = j then (vs[i]?).map (fun v => { v with buddy := some sl.2 }) else vs[i]? := by
          intro i
          unfold set_buddy
          exact modify_at_getElem? _ j vs i
        -- the slaves left do not hold the vertex just bound
        have hgone : ∀ e ∈ map_erase slaves sl.1, e.2 ≠ sl.2 := by
          intro e he h2
          have hne1 := mem_map_erase_ne slaves sl.1 e hp he
          apply hne1
          rw [hk e (mem_map_erase slaves sl.1 e he), hk sl hsl, h2]
        have hd2 : ∀ (i i2 : Nat) (v w : mesh_match_vertex_t) (b : Nat), (set_buddy vs j (some sl.2))[i]? = some v →
            (set_buddy vs j (some sl.2))[i2]? = some w →
            v.buddy = some b → w.buddy = some b → i = i2 := by
          intro i i2 v w b hv hw hvb hwb
          rw [hget] at hv hw
          by_cases ei : i = j
          · by_cases ei2 : i2 = j
            · rw [ei, ei2]
            · exfalso
              rw [if_pos ei, ei, hj] at hv
              rw [if_neg ei2] at hw
              simp only [Option.map_some', Option.some.injEq] at hv
              subst hv
              simp only [Option.some.injEq] at hvb
              subst hvb
              exact hdis w (List.getElem?_mem hw) _ hwb sl hsl rfl
          · by_cases ei2 : i2 = j
            · exfalso
              rw [if_pos ei2, ei2, hj] at hw
              rw [if_neg ei] at hv
              simp only [Option.map_some', Option.some.injEq] at hw
              subst hw
              simp only [Option.some.injEq] at hwb
              subst hwb
              exact hdis v (List.getElem?_mem hv) _ hvb sl hsl rfl
            · rw [if_neg ei] at hv
              rw [if_neg ei2] at hw
              exact hd i i2 v w b hv hw hvb hwb
        have hdis2 : ∀ v ∈ set_buddy vs j (some sl.2), ∀ b, v.buddy = some b →
            ∀ e ∈ map_erase slaves sl.1, e.2 ≠ b := by
          intro v hv b hvb e he
          unfold set_buddy at hv
          rcases mem_modify_at _ j vs v hv with h | ⟨w, _, h⟩
          · exact hdis v h b hvb e (mem_map_erase slaves sl.1 e he)
          · subst h
            simp only [Option.some.injEq] at hvb
            subst hvb
            exact hgone e he
        obtain ⟨r1, r2, r3, r4⟩ := ih (map_erase slaves sl.1) (set_buddy vs j (some sl.2))
          (by omega) (map_erase_pairwise slaves sl.1 hp)
          (fun e he => hk e (mem_map_erase slaves sl.1 e he)) hd2 hdis2
        refine ⟨r1, ?_, r3, ?_⟩
        · rw [r2]
          have : (set_buddy vs j (some sl.2)).countP (fun v => decide (v.buddy ≠ none)) =
              vs.countP (fun v => decide (v.buddy ≠ none)) + 1 := by
            unfold set_buddy
            exact countP_modify_at _ _ vs j pts hj (by simp [hnone]) (by simp)
          omega
        · rw [r4]
          unfold set_buddy
          exact modify_at_length _ j vs
/-! ## Claim on the pairing loop: distinct buddies -/

/-- C19: for a record whose vertices enter without a buddy (as `load_match_file` leaves
them), after the pairing loop of `match_border` no two master vertices have the same
buddy, and the number of master vertices with a buddy is the smaller of the number of
master vertices and the number of slaves fetched for the side. -/
theorem pairing_loop_binds_each_slave_once (m : CDT) (bd : mesh_match_t) (side : Nat)
    (v0 : mesh_match_vertex_t) (rest : List mesh_match_vertex_t)
    (hv : bd.vertices = v0 :: rest) (hfresh : ∀ v ∈ bd.vertices, v.buddy = none) :
    (∀ (i j : Nat) (v w : mesh_match_vertex_t) (b : Nat),
      (paired_vertices m bd side)[i]? = some v → (paired_vertices m bd side)[j]? = some w →
      v.buddy = some b → w.buddy = some b → i = j) ∧
    (paired_vertices m bd side).countP (fun v => decide (v.buddy ≠ none)) =
      min bd.vertices.length (fetch_border m v0.loc side).length := by
  have h0 : bd.vertices.countP (fun v => decide (v.buddy ≠ none)) = 0 := by
    rw [List.countP_eq_zero]
    intro v hv
    simp [hfresh v hv]
  obtain ⟨r1, r2, r3, r4⟩ := pairing_loop_spec m side
    (fun v => if side = 0 ∨ side = 2 then (m.point v).2 - v0.loc.2 else (m.point v).1 - v0.loc.1)
    (fetch_border m v0.loc side).length (fetch_border m v0.loc side) bd.vertices le_rfl
    (fetch_border_pairwise m v0.loc side) (fetch_border_key m v0.loc side)
    (fun i j v w b hi _ hb _ => by
      rw [hfresh v (List.getElem?_mem hi)] at hb; cases hb)
    (fun v hv b hb => by rw [hfresh v hv] at hb; cases hb)
  have hpv : paired_vertices m bd side =
      (pairing_loop m side (fetch_border m v0.loc side).length (fetch_border m v0.loc side)
        bd.vertices).2 := by
    unfold paired_vertices
    rw [hv]
  rw [hpv]
  refine ⟨r1, ?_⟩
  rw [h0] at r2
  have hle := List.countP_le_length (fun v : mesh_match_vertex_t => decide (v.buddy ≠ none))
    (l := (pairing_loop m side (fetch_border m v0.loc side).length (fetch_border m v0.loc side)
      bd.vertices).2)
  rcases r3 with h | h
  · rw [h] at r2
    simp only [List.length_nil, Nat.add_zero, Nat.zero_add] at r2
    rw [r4] at hle
    omega
  · have hall : (pairing_loop m side (fetch_border m v0.loc side).length
        (fetch_border m v0.loc side) bd.vertices).2.countP
          (fun v => decide (v.buddy ≠ none)) =
        (pairing_loop m side (fetch_border m v0.loc side).length
          (fetch_border m v0.loc side) bd.vertices).2.length := by
      rw [List.countP_eq_length]
      intro v hv
      simpa using h v hv
    rw [r4] at hall
    omega

/-- Witness of C19: the two master vertices of the sample record against the two hull
vertices of the sample mesh on the line x = 0: two pairs, with the buddies 0 and 1. -/
theorem pairing_loop_binds_each_slave_once_witness :
    (paired_vertices sample_mesh sample_master 0).map (fun v => v.buddy) = [some 0, some 1] ∧
    (paired_vertices sample_mesh sample_master 0).countP (fun v => decide (v.buddy ≠ none)) =
      min sample_master.vertices.length (fetch_border sample_mesh (0, 0) 0).length :=
  ⟨by decide!,
    (pairing_loop_binds_each_slave_once sample_mesh sample_master 0
      { loc := (0, 0), height := 10, blending := [], buddy := none }
      [{ loc := (0, 1), height := 20, blending := [], buddy := none }] rfl
      (by decide)).2⟩

/-! ## Lemmas on the flood: regions -/

theorem seed_constraints_frame :
    ∀ (cs : List LanduseConstraint) (ms : Mesh) (wet : List Nat) (s : Mesh × List Nat),
      seed_constraints ms wet cs = some s →
      (∀ g, g ∉ s.2 → (s.1.face g).terrain = (ms.face g).terrain) ∧ (∀ g ∈ wet, g ∈ s.2) := by
  intro cs
  induction cs with
  | nil =>
    intro ms wet s h
    simp only [seed_constraints, Option.some.injEq] at h
    subst h
    exact ⟨fun _ _ => rfl, fun _ h => h⟩
  | cons c cs ih =>
    intro ms wet s h
    unfold seed_constraints at h
    split at h
    · cases h
    · rename_i fl _
      split at h
      · cases h
      · rename_i fr _
        obtain ⟨k1, k2⟩ := ih _ _ s h
        have hin : ∀ g, g = fl ∨ g = fr ∨ g ∈ wet → g ∈ s.2 := by
          intro g hg
          apply k2
          rw [mem_handle_set_insert, mem_handle_set_insert]
          rcases hg with hg | hg | hg
          · exact Or.inr (Or.inl hg)
          · exact Or.inl hg
          · exact Or.inr (Or.inr hg)
        refine ⟨?_, fun g hg => hin g (Or.inr (Or.inr hg))⟩
        intro g hg
        rw [k1 g hg, seed_face_terrain, seed_face_terrain]
        have h1 : g ≠ fl := fun e => hg (hin g (Or.inl e))
        have h2 : g ≠ fr := fun e => hg (hin g (Or.inr (Or.inl e)))
        rw [if_neg h2, if_neg h1]

/-- One neighbour of the flood, in full: when the edge is not constrained and the
neighbour is finite and not visited, the neighbour joins `wet_faces`, it takes the
terrain `tg` unless it has another terrain than natural, and no other face changes its
terrain; otherwise nothing changes. -/
theorem flood_neighbor_cases (W : Tables) (T : Topology) (f : Nat) (tg : Int)
    (og : Option Nat) (visited : List Nat) (s : Mesh × List Nat) (vi : Nat) :
    ((T.is_constrained f vi = false ∧ T.is_infinite (T.neighbor f vi) = false ∧
        T.neighbor f vi ∉ visited) ∧
      (flood_neighbor W T f tg og visited s vi).2 = handle_set_insert s.2 (T.neighbor f vi) ∧
      (∀ g, g ≠ T.neighbor f vi →
        ((flood_neighbor W T f tg og visited s vi).1.face g).terrain = (s.1.face g).terrain) ∧
      (((flood_neighbor W T f tg og visited s vi).1.face (T.neighbor f vi)).terrain = tg ∨
        (((flood_neighbor W T f tg og visited s vi).1.face (T.neighbor f vi)).terrain =
            (s.1.face (T.neighbor f vi)).terrain ∧
          (s.1.face (T.neighbor f vi)).terrain ≠ W.terrain_Natural))) ∨
    (¬ (T.is_constrained f vi = false ∧ T.is_infinite (T.neighbor f vi) = false ∧
        T.neighbor f vi ∉ visited) ∧
      flood_neighbor W T f tg og visited s vi = s) := by
  by_cases hc : T.is_constrained f vi = false
  · by_cases hfin : T.is_infinite (T.neighbor f vi) = false ∧ T.neighbor f vi ∉ visited
    · left
      refine ⟨⟨hc, hfin.1, hfin.2⟩, ?_⟩
      unfold flood_neighbor
      rw [if_pos hc, if_pos hfin]
      dsimp only
      refine ⟨rfl, ?_, ?_⟩
      · intro g hg
        split_ifs <;> simp [Mesh.set_face_face, hg]
      · by_cases hconf : (s.1.face (T.neighbor f vi)).terrain ≠ W.terrain_Natural ∧
            (s.1.face (T.neighbor f vi)).terrain ≠ tg
        · right
          rw [if_pos hconf]
          refine ⟨?_, hconf.1⟩
          split_ifs <;> simp [Mesh.set_face_face]
        · left
          rw [if_neg hconf]
          split_ifs <;> simp [Mesh.set_face_face]
    · right
      refine ⟨fun h => hfin ⟨h.2.1, h.2.2⟩, ?_⟩
      unfold flood_neighbor
      rw [if_pos hc, if_neg hfin]
  · right
    refine ⟨fun h => hc h.1, ?_⟩
    unfold flood_neighbor
    rw [if_neg hc]
theorem flood_neighbor_inv (W : Tables) (T : Topology) (T0 : Nat → Int) (seeds : List Nat)
    (f : Nat) (tg : Int) (og : Option Nat) (visited : List Nat) (s : Mesh × List Nat) (vi : Nat)
    (a : Nat) (ha : a ∈ seeds) (hF : FloodReach T a f) (htg : tg = T0 a) (hvi : vi < 3)
    (hI1 : ∀ g, g ∈ s.2 ∨ g ∈ visited →
      ∃ a ∈ seeds, FloodReach T a g ∧ (s.1.face g).terrain = T0 a)
    (hI2 : ∀ g ∈ T.finite_faces, g ∉ s.2 → g ∉ visited →
      (s.1.face g).terrain = W.terrain_Natural) :
    (∀ g, g ∈ (flood_neighbor W T f tg og visited s vi).2 ∨ g ∈ visited →
      ∃ a ∈ seeds, FloodReach T a g ∧
        ((flood_neighbor W T f tg og visited s vi).1.face g).terrain = T0 a) ∧
    (∀ g ∈ T.finite_faces, g ∉ (flood_neighbor W T f tg og visited s vi).2 → g ∉ visited →
      ((flood_neighbor W T f tg og visited s vi).1.face g).terrain = W.terrain_Natural) ∧
    (∀ g ∈ s.2, g ∈ (flood_neighbor W T f tg og visited s vi).2) ∧
    (T.is_constrained f vi = false → T.is_infinite (T.neighbor f vi) = false →
      T.neighbor f vi ∈ (flood_neighbor W T f tg og visited s vi).2 ∨ T.neighbor f vi ∈ visited) := by
  rcases flood_neighbor_cases W T f tg og visited s vi with ⟨hc, k1, k2, k3⟩ | ⟨hc, k⟩
  · have hfinite : T.neighbor f vi ∈ T.finite_faces := by
      have := hc.2.1
      simpa [Topology.is_infinite] using this
    refine ⟨?_, ?_, ?_, ?_⟩
    · intro g hg
      by_cases e : g = T.neighbor f vi
      · subst e
        rcases k3 with h | ⟨h, hn⟩
        · exact ⟨a, ha, FloodReach.step f vi hF hvi hc.1 hc.2.1, by rw [h, htg]⟩
        · rw [h]
          by_cases hw : T.neighbor f vi ∈ s.2 ∨ T.neighbor f vi ∈ visited
          · exact hI1 _ hw
          · exfalso
            exact hn (hI2 _ hfinite (fun h1 => hw (Or.inl h1)) (fun h2 => hw (Or.inr h2)))
      · rw [k2 g e]
        apply hI1
        rcases hg with hg | hg
        · rw [k1, mem_handle_set_insert] at hg
          rcases hg with hg | hg
          · exact absurd hg e
          · exact Or.inl hg
        · exact Or.inr hg
    · intro g hgf hg1 hg2
      have e : g ≠ T.neighbor f vi := by
        intro e
        apply hg1
        rw [k1, mem_handle_set_insert]
        exact Or.inl e
      rw [k2 g e]
      apply hI2 g hgf _ hg2
      intro h
      apply hg1
      rw [k1, mem_handle_set_insert]
      exact Or.inr h
    · intro g hg
      rw [k1, mem_handle_set_insert]
      exact Or.inr hg
    · intro _ _
      left
      rw [k1, mem_handle_set_insert]
      exact Or.inl rfl
  · rw [k]
    refine ⟨hI1, hI2, fun _ h => h, ?_⟩
    intro h1 h2
    right
    by_contra h3
    exact hc ⟨h1, h2, h3⟩

theorem flood_fold_inv (W : Tables) (T : Topology) (T0 : Nat → Int) (seeds : List Nat)
    (f : Nat) (tg : Int) (og : Option Nat) (visited : List Nat) (s : Mesh × List Nat)
    (a : Nat) (ha : a ∈ seeds) (hF : FloodReach T a f) (htg : tg = T0 a)
    (hI1 : ∀ g, g ∈ s.2 ∨ g ∈ visited →
      ∃ a ∈ seeds, FloodReach T a g ∧ (s.1.face g).terrain = T0 a)
    (hI2 : ∀ g ∈ T.finite_faces, g ∉ s.2 → g ∉ visited →
      (s.1.face g).terrain = W.terrain_Natural) :
    (∀ g, g ∈ ([0, 1, 2].foldl (flood_neighbor W T f tg og visited) s).2 ∨ g ∈ visited →
      ∃ a ∈ seeds, FloodReach T a g ∧
        (([0, 1, 2].foldl (flood_neighbor W T f tg og visited) s).1.face g).terrain = T0 a) ∧
    (∀ g ∈ T.finite_faces,
      g ∉ ([0, 1, 2].foldl (flood_neighbor W T f tg og visited) s).2 → g ∉ visited →
      (([0, 1, 2].foldl (flood_neighbor W T f tg og visited) s).1.face g).terrain =
        W.terrain_Natural) ∧
    (∀ g ∈ s.2, g ∈ ([0, 1, 2].foldl (flood_neighbor W T f tg og visited) s).2) ∧
    (∀ vi, vi < 3 → T.is_constrained f vi = false → T.is_infinite (T.neighbor f vi) = false →
      T.neighbor f vi ∈ ([0, 1, 2].foldl (flood_neighbor W T f tg og visited) s).2 ∨
        T.neighbor f vi ∈ visited) := by
  simp only [List.foldl_cons, List.foldl_nil]
  obtain ⟨a1, a2, a3, a4⟩ := flood_neighbor_inv W T T0 seeds f tg og visited s 0 a ha hF htg
    (by omega) hI1 hI2
  obtain ⟨b1, b2, b3, b4⟩ := flood_neighbor_inv W T T0 seeds f tg og visited
    (flood_neighbor W T f tg og visited s 0) 1 a ha hF htg (by omega) a1 a2
  obtain ⟨c1, c2, c3, c4⟩ := flood_neighbor_inv W T T0 seeds f tg og visited
    (flood_neighbor W T f tg og visited (flood_neighbor W T f tg og visited s 0) 1) 2 a ha hF htg
    (by omega) b1 b2
  refine ⟨c1, c2, fun g hg => c3 g (b3 g (a3 g hg)), ?_⟩
  intro vi hvi h1 h2
  have : vi = 0 ∨ vi = 1 ∨ vi = 2 := by omega
  rcases this with e | e | e
  · subst e
    rcases a4 h1 h2 with h | h
    · exact Or.inl (c3 _ (b3 _ h))
    · exact Or.inr h
  · subst e
    rcases b4 h1 h2 with h | h
    · exact Or.inl (c3 _ h)
    · exact Or.inr h
  · subst e
    exact c4 h1 h2

/-- The flood keeps its invariant. -/
theorem flood_loop_inv (W : Tables) (T : Topology) (T0 : Nat → Int) (seeds : List Nat) :
    ∀ (fuel : Nat) (ms : Mesh) (wet visited : List Nat),
      FloodInv W T T0 seeds ms wet visited →
      FloodInv W T T0 seeds (flood_loop W T fuel ms wet visited).1
        (flood_loop W T fuel ms wet visited).2.1 (flood_loop W T fuel ms wet visited).2.2 := by
  intro fuel
  induction fuel with
  | zero => intro ms wet visited h; exact h
  | succ n ih =>
    intro ms wet visited h
    cases wet with
    | nil => exact h
    | cons f rest =>
      simp only [flood_loop]
      apply ih
      obtain ⟨i1, i2, i3, i4⟩ := h
      obtain ⟨a, ha, hF, hta⟩ := i1 f (Or.inl (List.mem_cons_self _ _))
      have hterr : ∀ g, ((ms.set_flag f 0).face g).terrain = (ms.face g).terrain := by
        intro g
        simp only [Mesh.set_flag, Mesh.set_face_face]
        split
        · rename_i e; subst e; rfl
        · rfl
      obtain ⟨r1, r2, r3, r4⟩ := flood_fold_inv W T T0 seeds f (ms.face f).terrain
        (ms.face f).orig_face (handle_set_insert visited f) (ms.set_flag f 0, rest) a ha hF hta
        (by
          intro g hg
          rw [hterr]
          apply i1
          rcases hg with hg | hg
          · exact Or.inl (List.mem_cons_of_mem _ hg)
          · rw [mem_handle_set_insert] at hg
            rcases hg with hg | hg
            · subst hg; exact Or.inl (List.mem_cons_self _ _)
            · exact Or.inr hg)
        (by
          intro g hgf hg1 hg2
          rw [hterr]
          rw [mem_handle_set_insert] at hg2
          apply i2 g hgf
          · intro h
            rcases List.mem_cons.mp h with h | h
            · exact hg2 (Or.inl h)
            · exact hg1 h
          · exact fun h => hg2 (Or.inr h))
      refine ⟨r1, r2, ?_, ?_⟩
      · intro s hs
        rcases i3 s hs with h | h
        · rcases List.mem_cons.mp h with h | h
          · right; rw [mem_handle_set_insert]; exact Or.inl h
          · exact Or.inl (r3 s h)
        · right; rw [mem_handle_set_insert]; exact Or.inr h
      · intro g hg vi hvi h1 h2
        rw [mem_handle_set_insert] at hg
        rcases hg with hg | hg
        · subst hg
          exact r4 vi hvi h1 h2
        · rcases i4 g hg vi hvi h1 h2 with h | h
          · rcases List.mem_cons.mp h with h | h
            · right; rw [mem_handle_set_insert]; exact Or.inl h
            · exact Or.inl (r3 _ h)
          · right; rw [mem_handle_set_insert]; exact Or.inr h
theorem flood_visited_of_reach (W : Tables) (T : Topology) (T0 : Nat → Int) (seeds : List Nat)
    (ms : Mesh) (visited : List Nat) (h : FloodInv W T T0 seeds ms [] visited)
    (a : Nat) (ha : a ∈ seeds) : ∀ f, FloodReach T a f → f ∈ visited := by
  intro f hf
  induction hf with
  | seed =>
    rcases h.2.2.1 a ha with h1 | h1
    · simp at h1
    · exact h1
  | step g vi _ hvi hc hfin ih =>
    rcases h.2.2.2 g ih vi hvi hc hfin with h1 | h1
    · simp at h1
    · exact h1

/-! ## Claim on the regions of the flood -/

/-- C20: let the seeding of `SetTerrainForConstraints` succeed with the mesh and the
seed faces `s0`, and let any two seeds that reach a common face carry the same terrain.
Then the function returns, every face the flood can reach from a seed (across edges that
are not constrained, through finite faces) has that seed's terrain, and every finite
face that no seed reaches is natural.  The result is stated by regions alone, so the
order in which `wet_faces` is visited has no part in it. -/
theorem SetTerrainForConstraints_fills_regions (W : Tables) (NO_VALUE : Int) (T : Topology)
    (xy_nearest : Nat → Option ℚ) (ioMesh : Mesh) (inCoastlines : List LanduseConstraint)
    (s0 : Mesh × List Nat)
    (hs : seed_constraints (set_all_natural W NO_VALUE T ioMesh) [] inCoastlines = some s0)
    (hsame : ∀ a ∈ s0.2, ∀ b ∈ s0.2, ∀ f, FloodReach T a f → FloodReach T b f →
      (s0.1.face a).terrain = (s0.1.face b).terrain) :
    ∃ out, SetTerrainForConstraints W NO_VALUE T xy_nearest ioMesh inCoastlines = some out ∧
      (∀ a ∈ s0.2, ∀ f, FloodReach T a f → (out.face f).terrain = (s0.1.face a).terrain) ∧
      (∀ f ∈ T.finite_faces, (∀ a ∈ s0.2, ¬ FloodReach T a f) →
        (out.face f).terrain = W.terrain_Natural) := by
  have hout : SetTerrainForConstraints W NO_VALUE T xy_nearest ioMesh inCoastlines =
      some (set_water_heights W T xy_nearest (flood_loop W T (flood_fuel T s0.2) s0.1 s0.2 []).1) := by
    simp only [SetTerrainForConstraints, hs]
  have hfin : (flood_loop W T (flood_fuel T s0.2) s0.1 s0.2 []).2.1 = [] := by
    refine flood_loop_finishes W T (s0.2 ++ T.finite_faces) ?_ _ _ _ _
      (seed_constraints_wet _ _ _ s0 List.Pairwise.nil hs) ?_ ?_
    · intro g hg
      simp only [Topology.is_infinite, decide_eq_false_iff_not, not_not] at hg
      exact List.mem_append_right _ hg
    · intro g hg
      exact ⟨List.mem_append_left _ hg, by simp⟩
    · simp [flood_fuel]
  have hframe := seed_constraints_frame inCoastlines _ _ s0 hs
  have hinit : FloodInv W T (fun a => (s0.1.face a).terrain) s0.2 s0.1 s0.2 [] := by
    refine ⟨?_, ?_, fun a ha => Or.inl ha, ?_⟩
    · intro g hg
      rcases hg with hg | hg
      · exact ⟨g, hg, FloodReach.seed, rfl⟩
      · simp at hg
    · intro g hgf hg _
      rw [hframe.1 g hg]
      exact set_all_natural_face W NO_VALUE T ioMesh g hgf
    · intro g hg
      simp at hg
  have hinv := flood_loop_inv W T (fun a => (s0.1.face a).terrain) s0.2 (flood_fuel T s0.2)
    s0.1 s0.2 [] hinit
  rw [hfin] at hinv
  refine ⟨_, hout, ?_, ?_⟩
  · intro a ha f hf
    rw [set_water_heights_face]
    have hv := flood_visited_of_reach W T _ s0.2 _ _ hinv a ha f hf
    obtain ⟨b, hb, hbf, hbt⟩ := hinv.1 f (Or.inr hv)
    rw [hbt]
    exact hsame b hb a ha f hbf hf
  · intro f hf hno
    rw [set_water_heights_face]
    apply hinv.2.1 f hf (by simp)
    intro hv
    obtain ⟨b, hb, hbf, _⟩ := hinv.1 f (Or.inr hv)
    exact hno b hb hbf

/-- On the sample strip the flood stays within the region of the face it starts from. -/
theorem sample_strip_reach (a f : Nat) (ha : a < 5) (hf : FloodReach sample_topology_strip a f) :
    sample_strip_region f = sample_strip_region a := by
  induction hf with
  | seed => rfl
  | step g vi _ hvi hc hfin ih =>
    have hg : g < 5 := by
      unfold sample_strip_region at ih
      split_ifs at ih <;> omega
    rw [← ih]
    have hv : vi = 0 ∨ vi = 1 ∨ vi = 2 := by omega
    have hg5 : g = 0 ∨ g = 1 ∨ g = 2 ∨ g = 3 ∨ g = 4 := by omega
    rcases hg5 with e | e | e | e | e <;> rcases hv with e2 | e2 | e2 <;> subst e <;> subst e2 <;>
      revert hc hfin <;> decide

set_option maxRecDepth 100000 in
/-- Witness of C20: the sample strip with two constraints, water (terrain 2) on the
side of face 0 and the terrain 7 on the side of face 1, the terrain 7 on the side of
face 3 and the terrain 5 on the side of face 4.  The region {1, 2, 3} holds the two
seeds 1 and 3 of the same terrain and the face 2, which is no seed and takes the terrain
7 from the fill; the faces 0 and 4 across the constrained edges keep their own. -/
theorem SetTerrainForConstraints_fills_regions_witness :
    ∃ out, SetTerrainForConstraints sample_tables (-1) sample_topology_strip (fun _ => none)
        sample_land
        [{ left_face := some 0, left_terrain := 2, left_orig := 0,
           right_face := some 1, right_terrain := 7, right_orig := 1 },
         { left_face := some 3, left_terrain := 7, left_orig := 1,
           right_face := some 4, right_terrain := 5, right_orig := 2 }] = some out ∧
      (out.face 0).terrain = 2 ∧ (out.face 1).terrain = 7 ∧ (out.face 2).terrain = 7 ∧
      (out.face 3).terrain = 7 ∧ (out.face 4).terrain = 5 := by
  have h12 : FloodReach sample_topology_strip 1 2 :=
    FloodReach.step 1 0 FloodReach.seed (by decide) (by decide) (by decide)
  have h13 : FloodReach sample_topology_strip 1 3 :=
    FloodReach.step 2 0 h12 (by decide) (by decide) (by decide)
  obtain ⟨out, h1, h2, _⟩ := SetTerrainForConstraints_fills_regions sample_tables (-1)
    sample_topology_strip (fun _ => none) sample_land
    [{ left_face := some 0, left_terrain := 2, left_orig := 0,
       right_face := some 1, right_terrain := 7, right_orig := 1 },
     { left_face := some 3, left_terrain := 7, left_orig := 1,
       right_face := some 4, right_terrain := 5, right_orig := 2 }]
    (seed_face (seed_face (seed_face (seed_face
      (set_all_natural sample_tables (-1) sample_topology_strip sample_land)
      0 2 0) 1 7 1) 3 7 1) 4 5 2, [0, 1, 3, 4]) rfl
    (by
      intro a ha b hb f hfa hfb
      have ha2 : a = 0 ∨ a = 1 ∨ a = 3 ∨ a = 4 := by simpa using ha
      have hb2 : b = 0 ∨ b = 1 ∨ b = 3 ∨ b = 4 := by simpa using hb
      have e1 := sample_strip_reach a f (by omega) hfa
      have e2 := sample_strip_reach b f (by omega) hfb
      have e : sample_strip_region a = sample_strip_region b := by rw [← e1, ← e2]
      rcases ha2 with e3 | e3 | e3 | e3 <;> rcases hb2 with e4 | e4 | e4 | e4 <;>
        subst e3 <;> subst e4 <;> first | rfl | (revert e; decide))
  exact ⟨out, h1, h2 0 (by simp) 0 FloodReach.seed, h2 1 (by simp) 1 FloodReach.seed,
    h2 1 (by simp) 2 h12, h2 1 (by simp) 3 h13, h2 4 (by simp) 4 FloodReach.seed⟩

/-! ## Claim on `MeshHeightAtPoint` -/

theorem HeightWithinTri_isSome (K : GeoConsts) (T : Topology) (point : Nat → ℚ × ℚ) (ms : Mesh)
    (f : Nat) (p : ℚ × ℚ) (h : T.is_infinite f = false) :
    ∃ r, HeightWithinTri K T point ms f p = some r := by
  unfold HeightWithinTri
  rw [h]
  exact ⟨_, rfl⟩

/-- C13: `MeshHeightAtPoint` never stops on an assertion, and its result is: `DEM_NO_DATA`
when the mesh has no face; otherwise the stored height of the located vertex when the
location reports a vertex; otherwise `DEM_NO_DATA` when the located face is infinite and
the location is not on an edge; otherwise the value of `HeightWithinTri` on the finite
face that holds the point: the located face when it is finite, and the face across the
located hull edge when the located face is infinite (that face is finite in a
triangulation). -/
theorem MeshHeightAtPoint_cases (K : GeoConsts) (DEM_NO_DATA : ℚ) (T : Topology)
    (point : Nat → ℚ × ℚ) (ms : Mesh) (locate_cache : ℚ × ℚ → Nat → Located) (inLon inLat : ℚ)
    (hint_id : Nat) :
    (∃ r, MeshHeightAtPoint K DEM_NO_DATA T point ms locate_cache inLon inLat hint_id = some r) ∧
    (T.finite_faces.length < 1 →
      MeshHeightAtPoint K DEM_NO_DATA T point ms locate_cache inLon inLat hint_id =
        some DEM_NO_DATA) ∧
    (1 ≤ T.finite_faces.length →
      (locate_cache (inLon, inLat) hint_id).lt = Locate_type.VERTEX →
      MeshHeightAtPoint K DEM_NO_DATA T point ms locate_cache inLon inLat hint_id =
        some (ms.vert (T.vertex (locate_cache (inLon, inLat) hint_id).face
          (locate_cache (inLon, inLat) hint_id).li)).height) ∧
    (1 ≤ T.finite_faces.length →
      (locate_cache (inLon, inLat) hint_id).lt ≠ Locate_type.VERTEX →
      (locate_cache (inLon, inLat) hint_id).lt ≠ Locate_type.EDGE →
      T.is_infinite (locate_cache (inLon, inLat) hint_id).face = true →
      MeshHeightAtPoint K DEM_NO_DATA T point ms locate_cache inLon inLat hint_id =
        some DEM_NO_DATA) ∧
    (1 ≤ T.finite_faces.length →
      (locate_cache (inLon, inLat) hint_id).lt ≠ Locate_type.VERTEX →
      T.is_infinite (locate_cache (inLon, inLat) hint_id).face = false →
      MeshHeightAtPoint K DEM_NO_DATA T point ms locate_cache inLon inLat hint_id =
        HeightWithinTri K T point ms (locate_cache (inLon, inLat) hint_id).face (inLon, inLat)) ∧
    (1 ≤ T.finite_faces.length →
      (locate_cache (inLon, inLat) hint_id).lt = Locate_type.EDGE →
      T.is_infinite (locate_cache (inLon, inLat) hint_id).face = true →
      T.is_infinite (T.neighbor (locate_cache (inLon, inLat) hint_id).face
        (locate_cache (inLon, inLat) hint_id).li) = false →
      MeshHeightAtPoint K DEM_NO_DATA T point ms locate_cache inLon inLat hint_id =
        HeightWithinTri K T point ms
          (T.neighbor (locate_cache (inLon, inLat) hint_id).face
            (locate_cache (inLon, inLat) hint_id).li) (inLon, inLat)) := by
  refine ⟨?_, ?_, ?_, ?_, ?_, ?_⟩
  · unfold MeshHeightAtPoint
    split
    · exact ⟨_, rfl⟩
    · split
      · exact ⟨_, rfl⟩
      · dsimp only
        split_ifs with h1 h2 h3
        · exact HeightWithinTri_isSome K T point ms _ _ h2
        · exact ⟨_, rfl⟩
        · exact HeightWithinTri_isSome K T point ms _ _ h3
        · exact ⟨_, rfl⟩
  · intro h
    unfold MeshHeightAtPoint
    rw [if_pos h]
  · intro h hv
    unfold MeshHeightAtPoint
    rw [if_neg (by omega), if_pos hv]
  · intro h hv he hi
    have h0 : ¬ T.finite_faces.length < 1 := by omega
    simp only [MeshHeightAtPoint, h0, hv, he, hi, if_false, false_and, Bool.true_eq_false]
  · intro h hv hi
    have h0 : ¬ T.finite_faces.length < 1 := by omega
    simp only [MeshHeightAtPoint, h0, hv, hi, if_false, and_false, Bool.false_eq_true, if_true]
  · intro h he hi hn
    have h0 : ¬ T.finite_faces.length < 1 := by omega
    have hv : (locate_cache (inLon, inLat) hint_id).lt ≠ Locate_type.VERTEX := by
      rw [he]; decide
    simp only [MeshHeightAtPoint, h0, hv, if_false, he, hi, and_self, if_true, hn]
    rw [if_neg (by decide)]

/-! ## Claim on `CalcMeshError` -/

/-- One sample keeps the outputs in step with the list of the deviations counted. -/
theorem CalcMeshError_sample_acc (DEM_NO_DATA : ℚ) (T : Topology) (point : Nat → ℚ × ℚ)
    (ms : Mesh) (locate : ℚ × ℚ → Option Nat → Located)
    (on_right_side : ℚ × ℚ → ℚ × ℚ → ℚ × ℚ → Bool)
    (distance_denormaled : ℚ × ℚ × ℚ → ℚ × ℚ × ℚ → ℚ × ℚ × ℚ → ℚ × ℚ × ℚ → ℚ)
    (elev : DEMGeo) (y : Nat) (st : CalcState) (x : Nat)
    (h : st.out_min = st.devs.foldr min 9900000000 ∧ st.out_max = st.devs.foldr max 0 ∧
      st.out_ave = st.devs.sum ∧ st.ctr = st.devs.length) :
    (CalcMeshError_sample DEM_NO_DATA T point ms locate on_right_side distance_denormaled elev y
        st x).out_min =
      (CalcMeshError_sample DEM_NO_DATA T point ms locate on_right_side distance_denormaled elev y
        st x).devs.foldr min 9900000000 ∧
    (CalcMeshError_sample DEM_NO_DATA T point ms locate on_right_side distance_denormaled elev y
        st x).out_max =
      (CalcMeshError_sample DEM_NO_DATA T point ms locate on_right_side distance_denormaled elev y
        st x).devs.foldr max 0 ∧
    (CalcMeshError_sample DEM_NO_DATA T point ms locate on_right_side distance_denormaled elev y
        st x).out_ave =
      (CalcMeshError_sample DEM_NO_DATA T point ms locate on_right_side distance_denormaled elev y
        st x).devs.sum ∧
    (CalcMeshError_sample DEM_NO_DATA T point ms locate on_right_side distance_denormaled elev y
        st x).ctr =
      (CalcMeshError_sample DEM_NO_DATA T point ms locate on_right_side distance_denormaled elev y
        st x).devs.length := by
  unfold CalcMeshError_sample
  split
  · dsimp only
    split
    · exact h
    · obtain ⟨h1, h2, h3, h4⟩ := h
      refine ⟨?_, ?_, ?_, ?_⟩
      · simp only [List.foldr_cons]
        rw [h1, min_comm]
      · simp only [List.foldr_cons]
        rw [h2, max_comm]
      · simp only [List.sum_cons]
        rw [h3, add_comm]
      · simp only [List.length_cons]
        rw [h4]
  · exact h

/-- The accumulators of `CalcMeshError` after the loops, in terms of the deviations of
the counted samples: `out_min` is the least of them and 9.9e9, `out_max` the greatest of
them and 0, `out_ave` their sum and `ctr` their number. -/
theorem CalcMeshError_scan_acc (DEM_NO_DATA : ℚ) (T : Topology) (point : Nat → ℚ × ℚ)
    (ms : Mesh) (locate : ℚ × ℚ → Option Nat → Located)
    (on_right_side : ℚ × ℚ → ℚ × ℚ → ℚ × ℚ → Bool)
    (distance_denormaled : ℚ × ℚ × ℚ → ℚ × ℚ × ℚ → ℚ × ℚ × ℚ → ℚ × ℚ × ℚ → ℚ)
    (elev : DEMGeo) :
    (CalcMeshError_scan DEM_NO_DATA T point ms locate on_right_side distance_denormaled
        elev).out_min =
      (CalcMeshError_scan DEM_NO_DATA T point ms locate on_right_side distance_denormaled
        elev).devs.foldr min 9900000000 ∧
    (CalcMeshError_scan DEM_NO_DATA T point ms locate on_right_side distance_denormaled
        elev).out_max =
      (CalcMeshError_scan DEM_NO_DATA T point ms locate on_right_side distance_denormaled
        elev).devs.foldr max 0 ∧
    (CalcMeshError_scan DEM_NO_DATA T point ms locate on_right_side distance_denormaled
        elev).out_ave =
      (CalcMeshError_scan DEM_NO_DATA T point ms locate on_right_side distance_denormaled
        elev).devs.sum ∧
    (CalcMeshError_scan DEM_NO_DATA T point ms locate on_right_side distance_denormaled
        elev).ctr =
      (CalcMeshError_scan DEM_NO_DATA T point ms locate on_right_side distance_denormaled
        elev).devs.length := by
  have hinit : CalcMeshError_init.out_min = CalcMeshError_init.devs.foldr min 9900000000 ∧
      CalcMeshError_init.out_max = CalcMeshError_init.devs.foldr max 0 ∧
      CalcMeshError_init.out_ave = CalcMeshError_init.devs.sum ∧
      CalcMeshError_init.ctr = CalcMeshError_init.devs.length := by
    simp [CalcMeshError_init]
  have hrow : ∀ (y : Nat) (xs : List Nat) (st : CalcState),
      (st.out_min = st.devs.foldr min 9900000000 ∧ st.out_max = st.devs.foldr max 0 ∧
        st.out_ave = st.devs.sum ∧ st.ctr = st.devs.length) →
      ((xs.foldl (CalcMeshError_sample DEM_NO_DATA T point ms locate on_right_side
          distance_denormaled elev y) st).out_min =
        (xs.foldl (CalcMeshError_sample DEM_NO_DATA T point ms locate on_right_side
          distance_denormaled elev y) st).devs.foldr min 9900000000 ∧
      (xs.foldl (CalcMeshError_sample DEM_NO_DATA T point ms locate on_right_side
          distance_denormaled elev y) st).out_max =
        (xs.foldl (CalcMeshError_sample DEM_NO_DATA T point ms locate on_right_side
          distance_denormaled elev y) st).devs.foldr max 0 ∧
      (xs.foldl (CalcMeshError_sample DEM_NO_DATA T point ms locate on_right_side
          distance_denormaled elev y) st).out_ave =
        (xs.foldl (CalcMeshError_sample DEM_NO_DATA T point ms locate on_right_side
          distance_denormaled elev y) st).devs.sum ∧
      (xs.foldl (CalcMeshError_sample DEM_NO_DATA T point ms locate on_right_side
          distance_denormaled elev y) st).ctr =
        (xs.foldl (CalcMeshError_sample DEM_NO_DATA T point ms locate on_right_side
          distance_denormaled elev y) st).devs.length) := by
    intro y xs
    induction xs with
    | nil => intro st h; exact h
    | cons x xs ih =>
      intro st h
      simp only [List.foldl_cons]
      exact ih _ (CalcMeshError_sample_acc DEM_NO_DATA T point ms locate on_right_side
        distance_denormaled elev y st x h)
  unfold CalcMeshError_scan
  split
  · generalize List.range elev.mHeight = ys
    generalize hst : CalcMeshError_init = st0 at hinit ⊢
    clear hst
    induction ys generalizing st0 with
    | nil => exact hinit
    | cons y ys ih =>
      simp only [List.foldl_cons]
      exact ih _ (hrow y _ st0 hinit)
  · exact hinit

set_option maxRecDepth 100000 in
/-- C16 (the code departs from the claim): a raster of one sample of elevation 0, at a
point of face 0 of the sample tile, against the mesh at the level height 1.  One sample
is counted and its deviation is -1, so the maximum of the deviations is -1, but
`out_max` is 0: it starts at 0.0 and is only ever raised, where `out_min` starts at
9.9e9. -/
theorem CalcMeshError_out_max_not_the_maximum :
    (CalcMeshError_scan (-32768) sample_topology sample_point sample_level sample_locate
      sample_on_right_side sample_distance sample_dem).devs = [-1] ∧
    CalcMeshError (-32768) sample_topology sample_point sample_level sample_locate
      sample_on_right_side sample_distance sample_dem =
        { count := 1, out_min := -1, out_max := 0, out_ave := -1, mean_square := 1 } := by
  decide!

/-! ## Claim on the selection of raster points -/

set_option maxRecDepth 100000 in
/-- C17 as stated fails: on a raster of two by two samples without neighbours and without
water, the corner step hands the grid point (0, 0) to `InsertDEMPoint`, which marks it
used, and `AddEdgePoints` hands it over twice more, on its first column and on its first
row: the list of calls holds (0, 0) with the mask already set. -/
theorem select_points_hands_corner_twice :
    (select_points sample_dem_square false false false false 50 [] id).map
      (fun s => s.calls.reverse) =
      some [((0, 0), false), ((1, 0), false), ((1, 1), false), ((0, 1), false),
        ((0, 0), true), ((1, 0), true), ((0, 0), true), ((0, 1), true)] := by
  decide!
theorem set_used_marked (s : Selection) (x y : Nat) (h : s.Marked) : (s.set_used x y).Marked := by
  intro c hc
  have := h c hc
  unfold Selection.set_used
  dsimp only
  split
  · exact this
  · exact List.mem_cons_of_mem _ this

theorem InsertDEMPoint_marked (orig : DEMGeo) (s : Selection) (x y : Nat) (h : s.Marked) :
    (InsertDEMPoint orig s x y).Marked := by
  intro c hc
  unfold InsertDEMPoint at hc ⊢
  dsimp only at hc ⊢
  unfold Selection.set_used
  dsimp only
  rcases List.mem_cons.mp hc with hc | hc
  · subst hc
    split
    · rename_i e; exact e
    · exact List.mem_cons_self _ _
  · have := h c hc
    split
    · exact this
    · exact List.mem_cons_of_mem _ this

theorem foldl_marked {α : Type} (g : Selection → α → Selection)
    (hg : ∀ s a, s.Marked → (g s a).Marked) :
    ∀ (l : List α) (s : Selection), s.Marked → (l.foldl g s).Marked := by
  intro l
  induction l with
  | nil => intro s h; exact h
  | cons a l ih => intro s h; exact ih _ (hg s a h)

theorem foldl_marked_fst {α β : Type} (g : Selection × β → α → Selection × β)
    (hg : ∀ s a, s.1.Marked → (g s a).1.Marked) :
    ∀ (l : List α) (s : Selection × β), s.1.Marked → (l.foldl g s).1.Marked := by
  intro l
  induction l with
  | nil => intro s h; exact h
  | cons a l ih => intro s h; exact ih _ (hg s a h)

theorem AddEdgePoints_marked (orig : DEMGeo) (interval divisions : Nat)
    (has_left has_bottom has_right has_top : Bool) (s e : Selection) (h : s.Marked)
    (he : AddEdgePoints orig interval divisions has_left has_bottom has_right has_top s = some e) :
    e.Marked := by
  unfold AddEdgePoints at he
  dsimp only at he
  split at he
  · rename_i xs dys ys dxs _ _ _ _
    simp only [Option.some.injEq] at he
    subst he
    have h1 : (xs.foldl (fun s x => dys.foldl (fun s dy => InsertDEMPoint orig s x dy) s)
        s).Marked :=
      foldl_marked _ (fun s x hs =>
        foldl_marked _ (fun s dy hs => InsertDEMPoint_marked orig s x dy hs) dys s hs) xs s h
    have h2 : (ys.foldl (fun s y => dxs.foldl (fun s dx => InsertDEMPoint orig s dx y) s)
        (xs.foldl (fun s x => dys.foldl (fun s dy => InsertDEMPoint orig s x dy) s) s)).Marked :=
      foldl_marked _ (fun s y hs =>
        foldl_marked _ (fun s dx hs => InsertDEMPoint_marked orig s dx y hs) dxs s hs) ys _ h1
    have hrow : ∀ (b1 b2 : Bool) (g1 g2 : Nat → Nat × Nat) (l : List Nat) (s : Selection),
        s.Marked →
        (l.foldl (fun s y =>
          if b2 = true then
            (if b1 = true then s.set_used (g1 y).1 (g1 y).2 else s).set_used (g2 y).1 (g2 y).2
          else (if b1 = true then s.set_used (g1 y).1 (g1 y).2 else s)) s).Marked := by
      intro b1 b2 g1 g2 l s hs
      apply foldl_marked _ _ l s hs
      intro s y hs
      split
      · apply set_used_marked
        split
        · exact set_used_marked _ _ _ hs
        · exact hs
      · split
        · exact set_used_marked _ _ _ hs
        · exact hs
    split
    · refine hrow has_bottom has_top (fun x => (x, 0)) (fun x => (x, orig.mHeight - 1)) _ _ ?_
      split
      · exact hrow has_left has_right (fun y => (0, y)) (fun y => (orig.mWidth - 1, y)) _ _ h2
      · exact h2
    · split
      · exact hrow has_left has_right (fun y => (0, y)) (fun y => (orig.mWidth - 1, y)) _ _ h2
      · exact h2
  · cases he

theorem CopyWetPoints_marked (orig : DEMGeo) (in_skip : Nat) (scan : List (List (Nat × Nat)))
    (s : Selection) (h : s.Marked) : (CopyWetPoints orig in_skip scan s).1.Marked := by
  unfold CopyWetPoints
  apply foldl_marked_fst _ _ _ (s, 0) h
  intro a row ha
  apply foldl_marked_fst _ _ _ a ha
  intro a r ha
  apply foldl_marked_fst _ _ _ a ha
  intro a x ha
  dsimp only
  split
  · exact InsertDEMPoint_marked orig a.1 x row.1 ha
  · exact ha

theorem insert_corners_marked (orig : DEMGeo) : (insert_corners orig).Marked := by
  have h0 : ({ used := [], mesh := { vertices := [], hull := [] }, calls := [] } :
      Selection).Marked := by
    intro c hc
    simp at hc
  unfold insert_corners
  exact InsertDEMPoint_marked orig _ _ _ (InsertDEMPoint_marked orig _ _ _
    (InsertDEMPoint_marked orig _ _ _ (InsertDEMPoint_marked orig _ _ _ h0)))

theorem with_mesh_marked (s : Selection) (m : CDT) (h : s.Marked) :
    ({ s with mesh := m } : Selection).Marked := h

/-- C17 amended: `InsertDEMPoint` does not read the mask; what holds is that every grid
point handed to it during the corner step, `AddEdgePoints` and `CopyWetPoints` is marked
used in the mask when these steps are over. -/
theorem select_points_marks_every_point (orig : DEMGeo)
    (has_left has_bottom has_right has_top : Bool) (LOW_RES_WATER_INTERVAL : Nat)
    (scan : List (List (Nat × Nat))) (burn : CDT → CDT) (s : Selection)
    (h : select_points orig has_left has_bottom has_right has_top LOW_RES_WATER_INTERVAL scan
      burn = some s) :
    ∀ c ∈ s.calls, c.1 ∈ s.used := by
  unfold select_points at h
  rw [Option.map_eq_some'] at h
  obtain ⟨e, he, hs⟩ := h
  subst hs
  exact CopyWetPoints_marked orig LOW_RES_WATER_INTERVAL scan e
    (AddEdgePoints_marked orig 20 1 has_left has_bottom has_right has_top _ e
      (with_mesh_marked _ _ (insert_corners_marked orig)) he)

set_option maxRecDepth 100000 in
/-- Witness of the amended C17: the raster of two by two samples, whose four grid points
are all marked at the end. -/
theorem select_points_marks_every_point_witness :
    ∃ s, select_points sample_dem_square false false false false 50 [] id = some s ∧
      ∀ c ∈ s.calls, c.1 ∈ s.used :=
  ⟨(select_points sample_dem_square false false false false 50 [] id).get (by decide!),
    by simp,
    select_points_marks_every_point sample_dem_square false false false false 50 [] id _
      (by simp)⟩

/-! ## Lemmas on the burn-in of the map -/

theorem scan_outgoing_new_best (M : Pmwx) (marks : List Nat) (best : Nat) :
    ∀ (circs : List Nat) (nb : Option Nat) (r : Nat),
      scan_outgoing M marks best circs nb = some (some r) →
      nb = some r ∨ (∃ circ ∈ circs, r = M.twin circ ∧ r ∉ marks) := by
  intro circs
  induction circs with
  | nil =>
    intro nb r h
    simp only [scan_outgoing, Option.some.injEq] at h
    exact Or.inl h
  | cons circ rest ih =>
    intro nb r h
    unfold scan_outgoing at h
    split at h
    · split at h
      · cases h
      · rename_i hm
        split at h
        · cases h
        · rcases ih _ r h with h1 | ⟨c, hc, h2⟩
          · right
            simp only [Option.some.injEq] at h1
            refine ⟨circ, List.mem_cons_self _ _, h1.symm, ?_⟩
            rw [← h1]
            exact fun hx => hm (Or.inl hx)
          · exact Or.inr ⟨c, List.mem_cons_of_mem _ hc, h2⟩
    · rcases ih _ r h with h1 | ⟨c, hc, h2⟩
      · exact Or.inl h1
      · exact Or.inr ⟨c, List.mem_cons_of_mem _ hc, h2⟩

/-- The call `ExtendLanduseEdge(start)` marks `start` and clears no mark. -/
theorem ExtendLanduseEdge_marks (M : Pmwx) :
    ∀ (fuel : Nat) (marks : List Nat) (best : Nat) (r : List Nat × Nat),
      ExtendLanduseEdge M fuel marks best = some r →
      best ∈ r.1 ∧ ∀ h ∈ marks, h ∈ r.1 := by
  intro fuel
  induction fuel with
  | zero => intro marks best r h; simp [ExtendLanduseEdge] at h
  | succ n ih =>
    intro marks best r h
    unfold ExtendLanduseEdge at h
    have hbase : (best :: marks, best) = r → best ∈ r.1 ∧ ∀ h ∈ marks, h ∈ r.1 := by
      intro e
      subst e
      exact ⟨List.mem_cons_self _ _, fun h hh => List.mem_cons_of_mem _ hh⟩
    split at h
    · exact hbase (Option.some.inj h)
    · exact hbase (Option.some.inj h)
    · split at h
      · exact hbase (Option.some.inj h)
      · obtain ⟨_, k2⟩ := ih _ _ r h
        exact ⟨k2 best (List.mem_cons_self _ _), fun x hx => k2 x (List.mem_cons_of_mem _ hx)⟩

/-- With the half-edges closed under the step from a half-edge that ends in a vertex to
its twin, `ExtendLanduseEdge` returns when its fuel exceeds the number of half-edges that
are not marked once `best` is. -/
theorem ExtendLanduseEdge_returns (M : Pmwx)
    (hclosed : ∀ he ∈ M.halfedges, ∀ circ ∈ M.incident_halfedges (M.target he),
      M.twin circ ∈ M.halfedges) :
    ∀ (fuel : Nat) (marks : List Nat) (best : Nat), best ∈ M.halfedges →
      (M.halfedges.filter (fun h => decide (h ∉ best :: marks))).length < fuel →
      ∃ r, ExtendLanduseEdge M fuel marks best = some r := by
  intro fuel
  induction fuel with
  | zero => intro marks best _ h; omega
  | succ n ih =>
    intro marks best hb hm
    unfold ExtendLanduseEdge
    split
    · exact ⟨_, rfl⟩
    · exact ⟨_, rfl⟩
    · rename_i new_best hscan
      split
      · exact ⟨_, rfl⟩
      · rcases scan_outgoing_new_best M _ best _ none new_best hscan with h1 | ⟨c, hc, h2, h3⟩
        · cases h1
        · have hin : new_best ∈ M.halfedges := by
            rw [h2]; exact hclosed best hb c hc
          apply ih _ _ hin
          have hlt := filter_length_lt_of_imp
            (fun h => decide (h ∉ new_best :: best :: marks))
            (fun h => decide (h ∉ best :: marks))
            (by
              intro x hx
              simp only [decide_eq_true_eq] at hx ⊢
              exact fun hh => hx (List.mem_cons_of_mem _ hh))
            M.halfedges new_best hin (by simpa using h3) (by simp)
          omega

theorem burn_fold_none (M : Pmwx) (elev_at : ℚ × ℚ → ℚ) :
    ∀ (l : List Nat), l.foldl (burn_halfedge M elev_at) none = none := by
  intro l
  induction l with
  | nil => rfl
  | cons a l ih => simp only [List.foldl_cons, burn_halfedge]; exact ih

/-- One half-edge of the second loop: no mark is cleared, a constraint is on record as
soon as a mark is set, and a half-edge that must be burnt is marked afterwards, or its
twin is. -/
theorem burn_halfedge_spec (M : Pmwx) (elev_at : ℚ × ℚ → ℚ) (s r : BurnState) (he : Nat)
    (h : burn_halfedge M elev_at (some s) he = some r)
    (hinv : s.marks = [] ∨ s.outCons ≠ []) :
    (∀ x ∈ s.marks, x ∈ r.marks) ∧ (r.marks = [] ∨ r.outCons ≠ []) ∧
    (must_burn_he M he = true → he ∈ r.marks ∨ M.twin he ∈ r.marks) := by
  unfold burn_halfedge at h
  dsimp only at h
  split at h
  · rename_i hc
    split at h
    · cases h
    · rename_i e1 h1
      split at h
      · cases h
      · rename_i e2 h2
        simp only [Option.some.injEq] at h
        subst h
        obtain ⟨a1, a2⟩ := ExtendLanduseEdge_marks M _ _ _ e1 h1
        obtain ⟨_, b2⟩ := ExtendLanduseEdge_marks M _ _ _ e2 h2
        exact ⟨fun x hx => b2 x (a2 x hx), Or.inr (by simp), fun _ => Or.inl (b2 he a1)⟩
  · rename_i hc
    simp only [Option.some.injEq] at h
    subst h
    refine ⟨fun _ hx => hx, hinv, ?_⟩
    intro hm
    by_contra hn
    apply hc
    exact ⟨fun hx => hn (Or.inr hx), fun hx => hn (Or.inl hx), hm⟩

theorem burn_fold_spec (M : Pmwx) (elev_at : ℚ × ℚ → ℚ) :
    ∀ (l : List Nat) (s r : BurnState),
      l.foldl (burn_halfedge M elev_at) (some s) = some r →
      (s.marks = [] ∨ s.outCons ≠ []) →
      (∀ x ∈ s.marks, x ∈ r.marks) ∧ (r.marks = [] ∨ r.outCons ≠ []) ∧
      (∀ he ∈ l, must_burn_he M he = true → he ∈ r.marks ∨ M.twin he ∈ r.marks) := by
  intro l
  induction l with
  | nil =>
    intro s r h hinv
    simp only [List.foldl_nil, Option.some.injEq] at h
    subst h
    exact ⟨fun _ hx => hx, hinv, fun he hhe => by simp at hhe⟩
  | cons a l ih =>
    intro s r h hinv
    simp only [List.foldl_cons] at h
    cases hs : burn_halfedge M elev_at (some s) a with
    | none =>
      rw [hs, burn_fold_none] at h
      cases h
    | some s2 =>
      rw [hs] at h
      obtain ⟨a1, a2, a3⟩ := burn_halfedge_spec M elev_at s s2 a hs hinv
      obtain ⟨b1, b2, b3⟩ := ih s2 r h a2
      refine ⟨fun x hx => b1 x (a1 x hx), b2, ?_⟩
      intro he hhe hm
      rcases List.mem_cons.mp hhe with e | e
      · subst e
        rcases a3 hm with k | k
        · exact Or.inl (b1 _ k)
        · exact Or.inr (b1 _ k)
      · exact b3 he e hm

theorem burn_fold_returns (M : Pmwx) (elev_at : ℚ × ℚ → ℚ)
    (hclosed : ∀ he ∈ M.halfedges, ∀ circ ∈ M.incident_halfedges (M.target he),
      M.twin circ ∈ M.halfedges)
    (htwin : ∀ he ∈ M.halfedges, M.twin he ∈ M.halfedges) :
    ∀ (l : List Nat) (s : BurnState), (∀ he ∈ l, he ∈ M.halfedges) →
      ∃ r, l.foldl (burn_halfedge M elev_at) (some s) = some r := by
  intro l
  induction l with
  | nil => intro s _; exact ⟨s, rfl⟩
  | cons a l ih =>
    intro s hl
    simp only [List.foldl_cons]
    have ha : a ∈ M.halfedges := hl a (List.mem_cons_self _ _)
    have hstep : ∃ s2, burn_halfedge M elev_at (some s) a = some s2 := by
      unfold burn_halfedge
      dsimp only
      split
      · obtain ⟨e1, h1⟩ := ExtendLanduseEdge_returns M hclosed (M.halfedges.length + 1) s.marks a ha
          (Nat.lt_succ_of_le (List.length_filter_le _ _))
        rw [h1]
        obtain ⟨e2, h2⟩ := ExtendLanduseEdge_returns M hclosed (M.halfedges.length + 1) e1.1
          (M.twin a) (htwin a ha) (Nat.lt_succ_of_le (List.length_filter_le _ _))
        dsimp only
        rw [h2]
        exact ⟨_, rfl⟩
      · exact ⟨_, rfl⟩
    obtain ⟨s2, h2⟩ := hstep
    rw [h2]
    exact ih s2 (fun he hhe => hl he (List.mem_cons_of_mem _ hhe))

/-- A turn of the circulator that ends with a `new_best` it did not start with ends with
a half-edge that must be burnt. -/
theorem scan_outgoing_must_burn (M : Pmwx) (marks : List Nat) (best : Nat) :
    ∀ (circs : List Nat) (nb : Option Nat) (r : Nat),
      scan_outgoing M marks best circs nb = some (some r) →
      nb = some r ∨ must_burn_he M r = true := by
  intro circs
  induction circs with
  | nil =>
    intro nb r h
    simp only [scan_outgoing, Option.some.injEq] at h
    exact Or.inl h
  | cons circ rest ih =>
    intro nb r h
    unfold scan_outgoing at h
    split at h
    · rename_i hq
      split at h
      · cases h
      · split at h
        · cases h
        · rcases ih _ r h with h1 | h1
          · right
            simp only [Option.some.injEq] at h1
            rw [← h1]
            exact hq.1
          · exact Or.inr h1
    · exact ih _ r h

/-- The call `ExtendLanduseEdge(start)` on a half-edge that must be burnt marks only
half-edges that must be burnt. -/
theorem ExtendLanduseEdge_marks_must_burn (M : Pmwx) :
    ∀ (fuel : Nat) (marks : List Nat) (best : Nat) (r : List Nat × Nat),
      ExtendLanduseEdge M fuel marks best = some r → must_burn_he M best = true →
      (∀ x ∈ marks, must_burn_he M x = true) → ∀ x ∈ r.1, must_burn_he M x = true := by
  intro fuel
  induction fuel with
  | zero => intro marks best r h; simp [ExtendLanduseEdge] at h
  | succ n ih =>
    intro marks best r h hb hm
    unfold ExtendLanduseEdge at h
    have hcons : ∀ x ∈ best :: marks, must_burn_he M x = true := by
      intro x hx
      rcases List.mem_cons.mp hx with e | e
      · rw [e]; exact hb
      · exact hm x e
    have hbase : (best :: marks, best) = r → ∀ x ∈ r.1, must_burn_he M x = true := by
      intro e
      subst e
      exact hcons
    split at h
    · exact hbase (Option.some.inj h)
    · exact hbase (Option.some.inj h)
    · rename_i new_best hscan
      split at h
      · exact hbase (Option.some.inj h)
      · rcases scan_outgoing_must_burn M _ best _ none new_best hscan with h1 | h1
        · cases h1
        · exact ih _ _ r h h1 hcons

/-- The test `must_burn_he` gives the same for a half-edge and its twin. -/
theorem must_burn_he_twin (M : Pmwx) (h : Nat) (hh : M.twin (M.twin h) = h) :
    must_burn_he M (M.twin h) = must_burn_he M h := by
  unfold must_burn_he
  rw [hh]
  cases M.is_unbounded (M.face h) <;> cases M.is_unbounded (M.face (M.twin h)) <;>
    cases M.he_MustBurn h <;> cases M.he_MustBurn (M.twin h) <;>
    simp [ne_comm, eq_comm]

/-- The test `must_burn_he` fails on a half-edge with the unbounded face on a side. -/
theorem must_burn_he_unbounded (M : Pmwx) (h : Nat)
    (hu : M.is_unbounded (M.face h) = true ∨ M.is_unbounded (M.face (M.twin h)) = true) :
    must_burn_he M h = false := by
  unfold must_burn_he
  rcases hu with e | e <;> simp [e]

/-- The two outcomes of one half-edge of the second loop: the state is left as it is, or
the half-edge must be burnt, neither it nor its twin is marked, and the new state holds
the marks of the two extensions and one more constraint. -/
theorem burn_halfedge_cases (M : Pmwx) (elev_at : ℚ × ℚ → ℚ) (s r : BurnState) (h0 : Nat)
    (h : burn_halfedge M elev_at (some s) h0 = some r) :
    r = s ∨
    (M.twin h0 ∉ s.marks ∧ h0 ∉ s.marks ∧ must_burn_he M h0 = true ∧
      ∃ e1 e2, ExtendLanduseEdge M (M.halfedges.length + 1) s.marks h0 = some e1 ∧
        ExtendLanduseEdge M (M.halfedges.length + 1) e1.1 (M.twin h0) = some e2 ∧
        r.marks = e2.1 ∧
        r.outCons =
          (((InsertAnyPoint elev_at s.mesh (M.vpoint (M.target e2.2))).2,
            (InsertAnyPoint elev_at (InsertAnyPoint elev_at s.mesh (M.vpoint (M.target e2.2))).1
              (M.vpoint (M.target e1.2))).2), (h0, M.twin h0)) :: s.outCons) := by
  unfold burn_halfedge at h
  dsimp only at h
  split at h
  · rename_i hc
    split at h
    · cases h
    · rename_i e1 h1
      split at h
      · cases h
      · rename_i e2 h2
        simp only [Option.some.injEq] at h
        subst h
        exact Or.inr ⟨hc.1, hc.2.1, hc.2.2, e1, e2, h1, h2, rfl, rfl⟩
  · simp only [Option.some.injEq] at h
    exact Or.inl h.symm

/-- The pass in which a mark was set: when the loop ends with `he` or its twin marked
and began with neither, some half-edge `h0` of the run took the loop from a state with
neither marked to a state with one of them marked. -/
theorem burn_fold_first_mark (M : Pmwx) (elev_at : ℚ × ℚ → ℚ) (he : Nat) :
    ∀ (l : List Nat) (s r : BurnState),
      l.foldl (burn_halfedge M elev_at) (some s) = some r →
      he ∉ s.marks → M.twin he ∉ s.marks → (he ∈ r.marks ∨ M.twin he ∈ r.marks) →
      ∃ pre h0 post s1 s2, l = pre ++ h0 :: post ∧
        pre.foldl (burn_halfedge M elev_at) (some s) = some s1 ∧
        he ∉ s1.marks ∧ M.twin he ∉ s1.marks ∧
        burn_halfedge M elev_at (some s1) h0 = some s2 ∧
        (he ∈ s2.marks ∨ M.twin he ∈ s2.marks) ∧
        post.foldl (burn_halfedge M elev_at) (some s2) = some r := by
  intro l
  induction l with
  | nil =>
    intro s r h h1 h2 h3
    simp only [List.foldl_nil, Option.some.injEq] at h
    subst h
    rcases h3 with k | k
    · exact absurd k h1
    · exact absurd k h2
  | cons a l ih =>
    intro s r h h1 h2 h3
    simp only [List.foldl_cons] at h
    cases hs : burn_halfedge M elev_at (some s) a with
    | none =>
      rw [hs, burn_fold_none] at h
      cases h
    | some s2 =>
      rw [hs] at h
      by_cases hm : he ∈ s2.marks ∨ M.twin he ∈ s2.marks
      · exact ⟨[], a, l, s, s2, rfl, rfl, h1, h2, hs, hm, h⟩
      · obtain ⟨pre, h0, post, s1, s3, e1, e2, e3, e4, e5, e6, e7⟩ :=
          ih s2 r h (fun k => hm (Or.inl k)) (fun k => hm (Or.inr k)) h3
        refine ⟨a :: pre, h0, post, s1, s3, by rw [e1]; rfl, ?_, e3, e4, e5, e6, e7⟩
        simp only [List.foldl_cons, hs]
        exact e2

/-- The loop drops no constraint. -/
theorem burn_fold_outCons_mono (M : Pmwx) (elev_at : ℚ × ℚ → ℚ) :
    ∀ (l : List Nat) (s r : BurnState),
      l.foldl (burn_halfedge M elev_at) (some s) = some r →
      ∀ c ∈ s.outCons, c ∈ r.outCons := by
  intro l
  induction l with
  | nil =>
    intro s r h
    simp only [List.foldl_nil, Option.some.injEq] at h
    subst h
    exact fun _ k => k
  | cons a l ih =>
    intro s r h c hc
    simp only [List.foldl_cons] at h
    cases hs : burn_halfedge M elev_at (some s) a with
    | none =>
      rw [hs, burn_fold_none] at h
      cases h
    | some s2 =>
      rw [hs] at h
      apply ih s2 r h
      rcases burn_halfedge_cases M elev_at s s2 a hs with e | ⟨_, _, _, _, _, _, _, _, k4⟩
      · rw [e]; exact hc
      · rw [k4]; exact List.mem_cons_of_mem _ hc

/-- The loop marks only half-edges that must be burnt, drops no constraint, and records
constraints only for half-edges that must be burnt and their twins. -/
theorem burn_fold_must_burn (M : Pmwx) (elev_at : ℚ × ℚ → ℚ)
    (hinvol : ∀ he ∈ M.halfedges, M.twin (M.twin he) = he)
    (out0 : List ((Nat × Nat) × (Nat × Nat))) :
    ∀ (l : List Nat) (s r : BurnState), (∀ h ∈ l, h ∈ M.halfedges) →
      l.foldl (burn_halfedge M elev_at) (some s) = some r →
      (∀ x ∈ s.marks, must_burn_he M x = true) →
      (∀ c ∈ s.outCons, c ∈ out0 ∨
        (must_burn_he M c.2.1 = true ∧ must_burn_he M c.2.2 = true)) →
      (∀ x ∈ r.marks, must_burn_he M x = true) ∧
      (∀ c ∈ r.outCons, c ∈ out0 ∨
        (must_burn_he M c.2.1 = true ∧ must_burn_he M c.2.2 = true)) ∧
      (∀ c ∈ s.outCons, c ∈ r.outCons) := by
  intro l
  induction l with
  | nil =>
    intro s r _ h hm hc
    simp only [List.foldl_nil, Option.some.injEq] at h
    subst h
    exact ⟨hm, hc, fun _ k => k⟩
  | cons a l ih =>
    intro s r hl h hm hc
    simp only [List.foldl_cons] at h
    cases hs : burn_halfedge M elev_at (some s) a with
    | none =>
      rw [hs, burn_fold_none] at h
      cases h
    | some s2 =>
      rw [hs] at h
      have hl2 : ∀ h ∈ l, h ∈ M.halfedges := fun x hx => hl x (List.mem_cons_of_mem _ hx)
      rcases burn_halfedge_cases M elev_at s s2 a hs with e | ⟨_, _, hb, e1, e2, k1, k2, k3, k4⟩
      · subst e
        exact ih s2 r hl2 h hm hc
      · have hbt : must_burn_he M (M.twin a) = true := by
          rw [must_burn_he_twin M a (hinvol a (hl a (List.mem_cons_self _ _)))]
          exact hb
        have hm1 := ExtendLanduseEdge_marks_must_burn M _ _ _ e1 k1 hb hm
        have hm2 := ExtendLanduseEdge_marks_must_burn M _ _ _ e2 k2 hbt hm1
        obtain ⟨a1, a2, a3⟩ := ih s2 r hl2 h (by rw [k3]; exact hm2)
          (by
            rw [k4]
            intro c hcm
            rcases List.mem_cons.mp hcm with e | e
            · rw [e]; exact Or.inr ⟨hb, hbt⟩
            · exact hc c e)
        refine ⟨a1, a2, ?_⟩
        intro c hcm
        apply a3
        rw [k4]
        exact List.mem_cons_of_mem _ hcm

/-! ## Claim on the burn-in of the map -/

set_option maxRecDepth 100000 in
/-- C18 as stated fails: on the map of one edge on the rim, the two faces of the
half-edge 0 differ in terrain (5 and 0), but one of them is the unbounded face, so
`must_burn_he` is false for it, and `AddConstraintPoints` marks nothing and records no
constraint. -/
theorem must_burn_he_false_on_the_rim :
    sample_map_rim.mTerrainType (sample_map_rim.face 0) ≠
      sample_map_rim.mTerrainType (sample_map_rim.face (sample_map_rim.twin 0)) ∧
    must_burn_he sample_map_rim 0 = false ∧
    AddConstraintPoints sample_map_rim (fun _ => 0) { vertices := [], hull := [] } [] =
      some { marks := [], mesh := { vertices := [], hull := [] }, outCons := [] } := by
  decide!

/-- C18 amended: in a map that is closed (the twin of a half-edge of the map, and of a
half-edge that ends in a vertex of the map, is a half-edge of the map, and the twin of
the twin of a half-edge is the half-edge), `AddConstraintPoints` returns, and then:
for every half-edge `he` neither of whose faces is the unbounded face and whose faces
differ in terrain type or in zoning, `must_burn_he` is true and `he` or its twin is
marked, the mark having been set in the pass of the loop for a half-edge `h0` that must
be burnt, by the two calls of `ExtendLanduseEdge` for `h0` and its twin, which pass
recorded for the pair of `h0` and its twin a constraint that is on record at the end;
for every half-edge with the unbounded face on a side, `must_burn_he` is false, the
half-edge is not marked and no constraint is recorded for it. -/
theorem AddConstraintPoints_burns (M : Pmwx) (elev_at : ℚ × ℚ → ℚ) (outMesh : CDT)
    (outCons : List ((Nat × Nat) × (Nat × Nat)))
    (hclosed : ∀ he ∈ M.halfedges, ∀ circ ∈ M.incident_halfedges (M.target he),
      M.twin circ ∈ M.halfedges)
    (htwin : ∀ he ∈ M.halfedges, M.twin he ∈ M.halfedges)
    (hinvol : ∀ he ∈ M.halfedges, M.twin (M.twin he) = he) :
    ∃ st, AddConstraintPoints M elev_at outMesh outCons = some st ∧
      (∀ he ∈ M.halfedges, M.is_unbounded (M.face he) = false →
        M.is_unbounded (M.face (M.twin he)) = false →
        (M.mTerrainType (M.face he) ≠ M.mTerrainType (M.face (M.twin he)) ∨
          M.zoning (M.face he) ≠ M.zoning (M.face (M.twin he))) →
        must_burn_he M he = true ∧ (he ∈ st.marks ∨ M.twin he ∈ st.marks) ∧
        ∃ pre h0 post s e1 e2,
          M.halfedges = pre ++ h0 :: post ∧
          pre.foldl (burn_halfedge M elev_at)
            (some { marks := [], mesh := outMesh, outCons := outCons }) = some s ∧
          he ∉ s.marks ∧ M.twin he ∉ s.marks ∧ must_burn_he M h0 = true ∧
          ExtendLanduseEdge M (M.halfedges.length + 1) s.marks h0 = some e1 ∧
          ExtendLanduseEdge M (M.halfedges.length + 1) e1.1 (M.twin h0) = some e2 ∧
          (he ∈ e2.1 ∨ M.twin he ∈ e2.1) ∧
          post.foldl (burn_halfedge M elev_at) (burn_halfedge M elev_at (some s) h0) = some st ∧
          (((InsertAnyPoint elev_at s.mesh (M.vpoint (M.target e2.2))).2,
            (InsertAnyPoint elev_at (InsertAnyPoint elev_at s.mesh (M.vpoint (M.target e2.2))).1
              (M.vpoint (M.target e1.2))).2), (h0, M.twin h0)) ∈ st.outCons) ∧
      (∀ h, (M.is_unbounded (M.face h) = true ∨ M.is_unbounded (M.face (M.twin h)) = true) →
        must_burn_he M h = false ∧ h ∉ st.marks ∧
        ∀ c ∈ st.outCons, c ∈ outCons ∨ (c.2.1 ≠ h ∧ c.2.2 ≠ h)) := by
  obtain ⟨st, hst⟩ := burn_fold_returns M elev_at hclosed htwin M.halfedges
    { marks := [], mesh := outMesh, outCons := outCons } (fun _ h => h)
  refine ⟨st, hst, ?_, ?_⟩
  · intro he hhe hb1 hb2 hdiff
    have hm : must_burn_he M he = true := by
      unfold must_burn_he
      rw [hb1, hb2]
      rcases hdiff with h | h
      · simp [h]
      · simp [h]
    obtain ⟨_, _, k3⟩ := burn_fold_spec M elev_at M.halfedges _ st hst (Or.inl rfl)
    have hmark := k3 he hhe hm
    refine ⟨hm, hmark, ?_⟩
    obtain ⟨pre, h0, post, s1, s2, e1, e2, e3, e4, e5, e6, e7⟩ :=
      burn_fold_first_mark M elev_at he M.halfedges _ st hst (by simp) (by simp) hmark
    rcases burn_halfedge_cases M elev_at s1 s2 h0 e5 with e | ⟨_, _, hb, x1, x2, k1, k2, k4, k5⟩
    · subst e
      rcases e6 with k | k
      · exact absurd k e3
      · exact absurd k e4
    · refine ⟨pre, h0, post, s1, x1, x2, e1, e2, e3, e4, hb, k1, k2, by rw [← k4]; exact e6,
        by rw [e5]; exact e7, ?_⟩
      apply burn_fold_outCons_mono M elev_at post s2 st e7
      rw [k5]
      exact List.mem_cons_self _ _
  · intro h hu
    have hf := must_burn_he_unbounded M h hu
    obtain ⟨a1, a2, _⟩ := burn_fold_must_burn M elev_at hinvol outCons M.halfedges _ st
      (fun _ k => k) hst (by simp) (fun c hc => Or.inl hc)
    refine ⟨hf, ?_, ?_⟩
    · intro hx
      rw [a1 h hx] at hf
      cases hf
    · intro c hc
      rcases a2 c hc with k | ⟨k1, k2⟩
      · exact Or.inl k
      · right
        constructor
        · intro e
          rw [e, hf] at k1
          cases k1
        · intro e
          rw [e, hf] at k2
          cases k2

set_option maxRecDepth 100000 in
/-- Witness of the amended C18: on the square cut by a diagonal the pass for the
half-edge 8 of the diagonal marks it and its twin 9 and records the one constraint, for
the pair (8, 9); the half-edge 0 on the rim is not marked. -/
theorem AddConstraintPoints_burns_witness :
    must_burn_he sample_map_square 9 = true ∧ must_burn_he sample_map_square 0 = false ∧
    (AddConstraintPoints sample_map_square (fun _ => 0) { vertices := [], hull := [] } []).map
        (fun st => (st.marks, st.outCons.map Prod.snd)) = some ([9, 8], [(8, 9)]) ∧
    ∃ st, AddConstraintPoints sample_map_square (fun _ => 0) { vertices := [], hull := [] } [] =
        some st ∧ (9 ∈ st.marks ∨ sample_map_square.twin 9 ∈ st.marks) ∧ 0 ∉ st.marks :=
  ⟨by decide, by decide, by decide!,
    match AddConstraintPoints_burns sample_map_square (fun _ => 0) { vertices := [], hull := [] } []
      (by decide) (by decide) (by decide) with
    | ⟨st, h1, h2, h3⟩ =>
      ⟨st, h1, (h2 9 (by decide) (by decide) (by decide) (Or.inl (by decide))).2.1,
        (h3 0 (Or.inr (by decide))).2.1⟩⟩

/-! ## Lemmas on the march -/

theorem swap_entries_length {α : Type} (l : List α) (i j : Nat) :
    (swap_entries l i j).length = l.length := by
  unfold swap_entries
  split
  · simp
  · rfl

theorem swap_entries_getElem? {α : Type} (l : List α) (i j : Nat) (hi : i < l.length)
    (hj : j < l.length) (m : Nat) :
    (swap_entries l i j)[m]? = if m = j then l[i]? else if m = i then l[j]? else l[m]? := by
  unfold swap_entries
  rw [List.getElem?_eq_getElem hi, List.getElem?_eq_getElem hj]
  dsimp only
  rw [List.getElem?_set, List.getElem?_set]
  by_cases e1 : m = j
  · subst e1
    simp [hj]
  · by_cases e2 : m = i
    · subst e2
      have : ¬ j = m := fun h => e1 h.symm
      simp [this, e1, hi]
    · have h1 : ¬ j = m := fun h => e1 h.symm
      have h2 : ¬ i = m := fun h => e2 h.symm
      simp [h1, h2, e1, e2]

theorem reverse_swaps_spec {α : Type} (l : List α) :
    ∀ k, 2 * k ≤ l.length →
      ((List.range k).foldl (fun v n => swap_entries v n (v.length - n - 1)) l).length =
        l.length ∧
      ∀ m, ((List.range k).foldl (fun v n => swap_entries v n (v.length - n - 1)) l)[m]? =
        if m < k ∨ l.length - k ≤ m then (if m < l.length then l[l.length - 1 - m]? else none)
        else l[m]? := by
  intro k
  induction k with
  | zero =>
    intro _
    refine ⟨rfl, ?_⟩
    intro m
    simp only [List.range_zero, List.foldl_nil]
    by_cases hm : m < l.length
    · have : ¬ (m < 0 ∨ l.length - 0 ≤ m) := by omega
      rw [if_neg this]
    · have : (m < 0 ∨ l.length - 0 ≤ m) := by omega
      rw [if_pos this, if_neg hm]
      exact List.getElem?_eq_none (by omega)
  | succ k ih =>
    intro hk
    obtain ⟨hlen, hget⟩ := ih (by omega)
    rw [List.range_succ, List.foldl_append]
    simp only [List.foldl_cons, List.foldl_nil]
    refine ⟨by rw [swap_entries_length, hlen], ?_⟩
    intro m
    rw [hlen, swap_entries_getElem? _ _ _ (by omega) (by omega), hget, hget, hget]
    by_cases e1 : m = l.length - k - 1
    · subst e1
      have c1 : ¬ (k < k ∨ l.length - k ≤ k) := by omega
      have c2 : (l.length - k - 1 < k + 1 ∨ l.length - (k + 1) ≤ l.length - k - 1) := by omega
      rw [if_pos rfl, if_neg c1, if_pos c2, if_pos (by omega)]
      congr 1
      omega
    · rw [if_neg e1]
      by_cases e2 : m = k
      · subst e2
        have c1 : ¬ (l.length - m - 1 < m ∨ l.length - m ≤ l.length - m - 1) := by omega
        have c2 : (m < m + 1 ∨ l.length - (m + 1) ≤ m) := by omega
        rw [if_pos rfl, if_neg c1, if_pos c2, if_pos (by omega)]
        congr 1
        omega
      · rw [if_neg e2]
        by_cases c : m < k ∨ l.length - k ≤ m
        · have c2 : m < k + 1 ∨ l.length - (k + 1) ≤ m := by omega
          rw [if_pos c, if_pos c2]
        · have c2 : ¬ (m < k + 1 ∨ l.length - (k + 1) ≤ m) := by omega
          rw [if_neg c, if_neg c2]

/-- The loop of exchanges turns the list around. -/
theorem reverse_in_place_eq {α : Type} (l : List α) : reverse_in_place l = l.reverse := by
  obtain ⟨_, hget⟩ := reverse_swaps_spec l (l.length / 2) (by omega)
  apply List.ext_getElem?
  intro m
  unfold reverse_in_place
  rw [hget]
  by_cases hm : m < l.length
  · rw [List.getElem?_reverse hm]
    by_cases c : m < l.length / 2 ∨ l.length - l.length / 2 ≤ m
    · rw [if_pos c, if_pos hm]
    · rw [if_neg c]
      congr 1
      omega
  · rw [List.getElem?_eq_none (l := l.reverse) (by simp; omega)]
    have c : m < l.length / 2 ∨ l.length - l.length / 2 ≤ m := by omega
    rw [if_pos c, if_neg hm]
theorem HeightWithinTri_finite (K : GeoConsts) (T : Topology) (point : Nat → ℚ × ℚ) (ms : Mesh)
    (f : Nat) (p : ℚ × ℚ) (h : ℚ) (hh : HeightWithinTri K T point ms f p = some h) :
    T.is_infinite f = false := by
  unfold HeightWithinTri at hh
  split at hh
  · cases hh
  · rename_i hf
    simpa using hf

theorem mul_pos_le_of_le_one (u d : ℚ) (hu0 : 0 ≤ u) (hu1 : u ≤ 1) (h : 0 < u * d) : u * d ≤ d := by
  have hd : 0 ≤ d := by
    by_contra hneg
    have := mul_nonpos_of_nonneg_of_nonpos hu0 (le_of_lt (not_le.mp hneg))
    linarith
  calc u * d ≤ 1 * d := mul_le_mul_of_nonneg_right hu1 hd
    _ = d := one_mul d

theorem mul_neg_ge_of_le_one (u d : ℚ) (hu0 : 0 ≤ u) (hu1 : u ≤ 1) (h : u * d < 0) : d ≤ u * d := by
  have hd : d ≤ 0 := by
    by_contra hpos
    have := mul_nonneg hu0 (le_of_lt (not_le.mp hpos))
    linarith
  calc d = 1 * d := (one_mul d).symm
    _ ≤ u * d := mul_le_mul_of_nonpos_right hu1 hd

/-- The point where two segments cross is collinear with the ends of the second segment
and lies between them. -/
theorem segment_intersection_on_segment (P Q A B p : ℚ × ℚ)
    (h : segment_intersection P Q A B = some p) :
    orientation A B p = Orientation.COLLINEAR ∧ collinear_are_ordered_along_line A p B = true := by
  unfold segment_intersection at h
  dsimp only at h
  split at h
  · cases h
  · split at h
    · rename_i hc
      obtain ⟨_, _, hu0, hu1⟩ := hc
      simp only [Option.some.injEq] at h
      generalize ((A.1 - P.1) * (Q.2 - P.2) - (A.2 - P.2) * (Q.1 - P.1)) /
        ((Q.1 - P.1) * (B.2 - A.2) - (Q.2 - P.2) * (B.1 - A.1)) = u at h hu0 hu1
      subst h
      constructor
      · unfold orientation
        have e : (B.1 - A.1) * ((A.2 + u * (B.2 - A.2)) - A.2) -
            (B.2 - A.2) * ((A.1 + u * (B.1 - A.1)) - A.1) = 0 := by ring
        simp only [e, lt_irrefl, if_false]
      · unfold collinear_are_ordered_along_line
        dsimp only
        split_ifs with c1 c2 c3 c4
        · have h1 : 0 < u * (B.1 - A.1) := by linarith
          have := mul_pos_le_of_le_one u _ hu0 hu1 h1
          simp only [Bool.not_eq_true', decide_eq_false_iff_not, not_lt]
          linarith
        · have h1 : u * (B.1 - A.1) < 0 := by linarith
          have := mul_neg_ge_of_le_one u _ hu0 hu1 h1
          simp only [Bool.not_eq_true', decide_eq_false_iff_not, not_lt]
          linarith
        · have h1 : 0 < u * (B.2 - A.2) := by linarith
          have := mul_pos_le_of_le_one u _ hu0 hu1 h1
          simp only [Bool.not_eq_true', decide_eq_false_iff_not, not_lt]
          linarith
        · have h1 : u * (B.2 - A.2) < 0 := by linarith
          have := mul_neg_ge_of_le_one u _ hu0 hu1 h1
          simp only [Bool.not_eq_true', decide_eq_false_iff_not, not_lt]
          linarith
        · rfl
    · cases h

/-- A point that lies on an edge of a triangle is not on its unbounded side. -/
theorem bounded_side_of_on_edge (a b c p : ℚ × ℚ)
    (h : (orientation a b p = Orientation.COLLINEAR ∧ collinear_are_ordered_along_line a p b = true) ∨
      (orientation b c p = Orientation.COLLINEAR ∧ collinear_are_ordered_along_line b p c = true) ∨
      (orientation c a p = Orientation.COLLINEAR ∧ collinear_are_ordered_along_line c p a = true)) :
    bounded_side a b c p ≠ Bounded_side.ON_UNBOUNDED_SIDE := by
  unfold bounded_side
  split_ifs
  · decide
  · decide

theorem index_face_lt (T : Topology) (f n : Nat) : T.index_face f n < 3 := by
  unfold Topology.index_face
  split_ifs <;> omega

/-- The crossed edge of `now` with the index `cs`, from the vertex `ccw cs` to the
vertex `cw cs`, is an edge of the triangle of `now`. -/
theorem holds_of_on_crossed_edge (E : Marching) (now cs : Nat) (hcs : cs < 3) (p : ℚ × ℚ)
    (h : orientation (E.point (E.T.vertex now (ccw cs))) (E.point (E.T.vertex now (cw cs))) p =
        Orientation.COLLINEAR ∧
      collinear_are_ordered_along_line (E.point (E.T.vertex now (ccw cs))) p
        (E.point (E.T.vertex now (cw cs))) = true) :
    E.holds now p = true := by
  unfold Marching.holds
  simp only [decide_eq_true_eq]
  apply bounded_side_of_on_edge
  have : cs = 0 ∨ cs = 1 ∨ cs = 2 := by omega
  rcases this with e | e | e
  · subst e
    exact Or.inr (Or.inl h)
  · subst e
    exact Or.inr (Or.inr h)
  · subst e
    exact Or.inl h

theorem bbox_overlap_goal (P Q : ℚ × ℚ) : bbox_overlap P Q Q = true := by
  simp [bbox_overlap]

theorem common_vertex_lt (T : Topology) (t1 t2 cs : Nat) (h : common_vertex T t1 t2 = some cs) :
    cs < 3 := by
  unfold common_vertex at h
  split_ifs at h <;> simp only [Option.some.injEq] at h <;> omega

/-- A crossing that hits the goal, in a turn of the loop that did not find the goal in
`now`: a point was pushed, and its height is the height of the mesh at the goal. -/
theorem march_cross_goal (E : Marching) (src goal : ℚ × ℚ) (now next : Nat)
    (c : (ℚ × ℚ) × ℚ × Bool) (h : march_cross E src goal now next = some c) (hg : c.1 = goal)
    (hnot : ¬ (E.T.is_infinite now = false ∧ E.holds now goal = true)) :
    c.2.2 = true ∧ MeshHeightIs E goal c.2.1 := by
  unfold march_cross at h
  split at h
  · dsimp only at h
    have hcs := index_face_lt E.T now next
    split at h
    · simp only [Option.some.injEq] at h
      subst h
      refine ⟨rfl, Or.inr ⟨now, ccw (E.T.index_face now next), ?_, hg, rfl⟩⟩
      unfold ccw
      omega
    · split at h
      · simp only [Option.some.injEq] at h
        subst h
        refine ⟨rfl, Or.inr ⟨now, cw (E.T.index_face now next), ?_, hg, rfl⟩⟩
        unfold cw
        omega
      · split at h
        · rename_i last_pt hint
          split at h
          · rename_i hov
            simp only [Option.some.injEq] at h
            subst h
            exfalso
            simp only at hg
            rw [hg, bbox_overlap_goal] at hov
            simp at hov
          · split at h
            · cases h
            · rename_i last_ht hht
              simp only [Option.some.injEq] at h
              subst h
              exfalso
              simp only at hg
              apply hnot
              subst hg
              exact ⟨HeightWithinTri_finite _ _ _ _ _ _ _ hht,
                holds_of_on_crossed_edge E now _ hcs _
                  (segment_intersection_on_segment _ _ _ _ _ hint)⟩
        · cases h
  · split at h
    · rename_i cs hcv
      simp only [Option.some.injEq] at h
      subst h
      exact ⟨rfl, Or.inr ⟨now, cs, common_vertex_lt _ _ _ _ hcv, hg, rfl⟩⟩
    · cases h
/-- The loop of a march, when it returns: points were pushed behind those that were
there, the last of them is the goal with the height left in `locate_height`, that height
is the height of the mesh at the goal, and `locate_pt` is the goal. -/
theorem march_loop_spec (E : Marching) (src goal : ℚ × ℚ) (circ : Nat → Nat) :
    ∀ (fuel k : Nat) (inter : List (ℚ × ℚ × ℚ))
      (res : CDT_MarchOverTerrain_t × List (ℚ × ℚ × ℚ)),
      march_loop E src goal circ fuel k inter = Run.done res →
      (∃ mid, res.2 = inter ++ mid ++ [(goal.1, goal.2, res.1.locate_height)]) ∧
      res.1.locate_pt = goal ∧ MeshHeightIs E goal res.1.locate_height := by
  intro fuel
  induction fuel with
  | zero => intro k inter res h; simp [march_loop] at h
  | succ n ih =>
    intro k inter res h
    unfold march_loop at h
    split at h
    · rename_i hnow
      split at h
      · cases h
      · rename_i last_ht hht
        simp only [Run.done.injEq] at h
        subst h
        exact ⟨⟨[], by simp⟩, rfl, Or.inl ⟨circ k, hnow.1, hnow.2, hht⟩⟩
    · rename_i hnot
      split at h
      · cases h
      · rename_i c hc
        split at h
        · rename_i hg
          simp only [Run.done.injEq] at h
          subst h
          obtain ⟨hp, hm⟩ := march_cross_goal E src goal _ _ c hc hg hnot
          refine ⟨⟨[], ?_⟩, hg, hm⟩
          simp only [hp, if_true, List.append_nil]
          rw [← hg]
        · obtain ⟨⟨mid, hmid⟩, h2, h3⟩ := ih _ _ res h
          refine ⟨?_, h2, h3⟩
          split at hmid
          · exact ⟨(c.1.1, c.1.2, c.2.1) :: mid, by rw [hmid]; simp⟩
          · exact ⟨mid, hmid⟩

/-- A call of `MarchHeightGo` that may not seed again, when it returns: the points start
with the start point and the height of the state, and end with the goal. -/
theorem MarchHeightGo_level_one (E : Marching) (fuel : Nat) (march_info : CDT_MarchOverTerrain_t)
    (goal : ℚ × ℚ) (res : CDT_MarchOverTerrain_t × List (ℚ × ℚ × ℚ))
    (h : MarchHeightGo_level E fuel 1 march_info goal = Run.done res) :
    (∃ mid, res.2 =
      (march_info.locate_pt.1, march_info.locate_pt.2, march_info.locate_height) :: mid ++
        [(goal.1, goal.2, res.1.locate_height)]) ∧
    res.1.locate_pt = goal ∧ MeshHeightIs E goal res.1.locate_height := by
  unfold MarchHeightGo_level at h
  split at h
  · dsimp only at h
    split at h
    · cases h
    · simp only [MarchHeightGo_level] at h
      cases h
  · obtain ⟨⟨mid, hmid⟩, h2, h3⟩ := march_loop_spec E _ goal _ fuel 0 _ res h
    exact ⟨⟨mid, by rw [hmid]; simp⟩, h2, h3⟩

/-- A call of `MarchHeightGo`, when it returns.  `hgoal` is what the point location
promises for the goal: the face it finds holds the goal when it is finite. -/
theorem MarchHeightGo_spec (E : Marching) (fuel : Nat) (march_info : CDT_MarchOverTerrain_t)
    (goal : ℚ × ℚ) (res : CDT_MarchOverTerrain_t × List (ℚ × ℚ × ℚ))
    (hgoal : E.holds
      (if E.T.is_infinite (E.locate goal march_info.locate_face).face = true ∧
          (E.locate goal march_info.locate_face).lt = Locate_type.EDGE then
        E.T.neighbor (E.locate goal march_info.locate_face).face
          (E.locate goal march_info.locate_face).li
      else (E.locate goal march_info.locate_face).face) goal = true)
    (h : MarchHeightGo E fuel march_info goal = Run.done res) :
    (∃ hs mid, res.2 = (march_info.locate_pt.1, march_info.locate_pt.2, hs) :: mid ++
        [(goal.1, goal.2, res.1.locate_height)] ∧
      (hs = march_info.locate_height ∨ MeshHeightIs E march_info.locate_pt hs)) ∧
    res.1.locate_pt = goal ∧ MeshHeightIs E goal res.1.locate_height := by
  unfold MarchHeightGo MarchHeightGo_level at h
  split at h
  · dsimp only at h
    split at h
    · cases h
    · rename_i goal_height hgh
      split at h
      · rename_i inner hinner
        simp only [Run.done.injEq] at h
        subst h
        obtain ⟨⟨mid, hmid⟩, _, k3⟩ := MarchHeightGo_level_one E fuel _ _ inner hinner
        refine ⟨⟨inner.1.locate_height, mid.reverse, ?_, Or.inr k3⟩, rfl,
          Or.inl ⟨_, HeightWithinTri_finite _ _ _ _ _ _ _ hgh, hgoal, hgh⟩⟩
        rw [reverse_in_place_eq, hmid]
        simp
      · cases h
      · cases h
  · obtain ⟨⟨mid, hmid⟩, h2, h3⟩ := march_loop_spec E _ goal _ fuel 0 _ res h
    exact ⟨⟨march_info.locate_height, mid, by rw [hmid]; simp, Or.inl rfl⟩, h2, h3⟩
theorem getLast?_cons_snoc {α : Type} (a b : α) (mid : List α) :
    (a :: mid ++ [b]).getLast? = some b := by
  rw [List.getLast?_eq_getLast _ (by simp)]
  simp

/-! ## Claims on the march -/

set_option maxRecDepth 100000 in
/-- C14 as stated fails: on the sample tile the point (2, 2) is strictly outside the
hull, the point location puts it into the infinite face 2 with `OUTSIDE_CONVEX_HULL`, and
`MarchHeightStart` is stopped by the assertion of `HeightWithinTri`, which wants a finite
face; no march to the goal (1/4, 1/4) inside the tile is made. -/
theorem MarchHeightStart_stops_outside_hull :
    sample_march.locate (2, 2) none =
      { face := 2, lt := Locate_type.OUTSIDE_CONVEX_HULL, li := 0 } ∧
    sample_march.T.is_infinite 2 = true ∧
    sample_march.holds 0 (1 / 4, 1 / 4) = true ∧
    MarchHeightStart sample_march (2, 2)
      { locate_pt := (0, 0), locate_height := 0, locate_face := none } = none := by
  decide!

/-- C14 amended: when the point location puts the start point into an infinite face and
neither on an edge nor on a vertex (a point strictly outside the hull), `MarchHeightStart`
is stopped by the assertion of `HeightWithinTri`.  When it puts the start point into a
finite face, `MarchHeightStart` returns with that face; when it puts it on an edge or a
vertex of an infinite face, `MarchHeightStart` steps to the neighbour opposite the
infinite vertex and returns with that face (which is finite in a triangulation).  When
`MarchHeightStart` returns, the state holds the start point, a finite face and the value
of `HeightWithinTri` there; and a `MarchHeightGo` from that state that returns yields a
sequence whose last entry is the goal with the height left in `locate_height`, which is
the height of the mesh at the goal (`HeightWithinTri` on a finite face that holds the
goal, or the height of a vertex at the goal), given that the point location finds a face
that holds the goal. -/
theorem MarchHeightStart_then_Go (E : Marching) (loc : ℚ × ℚ) (info0 : CDT_MarchOverTerrain_t) :
    (E.T.is_infinite (E.locate loc info0.locate_face).face = true →
      (E.locate loc info0.locate_face).lt ≠ Locate_type.EDGE →
      (E.locate loc info0.locate_face).lt ≠ Locate_type.VERTEX →
      MarchHeightStart E loc info0 = none) ∧
    (E.T.is_infinite (E.locate loc info0.locate_face).face = false →
      ∃ h, E.height (E.locate loc info0.locate_face).face loc = some h ∧
        MarchHeightStart E loc info0 =
          some { locate_pt := loc, locate_height := h,
                 locate_face := some (E.locate loc info0.locate_face).face }) ∧
    (E.T.is_infinite (E.locate loc info0.locate_face).face = true →
      ((E.locate loc info0.locate_face).lt = Locate_type.EDGE ∨
        (E.locate loc info0.locate_face).lt = Locate_type.VERTEX) →
      E.T.is_infinite (E.T.neighbor (E.locate loc info0.locate_face).face
        (E.T.index_vertex (E.locate loc info0.locate_face).face E.infinite_vertex)) = false →
      ∃ h, E.height (E.T.neighbor (E.locate loc info0.locate_face).face
            (E.T.index_vertex (E.locate loc info0.locate_face).face E.infinite_vertex))
          loc = some h ∧
        MarchHeightStart E loc info0 =
          some { locate_pt := loc, locate_height := h,
                 locate_face := some (E.T.neighbor (E.locate loc info0.locate_face).face
                   (E.T.index_vertex (E.locate loc info0.locate_face).face
                     E.infinite_vertex)) }) ∧
    (∀ info, MarchHeightStart E loc info0 = some info →
      (info.locate_pt = loc ∧
        ∃ f, info.locate_face = some f ∧ E.T.is_infinite f = false ∧
          E.height f loc = some info.locate_height) ∧
      ∀ (goal : ℚ × ℚ) (fuel : Nat) (res : CDT_MarchOverTerrain_t × List (ℚ × ℚ × ℚ)),
        E.holds
          (if E.T.is_infinite (E.locate goal info.locate_face).face = true ∧
              (E.locate goal info.locate_face).lt = Locate_type.EDGE then
            E.T.neighbor (E.locate goal info.locate_face).face
              (E.locate goal info.locate_face).li
          else (E.locate goal info.locate_face).face) goal = true →
        MarchHeightGo E fuel info goal = Run.done res →
        res.2.getLast? = some (goal.1, goal.2, res.1.locate_height) ∧
        MeshHeightIs E goal res.1.locate_height ∧ res.1.locate_pt = goal) := by
  refine ⟨?_, ?_, ?_, ?_⟩
  · intro hinf he hv
    unfold MarchHeightStart
    dsimp only
    rw [if_neg (fun c => c.2.elim he hv)]
    have : E.height (E.locate loc info0.locate_face).face loc = none := by
      unfold Marching.height HeightWithinTri
      rw [if_pos hinf]
    rw [this]
  · intro hfin
    obtain ⟨h, hh⟩ := HeightWithinTri_isSome E.K E.T E.point E.ms
      (E.locate loc info0.locate_face).face loc hfin
    refine ⟨h, hh, ?_⟩
    unfold MarchHeightStart
    dsimp only
    rw [if_neg (fun c => by rw [hfin] at c; exact absurd c.1 (by decide))]
    have hh2 : E.height (E.locate loc info0.locate_face).face loc = some h := hh
    rw [hh2]
  · intro hinf hlt hfin
    obtain ⟨h, hh⟩ := HeightWithinTri_isSome E.K E.T E.point E.ms
      (E.T.neighbor (E.locate loc info0.locate_face).face
        (E.T.index_vertex (E.locate loc info0.locate_face).face E.infinite_vertex)) loc hfin
    refine ⟨h, hh, ?_⟩
    unfold MarchHeightStart
    dsimp only
    rw [if_pos ⟨hinf, hlt⟩]
    have hh2 : E.height (E.T.neighbor (E.locate loc info0.locate_face).face
        (E.T.index_vertex (E.locate loc info0.locate_face).face E.infinite_vertex)) loc =
        some h := hh
    rw [hh2]
  · intro info hinfo
    constructor
    · unfold MarchHeightStart at hinfo
      dsimp only at hinfo
      split at hinfo
      · cases hinfo
      · rename_i h hh
        simp only [Option.some.injEq] at hinfo
        subst hinfo
        exact ⟨rfl, _, rfl, HeightWithinTri_finite _ _ _ _ _ _ _ hh, hh⟩
    · intro goal fuel res hgoal hgo
      obtain ⟨⟨hs, mid, hmid, _⟩, h2, h3⟩ := MarchHeightGo_spec E fuel info goal res hgoal hgo
      refine ⟨?_, h3, h2⟩
      rw [hmid]
      exact getLast?_cons_snoc _ _ _

/-- C15: a call of `MarchHeightGo` that starts from a state whose face is finite and
holds `locate_pt`, with `locate_height` the value of `HeightWithinTri` there, and that
returns: the sequence is not empty, its first entry is the start point with the height
of the mesh at the start, its last entry is the goal with the height of the mesh at the
goal, `locate_pt` is the goal and `locate_height` the height of the last entry.  This
covers the path that seeds again, where the walk runs from the goal to the start and is
turned around.  `hgoal` is what the point location promises: the face it finds for the
goal holds the goal. -/
theorem MarchHeightGo_ends_at_goal (E : Marching) (fuel : Nat)
    (march_info : CDT_MarchOverTerrain_t) (goal : ℚ × ℚ)
    (res : CDT_MarchOverTerrain_t × List (ℚ × ℚ × ℚ))
    (hstate : ∃ f0, march_info.locate_face = some f0 ∧ E.T.is_infinite f0 = false ∧
      E.holds f0 march_info.locate_pt = true ∧
      E.height f0 march_info.locate_pt = some march_info.locate_height)
    (hgoal : E.holds
      (if E.T.is_infinite (E.locate goal march_info.locate_face).face = true ∧
          (E.locate goal march_info.locate_face).lt = Locate_type.EDGE then
        E.T.neighbor (E.locate goal march_info.locate_face).face
          (E.locate goal march_info.locate_face).li
      else (E.locate goal march_info.locate_face).face) goal = true)
    (h : MarchHeightGo E fuel march_info goal = Run.done res) :
    res.2 ≠ [] ∧
    (∃ hs, res.2.head? = some (march_info.locate_pt.1, march_info.locate_pt.2, hs) ∧
      MeshHeightIs E march_info.locate_pt hs) ∧
    res.2.getLast? = some (goal.1, goal.2, res.1.locate_height) ∧
    MeshHeightIs E goal res.1.locate_height ∧
    res.1.locate_pt = goal := by
  obtain ⟨f0, _, hfin, hin, hht⟩ := hstate
  obtain ⟨⟨hs, mid, hmid, hhs⟩, h2, h3⟩ := MarchHeightGo_spec E fuel march_info goal res hgoal h
  refine ⟨by rw [hmid]; simp, ⟨hs, by rw [hmid]; simp, ?_⟩, ?_, h3, h2⟩
  · rcases hhs with e | e
    · rw [e]
      exact Or.inl ⟨f0, hfin, hin, hht⟩
    · exact e
  · rw [hmid]
    exact getLast?_cons_snoc _ _ _

set_option maxRecDepth 100000 in
/-- Witness of C15: on the sample tile at the level height 1, the march from (1/4, 1/4)
in face 0 to (3/4, 3/4) in face 1 crosses the diagonal at (1/2, 1/2). -/
theorem MarchHeightGo_ends_at_goal_witness :
    MarchHeightGo sample_march 5
        { locate_pt := (1 / 4, 1 / 4), locate_height := 1, locate_face := some 0 } (3 / 4, 3 / 4) =
      Run.done ({ locate_pt := (3 / 4, 3 / 4), locate_height := 1, locate_face := some 1 },
        [(1 / 4, 1 / 4, 1), (1 / 2, 1 / 2, 1), (3 / 4, 3 / 4, 1)]) ∧
    MeshHeightIs sample_march (3 / 4, 3 / 4) 1 :=
  ⟨by decide!,
    (MarchHeightGo_ends_at_goal sample_march 5
      { locate_pt := (1 / 4, 1 / 4), locate_height := 1, locate_face := some 0 } (3 / 4, 3 / 4)
      ({ locate_pt := (3 / 4, 3 / 4), locate_height := 1, locate_face := some 1 },
        [(1 / 4, 1 / 4, 1), (1 / 2, 1 / 2, 1), (3 / 4, 3 / 4, 1)])
      ⟨0, rfl, by decide, by decide!, by decide!⟩ (by decide!) (by decide!)).2.2.2.1⟩

set_option maxRecDepth 100000 in
/-- Witness of the amended C14: on the sample tile at the level height 1,
`MarchHeightStart` at (1/4, 1/4) returns with face 0 and the height 1, and the march from
there to (3/4, 3/4) ends with the goal at the height of the mesh; at the point (0, 1/2),
which the point location reports on an edge of the infinite face 2, `MarchHeightStart`
steps to face 0 and returns. -/
theorem MarchHeightStart_then_Go_witness :
    MarchHeightStart sample_march (1 / 4, 1 / 4)
        { locate_pt := (0, 0), locate_height := 0, locate_face := none } =
      some { locate_pt := (1 / 4, 1 / 4), locate_height := 1, locate_face := some 0 } ∧
    MarchHeightGo sample_march 5
        { locate_pt := (1 / 4, 1 / 4), locate_height := 1, locate_face := some 0 } (3 / 4, 3 / 4) =
      Run.done ({ locate_pt := (3 / 4, 3 / 4), locate_height := 1, locate_face := some 1 },
        [(1 / 4, 1 / 4, 1), (1 / 2, 1 / 2, 1), (3 / 4, 3 / 4, 1)]) ∧
    MeshHeightIs sample_march (3 / 4, 3 / 4) 1 ∧
    (sample_march_hull.locate (0, 1 / 2) none).lt = Locate_type.EDGE ∧
    sample_march_hull.T.is_infinite (sample_march_hull.locate (0, 1 / 2) none).face = true ∧
    ∃ h, MarchHeightStart sample_march_hull (0, 1 / 2)
        { locate_pt := (0, 0), locate_height := 0, locate_face := none } =
      some { locate_pt := (0, 1 / 2), locate_height := h, locate_face := some 0 } :=
  ⟨by decide!, by decide!,
    (((MarchHeightStart_then_Go sample_march (1 / 4, 1 / 4)
      { locate_pt := (0, 0), locate_height := 0, locate_face := none }).2.2.2
      { locate_pt := (1 / 4, 1 / 4), locate_height := 1, locate_face := some 0 }
      (by decide!)).2 (3 / 4, 3 / 4) 5
      ({ locate_pt := (3 / 4, 3 / 4), locate_height := 1, locate_face := some 1 },
        [(1 / 4, 1 / 4, 1), (1 / 2, 1 / 2, 1), (3 / 4, 3 / 4, 1)])
      (by decide!) (by decide!)).2.1,
    by decide!, by decide!,
    match (MarchHeightStart_then_Go sample_march_hull (0, 1 / 2)
      { locate_pt := (0, 0), locate_height := 0, locate_face := none }).2.2.1
      (by decide!) (Or.inl (by decide!)) (by decide!) with
    | ⟨h, _, hs⟩ => ⟨h, hs⟩⟩

/-! ## Lemmas on the turns of the fade propagation -/

theorem fade_loop_turn (W : Tables) (T : Topology) (DistPtToTri : Nat → Nat → ℚ) (tri : Nat)
    (layer visited : Int) (fuel : Nat) (ms : Mesh) (border : Nat) (rest : List Nat) :
    fade_loop W T DistPtToTri tri layer visited (fuel + 1) ms (border :: rest) =
      fade_loop W T DistPtToTri tri layer visited fuel
        (fade_turn W T DistPtToTri tri layer visited ms border rest).1
        (fade_turn W T DistPtToTri tri layer visited ms border rest).2 := rfl

theorem fade_turn_flag (W : Tables) (T : Topology) (DistPtToTri : Nat → Nat → ℚ) (tri : Nat)
    (layer visited : Int) (ms : Mesh) (border : Nat) (rest : List Nat) (g : Nat) :
    ((fade_turn W T DistPtToTri tri layer visited ms border rest).1.face g).flag =
      if g = border then visited else (ms.face g).flag := by
  simp only [fade_turn]
  rw [set_flag_flag]
  split
  · rfl
  · split
    · exact fade_face_flag W T DistPtToTri tri layer ms border g
    · rfl

theorem fade_turn_terrain (W : Tables) (T : Topology) (DistPtToTri : Nat → Nat → ℚ) (tri : Nat)
    (layer visited : Int) (ms : Mesh) (border : Nat) (rest : List Nat) (g : Nat) :
    ((fade_turn W T DistPtToTri tri layer visited ms border rest).1.face g).terrain =
      (ms.face g).terrain := by
  simp only [fade_turn]
  rw [set_flag_terrain]
  split
  · exact (fade_face_spec W T DistPtToTri tri layer ms border).1 g
  · rfl

theorem set_flag_border (ms : Mesh) (f : Nat) (n : Int) (g : Nat) :
    ((ms.set_flag f n).face g).terrain_border = (ms.face g).terrain_border := by
  simp only [Mesh.set_flag, Mesh.set_face_face]
  split
  · rename_i e; subst e; rfl
  · rfl

/-- The calculation phase adds at most the layer of the seed, and to the face it works
on only. -/
theorem fade_face_border_mem (W : Tables) (T : Topology) (DistPtToTri : Nat → Nat → ℚ)
    (tri : Nat) (layer : Int) (ms : Mesh) (border : Nat) (g : Nat) (b : Int)
    (hb : b ∈ ((fade_face W T DistPtToTri tri layer ms border).1.face g).terrain_border) :
    b ∈ (ms.face g).terrain_border ∨ (b = layer ∧ g = border) := by
  unfold fade_face at hb
  split at hb
  · dsimp only at hb
    split at hb
    · have hface : ∀ (m4 : Mesh), m4.face = ms.face →
          b ∈ ((m4.insert_border border layer).face g).terrain_border →
          b ∈ (ms.face g).terrain_border ∨ (b = layer ∧ g = border) := by
        intro m4 h4 h
        simp only [Mesh.insert_border, Mesh.set_face_face, h4] at h
        split at h
        · rename_i e
          subst e
          rw [mem_set_insert] at h
          rcases h with h | h
          · exact Or.inr ⟨h, rfl⟩
          · exact Or.inl h
        · exact Or.inl h
      refine hface _ ?_ hb
      split_ifs <;> rfl
    · exact Or.inl hb
  · exact Or.inl hb

theorem fade_turn_border_mem (W : Tables) (T : Topology) (DistPtToTri : Nat → Nat → ℚ)
    (tri : Nat) (layer visited : Int) (ms : Mesh) (border : Nat) (rest : List Nat) (g : Nat)
    (b : Int)
    (hb : b ∈ ((fade_turn W T DistPtToTri tri layer visited ms border rest).1.face
      g).terrain_border) :
    b ∈ (ms.face g).terrain_border ∨ (b = layer ∧ g = border ∧ border ≠ tri) := by
  simp only [fade_turn] at hb
  rw [set_flag_border] at hb
  split at hb
  · rename_i hne
    rcases fade_face_border_mem W T DistPtToTri tri layer ms border g b hb with h | h
    · exact Or.inl h
    · exact Or.inr ⟨h.1, h.2, hne⟩
  · exact Or.inl hb

theorem fade_turn_mem (W : Tables) (T : Topology) (DistPtToTri : Nat → Nat → ℚ)
    (tri : Nat) (layer visited : Int) (ms : Mesh) (border : Nat) (rest : List Nat) (b : Nat)
    (hb : b ∈ (fade_turn W T DistPtToTri tri layer visited ms border rest).2) :
    b ∈ rest ∨
      fade_wants W T (fade_turn W T DistPtToTri tri layer visited ms border rest).1 layer visited
        b = true := by
  have key : ∀ (r : Mesh × Bool),
      b ∈ (if r.2 then
          [0, 1, 2].foldl
            (fun tv i =>
              if fade_wants W T (r.1.set_flag border visited) layer visited (T.neighbor border i) then
                handle_set_insert tv (T.neighbor border i)
              else tv)
            rest
        else rest) →
      b ∈ rest ∨ fade_wants W T (r.1.set_flag border visited) layer visited b = true := by
    intro r h
    by_cases h2 : r.2 = true
    · rw [if_pos h2] at h
      exact mem_foldl_insert_if _ (T.neighbor border) [0, 1, 2] rest b h
    · rw [if_neg h2] at h
      exact Or.inl h
  exact key _ hb

theorem fade_turn_pairwise (W : Tables) (T : Topology) (DistPtToTri : Nat → Nat → ℚ)
    (tri : Nat) (layer visited : Int) (ms : Mesh) (border : Nat) (rest : List Nat)
    (h : rest.Pairwise (fun a b => a < b)) :
    (fade_turn W T DistPtToTri tri layer visited ms border rest).2.Pairwise
      (fun a b => a < b) := by
  have key : ∀ (r : Mesh × Bool),
      (if r.2 then
          [0, 1, 2].foldl
            (fun tv i =>
              if fade_wants W T (r.1.set_flag border visited) layer visited (T.neighbor border i) then
                handle_set_insert tv (T.neighbor border i)
              else tv)
            rest
        else rest).Pairwise (fun a b => a < b) := by
    intro r
    by_cases h2 : r.2 = true
    · rw [if_pos h2]
      exact foldl_insert_if_pairwise _ _ _ _ h
    · rw [if_neg h2]
      exact h
  exact key _

theorem fade_wants_spec (W : Tables) (T : Topology) (ms : Mesh) (layer visited : Int) (b : Nat)
    (h : fade_wants W T ms layer visited b = true) :
    (ms.face b).flag ≠ visited ∧ b ∈ T.finite_faces ∧ T.is_infinite b = false ∧
      (ms.face b).terrain ≠ W.terrain_Water ∧
      W.LowerPriorityNaturalTerrain (ms.face b).terrain layer = true := by
  simp only [fade_wants, Bool.and_eq_true, decide_eq_true_eq, Topology.is_infinite,
    Bool.not_eq_true', decide_eq_false_iff_not, not_not] at h
  refine ⟨h.1.1.1, h.1.1.2, ?_, h.1.2, h.2⟩
  simp [Topology.is_infinite, h.1.1.2]
/-- The work loop of one seed, from any state in which the faces waiting in `to_visit`
are the seed or finite faces of lower priority than the layer that are not water: no
terrain changes, and a border a face has at the end it had at the start, or it is the
layer of the seed on such a face other than the seed. -/
theorem fade_loop_borders (W : Tables) (T : Topology) (DistPtToTri : Nat → Nat → ℚ)
    (tri : Nat) (layer visited : Int) :
    ∀ (fuel : Nat) (ms : Mesh) (tv : List Nat),
      (∀ b ∈ tv, b = tri ∨ (T.is_infinite b = false ∧ (ms.face b).terrain ≠ W.terrain_Water ∧
        W.LowerPriorityNaturalTerrain (ms.face b).terrain layer = true)) →
      (∀ g, ((fade_loop W T DistPtToTri tri layer visited fuel ms tv).face g).terrain =
        (ms.face g).terrain) ∧
      (∀ g b, b ∈ ((fade_loop W T DistPtToTri tri layer visited fuel ms tv).face g).terrain_border →
        b ∈ (ms.face g).terrain_border ∨
          (b = layer ∧ g ≠ tri ∧ T.is_infinite g = false ∧
            (ms.face g).terrain ≠ W.terrain_Water ∧
            W.LowerPriorityNaturalTerrain (ms.face g).terrain layer = true)) := by
  intro fuel
  induction fuel with
  | zero => intro ms tv _; exact ⟨fun _ => rfl, fun _ _ h => Or.inl h⟩
  | succ n ih =>
    intro ms tv hinv
    cases tv with
    | nil => exact ⟨fun _ => rfl, fun _ _ h => Or.inl h⟩
    | cons border rest =>
      rw [fade_loop_turn]
      have hter := fade_turn_terrain W T DistPtToTri tri layer visited ms border rest
      have hinv2 : ∀ b ∈ (fade_turn W T DistPtToTri tri layer visited ms border rest).2,
          b = tri ∨ (T.is_infinite b = false ∧
            ((fade_turn W T DistPtToTri tri layer visited ms border rest).1.face b).terrain ≠
              W.terrain_Water ∧
            W.LowerPriorityNaturalTerrain
              ((fade_turn W T DistPtToTri tri layer visited ms border rest).1.face b).terrain
              layer = true) := by
        intro b hb
        rcases fade_turn_mem W T DistPtToTri tri layer visited ms border rest b hb with h | h
        · rcases hinv b (List.mem_cons_of_mem _ h) with h' | h'
          · exact Or.inl h'
          · right
            rw [hter]
            exact h'
        · have := fade_wants_spec W T _ layer visited b h
          exact Or.inr ⟨this.2.2.1, this.2.2.2.1, this.2.2.2.2⟩
      obtain ⟨k1, k2⟩ := ih _ _ hinv2
      refine ⟨fun g => by rw [k1, hter], ?_⟩
      intro g b hb
      rcases k2 g b hb with h | h
      · rcases fade_turn_border_mem W T DistPtToTri tri layer visited ms border rest g b h with
          h' | ⟨h1, h2, h3⟩
        · exact Or.inl h'
        · right
          subst h2
          rcases hinv g (List.mem_cons_self _ _) with h4 | h4
          · exact absurd h4 h3
          · exact ⟨h1, h3, h4⟩
      · right
        rw [hter] at h
        exact h

/-- The pass "calculate borders" seed by seed: no terrain changes, and a border a face
has at the end it had at the start, or the face is finite, not water, and of lower
priority than the border. -/
theorem calculate_fold_borders (W : Tables) (T : Topology) (DistPtToTri : Nat → Nat → ℚ)
    (k : Nat) (ms : Mesh) :
    ∀ (l : List Nat) (s : Mesh × Int),
      ((∀ g, (s.1.face g).terrain = (ms.face g).terrain) ∧
        (∀ g b, b ∈ (s.1.face g).terrain_border → b ∈ (ms.face g).terrain_border ∨
          (T.is_infinite g = false ∧ (ms.face g).terrain ≠ W.terrain_Water ∧
            W.LowerPriorityNaturalTerrain (ms.face g).terrain b = true))) →
      ((∀ g, (((l.foldl
          (fun (s : Mesh × Int) tri =>
            if (s.1.face tri).terrain ≠ W.terrain_Water then
              (fade_loop W T DistPtToTri tri (s.1.face tri).terrain (s.2 + 1) k
                (s.1.set_flag tri (s.2 + 1)) [tri], s.2 + 1)
            else s) s).1.face g).terrain = (ms.face g).terrain)) ∧
        (∀ g b, b ∈ ((l.foldl
          (fun (s : Mesh × Int) tri =>
            if (s.1.face tri).terrain ≠ W.terrain_Water then
              (fade_loop W T DistPtToTri tri (s.1.face tri).terrain (s.2 + 1) k
                (s.1.set_flag tri (s.2 + 1)) [tri], s.2 + 1)
            else s) s).1.face g).terrain_border → b ∈ (ms.face g).terrain_border ∨
          (T.is_infinite g = false ∧ (ms.face g).terrain ≠ W.terrain_Water ∧
            W.LowerPriorityNaturalTerrain (ms.face g).terrain b = true))) := by
  intro l
  induction l with
  | nil => intro s h; exact h
  | cons tri l ih =>
    intro s h
    simp only [List.foldl_cons]
    apply ih
    split
    · obtain ⟨k1, k2⟩ := fade_loop_borders W T DistPtToTri tri (s.1.face tri).terrain (s.2 + 1) k
        (s.1.set_flag tri (s.2 + 1)) [tri] (fun b hb => Or.inl (by simpa using hb))
      refine ⟨fun g => by rw [k1, set_flag_terrain, h.1], ?_⟩
      intro g b hb
      rcases k2 g b hb with h' | h'
      · rw [set_flag_border] at h'
        exact h.2 g b h'
      · right
        obtain ⟨e, _, h3, h4, h5⟩ := h'
        subst e
        simp only [set_flag_terrain, h.1] at h4 h5 ⊢
        exact ⟨h3, h4, h5⟩
    · exact h

/-- C21: in the fade propagation from the seed `tri` with the layer `layer`, from any
state of the mesh, a face gets the layer into its border set only when it is not the
seed, is finite, is not water and is of lower priority than the layer, and no other id
is added; over the whole pass no terrain changes, and every border id a face has
gained is of higher priority than the base of the face, which is finite and not
water. -/
theorem fade_adds_only_higher_priority_borders (W : Tables) (T : Topology)
    (DistPtToTri : Nat → Nat → ℚ) (ms : Mesh) :
    (∀ (tri : Nat) (layer visited : Int) (fuel : Nat) (m : Mesh) (g : Nat) (b : Int),
      b ∈ ((fade_loop W T DistPtToTri tri layer visited fuel m [tri]).face g).terrain_border →
      b ∉ (m.face g).terrain_border →
      b = layer ∧ g ≠ tri ∧ T.is_infinite g = false ∧ (m.face g).terrain ≠ W.terrain_Water ∧
        W.LowerPriorityNaturalTerrain (m.face g).terrain layer = true) ∧
    (∀ g, ((calculate_borders W T DistPtToTri ms).face g).terrain = (ms.face g).terrain) ∧
    (∀ (g : Nat) (b : Int),
      b ∈ ((calculate_borders W T DistPtToTri ms).face g).terrain_border →
      b ∉ (ms.face g).terrain_border →
      T.is_infinite g = false ∧
        ((calculate_borders W T DistPtToTri ms).face g).terrain ≠ W.terrain_Water ∧
        W.LowerPriorityNaturalTerrain ((calculate_borders W T DistPtToTri ms).face g).terrain
          b = true) := by
  have hc := calculate_fold_borders W T DistPtToTri (T.finite_faces.length + 1) ms
    T.finite_faces (ms, 0) ⟨fun _ => rfl, fun _ _ h => Or.inl h⟩
  refine ⟨?_, hc.1, ?_⟩
  · intro tri layer visited fuel m g b hb hnot
    rcases (fade_loop_borders W T DistPtToTri tri layer visited fuel m [tri]
      (fun b hb => Or.inl (by simpa using hb))).2 g b hb with h | h
    · exact absurd h hnot
    · exact h
  · intro g b hb hnot
    have ht : ((calculate_borders W T DistPtToTri ms).face g).terrain = (ms.face g).terrain :=
      hc.1 g
    rw [ht]
    rcases hc.2 g b hb with h | h
    · exact absurd h hnot
    · exact h

set_option maxRecDepth 100000 in
/-- Witness of C21: on the strip, whose face 0 has the terrain 5 and whose faces 1 and 2
the terrain 1, the pass adds the border 5 to the faces 1 and 2, which are of lower priority, and no
border to face 0. -/
theorem fade_adds_only_higher_priority_borders_witness :
    ((calculate_borders sample_tables sample_strip sample_strip_dist sample_strip_mesh).face
      0).terrain_border = [] ∧
    ((calculate_borders sample_tables sample_strip sample_strip_dist sample_strip_mesh).face
      1).terrain_border = [5] ∧
    sample_tables.LowerPriorityNaturalTerrain
      ((calculate_borders sample_tables sample_strip sample_strip_dist sample_strip_mesh).face
        1).terrain 5 = true :=
  ⟨by decide!, by decide!,
    ((fade_adds_only_higher_priority_borders sample_tables sample_strip sample_strip_dist
      sample_strip_mesh).2.2 1 5 (by decide!) (by decide!)).2.2⟩
/-! ## Claims on when the fade propagation spreads -/

set_option maxRecDepth 100000 in
/-- C22 as stated fails: on the strip the seed is face 0 with the layer 5, and the
vertices 1, 3 and 2 of face 1 are saturated for the layer before the pass.  The
processing of face 1 increases the fade of none of its vertices (each was 1 and is 1),
yet `spread` is true, face 2 is put into `to_visit`, and the loop goes on to process
face 2 and gives it the border 5. -/
theorem fade_spreads_without_increase :
    (sample_strip_mesh.set_flag 0 1).blend 1 5 = 1 ∧
    (sample_strip_mesh.set_flag 0 1).blend 3 5 = 1 ∧
    (sample_strip_mesh.set_flag 0 1).blend 2 5 = 1 ∧
    (fade_face sample_tables sample_strip sample_strip_dist 0 5
      (sample_strip_mesh.set_flag 0 1) 1).1.blend 1 5 = 1 ∧
    (fade_face sample_tables sample_strip sample_strip_dist 0 5
      (sample_strip_mesh.set_flag 0 1) 1).1.blend 3 5 = 1 ∧
    (fade_face sample_tables sample_strip sample_strip_dist 0 5
      (sample_strip_mesh.set_flag 0 1) 1).1.blend 2 5 = 1 ∧
    (fade_face sample_tables sample_strip sample_strip_dist 0 5
      (sample_strip_mesh.set_flag 0 1) 1).2 = true ∧
    (fade_turn sample_tables sample_strip sample_strip_dist 0 5 1
      (sample_strip_mesh.set_flag 0 1) 1 []).2 = [2] ∧
    (fade_run sample_tables sample_strip sample_strip_dist 0 5 1 4
      (sample_strip_mesh.set_flag 0 1) [0] []).map
        (fun r => (r.2, (r.1.face 2).terrain_border)) = some ([0, 1, 2], [5]) := by
  decide!

/-- C22 amended: after a face other than the seed has been processed, the flood goes on
to its neighbours exactly when the transition distance for the face is positive and the
fade computed from the distance to the seed is positive for one of its three vertices,
whether or not a stored fade was increased; the face then has the layer in its border
set.  When the flood does not go on, the step has changed nothing but the flag of the
face and `to_visit` has gained no face; and a face that `to_visit` gains is a neighbour
of the face processed. -/
theorem fade_turn_spreads_iff (W : Tables) (T : Topology) (DistPtToTri : Nat → Nat → ℚ)
    (tri : Nat) (layer visited : Int) (ms : Mesh) (border : Nat) (rest : List Nat)
    (hne : border ≠ tri) :
    ((fade_face W T DistPtToTri tri layer ms border).2 = true ↔
      0 < GetXonDist W layer (ms.face border).terrain (T.normal_z border) ∧
      (0 < fade_level (GetXonDist W layer (ms.face border).terrain (T.normal_z border))
          (DistPtToTri (T.vertex border 0) tri) ∨
        0 < fade_level (GetXonDist W layer (ms.face border).terrain (T.normal_z border))
          (DistPtToTri (T.vertex border 1) tri) ∨
        0 < fade_level (GetXonDist W layer (ms.face border).terrain (T.normal_z border))
          (DistPtToTri (T.vertex border 2) tri))) ∧
    ((fade_face W T DistPtToTri tri layer ms border).2 = true →
      layer ∈ ((fade_turn W T DistPtToTri tri layer visited ms border rest).1.face
        border).terrain_border) ∧
    ((fade_face W T DistPtToTri tri layer ms border).2 = false →
      (fade_turn W T DistPtToTri tri layer visited ms border rest).1 =
        ms.set_flag border visited ∧
      (fade_turn W T DistPtToTri tri layer visited ms border rest).2 = rest) ∧
    (∀ b ∈ (fade_turn W T DistPtToTri tri layer visited ms border rest).2, b ∉ rest →
      (fade_face W T DistPtToTri tri layer ms border).2 = true ∧
        (b = T.neighbor border 0 ∨ b = T.neighbor border 1 ∨ b = T.neighbor border 2)) := by
  have hturn1 : (fade_turn W T DistPtToTri tri layer visited ms border rest).1 =
      (fade_face W T DistPtToTri tri layer ms border).1.set_flag border visited := by
    simp only [fade_turn, if_pos hne]
  have hturn2 : (fade_turn W T DistPtToTri tri layer visited ms border rest).2 =
      if (fade_face W T DistPtToTri tri layer ms border).2 then
        [0, 1, 2].foldl
          (fun tv i =>
            if fade_wants W T ((fade_face W T DistPtToTri tri layer ms border).1.set_flag border
                visited) layer visited (T.neighbor border i) then
              handle_set_insert tv (T.neighbor border i)
            else tv)
          rest
      else rest := by
    simp only [fade_turn, if_pos hne]
  have hiff : ((fade_face W T DistPtToTri tri layer ms border).2 = true ↔
      0 < GetXonDist W layer (ms.face border).terrain (T.normal_z border) ∧
      (0 < fade_level (GetXonDist W layer (ms.face border).terrain (T.normal_z border))
          (DistPtToTri (T.vertex border 0) tri) ∨
        0 < fade_level (GetXonDist W layer (ms.face border).terrain (T.normal_z border))
          (DistPtToTri (T.vertex border 1) tri) ∨
        0 < fade_level (GetXonDist W layer (ms.face border).terrain (T.normal_z border))
          (DistPtToTri (T.vertex border 2) tri))) := by
    unfold fade_face
    split
    · rename_i h1
      dsimp only
      split
      · rename_i h2
        exact ⟨fun _ => ⟨h1, h2⟩, fun _ => rfl⟩
      · rename_i h2
        exact ⟨fun h => by simp at h, fun h => absurd h.2 h2⟩
    · rename_i h1
      exact ⟨fun h => by simp at h, fun h => absurd h.1 h1⟩
  have hstay : (fade_face W T DistPtToTri tri layer ms border).2 = false →
      (fade_face W T DistPtToTri tri layer ms border).1 = ms := by
    unfold fade_face
    split
    · dsimp only
      split
      · intro h; simp at h
      · intro _; rfl
    · intro _; rfl
  have hins : (fade_face W T DistPtToTri tri layer ms border).2 = true →
      layer ∈ ((fade_face W T DistPtToTri tri layer ms border).1.face border).terrain_border := by
    unfold fade_face
    split
    · dsimp only
      split
      · intro _
        simp only [Mesh.insert_border, Mesh.set_face_face, if_true]
        exact (mem_set_insert _ _ _).2 (Or.inl rfl)
      · intro h; simp at h
    · intro h; simp at h
  refine ⟨hiff, ?_, ?_, ?_⟩
  · intro h
    rw [hturn1, set_flag_border]
    exact hins h
  · intro h
    rw [hturn1, hturn2, hstay h, h]
    exact ⟨rfl, rfl⟩
  · intro b hb hnot
    rw [hturn2] at hb
    by_cases h2 : (fade_face W T DistPtToTri tri layer ms border).2 = true
    · refine ⟨h2, ?_⟩
      rw [if_pos h2] at hb
      simp only [List.foldl_cons, List.foldl_nil] at hb
      by_contra hcon
      push_neg at hcon
      apply hnot
      split at hb
      · rw [mem_handle_set_insert] at hb
        rcases hb with hb | hb
        · exact absurd hb hcon.2.2
        · split at hb
          · rw [mem_handle_set_insert] at hb
            rcases hb with hb | hb
            · exact absurd hb hcon.2.1
            · split at hb
              · rw [mem_handle_set_insert] at hb
                rcases hb with hb | hb
                · exact absurd hb hcon.1
                · exact hb
              · exact hb
          · split at hb
            · rw [mem_handle_set_insert] at hb
              rcases hb with hb | hb
              · exact absurd hb hcon.1
              · exact hb
            · exact hb
      · split at hb
        · rw [mem_handle_set_insert] at hb
          rcases hb with hb | hb
          · exact absurd hb hcon.2.1
          · split at hb
            · rw [mem_handle_set_insert] at hb
              rcases hb with hb | hb
              · exact absurd hb hcon.1
              · exact hb
            · exact hb
        · split at hb
          · rw [mem_handle_set_insert] at hb
            rcases hb with hb | hb
            · exact absurd hb hcon.1
            · exact hb
          · exact hb
    · rw [if_neg h2] at hb
      exact absurd hb hnot

set_option maxRecDepth 100000 in
/-- Witness of the amended C22: face 1 of the strip, processed for the seed face 0: the
flood goes on, and face 1 has the layer 5 in its border set. -/
theorem fade_turn_spreads_iff_witness :
    (fade_face sample_tables sample_strip sample_strip_dist 0 5
      (sample_strip_mesh.set_flag 0 1) 1).2 = true ∧
    (5 : Int) ∈ ((fade_turn sample_tables sample_strip sample_strip_dist 0 5 1
      (sample_strip_mesh.set_flag 0 1) 1 []).1.face 1).terrain_border :=
  ⟨by decide!,
    (fade_turn_spreads_iff sample_tables sample_strip sample_strip_dist 0 5 1
      (sample_strip_mesh.set_flag 0 1) 1 [] (by decide)).2.1 (by decide!)⟩
/-! ## The work loop of the fade propagation ends, and takes a face once -/

/-- One turn of the work loop keeps what the loop relies on (`to_visit` increasing, the
seed flagged, every waiting face the seed or a finite face whose flag is not the pass
number) and takes one from the number of turns still possible. -/
theorem fade_turn_inv (W : Tables) (T : Topology) (DistPtToTri : Nat → Nat → ℚ)
    (tri : Nat) (layer visited : Int) (ms : Mesh) (border : Nat) (rest : List Nat)
    (hp : (border :: rest).Pairwise (fun a b => a < b))
    (hflag : (ms.face tri).flag = visited)
    (hinv : ∀ b ∈ border :: rest,
      b = tri ∨ (b ∈ T.finite_faces ∧ (ms.face b).flag ≠ visited)) :
    (fade_turn W T DistPtToTri tri layer visited ms border rest).2.Pairwise
      (fun a b => a < b) ∧
    ((fade_turn W T DistPtToTri tri layer visited ms border rest).1.face tri).flag = visited ∧
    (∀ b ∈ (fade_turn W T DistPtToTri tri layer visited ms border rest).2,
      b = tri ∨ (b ∈ T.finite_faces ∧
        ((fade_turn W T DistPtToTri tri layer visited ms border rest).1.face b).flag ≠
          visited)) ∧
    (tri ∈ (fade_turn W T DistPtToTri tri layer visited ms border rest).2 → tri ∈ rest) ∧
    (T.finite_faces.filter (fun f => decide
        (((fade_turn W T DistPtToTri tri layer visited ms border rest).1.face f).flag ≠
          visited))).length +
      (if tri ∈ (fade_turn W T DistPtToTri tri layer visited ms border rest).2 then 1 else 0) <
    (T.finite_faces.filter (fun f => decide ((ms.face f).flag ≠ visited))).length +
      (if tri ∈ border :: rest then 1 else 0) := by
  have hp' := List.pairwise_cons.mp hp
  have hnotin : border ∉ rest := fun h => by
    have := hp'.1 border h
    omega
  have hfl := fade_turn_flag W T DistPtToTri tri layer visited ms border rest
  have hmem := fade_turn_mem W T DistPtToTri tri layer visited ms border rest
  have htriflag :
      ((fade_turn W T DistPtToTri tri layer visited ms border rest).1.face tri).flag =
        visited := by
    rw [hfl]; split
    · rfl
    · exact hflag
  have hinv2 : ∀ b ∈ (fade_turn W T DistPtToTri tri layer visited ms border rest).2,
      b = tri ∨ (b ∈ T.finite_faces ∧
        ((fade_turn W T DistPtToTri tri layer visited ms border rest).1.face b).flag ≠
          visited) := by
    intro b hb
    rcases hmem b hb with h | h
    · rcases hinv b (List.mem_cons_of_mem _ h) with h' | ⟨h', h''⟩
      · exact Or.inl h'
      · right
        refine ⟨h', ?_⟩
        rw [hfl]
        have : b ≠ border := fun e => hnotin (e ▸ h)
        simp [this, h'']
    · have := fade_wants_spec W T _ layer visited b h
      exact Or.inr ⟨this.2.1, this.1⟩
  have htri2 : tri ∈ (fade_turn W T DistPtToTri tri layer visited ms border rest).2 →
      tri ∈ rest := by
    intro h
    rcases hmem tri h with h' | h'
    · exact h'
    · exact absurd htriflag (fade_wants_spec W T _ layer visited tri h').1
  refine ⟨fade_turn_pairwise W T DistPtToTri tri layer visited ms border rest hp'.2, htriflag,
    hinv2, htri2, ?_⟩
  have himp : ∀ x, (fun f => decide
        (((fade_turn W T DistPtToTri tri layer visited ms border rest).1.face f).flag ≠
          visited)) x = true →
      (fun f => decide ((ms.face f).flag ≠ visited)) x = true := by
    intro x hx
    simp only [decide_eq_true_eq] at hx ⊢
    rw [hfl] at hx
    split at hx
    · exact absurd rfl hx
    · exact hx
  by_cases hbt : border = tri
  · have hle := filter_length_le_of_imp _ _ himp T.finite_faces
    have h0 : ¬ tri ∈ (fade_turn W T DistPtToTri tri layer visited ms border rest).2 :=
      fun h => hnotin (hbt ▸ htri2 h)
    rw [if_neg h0, if_pos (by rw [hbt]; exact List.mem_cons_self _ _)]
    omega
  · rcases hinv border (List.mem_cons_self _ _) with h | ⟨h, h'⟩
    · exact absurd h hbt
    · have hlt := filter_length_lt_of_imp _ _ himp T.finite_faces border h
        (by simpa using h') (by simp [hfl])
      have hsec : (if tri ∈ (fade_turn W T DistPtToTri tri layer visited ms border rest).2
          then 1 else 0) ≤ (if tri ∈ border :: rest then 1 else 0) := by
        by_cases ht : tri ∈ (fade_turn W T DistPtToTri tri layer visited ms border rest).2
        · rw [if_pos ht, if_pos (List.mem_cons_of_mem _ (htri2 ht))]
        · rw [if_neg ht]; exact Nat.zero_le _
      omega

theorem mem_foldl_insert_if_of_mem (p : Nat → Bool) (nb : Nat → Nat) :
    ∀ (l : List Nat) (tv : List Nat), ∀ g ∈ tv,
      g ∈ l.foldl (fun tv i => if p (nb i) then handle_set_insert tv (nb i) else tv) tv := by
  intro l
  induction l with
  | nil => intro tv g hg; exact hg
  | cons i l ih =>
    intro tv g hg
    simp only [List.foldl_cons]
    apply ih
    split
    · exact (mem_handle_set_insert _ _ _).2 (Or.inr hg)
    · exact hg

/-- A face that waits in `to_visit` still waits after a turn for another face. -/
theorem fade_turn_rest (W : Tables) (T : Topology) (DistPtToTri : Nat → Nat → ℚ)
    (tri : Nat) (layer visited : Int) (ms : Mesh) (border : Nat) (rest : List Nat) (b : Nat)
    (hb : b ∈ rest) : b ∈ (fade_turn W T DistPtToTri tri layer visited ms border rest).2 := by
  have key : ∀ (r : Mesh × Bool),
      b ∈ (if r.2 then
          [0, 1, 2].foldl
            (fun tv i =>
              if fade_wants W T (r.1.set_flag border visited) layer visited (T.neighbor border i) then
                handle_set_insert tv (T.neighbor border i)
              else tv)
            rest
        else rest) := by
    intro r
    by_cases h2 : r.2 = true
    · rw [if_pos h2]
      exact mem_foldl_insert_if_of_mem _ (T.neighbor border) [0, 1, 2] rest b hb
    · rw [if_neg h2]
      exact hb
  exact key _

/-- A run that ends gives the mesh of `fade_loop`. -/
theorem fade_run_loop (W : Tables) (T : Topology) (DistPtToTri : Nat → Nat → ℚ)
    (tri : Nat) (layer visited : Int) :
    ∀ (fuel : Nat) (ms : Mesh) (tv log : List Nat) (r : Mesh × List Nat),
      fade_run W T DistPtToTri tri layer visited fuel ms tv log = some r →
      fade_loop W T DistPtToTri tri layer visited fuel ms tv = r.1 := by
  intro fuel
  induction fuel with
  | zero =>
    intro ms tv log r h
    cases tv with
    | nil => simp only [fade_run, Option.some.injEq] at h; subst h; rfl
    | cons b rest => simp [fade_run] at h
  | succ n ih =>
    intro ms tv log r h
    cases tv with
    | nil => simp only [fade_run, Option.some.injEq] at h; subst h; rfl
    | cons b rest =>
      simp only [fade_run] at h
      rw [fade_loop_turn]
      exact ih _ _ _ r h

/-- The run of the work loop from a state that meets what the loop relies on, with fuel
for every finite face whose flag is not yet the pass number: it ends, the faces it took
are pairwise different, each has the pass number as its flag at the end, each face taken
was the seed or had a flag other than the pass number, and the flag of a face that was
not taken is as it was. -/
theorem fade_run_spec (W : Tables) (T : Topology) (DistPtToTri : Nat → Nat → ℚ)
    (tri : Nat) (layer visited : Int) :
    ∀ (fuel : Nat) (ms : Mesh) (tv log : List Nat),
      tv.Pairwise (fun a b => a < b) → (ms.face tri).flag = visited →
      (∀ b ∈ tv, b = tri ∨ (b ∈ T.finite_faces ∧ (ms.face b).flag ≠ visited)) →
      (T.finite_faces.filter (fun f => decide ((ms.face f).flag ≠ visited))).length +
        (if tri ∈ tv then 1 else 0) ≤ fuel →
      log.Nodup → (∀ f ∈ log, (ms.face f).flag = visited) → (tri ∈ tv → tri ∉ log) →
      ∃ out lg, fade_run W T DistPtToTri tri layer visited fuel ms tv log = some (out, lg) ∧
        lg.Nodup ∧ (∀ f ∈ lg, (out.face f).flag = visited) ∧
        (∀ f ∈ lg, f ∈ log ∨ f = tri ∨ (ms.face f).flag ≠ visited) ∧
        (∀ g, g ∉ lg → (out.face g).flag = (ms.face g).flag) ∧
        (∀ f ∈ log, f ∈ lg) ∧ (∀ f ∈ tv, f ∈ lg) := by
  intro fuel
  induction fuel with
  | zero =>
    intro ms tv log _ _ hinv h1 hnd hlog _
    have htv : tv = [] := by
      cases tv with
      | nil => rfl
      | cons b rest =>
        exfalso
        rcases hinv b (List.mem_cons_self _ _) with h | ⟨h, h'⟩
        · subst h
          simp at h1
        · have : b ∈ T.finite_faces.filter (fun f => decide ((ms.face f).flag ≠ visited)) := by
            simp [List.mem_filter, h, h']
          have := List.length_pos_of_mem this
          omega
    subst htv
    exact ⟨ms, log, rfl, hnd, hlog, fun f hf => Or.inl hf, fun _ _ => rfl, fun _ h => h,
      fun _ h => absurd h (List.not_mem_nil _)⟩
  | succ n ih =>
    intro ms tv log hp hflag hinv h1 hnd hlog htri
    cases tv with
    | nil =>
      exact ⟨ms, log, rfl, hnd, hlog, fun f hf => Or.inl hf, fun _ _ => rfl, fun _ h => h,
        fun _ h => absurd h (List.not_mem_nil _)⟩
    | cons border rest =>
      obtain ⟨k1, k2, k3, k4, k5⟩ :=
        fade_turn_inv W T DistPtToTri tri layer visited ms border rest hp hflag hinv
      have hfl := fade_turn_flag W T DistPtToTri tri layer visited ms border rest
      have hbnot : border ∉ log := by
        intro hb
        rcases hinv border (List.mem_cons_self _ _) with h | ⟨_, h⟩
        · exact htri (h ▸ List.mem_cons_self _ _) (h ▸ hb)
        · exact h (hlog border hb)
      have hnd2 : (log ++ [border]).Nodup := by
        rw [List.nodup_append]
        refine ⟨hnd, List.nodup_singleton _, ?_⟩
        intro a ha hb
        rw [List.mem_singleton] at hb
        exact hbnot (hb ▸ ha)
      have hlog2 : ∀ f ∈ log ++ [border],
          ((fade_turn W T DistPtToTri tri layer visited ms border rest).1.face f).flag =
            visited := by
        intro f hf
        rw [hfl]
        split
        · rfl
        · rename_i hne
          rw [List.mem_append, List.mem_singleton] at hf
          rcases hf with hf | hf
          · exact hlog f hf
          · exact absurd hf hne
      have hp' := List.pairwise_cons.mp hp
      have htri2 : tri ∈ (fade_turn W T DistPtToTri tri layer visited ms border rest).2 →
          tri ∉ log ++ [border] := by
        intro h hin
        have hr := k4 h
        rw [List.mem_append, List.mem_singleton] at hin
        rcases hin with hin | hin
        · exact htri (List.mem_cons_of_mem _ hr) hin
        · have := hp'.1 tri hr
          omega
      obtain ⟨out, lg, e1, e2, e3, e4, e5, e6, e7⟩ :=
        ih _ _ (log ++ [border]) k1 k2 k3 (by omega) hnd2 hlog2 htri2
      refine ⟨out, lg, ?_, e2, e3, ?_, ?_, ?_, ?_⟩
      · simp only [fade_run]
        exact e1
      · intro f hf
        rcases e4 f hf with h | h | h
        · rw [List.mem_append, List.mem_singleton] at h
          rcases h with h | h
          · exact Or.inl h
          · subst h
            rcases hinv f (List.mem_cons_self _ _) with h' | ⟨_, h'⟩
            · exact Or.inr (Or.inl h')
            · exact Or.inr (Or.inr h')
        · exact Or.inr (Or.inl h)
        · rw [hfl] at h
          split at h
          · rename_i e
            subst e
            rcases hinv f (List.mem_cons_self _ _) with h' | ⟨_, h'⟩
            · exact Or.inr (Or.inl h')
            · exact Or.inr (Or.inr h')
          · exact Or.inr (Or.inr h)
      · intro g hg
        rw [e5 g hg, hfl]
        have : g ≠ border := fun e => hg (e6 g (by simp [e]))
        simp [this]
      · intro f hf
        exact e6 f (by simp [hf])
      · intro f hf
        rcases List.mem_cons.mp hf with h | h
        · exact e6 f (by simp [h])
        · exact e7 f (fade_turn_rest W T DistPtToTri tri layer visited ms border rest f h)

/-- C26: for every seed, from any state of the flags and for any pass number, the work
loop ends within the fuel `calculate_borders` gives it (one turn for the seed and one
for every finite face) and leaves the mesh of `fade_loop`.  The faces it processes are
pairwise different, so each face is processed at most once; the seed is among them; a
face processed was the seed or had a flag other than the pass number, and has the pass
number as its flag at the end; the flag of every other face is as it was.  A turn flags
the face it processes, and a face that a turn puts into `to_visit` has a flag other
than the pass number. -/
theorem fade_run_ends_and_takes_each_face_once (W : Tables) (T : Topology)
    (DistPtToTri : Nat → Nat → ℚ) (tri : Nat) (layer visited : Int) (ms : Mesh) :
    (∃ out log,
      fade_run W T DistPtToTri tri layer visited (T.finite_faces.length + 1)
        (ms.set_flag tri visited) [tri] [] = some (out, log) ∧
      fade_loop W T DistPtToTri tri layer visited (T.finite_faces.length + 1)
        (ms.set_flag tri visited) [tri] = out ∧
      log.Nodup ∧ tri ∈ log ∧
      (∀ f ∈ log, f = tri ∨ (ms.face f).flag ≠ visited) ∧
      (∀ f ∈ log, (out.face f).flag = visited) ∧
      (∀ g, g ∉ log → (out.face g).flag = (ms.face g).flag)) ∧
    (∀ (m : Mesh) (border : Nat) (rest : List Nat),
      ((fade_turn W T DistPtToTri tri layer visited m border rest).1.face border).flag =
        visited ∧
      ∀ b ∈ (fade_turn W T DistPtToTri tri layer visited m border rest).2, b ∉ rest →
        ((fade_turn W T DistPtToTri tri layer visited m border rest).1.face b).flag ≠
          visited) := by
  constructor
  · have hlen : (T.finite_faces.filter
        (fun f => decide (((ms.set_flag tri visited).face f).flag ≠ visited))).length ≤
        T.finite_faces.length := List.length_filter_le _ _
    obtain ⟨out, lg, e1, e2, e3, e4, e5, _, e7⟩ :=
      fade_run_spec W T DistPtToTri tri layer visited (T.finite_faces.length + 1)
        (ms.set_flag tri visited) [tri] [] (List.pairwise_singleton _ _)
        (by rw [set_flag_flag]; simp) (fun b hb => Or.inl (by simpa using hb))
        (by simp only [List.mem_singleton, if_true]; omega) List.nodup_nil
        (fun _ h => absurd h (List.not_mem_nil _)) (fun _ => List.not_mem_nil _)
    have htri : tri ∈ lg := e7 tri (List.mem_singleton_self _)
    refine ⟨out, lg, e1, fade_run_loop W T DistPtToTri tri layer visited _ _ _ _ _ e1, e2, htri,
      ?_, e3, ?_⟩
    · intro f hf
      rcases e4 f hf with h | h | h
      · exact absurd h (List.not_mem_nil _)
      · exact Or.inl h
      · rw [set_flag_flag] at h
        split at h
        · rename_i e; exact Or.inl e
        · exact Or.inr h
    · intro g hg
      rw [e5 g hg, set_flag_flag]
      have : g ≠ tri := fun e => hg (e ▸ htri)
      simp [this]
  · intro m border rest
    refine ⟨by rw [fade_turn_flag]; simp, ?_⟩
    intro b hb hnot
    rcases fade_turn_mem W T DistPtToTri tri layer visited m border rest b hb with h | h
    · exact absurd h hnot
    · exact (fade_wants_spec W T _ layer visited b h).1

set_option maxRecDepth 100000 in
/-- Witness of C26: on the strip the loop for the seed face 0 processes the faces 0, 1
and 2, each once, within the fuel of four turns. -/
theorem fade_run_ends_and_takes_each_face_once_witness :
    (fade_run sample_tables sample_strip sample_strip_dist 0 5 1 (sample_strip.finite_faces.length + 1)
      (sample_strip_mesh.set_flag 0 1) [0] []).map (fun r => r.2) = some [0, 1, 2] ∧
    ∃ out log,
      fade_run sample_tables sample_strip sample_strip_dist 0 5 1
        (sample_strip.finite_faces.length + 1) (sample_strip_mesh.set_flag 0 1) [0] [] =
          some (out, log) ∧ log.Nodup :=
  ⟨by decide!,
    match (fade_run_ends_and_takes_each_face_once sample_tables sample_strip sample_strip_dist
      0 5 1 sample_strip_mesh).1 with
    | ⟨out, log, h1, _, h3, _⟩ => ⟨out, log, h1, h3⟩⟩

/-! ## Lemmas on the optimisation pass under an order of the priorities -/

theorem hash_map_find_append_none (m l : List (Int × ℚ)) (k : Int)
    (h : hash_map_find m k = none) : hash_map_find (m ++ l) k = hash_map_find l k := by
  induction m with
  | nil => rfl
  | cons a m ih =>
    obtain ⟨k', v'⟩ := a
    simp only [List.cons_append, hash_map_find] at h ⊢
    split
    · rename_i e; rw [if_pos e] at h; cases h
    · rename_i e; rw [if_neg e] at h; exact ih h

/-- Reading `m[k]` adds at most an entry with the value 0, so no read changes. -/
theorem hash_map_get_touch (m : List (Int × ℚ)) (layer k : Int) :
    hash_map_get (hash_map_touch m layer) k = hash_map_get m k := by
  unfold hash_map_touch
  split
  · rfl
  · rename_i hnone
    unfold hash_map_get
    cases hk : hash_map_find m k with
    | some x => rw [hash_map_find_append m _ k x hk]
    | none =>
      rw [hash_map_find_append_none m _ k hk]
      simp only [hash_map_find]
      by_cases e : layer = k
      · rw [if_pos e]
      · rw [if_neg e]

theorem blend_touch_blend (ms : Mesh) (v : Nat) (layer : Int) (u : Nat) (k : Int) :
    (ms.touch_blend v layer).blend u k = ms.blend u k := by
  unfold Mesh.blend Mesh.touch_blend Mesh.set_vert
  by_cases h : u = v
  · subst h
    simp [Function.update_apply, hash_map_get_touch]
  · simp [Function.update_apply, h]

theorem blend_set_terrain (ms : Mesh) (f : Nat) (t : Int) (u : Nat) (k : Int) :
    (ms.set_terrain f t).blend u k = ms.blend u k := rfl

/-- What one border tried as the new base does: when it is saturated and the base is of
lower priority, it becomes the base and `need_optimize` is set; otherwise the faces stay
as they are.  No blend reads differently afterwards. -/
theorem promote_layer_cases (W : Tables) (T : Topology) (tri : Nat) (s : Mesh × Bool)
    (blayer : Int) :
    (∀ u k, (promote_layer W T tri s blayer).1.blend u k = s.1.blend u k) ∧
    ((saturated T s.1 tri blayer = true ∧
        W.LowerPriorityNaturalTerrain (s.1.face tri).terrain blayer = true ∧
        (promote_layer W T tri s blayer).2 = true ∧
        ((promote_layer W T tri s blayer).1.face tri).terrain = blayer) ∨
      ((saturated T s.1 tri blayer = false ∨
          W.LowerPriorityNaturalTerrain (s.1.face tri).terrain blayer = false) ∧
        (promote_layer W T tri s blayer).2 = s.2 ∧
        (promote_layer W T tri s blayer).1.face = s.1.face)) := by
  unfold promote_layer
  simp only [blend_touch_blend]
  split_ifs with h0 h1 h2 h3
  · refine ⟨fun u k => by simp only [blend_set_terrain, blend_touch_blend], Or.inl ⟨?_, h3, rfl, ?_⟩⟩
    · simp [saturated, h0, h1, h2]
    · simp [Mesh.set_terrain, Mesh.set_face_face]
  · refine ⟨fun u k => by simp only [blend_touch_blend], Or.inr ⟨Or.inr ?_, rfl, rfl⟩⟩
    simpa using h3
  · refine ⟨fun u k => by simp only [blend_touch_blend], Or.inr ⟨Or.inl ?_, rfl, rfl⟩⟩
    simp [saturated, h2]
  · refine ⟨fun u k => by simp only [blend_touch_blend], Or.inr ⟨Or.inl ?_, rfl, rfl⟩⟩
    simp [saturated, h1]
  · refine ⟨fun u k => by simp only [blend_touch_blend], Or.inr ⟨Or.inl ?_, rfl, rfl⟩⟩
    simp [saturated, h0]

theorem saturated_congr (T : Topology) (m1 m2 : Mesh) (f : Nat) (b : Int)
    (h : ∀ u k, m1.blend u k = m2.blend u k) : saturated T m1 f b = saturated T m2 f b := by
  simp only [saturated, h]

/-- The first loop of the optimisation of a face, under an irreflexive and transitive
priority: the base never falls, no saturated border of the list is of higher priority
than the base at the end, and when a border was taken as base, it is a saturated border
of the list of higher priority than the base at the start. -/
theorem promote_fold_max (W : Tables) (T : Topology) (tri : Nat)
    (hirr : ∀ a, W.LowerPriorityNaturalTerrain a a = false)
    (htrans : ∀ a b c, W.LowerPriorityNaturalTerrain a b = true →
      W.LowerPriorityNaturalTerrain b c = true → W.LowerPriorityNaturalTerrain a c = true) :
    ∀ (l : List Int) (s : Mesh × Bool),
      (∀ u k, (l.foldl (promote_layer W T tri) s).1.blend u k = s.1.blend u k) ∧
      (∀ g, g ≠ tri → (l.foldl (promote_layer W T tri) s).1.face g = s.1.face g) ∧
      (((l.foldl (promote_layer W T tri) s).1.face tri).terrain = (s.1.face tri).terrain ∨
        W.LowerPriorityNaturalTerrain (s.1.face tri).terrain
          ((l.foldl (promote_layer W T tri) s).1.face tri).terrain = true) ∧
      (∀ b ∈ l, saturated T s.1 tri b = true →
        W.LowerPriorityNaturalTerrain ((l.foldl (promote_layer W T tri) s).1.face tri).terrain
          b = false) ∧
      (((l.foldl (promote_layer W T tri) s).2 = s.2 ∧
          (l.foldl (promote_layer W T tri) s).1.face = s.1.face) ∨
        ((l.foldl (promote_layer W T tri) s).2 = true ∧
          ((l.foldl (promote_layer W T tri) s).1.face tri).terrain ∈ l ∧
          saturated T s.1 tri ((l.foldl (promote_layer W T tri) s).1.face tri).terrain = true ∧
          W.LowerPriorityNaturalTerrain (s.1.face tri).terrain
            ((l.foldl (promote_layer W T tri) s).1.face tri).terrain = true)) := by
  intro l
  induction l with
  | nil =>
    intro s
    exact ⟨fun _ _ => rfl, fun _ _ => rfl, Or.inl rfl, fun _ h => absurd h (List.not_mem_nil _),
      Or.inl ⟨rfl, rfl⟩⟩
  | cons b l ih =>
    intro s
    simp only [List.foldl_cons]
    obtain ⟨i1, i2, i3, i4, i5⟩ := ih (promote_layer W T tri s b)
    obtain ⟨c1, c2⟩ := promote_layer_cases W T tri s b
    obtain ⟨f1, -, -⟩ := promote_layer_frame W T tri s b 0
    have hsat : ∀ x, saturated T (promote_layer W T tri s b).1 tri x = saturated T s.1 tri x :=
      fun x => saturated_congr T _ _ tri x c1
    have hnot : ∀ x y, W.LowerPriorityNaturalTerrain x y = true →
        W.LowerPriorityNaturalTerrain y x = false := by
      intro x y hxy
      by_contra h
      have h : W.LowerPriorityNaturalTerrain y x = true := by simpa using h
      have := htrans x y x hxy h
      rw [hirr] at this
      cases this
    refine ⟨fun u k => by rw [i1, c1], fun g hg => by rw [i2 g hg, f1 g hg], ?_, ?_, ?_⟩
    · rcases c2 with ⟨-, hL, -, ht⟩ | ⟨-, -, hf⟩
      · rw [ht] at i3
        rcases i3 with h | h
        · right; rw [h]; exact hL
        · right; exact htrans _ _ _ hL h
      · rw [hf] at i3
        exact i3
    · intro x hx hs
      rcases List.mem_cons.mp hx with e | hx'
      · subst e
        rcases c2 with ⟨-, hL, -, ht⟩ | ⟨hor, -, hf⟩
        · rw [ht] at i3
          rcases i3 with h | h
          · rw [h]; exact hirr x
          · exact hnot _ _ h
        · rcases hor with h | h
          · rw [h] at hs; cases hs
          · rw [hf] at i3
            by_contra hcon
            have hcon : W.LowerPriorityNaturalTerrain
                ((l.foldl (promote_layer W T tri) (promote_layer W T tri s x)).1.face tri).terrain
                x = true := by simpa using hcon
            rcases i3 with h' | h'
            · rw [h'] at hcon
              rw [h] at hcon
              cases hcon
            · have := htrans _ _ _ h' hcon
              rw [h] at this
              cases this
      · exact i4 x hx' (by rw [hsat]; exact hs)
    · rcases i5 with ⟨h2, hface⟩ | ⟨h2, hm, hs, hL⟩
      · rcases c2 with ⟨cs, cL, c2', ct⟩ | ⟨-, c2', cf⟩
        · right
          have ht : ((l.foldl (promote_layer W T tri) (promote_layer W T tri s b)).1.face
              tri).terrain = b := by rw [hface]; exact ct
          rw [ht]
          exact ⟨by rw [h2]; exact c2', List.mem_cons_self _ _, cs, cL⟩
        · left
          exact ⟨by rw [h2]; exact c2', by rw [hface]; exact cf⟩
      · right
        refine ⟨h2, List.mem_cons_of_mem _ hm, by rw [← hsat]; exact hs, ?_⟩
        rcases c2 with ⟨-, cL, -, ct⟩ | ⟨-, -, cf⟩
        · rw [ct] at hL
          exact htrans _ _ _ cL hL
        · rw [cf] at hL
          exact hL
/-- The first loop of the optimisation on a face none of whose borders is saturated and
of higher priority than the base: nothing is promoted and the faces stay. -/
theorem promote_fold_idle (W : Tables) (T : Topology) (tri : Nat) :
    ∀ (l : List Int) (s : Mesh × Bool),
      (∀ b ∈ l, saturated T s.1 tri b = true →
        W.LowerPriorityNaturalTerrain (s.1.face tri).terrain b = false) →
      (l.foldl (promote_layer W T tri) s).2 = s.2 ∧
        (l.foldl (promote_layer W T tri) s).1.face = s.1.face := by
  intro l
  induction l with
  | nil => intro s _; exact ⟨rfl, rfl⟩
  | cons b l ih =>
    intro s h
    simp only [List.foldl_cons]
    obtain ⟨c1, c2⟩ := promote_layer_cases W T tri s b
    rcases c2 with ⟨cs, cL, -, -⟩ | ⟨-, c2', cf⟩
    · rw [h b (List.mem_cons_self _ _) cs] at cL
      cases cL
    · have hnext : ∀ x ∈ l, saturated T (promote_layer W T tri s b).1 tri x = true →
          W.LowerPriorityNaturalTerrain ((promote_layer W T tri s b).1.face tri).terrain x =
            false := by
        intro x hx hs
        rw [cf]
        rw [saturated_congr T _ _ tri x c1] at hs
        exact h x (List.mem_cons_of_mem _ hx) hs
      obtain ⟨k1, k2⟩ := ih _ hnext
      exact ⟨k1.trans c2', k2.trans cf⟩

theorem erase_fold_blend (tri : Nat) (l : List Int) (s : Mesh) (u : Nat) (k : Int) :
    (l.foldl (fun s nlayer => s.erase_border tri nlayer) s).blend u k = s.blend u k := by
  unfold Mesh.blend
  rw [erase_fold_vert]

/-- The optimisation of a face changes no blend. -/
theorem optimize_face_blend (W : Tables) (T : Topology) (ms : Mesh) (tri : Nat)
    (hirr : ∀ a, W.LowerPriorityNaturalTerrain a a = false)
    (htrans : ∀ a b c, W.LowerPriorityNaturalTerrain a b = true →
      W.LowerPriorityNaturalTerrain b c = true → W.LowerPriorityNaturalTerrain a c = true)
    (u : Nat) (k : Int) : (optimize_face W T ms tri).blend u k = ms.blend u k := by
  have h1 := (promote_fold_max W T tri hirr htrans (ms.face tri).terrain_border (ms, false)).1
  unfold optimize_face
  split
  · dsimp only
    split
    · rw [erase_fold_blend]
      exact h1 u k
    · exact h1 u k
  · rfl

/-- The optimisation of a face that is not water, from the mesh the pass started
from. -/
theorem optimize_face_done (W : Tables) (T : Topology) (ms : Mesh) (tri : Nat)
    (hirr : ∀ a, W.LowerPriorityNaturalTerrain a a = false)
    (htrans : ∀ a b c, W.LowerPriorityNaturalTerrain a b = true →
      W.LowerPriorityNaturalTerrain b c = true → W.LowerPriorityNaturalTerrain a c = true)
    (hnw : (ms.face tri).terrain ≠ W.terrain_Water) :
    OptimizeDone W T ms tri (optimize_face W T ms tri) := by
  obtain ⟨-, -, -, m4, m5⟩ :=
    promote_fold_max W T tri hirr htrans (ms.face tri).terrain_border (ms, false)
  obtain ⟨-, p2, -⟩ := promote_fold_frame W T tri 0 (ms.face tri).terrain_border (ms, false)
  obtain ⟨-, e2⟩ := erase_fold_spec tri
    ((((ms.face tri).terrain_border.foldl (promote_layer W T tri) (ms, false)).1.face
        tri).terrain_border.filter
      (fun blayer => !W.LowerPriorityNaturalTerrain
        (((ms.face tri).terrain_border.foldl (promote_layer W T tri) (ms, false)).1.face
          tri).terrain blayer))
    ((ms.face tri).terrain_border.foldl (promote_layer W T tri) (ms, false)).1
  unfold OptimizeDone optimize_face
  rw [if_pos hnw]
  dsimp only
  rcases m5 with ⟨h2, hface⟩ | ⟨h2, hm, hs, hL⟩
  · have h2 : ((ms.face tri).terrain_border.foldl (promote_layer W T tri) (ms, false)).2 =
        false := h2
    rw [h2]
    simp only [Bool.false_eq_true, if_false]
    refine ⟨?_, Or.inl (by rw [hface])⟩
    intro b hb hsat
    rw [hface] at hb
    exact m4 b hb hsat
  · rw [if_pos h2]
    refine ⟨?_, Or.inr ?_⟩
    · intro b hb hsat
      rw [erase_fold_border] at hb
      have hmem := mem_foldl_erase_filter _ _ b hb
      rw [p2] at hmem
      rw [e2]
      exact m4 b hmem.1 hsat
    · rw [e2]
      refine ⟨hm, hs, hL, m4, ?_⟩
      intro hin
      rw [erase_fold_border] at hin
      have hmem := mem_foldl_erase_filter _ _ _ hin
      have := hmem.2
      simp only [Bool.not_eq_eq_eq_not, Bool.not_false] at this
      rw [hirr] at this
      cases this

/-- The optimisation of a face on which the pass has done its work changes no face. -/
theorem optimize_face_again (W : Tables) (T : Topology) (m : Mesh) (tri : Nat)
    (h : ∀ b ∈ (m.face tri).terrain_border, saturated T m tri b = true →
      W.LowerPriorityNaturalTerrain (m.face tri).terrain b = false) :
    (optimize_face W T m tri).face = m.face := by
  obtain ⟨k1, k2⟩ := promote_fold_idle W T tri (m.face tri).terrain_border (m, false) h
  unfold optimize_face
  split
  · dsimp only
    have k1 : ((m.face tri).terrain_border.foldl (promote_layer W T tri) (m, false)).2 = false :=
      k1
    rw [k1]
    simp only [Bool.false_eq_true, if_false]
    exact k2
  · rfl
/-- The optimisation pass face by face: once the face `f` has had its turn, the pass has
done its work on it, and later turns leave that be. -/
theorem optimize_fold_done (W : Tables) (T : Topology) (ms : Mesh) (f : Nat)
    (hirr : ∀ a, W.LowerPriorityNaturalTerrain a a = false)
    (htrans : ∀ a b c, W.LowerPriorityNaturalTerrain a b = true →
      W.LowerPriorityNaturalTerrain b c = true → W.LowerPriorityNaturalTerrain a c = true)
    (hnw : (ms.face f).terrain ≠ W.terrain_Water) :
    ∀ (l : List Nat) (m : Mesh), (∀ u k, m.blend u k = ms.blend u k) →
      (OptimizeDone W T ms f m ∨ (m.face f = ms.face f ∧ f ∈ l)) →
      OptimizeDone W T ms f (l.foldl (optimize_face W T) m) ∧
        ∀ u k, (l.foldl (optimize_face W T) m).blend u k = ms.blend u k := by
  intro l
  induction l with
  | nil =>
    intro m hb h
    rcases h with h | ⟨-, h⟩
    · exact ⟨h, hb⟩
    · exact absurd h (List.not_mem_nil _)
  | cons g l ih =>
    intro m hb h
    simp only [List.foldl_cons]
    have hb2 : ∀ u k, (optimize_face W T m g).blend u k = ms.blend u k := fun u k => by
      rw [optimize_face_blend W T m g hirr htrans, hb]
    apply ih _ hb2
    by_cases e : g = f
    · subst e
      left
      rcases h with h | ⟨h, -⟩
      · have hsame : (optimize_face W T m g).face = m.face := by
          apply optimize_face_again
          intro b hbm hs
          rw [saturated_congr T m ms g b hb] at hs
          exact h.1 b hbm hs
        unfold OptimizeDone at h ⊢
        rw [hsame]
        exact h
      · have hd := optimize_face_done W T m g hirr htrans (by rw [h]; exact hnw)
        unfold OptimizeDone at hd ⊢
        simp only [saturated_congr T m ms g _ hb, h] at hd
        exact hd
    · have hsame : (optimize_face W T m g).face f = m.face f :=
        (optimize_face_spec W T m g).1 f (fun e' => e e'.symm)
      rcases h with h | ⟨h, hin⟩
      · left
        unfold OptimizeDone at h ⊢
        rw [hsame]
        exact h
      · right
        refine ⟨by rw [hsame]; exact h, ?_⟩
        rcases List.mem_cons.mp hin with h' | h'
        · exact absurd h'.symm e
        · exact h'

/-- C23: let the priority test be a strict total order (irreflexive, transitive, and
any two different ids comparable).  After the optimisation pass, on every finite face
that was not water (a face that is not water afterwards was not water before), no
border id left in the border set is saturated and of higher priority than the base; and
when the base has changed, the new base is a saturated border id the face carried, every
other saturated border id it carried is of lower priority, and the new base is no longer
in the border set of the face. -/
theorem optimize_borders_pass_promotes_highest (W : Tables) (T : Topology) (ms : Mesh)
    (hirr : ∀ a, W.LowerPriorityNaturalTerrain a a = false)
    (htrans : ∀ a b c, W.LowerPriorityNaturalTerrain a b = true →
      W.LowerPriorityNaturalTerrain b c = true → W.LowerPriorityNaturalTerrain a c = true)
    (htot : ∀ a b, a ≠ b →
      W.LowerPriorityNaturalTerrain a b = true ∨ W.LowerPriorityNaturalTerrain b a = true)
    (f : Nat) (hf : f ∈ T.finite_faces) :
    (((optimize_borders_pass W T true ms).face f).terrain ≠ W.terrain_Water →
      (ms.face f).terrain ≠ W.terrain_Water) ∧
    ((ms.face f).terrain ≠ W.terrain_Water →
      (∀ b ∈ ((optimize_borders_pass W T true ms).face f).terrain_border,
        ¬ (saturated T (optimize_borders_pass W T true ms) f b = true ∧
          W.LowerPriorityNaturalTerrain ((optimize_borders_pass W T true ms).face f).terrain
            b = true)) ∧
      (((optimize_borders_pass W T true ms).face f).terrain ≠ (ms.face f).terrain →
        ((optimize_borders_pass W T true ms).face f).terrain ∈ (ms.face f).terrain_border ∧
        saturated T ms f ((optimize_borders_pass W T true ms).face f).terrain = true ∧
        (∀ b ∈ (ms.face f).terrain_border, saturated T ms f b = true →
          b = ((optimize_borders_pass W T true ms).face f).terrain ∨
          W.LowerPriorityNaturalTerrain b
            ((optimize_borders_pass W T true ms).face f).terrain = true) ∧
        ((optimize_borders_pass W T true ms).face f).terrain ∉
          ((optimize_borders_pass W T true ms).face f).terrain_border)) := by
  have hpass : optimize_borders_pass W T true ms = T.finite_faces.foldl (optimize_face W T) ms := by
    simp [optimize_borders_pass]
  have hmain : (ms.face f).terrain ≠ W.terrain_Water →
      OptimizeDone W T ms f (optimize_borders_pass W T true ms) ∧
        ∀ u k, (optimize_borders_pass W T true ms).blend u k = ms.blend u k := by
    intro hnw
    rw [hpass]
    exact optimize_fold_done W T ms f hirr htrans hnw T.finite_faces ms (fun _ _ => rfl)
      (Or.inr ⟨rfl, hf⟩)
  constructor
  · intro hout hin
    apply hout
    have key : ∀ (l : List Nat) (m : Mesh), (m.face f).terrain = W.terrain_Water →
        ((l.foldl (optimize_face W T) m).face f).terrain = W.terrain_Water := by
      intro l
      induction l with
      | nil => intro m h; exact h
      | cons g l ih =>
        intro m h
        simp only [List.foldl_cons]
        apply ih
        by_cases e : g = f
        · subst e
          unfold optimize_face
          rw [if_neg (by simpa using h)]
          exact h
        · rw [(optimize_face_spec W T m g).1 f (fun e' => e e'.symm)]
          exact h
    rw [hpass]
    exact key _ _ hin
  · intro hnw
    obtain ⟨⟨d1, d2⟩, hbl⟩ := hmain hnw
    refine ⟨?_, ?_⟩
    · rintro b hb ⟨hs, hL⟩
      rw [saturated_congr T _ ms f b hbl] at hs
      rw [d1 b hb hs] at hL
      cases hL
    · intro hch
      rcases d2 with h | ⟨h1, h2, -, h4, h5⟩
      · rw [h] at hch
        exact absurd rfl hch
      · refine ⟨h1, h2, ?_, h5⟩
        intro b hb hs
        by_cases e : b = ((optimize_borders_pass W T true ms).face f).terrain
        · exact Or.inl e
        · right
          rcases htot b _ e with h | h
          · exact h
          · rw [h4 b hb hs] at h
            cases h

set_option maxRecDepth 100000 in
/-- Witness of C23: on the sample tile face 0 enters with the base 1 and the borders 3
and 4, saturated for 3, under the priority that orders the terrains by their tokens.
The pass makes 3 the base, and 3 is no longer a border of the face. -/
theorem optimize_borders_pass_promotes_highest_witness :
    ((optimize_borders_pass sample_tables sample_topology true sample_saturated).face
      0).terrain = 3 ∧
    ((optimize_borders_pass sample_tables sample_topology true sample_saturated).face 0).terrain ∉
      ((optimize_borders_pass sample_tables sample_topology true sample_saturated).face
        0).terrain_border :=
  ⟨by decide!,
    (((optimize_borders_pass_promotes_highest sample_tables sample_topology sample_saturated
      (fun a => by simp [sample_tables])
      (fun a b c h1 h2 => by
        simp only [sample_tables, decide_eq_true_eq] at h1 h2 ⊢
        omega)
      (fun a b h => by
        simp only [sample_tables, decide_eq_true_eq]
        omega)
      0 (by decide)).2 (by decide)).2 (by decide!)).2.2.2⟩

/-! ## The plane of `HeightWithinTri` -/

/-- The value of `HeightWithinTri` on a finite face whose corners are not in line, when
the scale factors are not zero: the corner height `h1` plus the slopes of the plane
through the three corners times the offsets from the first corner.  The scale factors
cancel. -/
theorem HeightWithinTri_eq (K : GeoConsts) (T : Topology) (point : Nat → ℚ × ℚ) (ms : Mesh)
    (f : Nat) (p : ℚ × ℚ) (hf : T.is_infinite f = false)
    (hcol : collinear (point (T.vertex f 0)) (point (T.vertex f 1)) (point (T.vertex f 2)) =
      false)
    (hlat : K.DEG_TO_NM_LAT ≠ 0) (hm : K.NM_TO_MTR ≠ 0) (hcos : K.cos_deg p.2 ≠ 0)
    (α β γ : ℚ)
    (h0 : α * (point (T.vertex f 0)).1 + β * (point (T.vertex f 0)).2 + γ =
      (ms.vert (T.vertex f 0)).height)
    (h1 : α * (point (T.vertex f 1)).1 + β * (point (T.vertex f 1)).2 + γ =
      (ms.vert (T.vertex f 1)).height)
    (h2 : α * (point (T.vertex f 2)).1 + β * (point (T.vertex f 2)).2 + γ =
      (ms.vert (T.vertex f 2)).height) :
    HeightWithinTri K T point ms f p = some (α * p.1 + β * p.2 + γ) := by
  have hD : ((point (T.vertex f 1)).1 - (point (T.vertex f 0)).1) *
      ((point (T.vertex f 2)).2 - (point (T.vertex f 0)).2) -
      ((point (T.vertex f 1)).2 - (point (T.vertex f 0)).2) *
      ((point (T.vertex f 2)).1 - (point (T.vertex f 0)).1) ≠ 0 := by
    simpa [collinear] using hcol
  simp only [HeightWithinTri, hf, Bool.false_eq_true, if_false, scaled_corner, Vector_3,
    cross_product, Option.some.injEq]
  rw [← h0, ← h1, ← h2]
  generalize (point (T.vertex f 0)).1 = x1 at hD ⊢
  generalize (point (T.vertex f 0)).2 = y1 at hD ⊢
  generalize (point (T.vertex f 1)).1 = x2 at hD ⊢
  generalize (point (T.vertex f 1)).2 = y2 at hD ⊢
  generalize (point (T.vertex f 2)).1 = x3 at hD ⊢
  generalize (point (T.vertex f 2)).2 = y3 at hD ⊢
  generalize K.cos_deg p.2 = co at hcos ⊢
  generalize K.DEG_TO_NM_LAT = dl at hlat ⊢
  generalize K.NM_TO_MTR = nm at hm ⊢
  have hnz : (x3 * (dl * co * nm) - x2 * (dl * co * nm)) * (y1 * (dl * nm) - y2 * (dl * nm)) -
      (y3 * (dl * nm) - y2 * (dl * nm)) * (x1 * (dl * co * nm) - x2 * (dl * co * nm)) ≠ 0 := by
    have e : (x3 * (dl * co * nm) - x2 * (dl * co * nm)) * (y1 * (dl * nm) - y2 * (dl * nm)) -
        (y3 * (dl * nm) - y2 * (dl * nm)) * (x1 * (dl * co * nm) - x2 * (dl * co * nm)) =
        (dl * co * nm) * (dl * nm) *
          ((x2 - x1) * (y3 - y1) - (y2 - y1) * (x3 - x1)) := by ring
    rw [e]
    exact mul_ne_zero (mul_ne_zero (mul_ne_zero (mul_ne_zero hlat hcos) hm) (mul_ne_zero hlat hm)) hD
  rw [sub_eq_iff_eq_add, add_div' _ _ _ hnz, eq_div_iff hnz]
  ring

/-- Three points that are not in line, with a height each, lie on the graph of an affine
function. -/
theorem plane_through (x1 y1 h1 x2 y2 h2 x3 y3 h3 : ℚ)
    (hD : (x2 - x1) * (y3 - y1) - (y2 - y1) * (x3 - x1) ≠ 0) :
    ∃ α β γ : ℚ, α * x1 + β * y1 + γ = h1 ∧ α * x2 + β * y2 + γ = h2 ∧
      α * x3 + β * y3 + γ = h3 := by
  refine ⟨((h2 - h1) * (y3 - y1) - (h3 - h1) * (y2 - y1)) /
      ((x2 - x1) * (y3 - y1) - (y2 - y1) * (x3 - x1)),
    ((x2 - x1) * (h3 - h1) - (x3 - x1) * (h2 - h1)) /
      ((x2 - x1) * (y3 - y1) - (y2 - y1) * (x3 - x1)),
    h1 - ((h2 - h1) * (y3 - y1) - (h3 - h1) * (y2 - y1)) /
        ((x2 - x1) * (y3 - y1) - (y2 - y1) * (x3 - x1)) * x1 -
      ((x2 - x1) * (h3 - h1) - (x3 - x1) * (h2 - h1)) /
        ((x2 - x1) * (y3 - y1) - (y2 - y1) * (x3 - x1)) * y1, ?_, ?_, ?_⟩
  · ring
  · field_simp
    ring
  · field_simp
    ring

/-- C24: on a finite face whose three corners are not in line, with unit constants that
are not zero, there is an affine function of (x, y) that takes the stored height of each
corner at the corner; `HeightWithinTri` returns the value of every such function at the
query point (so there is one such function only on the points asked), wherever the
cosine of the query latitude is not zero; at a corner it returns the height of the
corner; and the result is the same for any other unit constants and cosines that are
not zero, so it does not depend on the scale factor of the longitude. -/
theorem HeightWithinTri_affine (K : GeoConsts) (T : Topology) (point : Nat → ℚ × ℚ) (ms : Mesh)
    (f : Nat) (hf : T.is_infinite f = false)
    (hcol : collinear (point (T.vertex f 0)) (point (T.vertex f 1)) (point (T.vertex f 2)) =
      false)
    (hlat : K.DEG_TO_NM_LAT ≠ 0) (hm : K.NM_TO_MTR ≠ 0) :
    (∃ α β γ : ℚ,
      (∀ i, i < 3 → α * (point (T.vertex f i)).1 + β * (point (T.vertex f i)).2 + γ =
        (ms.vert (T.vertex f i)).height) ∧
      ∀ p : ℚ × ℚ, K.cos_deg p.2 ≠ 0 →
        HeightWithinTri K T point ms f p = some (α * p.1 + β * p.2 + γ)) ∧
    (∀ α β γ : ℚ,
      (∀ i, i < 3 → α * (point (T.vertex f i)).1 + β * (point (T.vertex f i)).2 + γ =
        (ms.vert (T.vertex f i)).height) →
      ∀ p : ℚ × ℚ, K.cos_deg p.2 ≠ 0 →
        HeightWithinTri K T point ms f p = some (α * p.1 + β * p.2 + γ)) ∧
    (∀ i, i < 3 → K.cos_deg (point (T.vertex f i)).2 ≠ 0 →
      HeightWithinTri K T point ms f (point (T.vertex f i)) =
        some (ms.vert (T.vertex f i)).height) ∧
    (∀ (K2 : GeoConsts) (p : ℚ × ℚ), K2.DEG_TO_NM_LAT ≠ 0 → K2.NM_TO_MTR ≠ 0 →
      K2.cos_deg p.2 ≠ 0 → K.cos_deg p.2 ≠ 0 →
      HeightWithinTri K2 T point ms f p = HeightWithinTri K T point ms f p) := by
  have hD : ((point (T.vertex f 1)).1 - (point (T.vertex f 0)).1) *
      ((point (T.vertex f 2)).2 - (point (T.vertex f 0)).2) -
      ((point (T.vertex f 1)).2 - (point (T.vertex f 0)).2) *
      ((point (T.vertex f 2)).1 - (point (T.vertex f 0)).1) ≠ 0 := by
    simpa [collinear] using hcol
  have hall : ∀ (α β γ : ℚ),
      (∀ i, i < 3 → α * (point (T.vertex f i)).1 + β * (point (T.vertex f i)).2 + γ =
        (ms.vert (T.vertex f i)).height) →
      ∀ (K2 : GeoConsts) (p : ℚ × ℚ), K2.DEG_TO_NM_LAT ≠ 0 → K2.NM_TO_MTR ≠ 0 →
        K2.cos_deg p.2 ≠ 0 →
        HeightWithinTri K2 T point ms f p = some (α * p.1 + β * p.2 + γ) := by
    intro α β γ h K2 p k1 k2 k3
    exact HeightWithinTri_eq K2 T point ms f p hf hcol k1 k2 k3 α β γ (h 0 (by omega))
      (h 1 (by omega)) (h 2 (by omega))
  have hex : ∃ α β γ : ℚ,
      ∀ i, i < 3 → α * (point (T.vertex f i)).1 + β * (point (T.vertex f i)).2 + γ =
        (ms.vert (T.vertex f i)).height := by
    obtain ⟨α, β, γ, e1, e2, e3⟩ := plane_through _ _ (ms.vert (T.vertex f 0)).height _ _
      (ms.vert (T.vertex f 1)).height _ _ (ms.vert (T.vertex f 2)).height hD
    refine ⟨α, β, γ, ?_⟩
    intro i hi
    interval_cases i
    · exact e1
    · exact e2
    · exact e3
  obtain ⟨α, β, γ, habc⟩ := hex
  refine ⟨⟨α, β, γ, habc, fun p hp => hall α β γ habc K p hlat hm hp⟩,
    fun a b c h p hp => hall a b c h K p hlat hm hp, ?_, ?_⟩
  · intro i hi hp
    rw [hall α β γ habc K _ hlat hm hp, habc i hi]
  · intro K2 p k1 k2 k3 k4
    rw [hall α β γ habc K2 p k1 k2 k3, hall α β γ habc K p hlat hm k4]

set_option maxRecDepth 100000 in
/-- Witness of C24: face 0 of the sample tile with the heights 0, 1 and 2 at its
corners (0, 0), (1, 0) and (0, 1) lies on the plane x + 2 y, and `HeightWithinTri`
returns 3/4 at the point (1/4, 1/4). -/
theorem HeightWithinTri_affine_witness :
    HeightWithinTri sample_consts sample_topology sample_point sample_slope 0 (1 / 4, 1 / 4) =
      some (3 / 4) :=
  (by norm_num : ((1 : ℚ) * (1 / 4, 1 / 4).1 + 2 * ((1 / 4 : ℚ), (1 / 4 : ℚ)).2 + 0) = 3 / 4) ▸
    (HeightWithinTri_affine sample_consts sample_topology sample_point sample_slope 0
      (by decide) (by decide!) (by decide!) (by decide!)).2.1 1 2 0
      (fun i hi => by
        interval_cases i <;> simp [sample_point, sample_topology, sample_slope])
      (1 / 4, 1 / 4) (by decide!)

/-! ## The chain of `ExtendLanduseEdge` -/

/-- What a turn of the circulator that ends with a `new_best` has seen: when it started
without one, the `new_best` is the twin of a half-edge of the turn other than `best`,
must be burnt, is not marked and neither is its twin, and no other half-edge of the turn
qualifies. -/
theorem scan_outgoing_unique (M : Pmwx) (marks : List Nat) (best : Nat) :
    ∀ (circs : List Nat) (nb : Option Nat) (r : Nat),
      scan_outgoing M marks best circs nb = some (some r) →
      (nb = some r ∧
        ∀ c ∈ circs, ¬ (must_burn_he M (M.twin c) = true ∧ c ≠ best)) ∨
      (nb = none ∧ ∃ circ ∈ circs, r = M.twin circ ∧ circ ≠ best ∧
        must_burn_he M r = true ∧ r ∉ marks ∧ M.twin r ∉ marks ∧
        ∀ c ∈ circs, must_burn_he M (M.twin c) = true → c ≠ best → M.twin c = r) := by
  intro circs
  induction circs with
  | nil =>
    intro nb r h
    simp only [scan_outgoing, Option.some.injEq] at h
    exact Or.inl ⟨h, fun _ hc => absurd hc (List.not_mem_nil _)⟩
  | cons circ rest ih =>
    intro nb r h
    unfold scan_outgoing at h
    split at h
    · rename_i hq
      split at h
      · cases h
      · rename_i hm
        split at h
        · cases h
        · rename_i hnb
          have hnb : nb = none := by simpa using hnb
          rcases ih _ r h with ⟨h1, h2⟩ | ⟨h1, _⟩
          · right
            simp only [Option.some.injEq] at h1
            refine ⟨hnb, circ, List.mem_cons_self _ _, h1.symm, hq.2, by rw [← h1]; exact hq.1,
              ?_, ?_, ?_⟩
            · rw [← h1]; exact fun hx => hm (Or.inl hx)
            · rw [← h1]; exact fun hx => hm (Or.inr hx)
            · intro c hc hmb hne
              rcases List.mem_cons.mp hc with e | hc'
              · rw [e]; exact h1
              · exact absurd ⟨hmb, hne⟩ (h2 c hc')
          · cases h1
    · rename_i hq
      rcases ih _ r h with ⟨h1, h2⟩ | ⟨h1, c0, hc0, h3, h4, h5, h6, h7, h8⟩
      · left
        refine ⟨h1, ?_⟩
        intro c hc
        rcases List.mem_cons.mp hc with e | hc'
        · rw [e]; exact hq
        · exact h2 c hc'
      · right
        refine ⟨h1, c0, List.mem_cons_of_mem _ hc0, h3, h4, h5, h6, h7, ?_⟩
        intro c hc hmb hne
        rcases List.mem_cons.mp hc with e | hc'
        · rw [e] at hmb hne
          exact absurd ⟨hmb, hne⟩ hq
        · exact h8 c hc' hmb hne

/-- The geometry of `collinear_he`: for two half-edges with distinct end points each, the
second starting where the first ends, the test holds only when the vector of the second
is a positive multiple of the vector of the first. -/
theorem collinear_he_same_direction (M : Pmwx) (he1 he2 : Nat)
    (hsrc : M.source he2 = M.target he1)
    (h1 : M.vpoint (M.source he1) ≠ M.vpoint (M.target he1))
    (h2 : M.vpoint (M.source he2) ≠ M.vpoint (M.target he2))
    (h : collinear_he M he1 he2 = true) :
    same_direction (he_vector M he1) (he_vector M he2) := by
  unfold same_direction he_vector
  rw [hsrc] at h2 ⊢
  unfold collinear_he at h
  generalize M.vpoint (M.source he1) = p at h h1 ⊢
  generalize M.vpoint (M.target he1) = q at h h1 h2 ⊢
  generalize M.vpoint (M.target he2) = r at h h2 ⊢
  obtain ⟨p1, p2⟩ := p
  obtain ⟨q1, q2⟩ := q
  obtain ⟨r1, r2⟩ := r
  simp only [ne_eq, Prod.mk.injEq, not_and] at h1 h2
  split at h
  · cases h
  rename_i hc
  split at h
  · cases h
  rename_i ho
  replace hc : (q1 - p1) * (r2 - p2) - (q2 - p2) * (r1 - p1) = 0 := by
    simpa [collinear] using hc
  replace ho : collinear_are_ordered_along_line (p1, p2) (q1, q2) (r1, r2) = true := by
    simpa using ho
  dsimp only
  have hcross : (q1 - p1) * (r2 - q2) = (q2 - p2) * (r1 - q1) := by linarith
  by_cases hd : q1 = p1
  · have hq2 : q2 ≠ p2 := fun e => h1 hd.symm e.symm
    have hd2 : q2 - p2 ≠ 0 := sub_ne_zero.mpr hq2
    have he1 : r1 = q1 := by
      have : (q2 - p2) * (r1 - q1) = 0 := by rw [← hcross, hd]; ring
      rcases mul_eq_zero.mp this with e | e
      · exact absurd e hd2
      · linarith
    have hr2 : r2 ≠ q2 := fun e => h2 he1.symm e.symm
    refine ⟨(r2 - q2) / (q2 - p2), ?_, ?_, ?_⟩
    · unfold collinear_are_ordered_along_line at ho
      simp only [hd, lt_irrefl, if_false] at ho
      rcases lt_or_gt_of_ne hq2 with hlt | hgt
      · rw [if_neg (not_lt.mpr hlt.le), if_pos hlt] at ho
        replace ho := by simpa using ho
        have : r2 < q2 := lt_of_le_of_ne ho hr2
        exact div_pos_of_neg_of_neg (by linarith) (by linarith)
      · rw [if_pos hgt] at ho
        replace ho := by simpa using ho
        have : q2 < r2 := lt_of_le_of_ne ho (Ne.symm hr2)
        exact div_pos (by linarith) (by linarith)
    · rw [he1, hd]; ring
    · field_simp
  · have hd1 : q1 - p1 ≠ 0 := sub_ne_zero.mpr hd
    have hr1 : r1 ≠ q1 := by
      intro e
      have : (q1 - p1) * (r2 - q2) = 0 := by rw [hcross, e]; ring
      rcases mul_eq_zero.mp this with e2 | e2
      · exact hd1 e2
      · exact h2 e.symm (by linarith)
    refine ⟨(r1 - q1) / (q1 - p1), ?_, ?_, ?_⟩
    · unfold collinear_are_ordered_along_line at ho
      rcases lt_or_gt_of_ne hd with hlt | hgt
      · rw [if_neg (not_lt.mpr hlt.le), if_pos hlt] at ho
        replace ho := by simpa using ho
        have : r1 < q1 := lt_of_le_of_ne ho hr1
        exact div_pos_of_neg_of_neg (by linarith) (by linarith)
      · rw [if_pos hgt] at ho
        replace ho := by simpa using ho
        have : q1 < r1 := lt_of_le_of_ne ho (Ne.symm hr1)
        exact div_pos (by linarith) (by linarith)
    · field_simp
    · field_simp
      linarith

/-- In a map whose circulators are sound, `ExtendLanduseEdge` returns when it has fuel
for every half-edge not yet marked, and what it returns is the end of a chain from the
half-edge it was given, whose half-edges it has marked. -/
theorem ExtendLanduseEdge_chain_aux (M : Pmwx)
    (hwf : ∀ he ∈ M.halfedges, ∀ circ ∈ M.incident_halfedges (M.target he),
      M.twin circ ∈ M.halfedges ∧ M.target circ = M.target he ∧ M.twin (M.twin circ) = circ)
    (hseg : ∀ he ∈ M.halfedges, M.vpoint (M.source he) ≠ M.vpoint (M.target he)) :
    ∀ (fuel : Nat) (marks : List Nat) (best : Nat), best ∈ M.halfedges →
      (M.halfedges.filter (fun h => decide (h ∉ best :: marks))).length < fuel →
      ∃ chain e, ExtendLanduseEdge M fuel marks best = some (chain.reverse ++ marks, e) ∧
        ExtendChain M marks best chain e := by
  intro fuel
  induction fuel with
  | zero => intro marks best _ h; omega
  | succ n ih =>
    intro marks best hb hm
    unfold ExtendLanduseEdge
    split
    · exact ⟨[best], best, rfl, ExtendChain.stop marks best⟩
    · exact ⟨[best], best, rfl, ExtendChain.stop marks best⟩
    · rename_i new_best hscan
      split
      · exact ⟨[best], best, rfl, ExtendChain.stop marks best⟩
      · rename_i hcol
        rcases scan_outgoing_unique M _ best _ none new_best hscan with ⟨h1, _⟩ |
          ⟨-, c, hc, h2, h3, h4, h5, h6, h7⟩
        · cases h1
        · obtain ⟨w1, w2, w3⟩ := hwf best hb c hc
          have hin : new_best ∈ M.halfedges := by rw [h2]; exact w1
          have hlt := filter_length_lt_of_imp
            (fun h => decide (h ∉ new_best :: best :: marks))
            (fun h => decide (h ∉ best :: marks))
            (by
              intro x hx
              simp only [decide_eq_true_eq] at hx ⊢
              exact fun hh => hx (List.mem_cons_of_mem _ hh))
            M.halfedges new_best hin (by simpa using h5) (by simp)
          obtain ⟨chain, e, e1, e2⟩ := ih (best :: marks) new_best hin (by omega)
          refine ⟨best :: chain, e, ?_, ?_⟩
          · rw [e1]
            simp
          · have hsrc : M.source new_best = M.target best := by
              unfold Pmwx.source
              rw [h2, w3, w2]
            exact ExtendChain.next marks best new_best chain e
              ⟨hsrc, h4, h5, h6, h7,
                collinear_he_same_direction M best new_best hsrc (hseg best hb)
                  (hseg new_best hin) (by simpa using hcol)⟩ e2

theorem ExtendChain_ends (M : Pmwx) (marks : List Nat) (start : Nat) (chain : List Nat)
    (e : Nat) (h : ExtendChain M marks start chain e) :
    chain.head? = some start ∧ chain.getLast? = some e := by
  induction h with
  | stop marks best => exact ⟨rfl, rfl⟩
  | next marks best nb chain e _ hch ih =>
    refine ⟨rfl, ?_⟩
    cases chain with
    | nil => simp at ih
    | cons a l =>
      rw [List.getLast?_cons_cons]
      exact ih.2

/-- C25: in a finite map whose circulators are sound (every half-edge the circulator of
the target of a half-edge of the map yields ends in that target, is the twin of its
twin, and has its twin in the map) and whose half-edges have two distinct end points
each, for every half-edge `start` of the map and whatever is marked, `ExtendLanduseEdge`
returns within the fuel of one turn for every half-edge and one more.  It returns a
half-edge `e` and there is a chain from `start` to `e` each step of which goes to a
half-edge that starts at the target of the one before, must be burnt, was not marked
when chosen and neither was its twin, is the only such half-edge leaving that vertex
apart from the way back, and lies in line with the one before in the same direction: the
vector from its source point to its target point is a positive multiple of the vector
of the one before.  Every half-edge of the chain is marked on return. -/
theorem ExtendLanduseEdge_returns_chain_end (M : Pmwx)
    (hwf : ∀ he ∈ M.halfedges, ∀ circ ∈ M.incident_halfedges (M.target he),
      M.twin circ ∈ M.halfedges ∧ M.target circ = M.target he ∧ M.twin (M.twin circ) = circ)
    (hseg : ∀ he ∈ M.halfedges, M.vpoint (M.source he) ≠ M.vpoint (M.target he))
    (marks : List Nat) (start : Nat) (hstart : start ∈ M.halfedges) :
    ∃ r chain, ExtendLanduseEdge M (M.halfedges.length + 1) marks start = some r ∧
      ExtendChain M marks start chain r.2 ∧ chain.head? = some start ∧
      chain.getLast? = some r.2 ∧ (∀ h ∈ chain, h ∈ r.1) ∧ (∀ h ∈ marks, h ∈ r.1) ∧
      (∀ h ∈ r.1, h ∈ chain ∨ h ∈ marks) := by
  have hlen : (M.halfedges.filter (fun h => decide (h ∉ start :: marks))).length ≤
      M.halfedges.length := List.length_filter_le _ _
  obtain ⟨chain, e, e1, e2⟩ :=
    ExtendLanduseEdge_chain_aux M hwf hseg (M.halfedges.length + 1) marks start hstart (by omega)
  obtain ⟨k1, k2⟩ := ExtendChain_ends M marks start chain e e2
  refine ⟨(chain.reverse ++ marks, e), chain, e1, e2, k1, k2, ?_, ?_, ?_⟩
  · intro h hh
    simp [hh]
  · intro h hh
    simp [hh]
  · intro h hh
    simpa using hh

set_option maxRecDepth 100000 in
/-- Witness of C25: on the map of two edges in line, the extension of the half-edge 0
goes on to the half-edge 2, whose vector (1, 0) is that of the half-edge 0, returns it,
and has marked both. -/
theorem ExtendLanduseEdge_returns_chain_end_witness :
    ExtendLanduseEdge sample_map_coast (sample_map_coast.halfedges.length + 1) [] 0 =
      some ([2, 0], 2) ∧
    he_vector sample_map_coast 0 = (1, 0) ∧ he_vector sample_map_coast 2 = (1, 0) ∧
    ∃ r chain, ExtendLanduseEdge sample_map_coast (sample_map_coast.halfedges.length + 1) [] 0 =
        some r ∧ ExtendChain sample_map_coast [] 0 chain r.2 ∧ ∀ h ∈ chain, h ∈ r.1 :=
  ⟨by decide!, by decide!, by decide!,
    match ExtendLanduseEdge_returns_chain_end sample_map_coast (by decide) (by decide!) [] 0
      (by decide) with
    | ⟨r, chain, h1, h2, _, _, h5, _⟩ => ⟨r, chain, h1, h2, h5⟩⟩

set_option maxRecDepth 100000 in
/-- The extension stops at a turn: on the map of two edges that meet at a right angle
the half-edge 2 is the only must-burn half-edge that leaves the target of the half-edge
0, yet the extension of 0 returns 0 and marks nothing else. -/
theorem ExtendLanduseEdge_stops_at_turn :
    scan_outgoing sample_map_turn [0] 0 (sample_map_turn.incident_halfedges 1) none =
      some (some 2) ∧
    collinear_he sample_map_turn 0 2 = false ∧
    ExtendLanduseEdge sample_map_turn (sample_map_turn.halfedges.length + 1) [] 0 =
      some ([0], 0) := by
  decide!

/-! ## The reduction of a path and the depth counter -/

theorem cancel_first_length :
    ∀ (comps c : List String), cancel_first comps = some c → c.length + 2 = comps.length := by
  intro comps
  induction comps with
  | nil => intro c h; simp [cancel_first] at h
  | cons a l ih =>
    intro c h
    cases l with
    | nil => simp [cancel_first] at h
    | cons b rest =>
      simp only [cancel_first] at h
      split at h
      · simp only [Option.some.injEq] at h
        subst h
        simp
      · rw [Option.map_eq_some'] at h
        obtain ⟨c', hc', e⟩ := h
        subst e
        have := ih c' hc'
        simp only [List.length_cons] at this ⊢
        omega

/-- The loop of `is_backout_path` ends within the fuel of one turn for every
component. -/
theorem cancel_loop_returns :
    ∀ (fuel : Nat) (comps : List String), comps.length ≤ 2 * fuel + 1 →
      ∃ c, cancel_loop fuel comps = some c := by
  intro fuel
  induction fuel with
  | zero =>
    intro comps h
    simp only [cancel_loop]
    cases hc : cancel_first comps with
    | none => exact ⟨comps, rfl⟩
    | some c =>
      have := cancel_first_length comps c hc
      omega
  | succ n ih =>
    intro comps h
    simp only [cancel_loop]
    cases hc : cancel_first comps with
    | none => exact ⟨comps, rfl⟩
    | some c =>
      have := cancel_first_length comps c hc
      exact ih c (by omega)

theorem climbs_above_cons (d : Nat) (a : String) (l : List String) :
    climbs_above d (a :: l) =
      if a = ".." then (if d = 0 then true else climbs_above (d - 1) l)
      else climbs_above (d + 1) l := by
  rw [climbs_above]

/-- Erasing a component together with the `".."` that follows it does not change what
the depth counter finds. -/
theorem climbs_above_cancel_first :
    ∀ (comps c : List String), cancel_first comps = some c →
      ∀ d, climbs_above d comps = climbs_above d c := by
  intro comps
  induction comps with
  | nil => intro c h; simp [cancel_first] at h
  | cons a l ih =>
    intro c h d
    cases l with
    | nil => simp [cancel_first] at h
    | cons b rest =>
      simp only [cancel_first] at h
      split at h
      · rename_i hab
        simp only [Option.some.injEq] at h
        subst h
        rw [climbs_above_cons d a, if_neg hab.2, climbs_above_cons (d + 1) b, if_pos hab.1,
          if_neg (Nat.succ_ne_zero d), Nat.add_sub_cancel]
      · rw [Option.map_eq_some'] at h
        obtain ⟨c', hc', e⟩ := h
        subst e
        by_cases ha : a = ".."
        · rw [climbs_above_cons d a (b :: rest), if_pos ha, climbs_above_cons d a c', if_pos ha]
          by_cases hd : d = 0
          · rw [if_pos hd, if_pos hd]
          · rw [if_neg hd, if_neg hd]
            exact ih c' hc' (d - 1)
        · rw [climbs_above_cons d a (b :: rest), if_neg ha, climbs_above_cons d a c', if_neg ha]
          exact ih c' hc' (d + 1)

theorem climbs_above_no_dotdot :
    ∀ (comps : List String) (d : Nat), (∀ c ∈ comps, c ≠ "..") → climbs_above d comps = false := by
  intro comps
  induction comps with
  | nil => intro d _; rfl
  | cons a l ih =>
    intro d h
    rw [climbs_above_cons, if_neg (h a (List.mem_cons_self _ _))]
    exact ih (d + 1) (fun c hc => h c (List.mem_cons_of_mem _ hc))

/-- In a list the loop finds no work in, no `".."` follows an ordinary component. -/
theorem cancel_first_none_tail :
    ∀ (comps : List String) (a : String), cancel_first (a :: comps) = none → a ≠ ".." →
      ∀ c ∈ comps, c ≠ ".." := by
  intro comps
  induction comps with
  | nil => intro a _ _ c hc; exact absurd hc (List.not_mem_nil _)
  | cons b rest ih =>
    intro a h ha c hc
    simp only [cancel_first] at h
    split at h
    · cases h
    · rename_i hab
      have hb : b ≠ ".." := fun e => hab ⟨e, ha⟩
      have hrest : cancel_first (b :: rest) = none := by
        cases hr : cancel_first (b :: rest) with
        | none => rfl
        | some x => rw [hr] at h; simp at h
      rcases List.mem_cons.mp hc with e | hc'
      · rw [e]; exact hb
      · exact ih b hrest hb c hc'

/-- On a list the loop finds no work in, the last loop of `is_backout_path` finds a
`".."` exactly when the depth counter climbs above the start. -/
theorem any_dotdot_of_reduced (comps : List String) (h : cancel_first comps = none) :
    comps.any (fun c => decide (c = "..")) = climbs_above 0 comps := by
  cases comps with
  | nil => rfl
  | cons a l =>
    by_cases ha : a = ".."
    · simp [climbs_above_cons, ha]
    · have hno := cancel_first_none_tail l a h ha
      rw [climbs_above_cons, if_neg ha, climbs_above_no_dotdot l 1 hno]
      simp only [List.any_cons, decide_eq_true_eq, ha, decide_False, Bool.false_or,
        List.any_eq_false]
      intro c hc
      simpa using hno c hc

theorem cancel_loop_climbs :
    ∀ (fuel : Nat) (comps c : List String), cancel_loop fuel comps = some c →
      c.any (fun x => decide (x = "..")) = climbs_above 0 comps := by
  intro fuel
  induction fuel with
  | zero =>
    intro comps c h
    simp only [cancel_loop] at h
    cases hc : cancel_first comps with
    | none =>
      rw [hc] at h
      simp only [Option.some.injEq] at h
      subst h
      exact any_dotdot_of_reduced comps hc
    | some x => rw [hc] at h; simp at h
  | succ n ih =>
    intro comps c h
    simp only [cancel_loop] at h
    cases hc : cancel_first comps with
    | none =>
      rw [hc] at h
      simp only [Option.some.injEq] at h
      subst h
      exact any_dotdot_of_reduced comps hc
    | some x =>
      rw [hc] at h
      rw [climbs_above_cancel_first comps x hc 0]
      exact ih x c h

/-- C28: for every path, `is_backout_path` returns, and it returns true exactly when
the scan of the components of the path from left to right (the components `"."`
dropped) with a depth counter from 0 meets a `".."` while the counter is 0, an ordinary
component adding one to the counter and a `".."` met at a positive count taking one
from it.  The components are those the tokenizer yields for the separators of
`is_dir_sep`, whatever the tokenizer. -/
theorem is_backout_path_iff_climbs_above (tokenize : (Char → Bool) → String → List String)
    (p : String) :
    is_backout_path tokenize p =
      some (climbs_above 0 ((tokenize is_dir_sep p).filter (fun c => c ≠ "."))) := by
  unfold is_backout_path
  obtain ⟨c, hc⟩ := cancel_loop_returns
    ((tokenize is_dir_sep p).filter (fun c => c ≠ ".")).length
    ((tokenize is_dir_sep p).filter (fun c => c ≠ ".")) (by omega)
  rw [hc]
  simp only [Option.map_some', Option.some.injEq]
  exact cancel_loop_climbs _ _ c hc

set_option maxRecDepth 100000 in
/-- Witness of C28: with a tokenizer that yields the components between separators, the
path `a/../../b` climbs above its start and `is_backout_path` returns true; the path
`a/./b/../c` does not and it returns false. -/
theorem is_backout_path_iff_climbs_above_witness :
    is_backout_path sample_tokenize "a/../../b" = some true ∧
    is_backout_path sample_tokenize "a/./b/../c" = some false ∧
    sample_tokenize is_dir_sep "a/./b:c" = ["a", ".", "b", "c"] :=
  ⟨(is_backout_path_iff_climbs_above sample_tokenize "a/../../b").trans (by decide),
    (is_backout_path_iff_climbs_above sample_tokenize "a/./b/../c").trans (by decide),
    by decide⟩
/-! ## Evaluations of the XML writer, of the record of exported files and of the corner
assertions -/

/-- C27 (the code departs from the claim): the multiply-shift of `add_attr_int` is the
quotient by ten for the values from 0 below 2^30, but for the value 1073741829 it yields
107374183 where the quotient is 107374182; the digit computed from it is -1, and the
string of the attribute is `107374183/`, not the decimal representation `1073741829`. -/
theorem add_attr_int_wrong_quotient :
    (∀ v : Int, 0 ≤ v → v < 1073741824 → mul_shift v = v / 10) ∧
    mul_shift 1073741829 = 107374183 ∧ (1073741829 : Int) / 10 = 107374182 ∧
    to_int32 (1073741829 - to_int32 (10 * mul_shift 1073741829)) = -1 ∧
    add_attr_int [] "n" 1073741829 = some [("n", "107374183/")] := by
  refine ⟨?_, by decide, by decide, by decide, by decide⟩
  intro v h0 h1
  have h : (v * 214748365) / 2147483648 = v / 10 := by omega
  unfold mul_shift to_int32
  rw [h]
  omega

/-- C29 (the code departs from the claim): the files `a.dsf` and `b.dsf` are marked as
written, which leaves `a.dsf b.dsf` in `new_dsfs`; the constructor reads that string
back as the set of `a.dsf ` (with the space that followed it) and `b.dsf`, in which
the name `a.dsf` is not. -/
theorem DSF_export_info_t_reads_name_with_space :
    (((DSF_export_info_t.init []).mark_written "a.dsf".toList).mark_written
      "b.dsf".toList).new_dsfs = "a.dsf b.dsf".toList ∧
    (DSF_export_info_t.init "a.dsf b.dsf".toList).previous_dsfs =
      ["a.dsf ".toList, "b.dsf".toList] ∧
    "a.dsf".toList ∉ (DSF_export_info_t.init "a.dsf b.dsf".toList).previous_dsfs := by
  decide

set_option maxRecDepth 100000 in
/-- C30 (the code departs from the claim): what the assertions do test is the corner
(0, 0), the corner (W-1, H-1), twice, and the corner (0, H-1): when the corner step is
reached, none of these three is the no-data value.  The corner (W-1, 0) is not tested:
on the raster of two by two samples whose sample at (1, 0) is the no-data value -32768
no assertion stops the program, and the corner step inserts the vertex at (1, 0) with
the height -32768. -/
theorem TriangulateMesh_corners_misses_a_corner :
    (∀ (DEM_NO_DATA : ℚ) (orig : DEMGeo) (s : Selection),
      TriangulateMesh_corners DEM_NO_DATA orig = some s →
      orig.get 0 0 ≠ DEM_NO_DATA ∧ orig.get (orig.mWidth - 1) (orig.mHeight - 1) ≠ DEM_NO_DATA ∧
        orig.get 0 (orig.mHeight - 1) ≠ DEM_NO_DATA ∧ s = insert_corners orig) ∧
    sample_dem_hole.get (sample_dem_hole.mWidth - 1) 0 = -32768 ∧
    (TriangulateMesh_corners (-32768) sample_dem_hole).map (fun s => s.mesh.vertices) =
      some [{ point := (0, 0), height := 0 }, { point := (1, 0), height := -32768 },
        { point := (1, 1), height := 0 }, { point := (0, 1), height := 0 }] := by
  refine ⟨?_, by decide!, by decide!⟩
  intro D orig s h
  unfold TriangulateMesh_corners at h
  split_ifs at h with h1 h2 h3
  simp only [Option.some.injEq] at h
  exact ⟨h1, h2, h3, h.symm⟩

end MeshAlgs
